import Mathlib

/-! # Global hotkey subsystem of eve-apm-preview: a shallow embedding

The definitions below transcribe `src/include/hotkeymanager.h` and
`src/src/hotkeymanager.cpp`.  A `QString` is a Lean `String` (its characters
a `List Char`), a C++ `int` is an `Int` (with the 32-bit range made explicit
where a conversion checks it), a `QHash`/`QMap` is an association list kept in
the container's iteration order, and the operating system is an explicit
collaborator that is threaded through every call that reaches it.
-/

namespace EveApm

/-! ## Text primitives of the Qt library used by the source -/

/-- Smallest value of the C++ type `int`. -/
def INT_MIN : Int := -2147483648

/-- Largest value of the C++ type `int`. -/
def INT_MAX : Int := 2147483647

/-- The character of the decimal digit `d` (code point of the digit zero plus `d`). -/
def digitChar (d : Nat) : Char := Char.ofNat (48 + d)

/-- Decimal digits of `n`, most significant first, pushed in front of `acc`;
`fuel` bounds the number of digits produced. -/
def decimalAux : Nat → Nat → List Char → List Char
  | 0, _, acc => acc
  | fuel + 1, n, acc =>
      if n < 10 then digitChar n :: acc
      else decimalAux fuel (n / 10) (digitChar (n % 10) :: acc)

/-- Decimal rendering of a natural number. -/
def natToDecimal (n : Nat) : List Char := decimalAux (n + 1) n []

/-- The text `QString::arg(int)` / `QString::number(int)` substitutes: base 10,
a leading minus sign for a negative value, no grouping. -/
def intToDecimal (k : Int) : List Char :=
  if k < 0 then '-' :: natToDecimal k.natAbs else natToDecimal k.natAbs

/-- Value of a decimal digit character, if it is one. -/
def digitVal (c : Char) : Option Nat :=
  if 48 ≤ c.toNat ∧ c.toNat ≤ 57 then some (c.toNat - 48) else none

/-- Reads a run of decimal digits onto the accumulator; fails on any other character. -/
def parseNatAux : List Char → Nat → Option Nat
  | [], acc => some acc
  | c :: cs, acc =>
      match digitVal c with
      | some d => parseNatAux cs (acc * 10 + d)
      | none => none

/-- Reads a non-empty run of decimal digits. -/
def parseNat (cs : List Char) : Option Nat :=
  match cs with
  | [] => none
  | _ :: _ => parseNatAux cs 0

/-- White space as skipped around a number: space, tab, line feed, vertical tab,
form feed, carriage return. -/
def isSpace (c : Char) : Bool := c.toNat == 32 || (9 ≤ c.toNat && c.toNat ≤ 13)

/-- Removes leading and trailing white space. -/
def trimmed (s : List Char) : List Char :=
  ((s.dropWhile isSpace).reverse.dropWhile isSpace).reverse

/-- Signed decimal number read from a text already trimmed: optional sign, then digits. -/
def parseSigned (t : List Char) : Option Int :=
  match t with
  | '-' :: ds => Option.map (fun n : Nat => -(n : Int)) (parseNat ds)
  | '+' :: ds => Option.map (fun n : Nat => (n : Int)) (parseNat ds)
  | ds => Option.map (fun n : Nat => (n : Int)) (parseNat ds)

/-- Result of `QString::toInt()`: surrounding white space is ignored, the text
must be an optionally signed decimal number within the range of `int`; any
failure yields 0. -/
def toInt (s : List Char) : Int :=
  match parseSigned (trimmed s) with
  | some i => if INT_MIN ≤ i ∧ i ≤ INT_MAX then i else 0
  | none => 0

/-- Result of `QString::split(sep)` with the default behaviour (empty parts kept). -/
def split (sep : Char) (s : List Char) : List (List Char) := s.splitOn sep

/-- Result of `QStringList::join(sep)`. -/
def join (sep : Char) (parts : List (List Char)) : List Char := [sep].intercalate parts

/-! ## `HotkeyBinding` (hotkeymanager.h, hotkeymanager.cpp 659-701) -/

/-- A key combination: virtual key code, three modifier flags, and whether it is enabled. -/
structure HotkeyBinding where
  keyCode : Int
  ctrl : Bool
  alt : Bool
  shift : Bool
  enabled : Bool
deriving DecidableEq

namespace HotkeyBinding

/-- Default constructor `HotkeyBinding()`: key 0, no modifier, disabled. -/
def empty : HotkeyBinding :=
  { keyCode := 0, ctrl := false, alt := false, shift := false, enabled := false }

instance : Inhabited HotkeyBinding := ⟨empty⟩

/-- Comparison `HotkeyBinding::operator==`: all five fields. -/
def opEq (a b : HotkeyBinding) : Bool :=
  a.enabled == b.enabled && a.keyCode == b.keyCode && a.ctrl == b.ctrl &&
    a.alt == b.alt && a.shift == b.shift

/-- Ordering `HotkeyBinding::operator<`. -/
def opLt (a b : HotkeyBinding) : Bool :=
  if a.keyCode ≠ b.keyCode then decide (a.keyCode < b.keyCode)
  else if a.ctrl ≠ b.ctrl then decide (a.ctrl < b.ctrl)
  else if a.alt ≠ b.alt then decide (a.alt < b.alt)
  else if a.shift ≠ b.shift then decide (a.shift < b.shift)
  else decide (a.enabled < b.enabled)

/-- Serialisation `HotkeyBinding::toString`: the five fields `enabled, keyCode, ctrl, alt,
shift` as decimal numbers separated by commas, a flag as 1 or 0. -/
def toString (b : HotkeyBinding) : String :=
  String.mk (join ','
    [intToDecimal (if b.enabled then 1 else 0), intToDecimal b.keyCode,
     intToDecimal (if b.ctrl then 1 else 0), intToDecimal (if b.alt then 1 else 0),
     intToDecimal (if b.shift then 1 else 0)])

/-- Parser `HotkeyBinding::fromString`: exactly five comma-separated parts, each read with
`toInt`; anything else gives the default binding. -/
def fromString (str : String) : HotkeyBinding :=
  match split ',' str.data with
  | [p0, p1, p2, p3, p4] =>
      { enabled := toInt p0 != 0, keyCode := toInt p1, ctrl := toInt p2 != 0,
        alt := toInt p3 != 0, shift := toInt p4 != 0 }
  | _ => empty

end HotkeyBinding

/-! ## Containers -/

/-- Membership test `QHash::contains` / `QMap::contains` on a table kept as an association
list in iteration order. -/
def hContains {κ ν : Type} [DecidableEq κ] (m : List (κ × ν)) (k : κ) : Bool :=
  m.any (fun p => decide (p.1 = k))

/-- Lookup `QHash::value(key, defaultValue)`. -/
def hValue {κ ν : Type} [DecidableEq κ] (m : List (κ × ν)) (k : κ) (dflt : ν) : ν :=
  match m.find? (fun p => decide (p.1 = k)) with
  | some p => p.2
  | none => dflt

/-- Update `QHash::insert(key, value)`: the value of an existing key is replaced, a new key
gets a new entry (its place in the iteration order is not specified by Qt; the model puts it
last). -/
def hInsert {κ ν : Type} [DecidableEq κ] (m : List (κ × ν)) (k : κ) (v : ν) : List (κ × ν) :=
  if hContains m k then m.map (fun p => if p.1 = k then (k, v) else p) else m ++ [(k, v)]

/-- The value stored under a key, if the table has the key (`contains` and `value` in one). -/
def hFind {κ ν : Type} [DecidableEq κ] (m : List (κ × ν)) (k : κ) : Option ν :=
  (m.find? (fun p => decide (p.1 = k))).map Prod.snd

/-- Key list `QHash::keys()`. -/
def hKeys {κ ν : Type} (m : List (κ × ν)) : List κ := m.map Prod.fst

/-! ## Windows and Qt constants -/

/-- Windows `MOD_ALT`. -/
def MOD_ALT : Nat := 0x0001
/-- Windows `MOD_CONTROL`. -/
def MOD_CONTROL : Nat := 0x0002
/-- Windows `MOD_SHIFT`. -/
def MOD_SHIFT : Nat := 0x0004
/-- Windows `MOD_NOREPEAT`. -/
def MOD_NOREPEAT : Nat := 0x4000
/-- Windows message number `WM_HOTKEY`. -/
def WM_HOTKEY : Nat := 0x0312
/-- Windows virtual key codes of the function keys used in the scenarios. -/
def VK_F1 : Int := 0x70
/-- Virtual key code of F2. -/
def VK_F2 : Int := 0x71
/-- Virtual key code of F12. -/
def VK_F12 : Int := 0x7B
/-- Qt `Qt::ShiftModifier`. -/
def ShiftModifier : Int := 0x02000000
/-- Qt `Qt::ControlModifier`. -/
def ControlModifier : Int := 0x04000000
/-- Qt `Qt::AltModifier`. -/
def AltModifier : Int := 0x08000000

/-! ## Data model (hotkeymanager.h) -/

/-- A named cycle group. -/
structure CycleGroup where
  groupName : String
  characterNames : List String
  forwardBinding : HotkeyBinding
  backwardBinding : HotkeyBinding
  includeNotLoggedIn : Bool
  noLoop : Bool
deriving DecidableEq

/-- Default constructor `CycleGroup()`. -/
def CycleGroup.empty : CycleGroup :=
  { groupName := "", characterNames := [], forwardBinding := HotkeyBinding.empty,
    backwardBinding := HotkeyBinding.empty, includeNotLoggedIn := false, noLoop := false }

/-- The signals of `HotkeyManager`. -/
inductive Signal where
  | characterHotkeyPressed (characterName : String)
  | namedCycleForwardPressed (groupName : String)
  | namedCycleBackwardPressed (groupName : String)
  | notLoggedInCycleForwardPressed
  | notLoggedInCycleBackwardPressed
  | nonEVECycleForwardPressed
  | nonEVECycleBackwardPressed
  | suspendedChanged (suspended : Bool)
  | profileSwitchRequested (profileName : String)
  | closeAllClientsRequested
deriving DecidableEq

/-- One call made to the operating system, with the answer of a registration. -/
inductive OSCall where
  | registerHotKey (id : Int) (fsModifiers : Nat) (vk : Int) (accepted : Bool)
  | unregisterHotKey (id : Int)
deriving DecidableEq

/-- The operating system as a collaborator with its own state `σ`: `RegisterHotKey(nullptr,
id, fsModifiers, vk)` answers accepted or rejected, `UnregisterHotKey(nullptr, id)` has no
result the source looks at. -/
structure OS (σ : Type) where
  registerHotKey : σ → Int → Nat → Int → Bool × σ
  unregisterHotKey : σ → Int → σ

/-- What the source reads from outside the manager: the `Config` singleton and the process
that owns the foreground window. -/
structure Env where
  /-- Setting `Config::wildcardHotkeys()`. -/
  wildcardHotkeys : Bool
  /-- Setting `Config::hotkeysOnlyWhenEVEFocused()`. -/
  hotkeysOnlyWhenEVEFocused : Bool
  /-- Setting `Config::processNames()`. -/
  processNames : List String
  /-- Table `Config::getAllProfileHotkeys()`: profile name, key, Qt modifier mask, in the
  iteration order of the `QMap`. -/
  profileHotkeys : List (String × Int × Int)
  /-- Base name of the process owning the foreground window; `none` when there is no
  foreground window, the process cannot be opened or its name cannot be read. -/
  foregroundProcess : Option String
  /-- Case folding applied by a `Qt::CaseInsensitive` comparison. -/
  foldCase : Char → Char

/-- The members of `HotkeyManager` (the window table `m_characterWindows`, which no hotkey
path reads, is left out), together with the state of the operating system and the record of
the calls made to it.  The allocator `m_nextHotkeyId` is an unbounded integer: the source
starts it at 1000 and only increments it, and the overflow of the C++ `int` after about
two thousand million registrations is not modelled. -/
structure World (σ : Type) where
  m_characterHotkeys : List (String × HotkeyBinding)
  m_hotkeyIdToCharacter : List (Int × String)
  m_hotkeyIdToCycleGroup : List (Int × String)
  m_hotkeyIdIsForward : List (Int × Bool)
  m_wildcardAliases : List (Int × Int)
  m_hotkeyIdToProfile : List (Int × String)
  m_cycleGroups : List (String × CycleGroup)
  m_suspendHotkey : HotkeyBinding
  m_suspendHotkeyId : Int
  m_suspended : Bool
  m_notLoggedInForwardHotkey : HotkeyBinding
  m_notLoggedInBackwardHotkey : HotkeyBinding
  m_notLoggedInForwardHotkeyId : Int
  m_notLoggedInBackwardHotkeyId : Int
  m_nonEVEForwardHotkey : HotkeyBinding
  m_nonEVEBackwardHotkey : HotkeyBinding
  m_nonEVEForwardHotkeyId : Int
  m_nonEVEBackwardHotkeyId : Int
  m_closeAllClientsHotkey : HotkeyBinding
  m_closeAllClientsHotkeyId : Int
  m_nextHotkeyId : Int
  /-- State of the operating system. -/
  os : σ
  /-- Calls made to the operating system so far, oldest first. -/
  calls : List OSCall

/-- A Windows message as far as the filter reads it. -/
structure MSG where
  message : Nat
  wParam : Nat

/-- Conversion `static_cast<int>(msg->wParam)`: the low 32 bits, read as a signed number. -/
def castInt (n : Nat) : Int :=
  if n % 4294967296 < 2147483648 then ((n % 4294967296 : Nat) : Int)
  else ((n % 4294967296 : Nat) : Int) - 4294967296

/-- The members as the constructor initialises them (lines 10-20), before `loadFromConfig`
runs: empty tables, default bindings, every id -1, the allocator at 1000, not suspended. -/
def World.constructed {σ : Type} (os : σ) : World σ :=
  { m_characterHotkeys := []
    m_hotkeyIdToCharacter := []
    m_hotkeyIdToCycleGroup := []
    m_hotkeyIdIsForward := []
    m_wildcardAliases := []
    m_hotkeyIdToProfile := []
    m_cycleGroups := []
    m_suspendHotkey := HotkeyBinding.empty
    m_suspendHotkeyId := -1
    m_suspended := false
    m_notLoggedInForwardHotkey := HotkeyBinding.empty
    m_notLoggedInBackwardHotkey := HotkeyBinding.empty
    m_notLoggedInForwardHotkeyId := -1
    m_notLoggedInBackwardHotkeyId := -1
    m_nonEVEForwardHotkey := HotkeyBinding.empty
    m_nonEVEBackwardHotkey := HotkeyBinding.empty
    m_nonEVEForwardHotkeyId := -1
    m_nonEVEBackwardHotkeyId := -1
    m_closeAllClientsHotkey := HotkeyBinding.empty
    m_closeAllClientsHotkeyId := -1
    m_nextHotkeyId := 1000
    os := os
    calls := [] }

/-- An operating system that accepts every registration. -/
def OS.acceptAll : OS Unit :=
  { registerHotKey := fun _ _ _ _ => (true, ())
    unregisterHotKey := fun _ _ => () }

/-- A settings record with everything off and empty. -/
def Env.plain : Env :=
  { wildcardHotkeys := false
    hotkeysOnlyWhenEVEFocused := false
    processNames := []
    profileHotkeys := []
    foregroundProcess := none
    foldCase := Char.toLower }

/-- The settings record `Env.plain` with wildcard mode switched on. -/
def Env.wildcard : Env := { Env.plain with wildcardHotkeys := true }

/-- The binding Ctrl+F1 of scenario A. -/
def ctrlF1 : HotkeyBinding :=
  { keyCode := VK_F1, ctrl := true, alt := false, shift := false, enabled := true }

/-- The binding F2 of scenario C. -/
def plainF2 : HotkeyBinding :=
  { keyCode := VK_F2, ctrl := false, alt := false, shift := false, enabled := true }

/-- The binding Ctrl+Alt+Shift+F12 of scenario B, the default suspend toggle. -/
def ctrlAltShiftF12 : HotkeyBinding :=
  { keyCode := VK_F12, ctrl := true, alt := true, shift := true, enabled := true }

/-- Scenario A before the rebuild: a constructed manager in which the character Alice has
been given Ctrl+F1. -/
def aliceWorld : World Unit :=
  { World.constructed () with m_characterHotkeys := [("Alice", ctrlF1)] }

/-- Scenario B before the rebuild: a constructed manager whose suspend toggle is
Ctrl+Alt+Shift+F12. -/
def suspendWorld : World Unit :=
  { World.constructed () with m_suspendHotkey := ctrlAltShiftF12 }

/-! ## Registration (hotkeymanager.cpp 31-252) -/

section Operations

variable {σ : Type}

/-- One call `RegisterHotKey(nullptr, id, fsModifiers, vk)`: the answer, and the world with the
new state of the operating system and the call recorded. -/
def osRegisterHotKey (os : OS σ) (id : Int) (fsModifiers : Nat) (vk : Int) (w : World σ) :
    Bool × World σ :=
  ((os.registerHotKey w.os id fsModifiers vk).1,
    { w with
      os := (os.registerHotKey w.os id fsModifiers vk).2
      calls := w.calls ++
        [OSCall.registerHotKey id fsModifiers vk (os.registerHotKey w.os id fsModifiers vk).1] })

/-- Member `HotkeyManager::unregisterHotkey`. -/
def unregisterHotkey (os : OS σ) (w : World σ) (hotkeyId : Int) : World σ :=
  { w with
    os := os.unregisterHotKey w.os hotkeyId
    calls := w.calls ++ [OSCall.unregisterHotKey hotkeyId] }

/-- The modifier mask `registerHotkey` builds for a binding (lines 36-39). -/
def bindingModifiers (binding : HotkeyBinding) : Nat :=
  ((MOD_NOREPEAT ||| (if binding.ctrl then MOD_CONTROL else 0)) |||
    (if binding.alt then MOD_ALT else 0)) ||| (if binding.shift then MOD_SHIFT else 0)

/-- The vector `additionalMods` of `registerHotkey` (lines 51-83), in the order it is filled. -/
def additionalMods (binding : HotkeyBinding) (modifiers : Nat) : List Nat :=
  (if !binding.ctrl then [modifiers ||| MOD_CONTROL] else []) ++
  (if !binding.alt then [modifiers ||| MOD_ALT] else []) ++
  (if !binding.shift then [modifiers ||| MOD_SHIFT] else []) ++
  (if !binding.ctrl && !binding.alt then [(modifiers ||| MOD_CONTROL) ||| MOD_ALT] else []) ++
  (if !binding.ctrl && !binding.shift then [(modifiers ||| MOD_CONTROL) ||| MOD_SHIFT] else []) ++
  (if !binding.alt && !binding.shift then [(modifiers ||| MOD_ALT) ||| MOD_SHIFT] else []) ++
  (if !binding.ctrl && !binding.alt && !binding.shift then
    [((modifiers ||| MOD_CONTROL) ||| MOD_ALT) ||| MOD_SHIFT] else [])

/-- Body of the loop over `additionalMods` (lines 85-92): a fresh id, one registration
attempt, and the alias entry when the attempt is accepted. -/
def registerAlias (os : OS σ) (hotkeyId : Int) (keyCode : Int) (w : World σ) (extraMod : Nat) :
    World σ :=
  let extraHotkeyId := w.m_nextHotkeyId
  let r := osRegisterHotKey os extraHotkeyId extraMod keyCode
    { w with m_nextHotkeyId := extraHotkeyId + 1 }
  if r.1 then
    { r.2 with m_wildcardAliases := hInsert r.2.m_wildcardAliases extraHotkeyId hotkeyId }
  else r.2

/-- Member `HotkeyManager::registerHotkey`.  The result is `some id` when the source returns
true (and has written `id` to `outHotkeyId`), `none` when it returns false (and has left
`outHotkeyId` alone). -/
def registerHotkey (os : OS σ) (env : Env) (binding : HotkeyBinding) (w : World σ) :
    Option Int × World σ :=
  if !binding.enabled then (none, w)
  else
    let modifiers := bindingModifiers binding
    let hotkeyId := w.m_nextHotkeyId
    let wildcardMode := env.wildcardHotkeys
    let r := osRegisterHotKey os hotkeyId modifiers binding.keyCode
      { w with m_nextHotkeyId := hotkeyId + 1 }
    if r.1 then
      if wildcardMode then
        (some hotkeyId,
          (additionalMods binding modifiers).foldl (registerAlias os hotkeyId binding.keyCode) r.2)
      else (some hotkeyId, r.2)
    else (none, r.2)

/-- Member `HotkeyManager::unregisterProfileHotkeys`. -/
def unregisterProfileHotkeys (os : OS σ) (w : World σ) : World σ :=
  { (hKeys w.m_hotkeyIdToProfile).foldl (unregisterHotkey os) w with m_hotkeyIdToProfile := [] }

/-- One of the guarded blocks of `unregisterHotkeys` (lines 212-246): release the id unless
it is -1; the caller then stores -1. -/
def unregisterIfSet (os : OS σ) (w : World σ) (hotkeyId : Int) : World σ :=
  if hotkeyId ≠ -1 then unregisterHotkey os w hotkeyId else w

/-- Member `HotkeyManager::unregisterHotkeys`. -/
def unregisterHotkeys (os : OS σ) (w : World σ) : World σ :=
  let w1 := (hKeys w.m_hotkeyIdToCharacter).foldl (unregisterHotkey os) w
  let w2 := (hKeys w1.m_hotkeyIdToCycleGroup).foldl (unregisterHotkey os) w1
  let w3 := unregisterProfileHotkeys os w2
  let w4 := (hKeys w3.m_wildcardAliases).foldl (unregisterHotkey os) w3
  let w5 := { unregisterIfSet os w4 w4.m_suspendHotkeyId with m_suspendHotkeyId := -1 }
  let w6 := { unregisterIfSet os w5 w5.m_notLoggedInForwardHotkeyId with
    m_notLoggedInForwardHotkeyId := -1 }
  let w7 := { unregisterIfSet os w6 w6.m_notLoggedInBackwardHotkeyId with
    m_notLoggedInBackwardHotkeyId := -1 }
  let w8 := { unregisterIfSet os w7 w7.m_nonEVEForwardHotkeyId with m_nonEVEForwardHotkeyId := -1 }
  let w9 := { unregisterIfSet os w8 w8.m_nonEVEBackwardHotkeyId with
    m_nonEVEBackwardHotkeyId := -1 }
  let w10 := { unregisterIfSet os w9 w9.m_closeAllClientsHotkeyId with
    m_closeAllClientsHotkeyId := -1 }
  { w10 with
    m_hotkeyIdToCharacter := []
    m_hotkeyIdToCycleGroup := []
    m_hotkeyIdIsForward := []
    m_wildcardAliases := [] }

/-- The binding built from a profile entry (lines 807-812 and 713-718). -/
def profileBinding (key : Int) (modifiers : Int) : HotkeyBinding :=
  { keyCode := key
    ctrl := Int.land modifiers ControlModifier != 0
    alt := Int.land modifiers AltModifier != 0
    shift := Int.land modifiers ShiftModifier != 0
    enabled := true }

/-- Member `HotkeyManager::registerProfileHotkeys`, body of the loop (lines 709-735).  The
call of `findHotkeyConflict` there only feeds a log line and is left out. -/
def registerProfileHotkey (os : OS σ) (env : Env) (w : World σ) (entry : String × Int × Int) :
    World σ :=
  let profileName := entry.1
  let binding := profileBinding entry.2.1 entry.2.2
  let r := registerHotkey os env binding w
  match r.1 with
  | some hotkeyId =>
      { r.2 with m_hotkeyIdToProfile := hInsert r.2.m_hotkeyIdToProfile hotkeyId profileName }
  | none => r.2

/-- Member `HotkeyManager::registerProfileHotkeys`. -/
def registerProfileHotkeys (os : OS σ) (env : Env) (w : World σ) : World σ :=
  env.profileHotkeys.foldl (registerProfileHotkey os env) w

/-- Lines 115-118 of `registerHotkeys`: the suspend toggle. -/
def registerSuspendHotkey (os : OS σ) (env : Env) (w : World σ) : World σ :=
  if w.m_suspendHotkey.enabled then
    let r := registerHotkey os env w.m_suspendHotkey w
    match r.1 with
    | some hotkeyId => { r.2 with m_suspendHotkeyId := hotkeyId }
    | none => r.2
  else w

/-- Lines 127-134 of `registerHotkeys`: body of the loop over `m_characterHotkeys`. -/
def registerCharacterHotkey (os : OS σ) (env : Env) (w : World σ)
    (entry : String × HotkeyBinding) : World σ :=
  let characterName := entry.1
  let r := registerHotkey os env entry.2 w
  match r.1 with
  | some hotkeyId =>
      { r.2 with m_hotkeyIdToCharacter := hInsert r.2.m_hotkeyIdToCharacter hotkeyId characterName }
  | none => r.2

/-- Lines 142-160 of `registerHotkeys`: one direction of a cycle group. -/
def registerCycleDirection (os : OS σ) (env : Env) (groupName : String) (binding : HotkeyBinding)
    (isForward : Bool) (w : World σ) : World σ :=
  if binding.enabled then
    let r := registerHotkey os env binding w
    match r.1 with
    | some hotkeyId =>
        { r.2 with
          m_hotkeyIdToCycleGroup := hInsert r.2.m_hotkeyIdToCycleGroup hotkeyId groupName
          m_hotkeyIdIsForward := hInsert r.2.m_hotkeyIdIsForward hotkeyId isForward }
    | none => r.2
  else w

/-- Lines 139-160 of `registerHotkeys`: body of the loop over `m_cycleGroups`, forward
binding first, then backward. -/
def registerCycleGroup (os : OS σ) (env : Env) (w : World σ) (entry : String × CycleGroup) :
    World σ :=
  registerCycleDirection os env entry.1 entry.2.backwardBinding false
    (registerCycleDirection os env entry.1 entry.2.forwardBinding true w)

/-- Lines 163-166 of `registerHotkeys`. -/
def registerNotLoggedInForward (os : OS σ) (env : Env) (w : World σ) : World σ :=
  if w.m_notLoggedInForwardHotkey.enabled then
    let r := registerHotkey os env w.m_notLoggedInForwardHotkey w
    match r.1 with
    | some hotkeyId => { r.2 with m_notLoggedInForwardHotkeyId := hotkeyId }
    | none => r.2
  else w

/-- Lines 168-171 of `registerHotkeys`. -/
def registerNotLoggedInBackward (os : OS σ) (env : Env) (w : World σ) : World σ :=
  if w.m_notLoggedInBackwardHotkey.enabled then
    let r := registerHotkey os env w.m_notLoggedInBackwardHotkey w
    match r.1 with
    | some hotkeyId => { r.2 with m_notLoggedInBackwardHotkeyId := hotkeyId }
    | none => r.2
  else w

/-- Lines 173-176 of `registerHotkeys`. -/
def registerNonEVEForward (os : OS σ) (env : Env) (w : World σ) : World σ :=
  if w.m_nonEVEForwardHotkey.enabled then
    let r := registerHotkey os env w.m_nonEVEForwardHotkey w
    match r.1 with
    | some hotkeyId => { r.2 with m_nonEVEForwardHotkeyId := hotkeyId }
    | none => r.2
  else w

/-- Lines 178-181 of `registerHotkeys`. -/
def registerNonEVEBackward (os : OS σ) (env : Env) (w : World σ) : World σ :=
  if w.m_nonEVEBackwardHotkey.enabled then
    let r := registerHotkey os env w.m_nonEVEBackwardHotkey w
    match r.1 with
    | some hotkeyId => { r.2 with m_nonEVEBackwardHotkeyId := hotkeyId }
    | none => r.2
  else w

/-- Lines 183-186 of `registerHotkeys`. -/
def registerCloseAllClients (os : OS σ) (env : Env) (w : World σ) : World σ :=
  if w.m_closeAllClientsHotkey.enabled then
    let r := registerHotkey os env w.m_closeAllClientsHotkey w
    match r.1 with
    | some hotkeyId => { r.2 with m_closeAllClientsHotkeyId := hotkeyId }
    | none => r.2
  else w

/-- Lines 110-113 of `registerHotkeys`: release everything and clear the id tables. -/
def clearRegistrations (os : OS σ) (w : World σ) : World σ :=
  { unregisterHotkeys os w with
    m_hotkeyIdToCharacter := []
    m_hotkeyIdToCycleGroup := []
    m_hotkeyIdIsForward := [] }

/-- Lines 125-188 of `registerHotkeys`: what is registered only while not suspended. -/
def registerActiveHotkeys (os : OS σ) (env : Env) (w : World σ) : World σ :=
  let w1 := w.m_characterHotkeys.foldl (registerCharacterHotkey os env) w
  let w2 := w1.m_cycleGroups.foldl (registerCycleGroup os env) w1
  let w3 := registerNotLoggedInForward os env w2
  let w4 := registerNotLoggedInBackward os env w3
  let w5 := registerNonEVEForward os env w4
  let w6 := registerNonEVEBackward os env w5
  let w7 := registerCloseAllClients os env w6
  registerProfileHotkeys os env w7

/-- Member `HotkeyManager::registerHotkeys`: the value returned and the world afterwards. -/
def registerHotkeys (os : OS σ) (env : Env) (w : World σ) : Bool × World σ :=
  let w1 := registerSuspendHotkey os env (clearRegistrations os w)
  if w1.m_suspended then (true, w1)
  else (true, registerActiveHotkeys os env w1)

/-! ## Conflict lookup (hotkeymanager.cpp 748-826) -/

/-- Loop over `m_characterHotkeys` (lines 758-764): the label of the first entry equal to the
binding, `none` when the loop runs to its end. -/
def characterConflict (binding : HotkeyBinding) : List (String × HotkeyBinding) → Option String
  | [] => none
  | (characterName, b) :: rest =>
      if b.opEq binding then some ("Character: " ++ characterName)
      else characterConflict binding rest

/-- Loop over `m_cycleGroups` (lines 766-776). -/
def cycleGroupConflict (binding : HotkeyBinding) : List (String × CycleGroup) → Option String
  | [] => none
  | (groupName, group) :: rest =>
      if group.forwardBinding.opEq binding then
        some ("Cycle Group '" ++ groupName ++ "' (Forward)")
      else if group.backwardBinding.opEq binding then
        some ("Cycle Group '" ++ groupName ++ "' (Backward)")
      else cycleGroupConflict binding rest

/-- Loop over the profile hotkeys (lines 797-818). -/
def profileConflict (binding : HotkeyBinding) (excludeProfile : String) :
    List (String × Int × Int) → Option String
  | [] => none
  | (profileName, key, modifiers) :: rest =>
      if !excludeProfile.isEmpty && profileName == excludeProfile then
        profileConflict binding excludeProfile rest
      else if (profileBinding key modifiers).opEq binding then some ("Profile: " ++ profileName)
      else profileConflict binding excludeProfile rest

/-- Member `HotkeyManager::findHotkeyConflict`; the empty string is `QString()`. -/
def findHotkeyConflict (env : Env) (w : World σ) (binding : HotkeyBinding)
    (excludeProfile : String) : String :=
  if !binding.enabled then ""
  else if w.m_suspendHotkey.enabled && w.m_suspendHotkey.opEq binding then
    "Suspend/Resume Hotkey"
  else
    match characterConflict binding w.m_characterHotkeys with
    | some label => label
    | none =>
      match cycleGroupConflict binding w.m_cycleGroups with
      | some label => label
      | none =>
        if w.m_notLoggedInForwardHotkey.enabled && w.m_notLoggedInForwardHotkey.opEq binding then
          "Not Logged In Cycle (Forward)"
        else if w.m_notLoggedInBackwardHotkey.enabled &&
            w.m_notLoggedInBackwardHotkey.opEq binding then
          "Not Logged In Cycle (Backward)"
        else if w.m_nonEVEForwardHotkey.enabled && w.m_nonEVEForwardHotkey.opEq binding then
          "Non-EVE Cycle (Forward)"
        else if w.m_nonEVEBackwardHotkey.enabled && w.m_nonEVEBackwardHotkey.opEq binding then
          "Non-EVE Cycle (Backward)"
        else
          match profileConflict binding excludeProfile env.profileHotkeys with
          | some label => label
          | none => ""

/-- Member `HotkeyManager::hasHotkeyConflict`. -/
def hasHotkeyConflict (env : Env) (w : World σ) (binding : HotkeyBinding)
    (excludeProfile : String) : Bool :=
  !(findHotkeyConflict env w binding excludeProfile).isEmpty

/-! ## Dispatch (hotkeymanager.cpp 254-394) -/

/-- Comparison `a.compare(b, Qt::CaseInsensitive) == 0`. -/
def equalsIgnoreCase (env : Env) (a b : String) : Bool :=
  a.data.map env.foldCase == b.data.map env.foldCase

/-- Function `isForegroundWindowEVEClient`. -/
def isForegroundWindowEVEClient (env : Env) : Bool :=
  match env.foregroundProcess with
  | none => false
  | some processName =>
      if processName.isEmpty then false
      else env.processNames.any (fun allowedName => equalsIgnoreCase env processName allowedName)

/-- Member `HotkeyManager::setSuspended`: the signals emitted and the world afterwards. -/
def setSuspended (os : OS σ) (env : Env) (suspended : Bool) (w : World σ) :
    List Signal × World σ :=
  if w.m_suspended = suspended then ([], w)
  else
    let w1 := (registerHotkeys os env { w with m_suspended := suspended }).2
    ([Signal.suspendedChanged w1.m_suspended], w1)

/-- Member `HotkeyManager::toggleSuspended`. -/
def toggleSuspended (os : OS σ) (env : Env) (w : World σ) : List Signal × World σ :=
  setSuspended os env (!w.m_suspended) w

/-- Lines 298-301 of `nativeEventFilter`: an alias id is replaced by its canonical id. -/
def resolveAlias (w : World σ) (hotkeyId : Int) : Int :=
  if hContains w.m_wildcardAliases hotkeyId then hValue w.m_wildcardAliases hotkeyId 0
  else hotkeyId

/-- Lines 320-375 of `nativeEventFilter`: routing by category, first match. -/
def route (w : World σ) (hotkeyId : Int) : Bool × List Signal :=
  if hContains w.m_hotkeyIdToCharacter hotkeyId then
    (true, [Signal.characterHotkeyPressed (hValue w.m_hotkeyIdToCharacter hotkeyId "")])
  else if hContains w.m_hotkeyIdToCycleGroup hotkeyId then
    if hValue w.m_hotkeyIdIsForward hotkeyId true then
      (true, [Signal.namedCycleForwardPressed (hValue w.m_hotkeyIdToCycleGroup hotkeyId "")])
    else
      (true, [Signal.namedCycleBackwardPressed (hValue w.m_hotkeyIdToCycleGroup hotkeyId "")])
  else if hotkeyId = w.m_notLoggedInForwardHotkeyId then
    (true, [Signal.notLoggedInCycleForwardPressed])
  else if hotkeyId = w.m_notLoggedInBackwardHotkeyId then
    (true, [Signal.notLoggedInCycleBackwardPressed])
  else if hotkeyId = w.m_nonEVEForwardHotkeyId then
    (true, [Signal.nonEVECycleForwardPressed])
  else if hotkeyId = w.m_nonEVEBackwardHotkeyId then
    (true, [Signal.nonEVECycleBackwardPressed])
  else if hotkeyId = w.m_closeAllClientsHotkeyId then
    (true, [Signal.closeAllClientsRequested])
  else if hContains w.m_hotkeyIdToProfile hotkeyId then
    (true, [Signal.profileSwitchRequested (hValue w.m_hotkeyIdToProfile hotkeyId "")])
  else (false, [])

/-- Member `HotkeyManager::nativeEventFilter` for a live manager (`s_instance` set): the
value returned (handled or not), the signals emitted in order, and the world afterwards. -/
def nativeEventFilter (os : OS σ) (env : Env) (msg : MSG) (w : World σ) :
    Bool × List Signal × World σ :=
  if msg.message = WM_HOTKEY then
    let hotkeyId := resolveAlias w (castInt msg.wParam)
    if hotkeyId = w.m_suspendHotkeyId then
      let r := toggleSuspended os env w
      (true, r.1, r.2)
    else if w.m_suspended then (true, [], w)
    else if env.hotkeysOnlyWhenEVEFocused && !isForegroundWindowEVEClient env then (false, [], w)
    else ((route w hotkeyId).1, (route w hotkeyId).2, w)
  else (false, [], w)

/-! ## The alias loop in closed form -/

/-- One alias registration attempt: the id it used, the modifier mask, the answer of the
operating system. -/
structure AliasAttempt where
  id : Int
  fsModifiers : Nat
  accepted : Bool
deriving DecidableEq

/-- The call an alias attempt leaves in the record of calls. -/
def AliasAttempt.toCall (keyCode : Int) (a : AliasAttempt) : OSCall :=
  OSCall.registerHotKey a.id a.fsModifiers keyCode a.accepted

/-- The attempts the alias loop makes for the masks `mods`, starting from the state `s` of
the operating system with `id` the next free id: consecutive ids, one attempt per mask, each
answer given by the operating system in the state the previous attempts left. -/
def aliasAttempts (os : OS σ) (keyCode : Int) : σ → Int → List Nat → List AliasAttempt
  | _, _, [] => []
  | s, id, m :: ms =>
      { id := id, fsModifiers := m, accepted := (os.registerHotKey s id m keyCode).1 } ::
        aliasAttempts os keyCode (os.registerHotKey s id m keyCode).2 (id + 1) ms

/-- The state of the operating system after those attempts. -/
def aliasFinalOS (os : OS σ) (keyCode : Int) : σ → Int → List Nat → σ
  | s, _, [] => s
  | s, id, m :: ms => aliasFinalOS os keyCode (os.registerHotKey s id m keyCode).2 (id + 1) ms

/-- The alias table after recording the accepted attempts for the canonical id. -/
def recordAliases (hotkeyId : Int) (table : List (Int × Int)) (attempts : List AliasAttempt) :
    List (Int × Int) :=
  attempts.foldl (fun t a => if a.accepted then hInsert t a.id hotkeyId else t) table

/-- Number of modifier flags a binding requires. -/
def requiredCount (b : HotkeyBinding) : Nat :=
  (if b.ctrl then 1 else 0) + (if b.alt then 1 else 0) + (if b.shift then 1 else 0)

/-! ## The conflict rule in the words of the specification -/

/-- Two bindings name the same key combination: same key code, same three modifiers. -/
def sameCombination (a b : HotkeyBinding) : Prop :=
  a.keyCode = b.keyCode ∧ a.ctrl = b.ctrl ∧ a.alt = b.alt ∧ a.shift = b.shift

instance (a b : HotkeyBinding) : Decidable (sameCombination a b) := by
  unfold sameCombination; infer_instance

/-- The two owners a cycle group contributes to the search, forward before backward. -/
def cycleGroupOwners (entry : String × CycleGroup) : List (String × HotkeyBinding) :=
  [("Cycle Group '" ++ entry.1 ++ "' (Forward)", entry.2.forwardBinding),
   ("Cycle Group '" ++ entry.1 ++ "' (Backward)", entry.2.backwardBinding)]

/-- The bindings stored in the manager that the conflict search looks at, each with the
label of its owner, in search order: suspend toggle, characters, cycle groups, not-logged-in
forward and backward, non-target forward and backward. -/
def storedOwners (w : World σ) : List (String × HotkeyBinding) :=
  [("Suspend/Resume Hotkey", w.m_suspendHotkey)] ++
  w.m_characterHotkeys.map (fun p => ("Character: " ++ p.1, p.2)) ++
  w.m_cycleGroups.flatMap cycleGroupOwners ++
  [("Not Logged In Cycle (Forward)", w.m_notLoggedInForwardHotkey),
   ("Not Logged In Cycle (Backward)", w.m_notLoggedInBackwardHotkey),
   ("Non-EVE Cycle (Forward)", w.m_nonEVEForwardHotkey),
   ("Non-EVE Cycle (Backward)", w.m_nonEVEBackwardHotkey)]

/-- The profile bindings the conflict search looks at, with their labels: every profile when
`excludeKey` is empty, otherwise every profile whose name differs from `excludeKey`. -/
def profileOwners (env : Env) (excludeKey : String) : List (String × HotkeyBinding) :=
  (env.profileHotkeys.filter (fun e => excludeKey.isEmpty || e.1 != excludeKey)).map
    (fun e => ("Profile: " ++ e.1, profileBinding e.2.1 e.2.2))

/-- All searched owners, in search order. -/
def searchedOwners (env : Env) (w : World σ) (excludeKey : String) :
    List (String × HotkeyBinding) :=
  storedOwners w ++ profileOwners env excludeKey

/-- The label of the first owner in the list whose binding is enabled and names the same
combination as the candidate. -/
def firstMatch (candidate : HotkeyBinding) : List (String × HotkeyBinding) → Option String
  | [] => none
  | p :: rest =>
      if p.2.enabled = true ∧ sameCombination p.2 candidate then some p.1
      else firstMatch candidate rest

/-! ## Invariants of the id tables -/

/-- The six members that hold a single hotkey id. -/
inductive IdSlot where
  | suspend
  | notLoggedInForward
  | notLoggedInBackward
  | nonEVEForward
  | nonEVEBackward
  | closeAllClients
deriving DecidableEq

/-- The id held in a slot. -/
def World.slotId (w : World σ) : IdSlot → Int
  | IdSlot.suspend => w.m_suspendHotkeyId
  | IdSlot.notLoggedInForward => w.m_notLoggedInForwardHotkeyId
  | IdSlot.notLoggedInBackward => w.m_notLoggedInBackwardHotkeyId
  | IdSlot.nonEVEForward => w.m_nonEVEForwardHotkeyId
  | IdSlot.nonEVEBackward => w.m_nonEVEBackwardHotkeyId
  | IdSlot.closeAllClients => w.m_closeAllClientsHotkeyId

/-- The five id tables read at one id: alias, character, cycle group, direction, profile. -/
def World.tablesAt (w : World σ) (k : Int) :
    Option Int × Option String × Option String × Option Bool × Option String :=
  (hFind w.m_wildcardAliases k, hFind w.m_hotkeyIdToCharacter k,
    hFind w.m_hotkeyIdToCycleGroup k, hFind w.m_hotkeyIdIsForward k,
    hFind w.m_hotkeyIdToProfile k)

/-- What registration reads and never writes: the stored bindings and the suspended flag. -/
def World.settings (w : World σ) :
    List (String × HotkeyBinding) × List (String × CycleGroup) × HotkeyBinding ×
      HotkeyBinding × HotkeyBinding × HotkeyBinding × HotkeyBinding × HotkeyBinding × Bool :=
  (w.m_characterHotkeys, w.m_cycleGroups, w.m_suspendHotkey, w.m_notLoggedInForwardHotkey,
    w.m_notLoggedInBackwardHotkey, w.m_nonEVEForwardHotkey, w.m_nonEVEBackwardHotkey,
    w.m_closeAllClientsHotkey, w.m_suspended)

/-- The suspend slot and the character table: what a rebuild writes before and during the
character loop and leaves alone afterwards. -/
def World.keep (w : World σ) : Int × List (Int × String) :=
  (w.m_suspendHotkeyId, w.m_hotkeyIdToCharacter)

/-- Every id the manager tracks lies below the allocator: the tables are empty from
`m_nextHotkeyId` on, every slot holds -1 or an id below it, and an alias entry maps an id to
a smaller id that is not itself an alias. -/
structure Bounded (w : World σ) : Prop where
  tables : ∀ k : Int, w.m_nextHotkeyId ≤ k → w.tablesAt k = (none, none, none, none, none)
  aliases : ∀ k v : Int, hFind w.m_wildcardAliases k = some v →
    v < k ∧ hFind w.m_wildcardAliases v = none
  slots : ∀ slot : IdSlot, w.slotId slot = -1 ∨ w.slotId slot < w.m_nextHotkeyId

/-- The world `w2` comes after `w1` by registrations only: the stored bindings are the same,
the allocator did not go back, the calls made so far are still there, the tables are the
same below the old allocator value and from the new one on, an alias entry is an old one or
maps a new id to a new smaller id that is no alias, and a slot is unchanged or holds a new
id. -/
structure Later (w1 w2 : World σ) : Prop where
  settings : w2.settings = w1.settings
  next_le : w1.m_nextHotkeyId ≤ w2.m_nextHotkeyId
  calls : w1.calls <+: w2.calls
  old : ∀ k : Int, k < w1.m_nextHotkeyId → w2.tablesAt k = w1.tablesAt k
  beyond : ∀ k : Int, w2.m_nextHotkeyId ≤ k → w2.tablesAt k = w1.tablesAt k
  aliases : ∀ k v : Int, hFind w2.m_wildcardAliases k = some v →
    hFind w1.m_wildcardAliases k = some v ∨
      (w1.m_nextHotkeyId ≤ v ∧ v < k ∧ k < w2.m_nextHotkeyId ∧
        hFind w2.m_wildcardAliases v = none)
  slots : ∀ slot : IdSlot, w2.slotId slot = w1.slotId slot ∨
    (w1.m_nextHotkeyId ≤ w2.slotId slot ∧ w2.slotId slot < w2.m_nextHotkeyId)

/-- What the code does with the id of an accepted registration: `w2` differs from `w1` at
most in the canonical tables at the key `id` and in slots that now hold `id`. -/
structure Commit (id : Int) (w1 w2 : World σ) : Prop where
  settings : w2.settings = w1.settings
  next : w2.m_nextHotkeyId = w1.m_nextHotkeyId
  calls : w2.calls = w1.calls
  aliases : w2.m_wildcardAliases = w1.m_wildcardAliases
  tables : ∀ k : Int, k ≠ id → w2.tablesAt k = w1.tablesAt k
  slots : ∀ slot : IdSlot, w2.slotId slot = w1.slotId slot ∨ w2.slotId slot = id

/-- The shape shared by every registration block of the source: call `registerHotkey`, and
on success hand the id to `commit`. -/
def registerWith (os : OS σ) (env : Env) (binding : HotkeyBinding)
    (commit : Int → World σ → World σ) (w : World σ) : World σ :=
  match (registerHotkey os env binding w).1 with
  | some hotkeyId => commit hotkeyId (registerHotkey os env binding w).2
  | none => (registerHotkey os env binding w).2

/-- The registry part of two worlds is the same: id tables, slots, allocator, suspended
flag and record of calls.  The stored bindings and the state of the operating system may
differ (a setter or `loadFromConfig` before its rebuild; another process). -/
def SameRegistry (w1 w2 : World σ) : Prop :=
  w2.m_hotkeyIdToCharacter = w1.m_hotkeyIdToCharacter ∧
  w2.m_hotkeyIdToCycleGroup = w1.m_hotkeyIdToCycleGroup ∧
  w2.m_hotkeyIdIsForward = w1.m_hotkeyIdIsForward ∧
  w2.m_wildcardAliases = w1.m_wildcardAliases ∧
  w2.m_hotkeyIdToProfile = w1.m_hotkeyIdToProfile ∧
  (∀ slot : IdSlot, w2.slotId slot = w1.slotId slot) ∧
  w2.m_nextHotkeyId = w1.m_nextHotkeyId ∧
  w2.m_suspended = w1.m_suspended ∧
  w2.calls = w1.calls

/-- The worlds the manager can be in: the constructed one, and from a reachable world any
world after an edit of the stored bindings, a rebuild, a release, the registration or
release of the profile hotkeys, `setSuspended`, or the filter handling a message.  The
settings record may differ from call to call. -/
inductive Reachable (os : OS σ) : World σ → Prop where
  | constructed (s : σ) : Reachable os (World.constructed s)
  | edit {w1 w2 : World σ} : Reachable os w1 → SameRegistry w1 w2 → Reachable os w2
  | registerHotkeys (env : Env) {w : World σ} :
      Reachable os w → Reachable os (registerHotkeys os env w).2
  | unregisterHotkeys {w : World σ} : Reachable os w → Reachable os (unregisterHotkeys os w)
  | registerProfileHotkeys (env : Env) {w : World σ} :
      Reachable os w → Reachable os (registerProfileHotkeys os env w)
  | unregisterProfileHotkeys {w : World σ} :
      Reachable os w → Reachable os (unregisterProfileHotkeys os w)
  | setSuspended (env : Env) (suspended : Bool) {w : World σ} :
      Reachable os w → Reachable os (setSuspended os env suspended w).2
  | nativeEventFilter (env : Env) (msg : MSG) {w : World σ} :
      Reachable os w → Reachable os (nativeEventFilter os env msg w).2.2

end Operations


/-! ## The search order of the conflict lookup, by category -/

/-- The searched owners grouped by category, in search order: the suspend toggle, the
characters, the cycle groups (forward before backward within a group), not-logged-in
forward then backward, non-target forward then backward, the profiles other than
`excludeKey`. -/
def searchCategories {σ : Type} (env : Env) (w : World σ) (excludeKey : String) :
    List (List (String × HotkeyBinding)) :=
  [[("Suspend/Resume Hotkey", w.m_suspendHotkey)],
   w.m_characterHotkeys.map (fun p => ("Character: " ++ p.1, p.2)),
   w.m_cycleGroups.flatMap cycleGroupOwners,
   [("Not Logged In Cycle (Forward)", w.m_notLoggedInForwardHotkey),
    ("Not Logged In Cycle (Backward)", w.m_notLoggedInBackwardHotkey)],
   [("Non-EVE Cycle (Forward)", w.m_nonEVEForwardHotkey),
    ("Non-EVE Cycle (Backward)", w.m_nonEVEBackwardHotkey)],
   profileOwners env excludeKey]

/-- A constructed manager whose suspend toggle is F2 and in which the character Alice holds
F2 as well. -/
def suspendAndAliceF2World : World Unit :=
  { World.constructed () with
    m_suspendHotkey := plainF2
    m_characterHotkeys := [("Alice", plainF2)] }

/-! ## Focus gating in the words of the specification -/

/-- The process owning the foreground window matches no allow-listed name: its name is not
available, or is empty, or differs from every allowed name even when case is ignored. -/
def foregroundNotAllowed (env : Env) : Prop :=
  match env.foregroundProcess with
  | none => True
  | some processName =>
      processName.isEmpty = true ∨
        ∀ allowedName ∈ env.processNames, equalsIgnoreCase env processName allowedName = false

instance (env : Env) : Decidable (foregroundNotAllowed env) := by
  unfold foregroundNotAllowed
  split <;> infer_instance

/-- Settings with focus gating switched on, the allow list holding one client name, and a
foreground window that belongs to another program. -/
def Env.gated : Env :=
  { Env.plain with
    hotkeysOnlyWhenEVEFocused := true
    processNames := ["exefile.exe"]
    foregroundProcess := some "notepad.exe" }

/-! ## Loading the stored bindings (hotkeymanager.cpp 506-607) -/

/-- A value read from `QSettings`, as far as `loadFromConfig` tells values apart: no value
under the key, a string, or a list of strings (an unquoted comma-separated value of an INI
file). -/
inductive QVariant where
  | invalid
  | string (s : String)
  | stringList (l : List String)
deriving DecidableEq

/-- Test `QVariant::canConvert<QStringList>()`: a string and a string list convert. -/
def QVariant.canConvertStringList : QVariant → Bool
  | QVariant.invalid => false
  | QVariant.string _ => true
  | QVariant.stringList _ => true

/-- Conversion `QVariant::toStringList()`: a string becomes the list holding it. -/
def QVariant.toStringList : QVariant → List String
  | QVariant.invalid => []
  | QVariant.string s => [s]
  | QVariant.stringList l => l

/-- Conversion `QVariant::toString()`: a list converts only when it holds exactly one
string; whatever does not convert gives the empty string. -/
def QVariant.toString : QVariant → String
  | QVariant.invalid => ""
  | QVariant.string s => s
  | QVariant.stringList [s] => s
  | QVariant.stringList _ => ""

/-- Result of `QStringList::join(sep)` on strings. -/
def joinStrings (sep : Char) (parts : List String) : String :=
  String.mk (join sep (parts.map String.data))

/-- Result of `QString::split(sep)` as strings. -/
def splitString (sep : Char) (s : String) : List String :=
  (split sep s.data).map String.mk

/-- The text `loadFromConfig` takes from a value that may have been read as a list (lines
513-519 and 553-562): the list joined by commas, otherwise the value as a string. -/
def variantText (v : QVariant) : String :=
  if v.canConvertStringList then joinStrings ',' v.toStringList else v.toString

/-- What `loadFromConfig` reads from the settings file: the value under each fixed key, and
for the groups `characterHotkeys` and `cycleGroups` the child keys, in the order
`childKeys()` lists them, each with its value. -/
structure Settings where
  /-- Value of `hotkeys/suspendHotkey`. -/
  suspendHotkey : QVariant
  /-- Entries of the group `characterHotkeys`. -/
  characterHotkeys : List (String × QVariant)
  /-- Entries of the group `cycleGroups`. -/
  cycleGroups : List (String × QVariant)
  /-- Value of `notLoggedInHotkeys/forward`. -/
  notLoggedInForward : QVariant
  /-- Value of `notLoggedInHotkeys/backward`. -/
  notLoggedInBackward : QVariant
  /-- Value of `nonEVEHotkeys/forward`. -/
  nonEVEForward : QVariant
  /-- Value of `nonEVEHotkeys/backward`. -/
  nonEVEBackward : QVariant
  /-- Value of `closeAllHotkeys/closeAllClients`. -/
  closeAllClients : QVariant

/-- Lines 511-528 of `loadFromConfig`: the suspend binding. -/
def loadSuspendHotkey (settings : Settings) : HotkeyBinding :=
  let suspendStr := variantText settings.suspendHotkey
  if !suspendStr.isEmpty then HotkeyBinding.fromString suspendStr
  else { keyCode := VK_F12, ctrl := true, alt := true, shift := true, enabled := true }

/-- Lines 536-541 of `loadFromConfig`: body of the loop over the character keys. -/
def loadCharacterHotkey (table : List (String × HotkeyBinding)) (entry : String × QVariant) :
    List (String × HotkeyBinding) :=
  let characterName := entry.1
  let bindingStr := entry.2.toString
  let binding := HotkeyBinding.fromString bindingStr
  if binding.enabled then hInsert table characterName binding else table

/-- Lines 567-575 of `loadFromConfig`: the group built from the parts of a record that has at
least three of them. -/
def cycleGroupOfParts (groupName : String) (parts : List String) : CycleGroup :=
  { groupName := groupName
    characterNames := (splitString ',' (parts.getD 0 "")).filter (fun name => !name.isEmpty)
    forwardBinding := HotkeyBinding.fromString (parts.getD 1 "")
    backwardBinding := HotkeyBinding.fromString (parts.getD 2 "")
    includeNotLoggedIn := if parts.length ≥ 4 then toInt (parts.getD 3 "").data != 0 else false
    noLoop := if parts.length ≥ 5 then toInt (parts.getD 4 "").data != 0 else false }

/-- Lines 551-578 of `loadFromConfig`: body of the loop over the cycle-group keys. -/
def loadCycleGroup (table : List (String × CycleGroup)) (entry : String × QVariant) :
    List (String × CycleGroup) :=
  let groupName := entry.1
  let groupStr := variantText entry.2
  let parts := splitString '|' groupStr
  if parts.length ≥ 3 then hInsert table groupName (cycleGroupOfParts groupName parts)
  else table

/-- Lines 583-603 of `loadFromConfig`: a binding that is replaced only when its stored
string is not empty. -/
def loadOptionalHotkey (v : QVariant) (current : HotkeyBinding) : HotkeyBinding :=
  if !v.toString.isEmpty then HotkeyBinding.fromString v.toString else current

/-- The stored bindings as `loadFromConfig` leaves them before it rebuilds the
registrations (lines 508-604). -/
def loadStore {σ : Type} (settings : Settings) (w : World σ) : World σ :=
  { w with
    m_suspendHotkey := loadSuspendHotkey settings
    m_characterHotkeys := settings.characterHotkeys.foldl loadCharacterHotkey []
    m_cycleGroups := settings.cycleGroups.foldl loadCycleGroup []
    m_notLoggedInForwardHotkey :=
      loadOptionalHotkey settings.notLoggedInForward w.m_notLoggedInForwardHotkey
    m_notLoggedInBackwardHotkey :=
      loadOptionalHotkey settings.notLoggedInBackward w.m_notLoggedInBackwardHotkey
    m_nonEVEForwardHotkey := loadOptionalHotkey settings.nonEVEForward w.m_nonEVEForwardHotkey
    m_nonEVEBackwardHotkey :=
      loadOptionalHotkey settings.nonEVEBackward w.m_nonEVEBackwardHotkey
    m_closeAllClientsHotkey :=
      loadOptionalHotkey settings.closeAllClients w.m_closeAllClientsHotkey }

/-- Member `HotkeyManager::loadFromConfig`: read the stored bindings, then rebuild. -/
def loadFromConfig {σ : Type} (os : OS σ) (env : Env) (settings : Settings) (w : World σ) :
    World σ :=
  (registerHotkeys os env (loadStore settings w)).2

/-- A settings file without any record. -/
def Settings.absent : Settings :=
  { suspendHotkey := QVariant.invalid
    characterHotkeys := []
    cycleGroups := []
    notLoggedInForward := QVariant.invalid
    notLoggedInBackward := QVariant.invalid
    nonEVEForward := QVariant.invalid
    nonEVEBackward := QVariant.invalid
    closeAllClients := QVariant.invalid }

/-- A settings file whose suspend record is a text of three fields only. -/
def Settings.shortSuspend : Settings :=
  { Settings.absent with suspendHotkey := QVariant.string "1,123,1" }

/-- A settings file with a short record for Alice, a good enabled one for Bob (F2), a group
record of two parts and a group record of three parts. -/
def Settings.mixed : Settings :=
  { Settings.absent with
    characterHotkeys := [("Alice", QVariant.string "1,112"), ("Bob", QVariant.string "1,113,0,0,0")]
    cycleGroups :=
      [("bad", QVariant.string "Alice,Bob|1,114,0,0,0"),
       ("good", QVariant.string "Alice,Bob|1,114,0,0,0|1,115,0,0,0")] }

/-- A settings file whose suspend record is the default toggle switched off. -/
def Settings.toggleOff : Settings :=
  { Settings.absent with suspendHotkey := QVariant.string "0,123,1,1,1" }

/-- The manager as its constructor leaves it (lines 10-24: the members, then
`loadFromConfig`) when the stored suspend toggle is switched off and nothing else is
stored. -/
def toggleOffWorld (env : Env) : World Unit :=
  loadFromConfig OS.acceptAll env Settings.toggleOff (World.constructed ())

/-- That manager after `setSuspended(true)`. -/
def suspendedToggleOffWorld (env : Env) : World Unit :=
  (setSuspended OS.acceptAll env true (toggleOffWorld env)).2

/-! ## The record of calls, and the ids the manager tracks -/

/-- The ids passed to `RegisterHotKey` so far, oldest first, accepted or not. -/
def registeredIds : List OSCall → List Int
  | [] => []
  | OSCall.registerHotKey id _ _ _ :: rest => id :: registeredIds rest
  | OSCall.unregisterHotKey _ :: rest => registeredIds rest

/-- What one call does to the registration the operating system holds under `id`: an
accepted `RegisterHotKey` of that id creates it, an `UnregisterHotKey` of that id drops it,
every other call leaves it as it is. -/
def liveStep (id : Int) (live : Bool) : OSCall → Bool
  | OSCall.registerHotKey i _ _ accepted => if i = id ∧ accepted = true then true else live
  | OSCall.unregisterHotKey i => if i = id then false else live

/-- The operating system holds a registration under `id` after the calls: the id was
registered with success and not released since. -/
def isLive (calls : List OSCall) (id : Int) : Bool :=
  calls.foldl (liveStep id) false

/-- The stored binding a slot belongs to. -/
def World.slotBinding {σ : Type} (w : World σ) : IdSlot → HotkeyBinding
  | IdSlot.suspend => w.m_suspendHotkey
  | IdSlot.notLoggedInForward => w.m_notLoggedInForwardHotkey
  | IdSlot.notLoggedInBackward => w.m_notLoggedInBackwardHotkey
  | IdSlot.nonEVEForward => w.m_nonEVEForwardHotkey
  | IdSlot.nonEVEBackward => w.m_nonEVEBackwardHotkey
  | IdSlot.closeAllClients => w.m_closeAllClientsHotkey

/-- Assignment to the member behind a slot. -/
def World.setSlot {σ : Type} (w : World σ) (slot : IdSlot) (id : Int) : World σ :=
  match slot with
  | IdSlot.suspend => { w with m_suspendHotkeyId := id }
  | IdSlot.notLoggedInForward => { w with m_notLoggedInForwardHotkeyId := id }
  | IdSlot.notLoggedInBackward => { w with m_notLoggedInBackwardHotkeyId := id }
  | IdSlot.nonEVEForward => { w with m_nonEVEForwardHotkeyId := id }
  | IdSlot.nonEVEBackward => { w with m_nonEVEBackwardHotkeyId := id }
  | IdSlot.closeAllClients => { w with m_closeAllClientsHotkeyId := id }

/-- Where a registration block of the source stores the id it obtained: the character
table, the cycle-group tables with the direction, the profile table, or one of the slots. -/
inductive Target where
  | character (characterName : String)
  | cycleGroup (groupName : String) (isForward : Bool)
  | profile (profileName : String)
  | slot (slot : IdSlot)
deriving DecidableEq

/-- The assignment a registration block makes with the id of an accepted registration. -/
def commitTo {σ : Type} (target : Target) (hotkeyId : Int) (w : World σ) : World σ :=
  match target with
  | Target.character characterName =>
      { w with m_hotkeyIdToCharacter := hInsert w.m_hotkeyIdToCharacter hotkeyId characterName }
  | Target.cycleGroup groupName isForward =>
      { w with
        m_hotkeyIdToCycleGroup := hInsert w.m_hotkeyIdToCycleGroup hotkeyId groupName
        m_hotkeyIdIsForward := hInsert w.m_hotkeyIdIsForward hotkeyId isForward }
  | Target.profile profileName =>
      { w with m_hotkeyIdToProfile := hInsert w.m_hotkeyIdToProfile hotkeyId profileName }
  | Target.slot slot => w.setSlot slot hotkeyId

/-- One if the table has the key, zero if not. -/
def keyCount {ν : Type} (table : List (Int × ν)) (k : Int) : Nat :=
  if (hFind table k).isSome then 1 else 0

/-- One if the id is held in the slot and is not the value -1 of an unset slot. -/
def World.slotHolds {σ : Type} (w : World σ) (slot : IdSlot) (k : Int) : Nat :=
  if w.slotId slot = k ∧ k ≠ -1 then 1 else 0

/-- In how many of the six slots the id is held. -/
def World.slotCount {σ : Type} (w : World σ) (k : Int) : Nat :=
  w.slotHolds IdSlot.suspend k + w.slotHolds IdSlot.notLoggedInForward k +
    w.slotHolds IdSlot.notLoggedInBackward k + w.slotHolds IdSlot.nonEVEForward k +
    w.slotHolds IdSlot.nonEVEBackward k + w.slotHolds IdSlot.closeAllClients k

/-- In how many places the manager tracks the id: as a key of the character, cycle-group,
profile or alias table, or as the id held in a slot. -/
def World.trackCount {σ : Type} (w : World σ) (k : Int) : Nat :=
  keyCount w.m_hotkeyIdToCharacter k + keyCount w.m_hotkeyIdToCycleGroup k +
    keyCount w.m_hotkeyIdToProfile k + keyCount w.m_wildcardAliases k + w.slotCount k

/-- The manager tracks the id. -/
def World.tracks {σ : Type} (w : World σ) (k : Int) : Prop :=
  (hFind w.m_hotkeyIdToCharacter k).isSome = true ∨
  (hFind w.m_hotkeyIdToCycleGroup k).isSome = true ∨
  (hFind w.m_hotkeyIdToProfile k).isSome = true ∨
  (hFind w.m_wildcardAliases k).isSome = true ∨
  (k ≠ -1 ∧ ∃ slot : IdSlot, w.slotId slot = k)

/-- The ids `unregisterHotkeys` releases, in order: the keys of the character, cycle-group,
profile and alias tables, then every slot that does not hold -1. -/
def World.releasedIds {σ : Type} (w : World σ) : List Int :=
  hKeys w.m_hotkeyIdToCharacter ++ (hKeys w.m_hotkeyIdToCycleGroup ++
    (hKeys w.m_hotkeyIdToProfile ++ (hKeys w.m_wildcardAliases ++
      ((if w.m_suspendHotkeyId ≠ -1 then [w.m_suspendHotkeyId] else []) ++
      ((if w.m_notLoggedInForwardHotkeyId ≠ -1 then [w.m_notLoggedInForwardHotkeyId] else []) ++
      ((if w.m_notLoggedInBackwardHotkeyId ≠ -1 then [w.m_notLoggedInBackwardHotkeyId] else []) ++
      ((if w.m_nonEVEForwardHotkeyId ≠ -1 then [w.m_nonEVEForwardHotkeyId] else []) ++
      ((if w.m_nonEVEBackwardHotkeyId ≠ -1 then [w.m_nonEVEBackwardHotkeyId] else []) ++
      (if w.m_closeAllClientsHotkeyId ≠ -1 then [w.m_closeAllClientsHotkeyId] else [])))))))))

/-- The registry is tidy: the allocator is at 1000 or beyond; the ids passed to
`RegisterHotKey` so far are strictly increasing and lie between 1000 and the allocator; an
id the operating system holds is tracked in exactly one place, and an id it does not hold is
tracked nowhere.  With `pending` set, the id just obtained from `registerHotkey` and not yet
stored counts as one more place. -/
structure TidyPending {σ : Type} (pending : Option Int) (w : World σ) : Prop where
  base : 1000 ≤ w.m_nextHotkeyId
  increasing : (registeredIds w.calls).Pairwise (fun a b => a < b)
  range : ∀ id ∈ registeredIds w.calls, 1000 ≤ id ∧ id < w.m_nextHotkeyId
  count : ∀ k : Int,
    w.trackCount k + (if pending = some k then 1 else 0) = if isLive w.calls k then 1 else 0

/-- The registry is tidy, with no id pending. -/
def Tidy {σ : Type} (w : World σ) : Prop := TidyPending none w

/-- Every slot of the list holds -1. -/
def Free {σ : Type} (slots : List IdSlot) (w : World σ) : Prop :=
  ∀ slot ∈ slots, w.slotId slot = -1

/-! ## Where the tracked ids of a rebuild come from -/

/-- The id is tracked as a canonical id: a key of the character, cycle-group or profile
table, or the id other than -1 held in a slot. -/
def World.canonical {σ : Type} (w : World σ) (k : Int) : Prop :=
  (hFind w.m_hotkeyIdToCharacter k).isSome = true ∨
  (hFind w.m_hotkeyIdToCycleGroup k).isSome = true ∨
  (hFind w.m_hotkeyIdToProfile k).isSome = true ∨
  (k ≠ -1 ∧ ∃ slot : IdSlot, w.slotId slot = k)

/-- The binding a registration block registers is the stored binding of its target: the
character's entry, the group's forward or backward binding, the profile's entry, the
binding of the slot. -/
def Justified (chars : List (String × HotkeyBinding)) (groups : List (String × CycleGroup))
    (profiles : List (String × Int × Int)) (slotB : IdSlot → HotkeyBinding)
    (target : Target) (binding : HotkeyBinding) : Prop :=
  match target with
  | Target.character characterName => (characterName, binding) ∈ chars
  | Target.cycleGroup groupName isForward =>
      ∃ group : CycleGroup, (groupName, group) ∈ groups ∧
        (if isForward = true then group.forwardBinding else group.backwardBinding) = binding
  | Target.profile profileName =>
      ∃ key modifiers : Int, (profileName, key, modifiers) ∈ profiles ∧
        profileBinding key modifiers = binding
  | Target.slot slot => slotB slot = binding

/-- Every tracked id belongs to an enabled stored binding: a key of the character table to
an enabled entry of that character, a key of the cycle-group table to the enabled forward
or backward binding of that group (as the direction table says), a key of the profile
table to an entry of that profile, the id of a slot to the enabled binding of the slot, and
an alias to a canonical id. -/
structure Provenance {σ : Type} (chars : List (String × HotkeyBinding))
    (groups : List (String × CycleGroup)) (profiles : List (String × Int × Int))
    (slotB : IdSlot → HotkeyBinding) (w : World σ) : Prop where
  character : ∀ (id : Int) (name : String), hFind w.m_hotkeyIdToCharacter id = some name →
    ∃ b : HotkeyBinding, (name, b) ∈ chars ∧ b.enabled = true
  cycleGroup : ∀ (id : Int) (name : String), hFind w.m_hotkeyIdToCycleGroup id = some name →
    ∃ g : CycleGroup, (name, g) ∈ groups ∧
      ((hFind w.m_hotkeyIdIsForward id = some true ∧ g.forwardBinding.enabled = true) ∨
        (hFind w.m_hotkeyIdIsForward id = some false ∧ g.backwardBinding.enabled = true))
  profile : ∀ (id : Int) (name : String), hFind w.m_hotkeyIdToProfile id = some name →
    ∃ key modifiers : Int, (name, key, modifiers) ∈ profiles
  slot : ∀ slot : IdSlot, w.slotId slot ≠ -1 → (slotB slot).enabled = true
  aliases : ∀ a c : Int, hFind w.m_wildcardAliases a = some c → w.canonical c

/-- What holds at every point of a rebuild that started from the world `w0`: the registry
is tidy, the slots still to be written hold -1, the stored bindings are those of `w0`, and
every tracked id belongs to an enabled stored binding. -/
structure Rebuilding {σ : Type} (env : Env) (w0 : World σ) (slots : List IdSlot)
    (w : World σ) : Prop where
  tidy : Tidy w
  free : Free slots w
  settings : w.settings = w0.settings
  provenance : Provenance w0.m_characterHotkeys w0.m_cycleGroups env.profileHotkeys
    w0.slotBinding w

/-- A constructed manager in which Alice has Ctrl+F1 and Bob a disabled F2. -/
def aliceBobWorld : World Unit :=
  { World.constructed () with
    m_characterHotkeys := [("Alice", ctrlF1), ("Bob", { plainF2 with enabled := false })] }

/-- A constructed manager with the default suspend toggle and Alice's Ctrl+F1 stored. -/
def toggleAliceWorld : World Unit :=
  { World.constructed () with
    m_suspendHotkey := ctrlAltShiftF12
    m_characterHotkeys := [("Alice", ctrlF1)] }

/-- That manager after `setSuspended(true)`: suspended, the toggle registered as 1000. -/
def suspendedAliceWorld : World Unit :=
  (setSuspended OS.acceptAll Env.plain true toggleAliceWorld).2

/-! ## The character-name cache (overlayinfo.cpp 4-25 and 96-99) -/

/-- Test `QString::startsWith`. -/
def startsWith (s pre : String) : Bool := pre.data.isPrefixOf s.data

/-- Part `QString::mid(position)`: the text from `position` to the end.  The model counts
characters where Qt counts UTF-16 units; the two agree on the ASCII text skipped here. -/
def mid (s : String) (position : Nat) : String := String.mk (s.data.drop position)

namespace OverlayInfo

/-- The constant `prefix` of `extractCharacterName`. -/
def titlePrefix : String := "EVE - "

/-- Member `OverlayInfo::extractCharacterName` over the static table
`s_characterNameCache`: the value returned and the table afterwards. -/
def extractCharacterName (cache : List (String × String)) (windowTitle : String) :
    String × List (String × String) :=
  match hFind cache windowTitle with
  | some cached => (cached, cache)
  | none =>
      let characterName :=
        if startsWith windowTitle titlePrefix then mid windowTitle titlePrefix.length else ""
      let cache1 := if cache.length > 100 then [] else cache
      (characterName, hInsert cache1 windowTitle characterName)

/-- Member `OverlayInfo::clearCache`. -/
def clearCache (_cache : List (String × String)) : List (String × String) := []

/-- A call made to the cache from outside. -/
inductive CacheCall where
  | extract (windowTitle : String)
  | clear
deriving DecidableEq

/-- One call: the value it returns, if it returns one, and the table afterwards. -/
def step (cache : List (String × String)) : CacheCall → Option String × List (String × String)
  | CacheCall.extract windowTitle =>
      (some (extractCharacterName cache windowTitle).1,
        (extractCharacterName cache windowTitle).2)
  | CacheCall.clear => (none, clearCache cache)

/-- A sequence of calls from a given table: the values returned, in order, and the table
at the end. -/
def run : List (String × String) → List CacheCall → List String × List (String × String)
  | cache, [] => ([], cache)
  | cache, call :: rest =>
      match (step cache call).1 with
      | some value => (value :: (run (step cache call).2 rest).1, (run (step cache call).2 rest).2)
      | none => run (step cache call).2 rest

/-- The character name of a window title in the words of the specification: the title
without its leading "EVE - ", and the empty string for a title that does not start so. -/
def nameOfTitle (windowTitle : String) : String :=
  match windowTitle.data with
  | 'E' :: 'V' :: 'E' :: ' ' :: '-' :: ' ' :: rest => String.mk rest
  | _ => ""

/-- What the calls return when no cache is there. -/
def expected : List CacheCall → List String
  | [] => []
  | CacheCall.extract windowTitle :: rest => nameOfTitle windowTitle :: expected rest
  | CacheCall.clear :: rest => expected rest

end OverlayInfo

/-! ## Saving (hotkeymanager.cpp 414-417 and 609-657) -/

/-- Text `QString::number(int)`. -/
def numberText (k : Int) : String := String.mk (intToDecimal k)

/-- Lines 630-638 of `saveToConfig`: the record written for a cycle group. -/
def saveCycleGroup (group : CycleGroup) : String :=
  joinStrings ',' group.characterNames ++ "|" ++
    group.forwardBinding.toString ++ "|" ++
    group.backwardBinding.toString ++ "|" ++
    numberText (if group.includeNotLoggedIn then 1 else 0) ++ "|" ++
    numberText (if group.noLoop then 1 else 0)

/-- Member `HotkeyManager::saveToConfig`: the records the hotkey groups of the settings
file hold afterwards.  The groups `characterHotkeys` and `cycleGroups` are emptied first
and get one record per stored entry; a record read back is the string that was written
(`QSettings` writes a text that holds a comma in quotes). -/
def saveToConfig {σ : Type} (w : World σ) : Settings :=
  { suspendHotkey := QVariant.string w.m_suspendHotkey.toString
    characterHotkeys := w.m_characterHotkeys.map (fun e => (e.1, QVariant.string e.2.toString))
    cycleGroups := w.m_cycleGroups.map (fun e => (e.1, QVariant.string (saveCycleGroup e.2)))
    notLoggedInForward := QVariant.string w.m_notLoggedInForwardHotkey.toString
    notLoggedInBackward := QVariant.string w.m_notLoggedInBackwardHotkey.toString
    nonEVEForward := QVariant.string w.m_nonEVEForwardHotkey.toString
    nonEVEBackward := QVariant.string w.m_nonEVEBackwardHotkey.toString
    closeAllClients := QVariant.string w.m_closeAllClientsHotkey.toString }

/-- Member `HotkeyManager::getCharacterHotkey`. -/
def getCharacterHotkey {σ : Type} (w : World σ) (characterName : String) : HotkeyBinding :=
  hValue w.m_characterHotkeys characterName HotkeyBinding.empty

/-- A cycle group with two members, an enabled F3 forward, a disabled backward binding, and
both flags set. -/
def sampleGroup : CycleGroup :=
  { groupName := "fleet"
    characterNames := ["Alice", "Bob"]
    forwardBinding := { keyCode := 114, ctrl := false, alt := false, shift := false, enabled := true }
    backwardBinding := HotkeyBinding.empty
    includeNotLoggedIn := true
    noLoop := true }

/-! ## The capture session (hotkeycapture.h)

The header declares the widget; the bodies of its members are not among the sources, and
the definitions of this section follow the description of the capture session in the
specification. -/

/-- Windows `VK_SHIFT`. -/
def VK_SHIFT : Int := 0x10
/-- Windows `VK_CONTROL`. -/
def VK_CONTROL : Int := 0x11
/-- Windows `VK_MENU`, the Alt key. -/
def VK_MENU : Int := 0x12
/-- Windows `VK_ESCAPE`. -/
def VK_ESCAPE : Int := 0x1B
/-- Windows `VK_F3`. -/
def VK_F3 : Int := 0x72
/-- Windows `VK_LSHIFT`. -/
def VK_LSHIFT : Int := 0xA0
/-- Windows `VK_RSHIFT`. -/
def VK_RSHIFT : Int := 0xA1
/-- Windows `VK_LCONTROL`. -/
def VK_LCONTROL : Int := 0xA2
/-- Windows `VK_RCONTROL`. -/
def VK_RCONTROL : Int := 0xA3
/-- Windows `VK_LMENU`. -/
def VK_LMENU : Int := 0xA4
/-- Windows `VK_RMENU`. -/
def VK_RMENU : Int := 0xA5

/-- The members of `HotkeyCapture` declared in the header (`m_keyCode`, `m_ctrl`, `m_alt`,
`m_shift`, `m_capturing`, `m_savedText`), the text the line edit displays, and the live
modifier snapshot of the specification. -/
structure HotkeyCapture where
  m_keyCode : Int
  m_ctrl : Bool
  m_alt : Bool
  m_shift : Bool
  m_capturing : Bool
  m_savedText : String
  /-- Text displayed by the line edit. -/
  text : String
  /-- Live snapshot: Ctrl is held. -/
  ctrlDown : Bool
  /-- Live snapshot: Alt is held. -/
  altDown : Bool
  /-- Live snapshot: Shift is held. -/
  shiftDown : Bool
deriving DecidableEq

/-- The signal of `HotkeyCapture`. -/
inductive CaptureSignal where
  | hotkeyChanged
deriving DecidableEq

namespace HotkeyCapture

/-- Modelled from the spec: the body of `focusInEvent` and `mousePressEvent` is missing; "On
acquiring focus: save currently displayed text, clear display" and "Mouse interaction on the
capture target starts a session identically to focus-in".  The keyboard hook is left
out. -/
def focusIn (s : HotkeyCapture) : HotkeyCapture :=
  { s with m_savedText := s.text, text := "", m_capturing := true }

/-- Modelled from the spec: the body of `updateDisplay` is missing; the captured chord is
"rendered as a human-readable label", which scenario D shows as "Ctrl+F3": the names of the
modifiers, each followed by a plus sign, then the name of the key.  The table of key names
(`keyCodeToString`, body missing) is a parameter. -/
def label (keyName : Int → String) (keyCode : Int) (ctrl alt shift : Bool) : String :=
  (if ctrl then "Ctrl+" else "") ++ (if alt then "Alt+" else "") ++
    (if shift then "Shift+" else "") ++ keyName keyCode

/-- Modelled from the spec: the body of the key handler (`LowLevelKeyboardProc`,
`keyPressEvent`) is missing; "modifier keys update a live modifier snapshot but are never
themselves the recorded key; the first non-modifier key-down is captured as {keyCode,
modifier-snapshot}, rendered as a human-readable label, and a binding-changed notification
fires", and "Escape cancels capture, restoring the previously saved (uncommitted) text".  A
key-down outside a session does nothing here; the session ends with the capture or the
cancel.  The result is the signals emitted and the widget afterwards. -/
def keyDown (keyName : Int → String) (vk : Int) (s : HotkeyCapture) :
    List CaptureSignal × HotkeyCapture :=
  if !s.m_capturing then ([], s)
  else if vk = VK_CONTROL ∨ vk = VK_LCONTROL ∨ vk = VK_RCONTROL then
    ([], { s with ctrlDown := true })
  else if vk = VK_MENU ∨ vk = VK_LMENU ∨ vk = VK_RMENU then ([], { s with altDown := true })
  else if vk = VK_SHIFT ∨ vk = VK_LSHIFT ∨ vk = VK_RSHIFT then
    ([], { s with shiftDown := true })
  else if vk = VK_ESCAPE then ([], { s with text := s.m_savedText, m_capturing := false })
  else
    ([CaptureSignal.hotkeyChanged],
      { s with
        m_keyCode := vk
        m_ctrl := s.ctrlDown
        m_alt := s.altDown
        m_shift := s.shiftDown
        text := label keyName vk s.ctrlDown s.altDown s.shiftDown
        m_capturing := false })

/-- A widget that shows "F1" and is not capturing. -/
def showingF1 : HotkeyCapture :=
  { m_keyCode := 0x70, m_ctrl := false, m_alt := false, m_shift := false,
    m_capturing := false, m_savedText := "", text := "F1",
    ctrlDown := false, altDown := false, shiftDown := false }

/-- A table of key names that knows F3. -/
def sampleKeyName (keyCode : Int) : String := if keyCode = VK_F3 then "F3" else "?"

end HotkeyCapture

/-! ## A rebuild as a list of registration blocks -/

/-- One registration block: `registerHotkey` on the binding, and on success the id stored
at the target. -/
def runJob {σ : Type} (os : OS σ) (env : Env) (w : World σ) (job : Target × HotkeyBinding) :
    World σ :=
  registerWith os env job.2 (commitTo job.1) w

/-- Registration blocks run one after the other. -/
def runJobs {σ : Type} (os : OS σ) (env : Env) (jobs : List (Target × HotkeyBinding))
    (w : World σ) : World σ :=
  jobs.foldl (runJob os env) w

/-- The blocks of the loop over `m_characterHotkeys` (lines 125-135). -/
def characterJobs (chars : List (String × HotkeyBinding)) : List (Target × HotkeyBinding) :=
  chars.map (fun e => (Target.character e.1, e.2))

/-- The blocks of the loop over `m_cycleGroups` (lines 137-161): per group the forward
binding, then the backward binding. -/
def cycleGroupJobs (groups : List (String × CycleGroup)) : List (Target × HotkeyBinding) :=
  groups.flatMap (fun e =>
    [(Target.cycleGroup e.1 true, e.2.forwardBinding),
      (Target.cycleGroup e.1 false, e.2.backwardBinding)])

/-- The block of one of the six slots. -/
def slotJob {σ : Type} (w : World σ) (slot : IdSlot) : Target × HotkeyBinding :=
  (Target.slot slot, w.slotBinding slot)

/-- The blocks of `registerProfileHotkeys` (lines 703-737). -/
def profileJobs (env : Env) : List (Target × HotkeyBinding) :=
  env.profileHotkeys.map (fun e => (Target.profile e.1, profileBinding e.2.1 e.2.2))

/-- The blocks `registerHotkeys` runs only while not suspended, in its order (lines
125-188). -/
def activeJobs {σ : Type} (env : Env) (w : World σ) : List (Target × HotkeyBinding) :=
  characterJobs w.m_characterHotkeys ++ (cycleGroupJobs w.m_cycleGroups ++
    ([slotJob w IdSlot.notLoggedInForward, slotJob w IdSlot.notLoggedInBackward,
      slotJob w IdSlot.nonEVEForward, slotJob w IdSlot.nonEVEBackward,
      slotJob w IdSlot.closeAllClients] ++ profileJobs env))

/-- All blocks of `registerHotkeys`, in its order: the suspend toggle, and the rest unless
suspended. -/
def rebuildJobs {σ : Type} (env : Env) (w : World σ) : List (Target × HotkeyBinding) :=
  slotJob w IdSlot.suspend :: (if w.m_suspended then [] else activeJobs env w)

/-- The manager tracks the id `k` as the canonical id of the target: in the character
table under the character's name, in the cycle-group table under the group's name with the
direction in the direction table, in the profile table under the profile's name, or as the
id other than -1 held in the slot. -/
def World.owns {σ : Type} (w : World σ) (k : Int) : Target → Prop
  | Target.character characterName => hFind w.m_hotkeyIdToCharacter k = some characterName
  | Target.cycleGroup groupName isForward =>
      hFind w.m_hotkeyIdToCycleGroup k = some groupName ∧
        hFind w.m_hotkeyIdIsForward k = some isForward
  | Target.profile profileName => hFind w.m_hotkeyIdToProfile k = some profileName
  | Target.slot slot => w.slotId slot = k ∧ k ≠ -1

/-- The place of a target's category in the order of `registerHotkeys`. -/
def Target.rank : Target → Nat
  | Target.slot IdSlot.suspend => 0
  | Target.character _ => 1
  | Target.cycleGroup _ _ => 2
  | Target.slot IdSlot.notLoggedInForward => 3
  | Target.slot IdSlot.notLoggedInBackward => 4
  | Target.slot IdSlot.nonEVEForward => 5
  | Target.slot IdSlot.nonEVEBackward => 6
  | Target.slot IdSlot.closeAllClients => 7
  | Target.profile _ => 8

/-- A constructed manager with the default suspend toggle, Alice on Ctrl+F1, the cycle group
"fleet" on F3 forward and F2 backward, and close-all on F4. -/
def orderWorld : World Unit :=
  { World.constructed () with
    m_suspendHotkey := ctrlAltShiftF12
    m_characterHotkeys := [("Alice", ctrlF1)]
    m_cycleGroups := [("fleet", { sampleGroup with backwardBinding := plainF2 })]
    m_closeAllClientsHotkey :=
      { keyCode := 115, ctrl := false, alt := false, shift := false, enabled := true } }

/-! ## An operating system that rejects a combination it already holds -/

/-- The state holds a registration with this modifier mask and key. -/
def taken (s : List (Int × Nat × Int)) (fsModifiers : Nat) (vk : Int) : Bool :=
  s.any (fun r => r.2.1 == fsModifiers && r.2.2 == vk)

/-- An operating system whose state is the list of registrations it holds (id, modifier
mask, key): `RegisterHotKey` is rejected exactly when a registration with the same mask and
key is held, and otherwise adds the registration; `UnregisterHotKey` drops the registrations
with the id. -/
def OS.exclusive : OS (List (Int × Nat × Int)) :=
  { registerHotKey := fun s id fsModifiers vk =>
      if taken s fsModifiers vk then (false, s) else (true, s ++ [(id, fsModifiers, vk)])
    unregisterHotKey := fun s id => s.filter (fun r => r.1 != id) }

/-- The notification dispatch emits for an id tracked under the target; for the suspend
toggle the one a manager that is not suspended emits. -/
def Target.signal : Target → Signal
  | Target.character characterName => Signal.characterHotkeyPressed characterName
  | Target.cycleGroup groupName true => Signal.namedCycleForwardPressed groupName
  | Target.cycleGroup groupName false => Signal.namedCycleBackwardPressed groupName
  | Target.profile profileName => Signal.profileSwitchRequested profileName
  | Target.slot IdSlot.suspend => Signal.suspendedChanged true
  | Target.slot IdSlot.notLoggedInForward => Signal.notLoggedInCycleForwardPressed
  | Target.slot IdSlot.notLoggedInBackward => Signal.notLoggedInCycleBackwardPressed
  | Target.slot IdSlot.nonEVEForward => Signal.nonEVECycleForwardPressed
  | Target.slot IdSlot.nonEVEBackward => Signal.nonEVECycleBackwardPressed
  | Target.slot IdSlot.closeAllClients => Signal.closeAllClientsRequested

/-- Every stored binding in the order a rebuild of a manager that is not suspended registers
them: the suspend toggle, then the blocks of lines 125-188. -/
def allJobs {σ : Type} (env : Env) (w : World σ) : List (Target × HotkeyBinding) :=
  slotJob w IdSlot.suspend :: activeJobs env w

/-- The binding F1 without modifiers. -/
def plainF1 : HotkeyBinding :=
  { keyCode := VK_F1, ctrl := false, alt := false, shift := false, enabled := true }

/-- A constructed manager, the operating system holding nothing, with the default suspend
toggle, Alice and Bob both on Ctrl+F1 and Carol on F2. -/
def twinWorld : World (List (Int × Nat × Int)) :=
  { World.constructed [] with
    m_suspendHotkey := ctrlAltShiftF12
    m_characterHotkeys := [("Alice", ctrlF1), ("Bob", ctrlF1), ("Carol", plainF2)] }

/-- A constructed manager, the operating system holding nothing, with the suspend toggle on
F1 and Alice and Bob both on Ctrl+F1. -/
def preemptWorld : World (List (Int × Nat × Int)) :=
  { World.constructed [] with
    m_suspendHotkey := plainF1
    m_characterHotkeys := [("Alice", ctrlF1), ("Bob", ctrlF1)] }

/-- A constructed manager, the operating system holding nothing, with the default suspend
toggle, Alice on Ctrl+F1, the cycle group "fleet" on F3 forward and F2 backward, and
close-all on F4. -/
def routedWorld : World (List (Int × Nat × Int)) :=
  { World.constructed [] with
    m_suspendHotkey := ctrlAltShiftF12
    m_characterHotkeys := [("Alice", ctrlF1)]
    m_cycleGroups := [("fleet", { sampleGroup with backwardBinding := plainF2 })]
    m_closeAllClientsHotkey :=
      { keyCode := 115, ctrl := false, alt := false, shift := false, enabled := true } }

/-- No two registrations the operating system holds have the same modifier mask and key. -/
def Distinct (s : List (Int × Nat × Int)) : Prop :=
  s.Pairwise (fun r1 r2 => ¬ (r1.2.1 = r2.2.1 ∧ r1.2.2 = r2.2.2))
/-! # Theorems -/

/-! ## Decimal text and `toInt` -/

theorem digitVal_digitChar (d : Nat) (h : d < 10) : digitVal (digitChar d) = some d := by
  interval_cases d <;> rfl

theorem digitChar_not_space (d : Nat) (h : d < 10) : isSpace (digitChar d) = false := by
  interval_cases d <;> rfl

theorem digitChar_ne_comma (d : Nat) (h : d < 10) : digitChar d ≠ ',' := by
  interval_cases d <;> decide

theorem decimalAux_eq (n : Nat) : ∀ (fuel1 fuel2 : Nat) (acc : List Char), n < fuel1 → n < fuel2 →
    decimalAux fuel1 n acc = decimalAux fuel2 n [] ++ acc := by
  induction n using Nat.strong_induction_on with
  | _ n ih =>
    intro fuel1 fuel2 acc h1 h2
    obtain ⟨f1, rfl⟩ : ∃ f, fuel1 = f + 1 := ⟨fuel1 - 1, by omega⟩
    obtain ⟨f2, rfl⟩ : ∃ f, fuel2 = f + 1 := ⟨fuel2 - 1, by omega⟩
    simp only [decimalAux]
    by_cases hn : n < 10
    · simp [hn]
    · simp only [hn, if_false]
      have hlt : n / 10 < n := Nat.div_lt_self (by omega) (by omega)
      rw [ih (n / 10) hlt f1 (n / 10 + 1) _ (by omega) (by omega),
        ih (n / 10) hlt f2 (n / 10 + 1) [digitChar (n % 10)] (by omega) (by omega)]
      simp

theorem natToDecimal_small (n : Nat) (h : n < 10) : natToDecimal n = [digitChar n] := by
  simp [natToDecimal, decimalAux, h]

theorem natToDecimal_large (n : Nat) (h : 10 ≤ n) :
    natToDecimal n = natToDecimal (n / 10) ++ [digitChar (n % 10)] := by
  have hn : ¬ n < 10 := by omega
  have hlt : n / 10 < n := Nat.div_lt_self (by omega) (by omega)
  simp only [natToDecimal, decimalAux, hn, if_false]
  exact decimalAux_eq (n / 10) n (n / 10 + 1) _ hlt (by omega)

theorem natToDecimal_digits (n : Nat) : ∀ c ∈ natToDecimal n, ∃ d, d < 10 ∧ c = digitChar d := by
  induction n using Nat.strong_induction_on with
  | _ n ih =>
    by_cases hn : n < 10
    · rw [natToDecimal_small n hn]
      intro c hc
      exact ⟨n, hn, by simpa using hc⟩
    · rw [natToDecimal_large n (by omega)]
      intro c hc
      rcases List.mem_append.1 hc with hc | hc
      · exact ih (n / 10) (Nat.div_lt_self (by omega) (by omega)) c hc
      · exact ⟨n % 10, Nat.mod_lt _ (by omega), by simpa using hc⟩

theorem natToDecimal_ne_nil (n : Nat) : natToDecimal n ≠ [] := by
  by_cases hn : n < 10
  · rw [natToDecimal_small n hn]; simp
  · rw [natToDecimal_large n (by omega)]; simp

theorem parseNatAux_append (l1 l2 : List Char) : ∀ acc : Nat,
    parseNatAux (l1 ++ l2) acc = (parseNatAux l1 acc).bind (parseNatAux l2) := by
  induction l1 with
  | nil => intro acc; simp [parseNatAux]
  | cons c cs ih =>
    intro acc
    simp only [List.cons_append, parseNatAux]
    cases digitVal c with
    | none => simp
    | some d => simpa using ih (acc * 10 + d)

theorem parseNatAux_natToDecimal (n : Nat) : parseNatAux (natToDecimal n) 0 = some n := by
  induction n using Nat.strong_induction_on with
  | _ n ih =>
    by_cases hn : n < 10
    · rw [natToDecimal_small n hn]
      simp [parseNatAux, digitVal_digitChar n hn]
    · rw [natToDecimal_large n (by omega), parseNatAux_append,
        ih (n / 10) (Nat.div_lt_self (by omega) (by omega))]
      simp only [Option.some_bind, parseNatAux, digitVal_digitChar (n % 10) (Nat.mod_lt _ (by omega))]
      congr 1
      omega

theorem parseNat_natToDecimal (n : Nat) : parseNat (natToDecimal n) = some n := by
  have h := natToDecimal_ne_nil n
  have h2 := parseNatAux_natToDecimal n
  cases hl : natToDecimal n with
  | nil => exact absurd hl h
  | cons c cs => rw [hl] at h2; simpa [parseNat] using h2

theorem trimmed_eq_self (l : List Char) (h : ∀ c ∈ l, isSpace c = false) : trimmed l = l := by
  have drop_self : ∀ m : List Char, (∀ c ∈ m, isSpace c = false) → m.dropWhile isSpace = m := by
    intro m hm
    cases m with
    | nil => rfl
    | cons x xs => simp [List.dropWhile, hm x (List.mem_cons_self _ _)]
  unfold trimmed
  rw [drop_self l h, drop_self l.reverse (fun c hc => h c (List.mem_reverse.1 hc))]
  simp

theorem intToDecimal_chars (k : Int) :
    ∀ c ∈ intToDecimal k, c = '-' ∨ ∃ d, d < 10 ∧ c = digitChar d := by
  intro c hc
  unfold intToDecimal at hc
  split at hc
  · rcases List.mem_cons.1 hc with hc | hc
    · exact Or.inl hc
    · exact Or.inr (natToDecimal_digits _ c hc)
  · exact Or.inr (natToDecimal_digits _ c hc)

theorem intToDecimal_no_space (k : Int) : ∀ c ∈ intToDecimal k, isSpace c = false := by
  intro c hc
  rcases intToDecimal_chars k c hc with rfl | ⟨d, hd, rfl⟩
  · rfl
  · exact digitChar_not_space d hd

theorem intToDecimal_no_comma (k : Int) : ',' ∉ intToDecimal k := by
  intro hc
  rcases intToDecimal_chars k ',' hc with h | ⟨d, hd, h⟩
  · exact absurd h (by decide)
  · exact digitChar_ne_comma d hd h.symm

theorem parseSigned_intToDecimal (k : Int) : parseSigned (intToDecimal k) = some k := by
  unfold intToDecimal
  by_cases hk : k < 0
  · simp only [hk, if_true, parseSigned, parseNat_natToDecimal, Option.map_some']
    congr 1
    omega
  · simp only [hk, if_false]
    have hne := natToDecimal_ne_nil k.natAbs
    have hd := natToDecimal_digits k.natAbs
    cases hl : natToDecimal k.natAbs with
    | nil => exact absurd hl hne
    | cons c cs =>
      have hc : c ≠ '-' ∧ c ≠ '+' := by
        obtain ⟨d, hd10, rfl⟩ := hd c (by rw [hl]; exact List.mem_cons_self _ _)
        constructor <;> (interval_cases d <;> decide)
      have hp := parseNat_natToDecimal k.natAbs
      rw [hl] at hp
      unfold parseSigned
      split
      · rename_i heq; exact absurd (List.cons.inj heq).1 hc.1
      · rename_i heq; exact absurd (List.cons.inj heq).1 hc.2
      · rw [hp]
        simp only [Option.map_some']
        congr 1
        omega

theorem toInt_intToDecimal (k : Int) (h : INT_MIN ≤ k ∧ k ≤ INT_MAX) :
    toInt (intToDecimal k) = k := by
  unfold toInt
  rw [trimmed_eq_self _ (intToDecimal_no_space k), parseSigned_intToDecimal]
  simp [h]

theorem toInt_flag (b : Bool) : (toInt (intToDecimal (if b then 1 else 0)) != 0) = b := by
  cases b <;> decide

theorem split_join_five (p0 p1 p2 p3 p4 : List Char) (h0 : ',' ∉ p0) (h1 : ',' ∉ p1)
    (h2 : ',' ∉ p2) (h3 : ',' ∉ p3) (h4 : ',' ∉ p4) :
    split ',' (join ',' [p0, p1, p2, p3, p4]) = [p0, p1, p2, p3, p4] := by
  unfold split join
  apply List.splitOn_intercalate
  · intro l hl
    simp only [List.mem_cons, List.mem_singleton, List.not_mem_nil, or_false] at hl
    rcases hl with rfl | rfl | rfl | rfl | rfl <;> assumption
  · simp

theorem HotkeyBinding.opEq_iff (a b : HotkeyBinding) : a.opEq b = true ↔ a = b := by
  cases a; cases b
  simp only [HotkeyBinding.opEq, Bool.and_eq_true, beq_iff_eq, HotkeyBinding.mk.injEq]
  tauto

/-! ## C1: serialise, then parse -/

/-- C1: for every binding whose key code is a value of the C++ type `int`, and every value
of the four flags, `fromString (toString b)` has the same five fields as `b`, and
`operator==` says so. -/
theorem fromString_toString_roundtrip (b : HotkeyBinding)
    (h : INT_MIN ≤ b.keyCode ∧ b.keyCode ≤ INT_MAX) :
    HotkeyBinding.fromString b.toString = b ∧
      (HotkeyBinding.fromString b.toString).opEq b = true := by
  have key : HotkeyBinding.fromString b.toString = b := by
    unfold HotkeyBinding.fromString HotkeyBinding.toString
    simp only []
    rw [split_join_five _ _ _ _ _ (intToDecimal_no_comma _) (intToDecimal_no_comma _)
      (intToDecimal_no_comma _) (intToDecimal_no_comma _) (intToDecimal_no_comma _)]
    simp only [toInt_flag, toInt_intToDecimal b.keyCode h]
  exact ⟨key, (HotkeyBinding.opEq_iff _ _).2 key⟩

/-- Witness for C1: the default suspend binding Ctrl+Alt+Shift+F12. -/
theorem fromString_toString_roundtrip_witness :
    (INT_MIN ≤ (HotkeyBinding.mk VK_F12 true true true true).keyCode ∧
      (HotkeyBinding.mk VK_F12 true true true true).keyCode ≤ INT_MAX) ∧
    HotkeyBinding.fromString (HotkeyBinding.mk VK_F12 true true true true).toString =
      HotkeyBinding.mk VK_F12 true true true true ∧
    (HotkeyBinding.fromString (HotkeyBinding.mk VK_F12 true true true true).toString).opEq
      (HotkeyBinding.mk VK_F12 true true true true) = true :=
  ⟨by decide, fromString_toString_roundtrip _ (by decide)⟩

/-! ## Conflict lookup -/

theorem prefixed_ne_empty (a b : String) (h : a ≠ "") : a ++ b ≠ "" := by
  intro hab
  apply h
  have h1 : (a ++ b).data = [] := by rw [hab]
  rw [String.data_append] at h1
  exact String.ext (List.append_eq_nil.1 h1).1

theorem opEq_enabled_iff (b candidate : HotkeyBinding) (he : candidate.enabled = true) :
    b.opEq candidate = true ↔ (b.enabled = true ∧ sameCombination b candidate) := by
  rw [HotkeyBinding.opEq_iff]
  cases b; cases candidate
  simp only [HotkeyBinding.mk.injEq, sameCombination] at *
  subst he
  tauto

theorem firstMatch_append (candidate : HotkeyBinding) (l1 l2 : List (String × HotkeyBinding)) :
    firstMatch candidate (l1 ++ l2) =
      match firstMatch candidate l1 with
      | some label => some label
      | none => firstMatch candidate l2 := by
  induction l1 with
  | nil => simp [firstMatch]
  | cons p rest ih =>
    simp only [List.cons_append, firstMatch]
    split_ifs with h
    · rfl
    · exact ih

theorem firstMatch_some (candidate : HotkeyBinding) (l : List (String × HotkeyBinding))
    (label : String) (h : firstMatch candidate l = some label) :
    ∃ p ∈ l, p.1 = label ∧ p.2.enabled = true ∧ sameCombination p.2 candidate := by
  induction l with
  | nil => simp [firstMatch] at h
  | cons p rest ih =>
    simp only [firstMatch] at h
    split_ifs at h with hp
    · exact ⟨p, List.mem_cons_self _ _, Option.some.inj h, hp.1, hp.2⟩
    · obtain ⟨q, hq, hql⟩ := ih h
      exact ⟨q, List.mem_cons_of_mem _ hq, hql⟩

theorem firstMatch_none (candidate : HotkeyBinding) (l : List (String × HotkeyBinding)) :
    firstMatch candidate l = none ↔
      ∀ p ∈ l, ¬ (p.2.enabled = true ∧ sameCombination p.2 candidate) := by
  induction l with
  | nil => simp [firstMatch]
  | cons p rest ih =>
    simp only [firstMatch, List.mem_cons, forall_eq_or_imp]
    split_ifs with hp
    · simp [hp]
    · simp [hp, ih]

theorem characterConflict_eq (candidate : HotkeyBinding) (he : candidate.enabled = true)
    (l : List (String × HotkeyBinding)) :
    characterConflict candidate l =
      firstMatch candidate (l.map (fun p => ("Character: " ++ p.1, p.2))) := by
  induction l with
  | nil => rfl
  | cons p rest ih =>
    obtain ⟨n, b⟩ := p
    simp only [characterConflict, List.map_cons, firstMatch, ih]
    by_cases hb : b.opEq candidate = true
    · rw [if_pos hb, if_pos ((opEq_enabled_iff b candidate he).1 hb)]
    · rw [if_neg hb, if_neg (fun h => hb ((opEq_enabled_iff b candidate he).2 h))]

theorem cycleGroupConflict_eq (candidate : HotkeyBinding) (he : candidate.enabled = true)
    (l : List (String × CycleGroup)) :
    cycleGroupConflict candidate l = firstMatch candidate (l.flatMap cycleGroupOwners) := by
  induction l with
  | nil => rfl
  | cons p rest ih =>
    obtain ⟨n, g⟩ := p
    simp only [cycleGroupConflict, List.flatMap_cons, cycleGroupOwners, List.cons_append,
      List.nil_append, firstMatch, ih]
    by_cases hf : g.forwardBinding.opEq candidate = true
    · rw [if_pos hf, if_pos ((opEq_enabled_iff _ candidate he).1 hf)]
    · rw [if_neg hf, if_neg (fun h => hf ((opEq_enabled_iff _ candidate he).2 h))]
      by_cases hb : g.backwardBinding.opEq candidate = true
      · rw [if_pos hb, if_pos ((opEq_enabled_iff _ candidate he).1 hb)]
      · rw [if_neg hb, if_neg (fun h => hb ((opEq_enabled_iff _ candidate he).2 h))]
        rfl

theorem profileConflict_eq (candidate : HotkeyBinding) (he : candidate.enabled = true)
    (env : Env) (excludeKey : String) :
    profileConflict candidate excludeKey env.profileHotkeys =
      firstMatch candidate (profileOwners env excludeKey) := by
  unfold profileOwners
  induction env.profileHotkeys with
  | nil => rfl
  | cons e rest ih =>
    obtain ⟨n, key, mods⟩ := e
    simp only [profileConflict, List.filter_cons]
    by_cases hx : (!excludeKey.isEmpty && n == excludeKey) = true
    · have hx2 : (excludeKey.isEmpty || n != excludeKey) = false := by
        simp only [Bool.and_eq_true, Bool.not_eq_true', beq_iff_eq] at hx
        simp [hx.1, hx.2]
      rw [if_pos hx, ih]
      simp [hx2]
    · have hx2 : (excludeKey.isEmpty || n != excludeKey) = true := by
        simp only [Bool.and_eq_true, Bool.not_eq_true', beq_iff_eq, not_and] at hx
        cases hemp : excludeKey.isEmpty
        · simpa using hx hemp
        · simp
      rw [if_neg hx]
      simp only [hx2, if_true, List.map_cons, firstMatch]
      have hen : (profileBinding key mods).enabled = true := rfl
      by_cases hb : (profileBinding key mods).opEq candidate = true
      · rw [if_pos hb, if_pos ((opEq_enabled_iff _ candidate he).1 hb)]
      · rw [if_neg hb, if_neg (fun h => hb ((opEq_enabled_iff _ candidate he).2 h)), ih]

theorem guard_iff (b candidate : HotkeyBinding) (he : candidate.enabled = true) :
    (b.enabled && b.opEq candidate) = true ↔ (b.enabled = true ∧ sameCombination b candidate) := by
  rw [Bool.and_eq_true, opEq_enabled_iff b candidate he]
  tauto

theorem firstMatch_cons (candidate : HotkeyBinding) (p : String × HotkeyBinding)
    (rest : List (String × HotkeyBinding)) :
    firstMatch candidate (p :: rest) =
      if p.2.enabled = true ∧ sameCombination p.2 candidate then some p.1
      else firstMatch candidate rest := rfl

theorem firstMatch_nil (candidate : HotkeyBinding) : firstMatch candidate [] = none := rfl

/-- For an enabled candidate the source's search returns the label of the first searched
owner, in search order, whose binding is enabled and names the same combination; the empty
string when there is none. -/
theorem findHotkeyConflict_eq_firstMatch {σ : Type} (env : Env) (w : World σ)
    (candidate : HotkeyBinding) (excludeKey : String) (he : candidate.enabled = true) :
    findHotkeyConflict env w candidate excludeKey =
      (firstMatch candidate (searchedOwners env w excludeKey)).getD "" := by
  unfold findHotkeyConflict searchedOwners storedOwners
  rw [characterConflict_eq candidate he, cycleGroupConflict_eq candidate he,
    profileConflict_eq candidate he]
  simp only [he, Bool.not_true, Bool.false_eq_true, if_false, guard_iff _ _ he,
    firstMatch_append, firstMatch_cons, firstMatch_nil]
  generalize firstMatch candidate
    (List.map (fun p => ("Character: " ++ p.1, p.2)) w.m_characterHotkeys) = rc
  generalize firstMatch candidate (w.m_cycleGroups.flatMap cycleGroupOwners) = rg
  generalize firstMatch candidate (profileOwners env excludeKey) = rp
  cases rc <;> cases rg <;> cases rp <;> simp only [] <;> split_ifs <;> rfl

theorem searchedOwners_label_ne_empty {σ : Type} (env : Env) (w : World σ) (excludeKey : String) :
    ∀ p ∈ searchedOwners env w excludeKey, p.1 ≠ "" := by
  intro p hp
  simp only [searchedOwners, storedOwners, profileOwners, List.mem_append, List.mem_map,
    List.mem_flatMap, cycleGroupOwners, List.mem_cons, List.mem_singleton, List.not_mem_nil,
    or_false, List.mem_filter] at hp
  rcases hp with ((((rfl | ⟨q, -, rfl⟩) | ⟨q, -, (rfl | rfl)⟩) | (rfl | rfl | rfl | rfl)) |
    ⟨q, -, rfl⟩)
  · exact (by decide : "Suspend/Resume Hotkey" ≠ "")
  · exact prefixed_ne_empty _ _ (by decide)
  · simp only [String.append_assoc]; exact prefixed_ne_empty _ _ (by decide)
  · simp only [String.append_assoc]; exact prefixed_ne_empty _ _ (by decide)
  · exact (by decide : "Not Logged In Cycle (Forward)" ≠ "")
  · exact (by decide : "Not Logged In Cycle (Backward)" ≠ "")
  · exact (by decide : "Non-EVE Cycle (Forward)" ≠ "")
  · exact (by decide : "Non-EVE Cycle (Backward)" ≠ "")
  · exact prefixed_ne_empty _ _ (by decide)

/-! ## C2: when a conflict is reported -/

/-- C2, as amended: for every enabled candidate, every store and every `excludeKey`,
`findHotkeyConflict` returns a non-empty label if and only if some searched owner (suspend
toggle, a character, a cycle group forward or backward, not-logged-in forward or backward,
non-target forward or backward, a profile: any profile when `excludeKey` is empty, otherwise
one whose name differs from `excludeKey`) holds an enabled binding with the candidate's key
code, ctrl, alt and shift; and a non-empty label returned is the label of such an owner.
For a disabled candidate `findHotkeyConflict` returns the empty label whatever is stored. -/
theorem findHotkeyConflict_nonempty_iff {σ : Type} (env : Env) (w : World σ)
    (candidate : HotkeyBinding) (excludeKey : String) :
    (candidate.enabled = true →
      (findHotkeyConflict env w candidate excludeKey ≠ "" ↔
        ∃ p ∈ searchedOwners env w excludeKey,
          p.2.enabled = true ∧ sameCombination p.2 candidate) ∧
      (findHotkeyConflict env w candidate excludeKey ≠ "" →
        ∃ p ∈ searchedOwners env w excludeKey,
          p.1 = findHotkeyConflict env w candidate excludeKey ∧
            p.2.enabled = true ∧ sameCombination p.2 candidate)) ∧
    (candidate.enabled = false → findHotkeyConflict env w candidate excludeKey = "") := by
  constructor
  · intro he
    rw [findHotkeyConflict_eq_firstMatch env w candidate excludeKey he]
    cases hm : firstMatch candidate (searchedOwners env w excludeKey) with
    | none =>
      have hn := (firstMatch_none candidate _).1 hm
      refine ⟨⟨fun h => absurd rfl h, ?_⟩, fun h => absurd rfl h⟩
      rintro ⟨p, hp, hpe⟩
      exact absurd hpe (hn p hp)
    | some label =>
      obtain ⟨p, hp, hl, hpe⟩ := firstMatch_some candidate _ label hm
      have hne : label ≠ "" := hl ▸ searchedOwners_label_ne_empty env w excludeKey p hp
      exact ⟨⟨fun _ => ⟨p, hp, hpe⟩, fun _ => hne⟩, fun _ => ⟨p, hp, hl, hpe⟩⟩
  · intro hd
    unfold findHotkeyConflict
    rw [hd]
    rfl

/-- Witness for C2: the enabled candidate F2 against a store where the character Alice holds
F2 gets Alice's label; the same candidate switched off gets the empty label. -/
theorem findHotkeyConflict_nonempty_iff_witness :
    (HotkeyBinding.mk VK_F2 false false false true).enabled = true ∧
    findHotkeyConflict Env.plain
      { World.constructed () with
        m_characterHotkeys := [("Alice", HotkeyBinding.mk VK_F2 false false false true)] }
      (HotkeyBinding.mk VK_F2 false false false true) "" = "Character: Alice" ∧
    ((findHotkeyConflict Env.plain
      { World.constructed () with
        m_characterHotkeys := [("Alice", HotkeyBinding.mk VK_F2 false false false true)] }
      (HotkeyBinding.mk VK_F2 false false false true) "" ≠ "" ↔
      ∃ p ∈ searchedOwners Env.plain
        { World.constructed () with
          m_characterHotkeys := [("Alice", HotkeyBinding.mk VK_F2 false false false true)] } "",
        p.2.enabled = true ∧
          sameCombination p.2 (HotkeyBinding.mk VK_F2 false false false true))) ∧
    (HotkeyBinding.mk VK_F2 false false false false).enabled = false ∧
    findHotkeyConflict Env.plain
      { World.constructed () with
        m_characterHotkeys := [("Alice", HotkeyBinding.mk VK_F2 false false false true)] }
      (HotkeyBinding.mk VK_F2 false false false false) "" = "" :=
  ⟨rfl, by decide, ((findHotkeyConflict_nonempty_iff Env.plain _ _ "").1 rfl).1, rfl,
    (findHotkeyConflict_nonempty_iff Env.plain _ _ "").2 rfl⟩

/-- C2 as stated fails on two inputs.  A disabled candidate F2 gets the empty label although
the character Alice holds an enabled F2.  And with an empty `excludeKey` a profile whose name
is the empty string is searched: the candidate F2 gets the label of that profile although no
stored binding matches and no profile with a name other than `excludeKey` exists. -/
theorem findHotkeyConflict_nonempty_iff_counterexample :
    (findHotkeyConflict Env.plain
        { World.constructed () with
          m_characterHotkeys := [("Alice", HotkeyBinding.mk VK_F2 false false false true)] }
        (HotkeyBinding.mk VK_F2 false false false false) "" = "" ∧
      ∃ p ∈ [("Alice", HotkeyBinding.mk VK_F2 false false false true)],
        p.2.enabled = true ∧
          sameCombination p.2 (HotkeyBinding.mk VK_F2 false false false false)) ∧
    (findHotkeyConflict { Env.plain with profileHotkeys := [("", VK_F2, 0)] }
        (World.constructed ()) (HotkeyBinding.mk VK_F2 false false false true) "" = "Profile: " ∧
      (∀ p ∈ storedOwners (World.constructed ()),
        ¬ (p.2.enabled = true ∧
          sameCombination p.2 (HotkeyBinding.mk VK_F2 false false false true))) ∧
      ∀ e ∈ [(("", VK_F2, 0) : String × Int × Int)], ¬ e.1 ≠ "") := by
  refine ⟨⟨by decide, ⟨_, List.mem_singleton.2 rfl, by decide⟩⟩, by decide, by decide, by decide⟩

/-! ## C9: scenario C -/

theorem characterConflict_first (b : HotkeyBinding) (n : String)
    (post : List (String × HotkeyBinding)) :
    ∀ pre : List (String × HotkeyBinding), (∀ p ∈ pre, p.2 ≠ b) →
      characterConflict b (pre ++ (n, b) :: post) = some ("Character: " ++ n) := by
  intro pre
  induction pre with
  | nil =>
    intro _
    simp [characterConflict, (HotkeyBinding.opEq_iff b b).2 rfl]
  | cons p rest ih =>
    intro h
    obtain ⟨m, c⟩ := p
    have hc : ¬ c.opEq b = true := fun hcb =>
      h (m, c) (List.mem_cons_self _ _) ((HotkeyBinding.opEq_iff c b).1 hcb)
    simp only [List.cons_append, characterConflict, if_neg hc]
    exact ih (fun q hq => h q (List.mem_cons_of_mem _ hq))

/-- C9, as amended: when no enabled suspend binding equals the enabled candidate, the label
returned is that of the first character entry, in the iteration order of the character
table, whose binding equals the candidate, whatever `excludeKey` is.  With Alice and Bob
both stored with F2 this is "Character: Alice" when Alice precedes Bob and "Character: Bob"
when Bob precedes Alice: `excludeKey` filters profile entries only. -/
theorem findHotkeyConflict_first_character {σ : Type} (env : Env) (w : World σ)
    (b : HotkeyBinding) (excludeKey : String) (n : String)
    (pre post : List (String × HotkeyBinding)) (he : b.enabled = true)
    (hs : ¬ (w.m_suspendHotkey.enabled = true ∧ w.m_suspendHotkey = b))
    (hc : w.m_characterHotkeys = pre ++ (n, b) :: post) (hpre : ∀ p ∈ pre, p.2 ≠ b) :
    findHotkeyConflict env w b excludeKey = "Character: " ++ n := by
  unfold findHotkeyConflict
  have h1 : ¬ (w.m_suspendHotkey.enabled && w.m_suspendHotkey.opEq b) = true := by
    rw [Bool.and_eq_true, HotkeyBinding.opEq_iff]; exact hs
  simp only [he, Bool.not_true, Bool.false_eq_true, if_false, if_neg h1, hc,
    characterConflict_first b n post pre hpre]

/-- Witness for C9, both orders of scenario C with `excludeKey` "Bob": Alice first gives
Alice, Bob first gives Bob. -/
theorem findHotkeyConflict_first_character_witness :
    findHotkeyConflict Env.plain
      { World.constructed () with
        m_characterHotkeys := [("Alice", HotkeyBinding.mk VK_F2 false false false true),
          ("Bob", HotkeyBinding.mk VK_F2 false false false true)] }
      (HotkeyBinding.mk VK_F2 false false false true) "Bob" = "Character: " ++ "Alice" ∧
    findHotkeyConflict Env.plain
      { World.constructed () with
        m_characterHotkeys := [("Bob", HotkeyBinding.mk VK_F2 false false false true),
          ("Alice", HotkeyBinding.mk VK_F2 false false false true)] }
      (HotkeyBinding.mk VK_F2 false false false true) "Bob" = "Character: " ++ "Bob" :=
  ⟨findHotkeyConflict_first_character Env.plain _ _ "Bob" "Alice" [] _ rfl (by decide) rfl
      (by simp),
    findHotkeyConflict_first_character Env.plain _ _ "Bob" "Bob" [] _ rfl (by decide) rfl
      (by simp)⟩

/-- C9 as stated fails when Bob's entry precedes Alice's in the iteration order of the
character table: the label returned for Bob's binding with `excludeKey` "Bob" is
"Character: Bob", not "Character: Alice". -/
theorem findHotkeyConflict_scenarioC_counterexample :
    findHotkeyConflict Env.plain
      { World.constructed () with
        m_characterHotkeys := [("Bob", HotkeyBinding.mk VK_F2 false false false true),
          ("Alice", HotkeyBinding.mk VK_F2 false false false true)] }
      (HotkeyBinding.mk VK_F2 false false false true) "Bob" = "Character: Bob" ∧
    findHotkeyConflict Env.plain
      { World.constructed () with
        m_characterHotkeys := [("Bob", HotkeyBinding.mk VK_F2 false false false true),
          ("Alice", HotkeyBinding.mk VK_F2 false false false true)] }
      (HotkeyBinding.mk VK_F2 false false false true) "Bob" ≠ "Character: Alice" := by
  constructor <;> decide

/-! ## C10: a disabled stored binding never conflicts -/

/-- C10: for every store and every candidate, if every stored binding (suspend toggle,
characters, cycle groups forward and backward, not-logged-in, non-target) that has the
candidate's key code, ctrl, alt and shift is disabled, and no profile binding has them, then
`findHotkeyConflict` returns the empty label and `hasHotkeyConflict` returns false. -/
theorem disabled_stored_binding_never_conflicts {σ : Type} (env : Env) (w : World σ)
    (candidate : HotkeyBinding) (excludeKey : String)
    (hs : ∀ p ∈ storedOwners w, sameCombination p.2 candidate → p.2.enabled = false)
    (hp : ∀ e ∈ env.profileHotkeys, ¬ sameCombination (profileBinding e.2.1 e.2.2) candidate) :
    findHotkeyConflict env w candidate excludeKey = "" ∧
      hasHotkeyConflict env w candidate excludeKey = false := by
  have key : findHotkeyConflict env w candidate excludeKey = "" := by
    by_cases he : candidate.enabled = true
    · rw [findHotkeyConflict_eq_firstMatch env w candidate excludeKey he]
      have hn : firstMatch candidate (searchedOwners env w excludeKey) = none := by
        rw [firstMatch_none]
        intro p hpm hpe
        rcases List.mem_append.1 hpm with hst | hpr
        · have := hs p hst hpe.2
          rw [hpe.1] at this
          exact Bool.noConfusion this
        · simp only [profileOwners, List.mem_map, List.mem_filter] at hpr
          obtain ⟨e, ⟨hemem, -⟩, rfl⟩ := hpr
          exact hp e hemem hpe.2
      rw [hn]; rfl
    · unfold findHotkeyConflict
      simp [he]
  refine ⟨key, ?_⟩
  unfold hasHotkeyConflict
  rw [key]; rfl

/-- Witness for C10: the character Alice holds a disabled F2; the candidate is an enabled
F2. -/
theorem disabled_stored_binding_never_conflicts_witness :
    findHotkeyConflict Env.plain
      { World.constructed () with
        m_characterHotkeys := [("Alice", HotkeyBinding.mk VK_F2 false false false false)] }
      (HotkeyBinding.mk VK_F2 false false false true) "" = "" ∧
    hasHotkeyConflict Env.plain
      { World.constructed () with
        m_characterHotkeys := [("Alice", HotkeyBinding.mk VK_F2 false false false false)] }
      (HotkeyBinding.mk VK_F2 false false false true) "" = false :=
  disabled_stored_binding_never_conflicts Env.plain _ _ "" (by decide) (by decide)

/-! ## Tables -/

theorem hContains_eq_isSome {κ ν : Type} [DecidableEq κ] (m : List (κ × ν)) (k : κ) :
    hContains m k = (hFind m k).isSome := by
  induction m with
  | nil => rfl
  | cons p rest ih =>
    by_cases h : p.1 = k
    · simp [hContains, hFind, List.find?, h]
    · simp only [hContains, hFind] at ih
      simp [hContains, hFind, List.find?, h, ih]

theorem hValue_eq_getD {κ ν : Type} [DecidableEq κ] (m : List (κ × ν)) (k : κ) (dflt : ν) :
    hValue m k dflt = (hFind m k).getD dflt := by
  unfold hValue hFind
  cases m.find? (fun p => decide (p.1 = k)) <;> rfl

theorem hFind_nil {κ ν : Type} [DecidableEq κ] (k : κ) : hFind ([] : List (κ × ν)) k = none := rfl

theorem hFind_cons {κ ν : Type} [DecidableEq κ] (p : κ × ν) (m : List (κ × ν)) (k : κ) :
    hFind (p :: m) k = if p.1 = k then some p.2 else hFind m k := by
  by_cases h : p.1 = k <;> simp [hFind, List.find?, h]

theorem hFind_replace {κ ν : Type} [DecidableEq κ] (m : List (κ × ν)) (k : κ) (v : ν) (k2 : κ) :
    hFind (m.map (fun p => if p.1 = k then (k, v) else p)) k2 =
      if k2 = k then (if (hFind m k).isSome then some v else none) else hFind m k2 := by
  induction m with
  | nil => simp [hFind_nil]
  | cons p rest ih =>
    simp only [List.map_cons, hFind_cons, ih]
    by_cases hp : p.1 = k
    · by_cases hk : k2 = k
      · subst hk; simp [hp]
      · have : ¬ k = k2 := fun h => hk h.symm
        have hp2 : ¬ p.1 = k2 := fun h => hk (h.symm.trans hp)
        simp [hp, hk, this, hp2]
    · by_cases hk : k2 = k
      · subst hk; simp [hp]
      · simp [hp, hk]

theorem hFind_append_single {κ ν : Type} [DecidableEq κ] (m : List (κ × ν)) (k : κ) (v : ν)
    (k2 : κ) :
    hFind (m ++ [(k, v)]) k2 =
      match hFind m k2 with
      | some x => some x
      | none => if k = k2 then some v else none := by
  induction m with
  | nil => simp [hFind_cons, hFind_nil]
  | cons p rest ih =>
    simp only [List.cons_append, hFind_cons, ih]
    by_cases hp : p.1 = k2 <;> simp [hp]

/-- Reading a table after `insert`: the inserted key has the inserted value, every other
key is as before. -/
theorem hFind_hInsert {κ ν : Type} [DecidableEq κ] (m : List (κ × ν)) (k : κ) (v : ν) (k2 : κ) :
    hFind (hInsert m k v) k2 = if k2 = k then some v else hFind m k2 := by
  unfold hInsert
  rw [hContains_eq_isSome]
  by_cases hc : (hFind m k).isSome = true
  · rw [if_pos hc, hFind_replace, hc]; simp
  · rw [if_neg hc, hFind_append_single]
    by_cases hk : k2 = k
    · subst hk
      have : hFind m k2 = none := by simpa using hc
      simp [this]
    · have hk2 : ¬ k = k2 := fun h => hk h.symm
      simp only [hk, hk2, if_false]
      cases hFind m k2 <;> rfl

/-! ## The alias loop and `registerHotkey` -/

theorem aliasAttempts_length {σ : Type} (os : OS σ) (keyCode : Int) (mods : List Nat) :
    ∀ (s : σ) (id : Int), (aliasAttempts os keyCode s id mods).length = mods.length := by
  induction mods with
  | nil => intro s id; rfl
  | cons m ms ih => intro s id; simp [aliasAttempts, ih]

theorem aliasAttempts_mods {σ : Type} (os : OS σ) (keyCode : Int) (mods : List Nat) :
    ∀ (s : σ) (id : Int), (aliasAttempts os keyCode s id mods).map (fun a => a.fsModifiers) = mods := by
  induction mods with
  | nil => intro s id; rfl
  | cons m ms ih => intro s id; simp [aliasAttempts, ih]

theorem aliasAttempts_ids {σ : Type} (os : OS σ) (keyCode : Int) (mods : List Nat) :
    ∀ (s : σ) (id : Int),
      (aliasAttempts os keyCode s id mods).map (fun a => a.id) =
        (List.range mods.length).map (fun (i : Nat) => id + (i : Int)) := by
  induction mods with
  | nil => intro s id; rfl
  | cons m ms ih =>
    intro s id
    simp only [aliasAttempts, List.map_cons, List.length_cons, List.range_succ_eq_map,
      List.map_map, ih]
    simp only [Nat.cast_zero, add_zero, List.cons.injEq, true_and]
    apply List.map_congr_left
    intro i _
    simp only [Function.comp, Nat.cast_succ]
    omega

theorem aliasAttempts_id_range {σ : Type} (os : OS σ) (keyCode : Int) (mods : List Nat) (s : σ)
    (id : Int) : ∀ a ∈ aliasAttempts os keyCode s id mods, id ≤ a.id ∧ a.id < id + mods.length := by
  intro a ha
  have hmem : a.id ∈ (aliasAttempts os keyCode s id mods).map (fun a => a.id) :=
    List.mem_map.2 ⟨a, ha, rfl⟩
  rw [aliasAttempts_ids] at hmem
  obtain ⟨i, hi, hia⟩ := List.mem_map.1 hmem
  have := List.mem_range.1 hi
  omega

/-- The alias loop in closed form: the allocator advances by the number of masks, the calls
are the attempts in order, and the alias table records the accepted ones; nothing else
changes. -/
theorem registerAlias_foldl {σ : Type} (os : OS σ) (hotkeyId keyCode : Int) (mods : List Nat) :
    ∀ w : World σ,
      mods.foldl (registerAlias os hotkeyId keyCode) w =
        { w with
          m_nextHotkeyId := w.m_nextHotkeyId + mods.length
          m_wildcardAliases := recordAliases hotkeyId w.m_wildcardAliases
            (aliasAttempts os keyCode w.os w.m_nextHotkeyId mods)
          os := aliasFinalOS os keyCode w.os w.m_nextHotkeyId mods
          calls := w.calls ++
            (aliasAttempts os keyCode w.os w.m_nextHotkeyId mods).map
              (AliasAttempt.toCall keyCode) } := by
  induction mods with
  | nil => intro w; simp [aliasAttempts, aliasFinalOS, recordAliases]
  | cons m ms ih =>
    intro w
    rw [List.foldl_cons, ih]
    cases hans : (os.registerHotKey w.os w.m_nextHotkeyId m keyCode).1 <;>
      simp [registerAlias, osRegisterHotKey, aliasAttempts, aliasFinalOS, recordAliases, hans,
        AliasAttempt.toCall] <;> omega

theorem hFind_recordAliases (hotkeyId : Int) (attempts : List AliasAttempt) :
    ∀ (table : List (Int × Int)) (k : Int),
      hFind (recordAliases hotkeyId table attempts) k =
        if ∃ a ∈ attempts, a.id = k ∧ a.accepted = true then some hotkeyId
        else hFind table k := by
  induction attempts with
  | nil => intro table k; simp [recordAliases]
  | cons a rest ih =>
    intro table k
    have hstep : recordAliases hotkeyId table (a :: rest) =
        recordAliases hotkeyId (if a.accepted then hInsert table a.id hotkeyId else table) rest :=
      rfl
    rw [hstep, ih]
    by_cases hrest : ∃ x ∈ rest, x.id = k ∧ x.accepted = true
    · have : ∃ x ∈ a :: rest, x.id = k ∧ x.accepted = true := by
        obtain ⟨x, hx, hxk⟩ := hrest
        exact ⟨x, List.mem_cons_of_mem _ hx, hxk⟩
      rw [if_pos hrest, if_pos this]
    · rw [if_neg hrest]
      by_cases ha : a.id = k ∧ a.accepted = true
      · have : ∃ x ∈ a :: rest, x.id = k ∧ x.accepted = true := ⟨a, List.mem_cons_self _ _, ha⟩
        rw [if_pos this, if_pos ha.2, hFind_hInsert, if_pos ha.1.symm]
      · have : ¬ ∃ x ∈ a :: rest, x.id = k ∧ x.accepted = true := by
          rintro ⟨x, hx, hxk⟩
          rcases List.mem_cons.1 hx with rfl | hx
          · exact ha hxk
          · exact hrest ⟨x, hx, hxk⟩
        rw [if_neg this]
        by_cases hacc : a.accepted = true
        · rw [if_pos hacc, hFind_hInsert]
          have hne : ¬ k = a.id := fun h => ha ⟨h.symm, hacc⟩
          rw [if_neg hne]
        · rw [if_neg hacc]

theorem registerHotkey_disabled {σ : Type} (os : OS σ) (env : Env) (b : HotkeyBinding)
    (w : World σ) (hd : b.enabled = false) : registerHotkey os env b w = (none, w) := by
  simp [registerHotkey, hd]

theorem registerHotkey_rejected {σ : Type} (os : OS σ) (env : Env) (b : HotkeyBinding)
    (w : World σ) (he : b.enabled = true)
    (hr : (os.registerHotKey w.os w.m_nextHotkeyId (bindingModifiers b) b.keyCode).1 = false) :
    registerHotkey os env b w =
      (none,
        { w with
          m_nextHotkeyId := w.m_nextHotkeyId + 1
          os := (os.registerHotKey w.os w.m_nextHotkeyId (bindingModifiers b) b.keyCode).2
          calls := w.calls ++
            [OSCall.registerHotKey w.m_nextHotkeyId (bindingModifiers b) b.keyCode false] }) := by
  simp [registerHotkey, osRegisterHotKey, he, hr]

theorem registerHotkey_plain {σ : Type} (os : OS σ) (env : Env) (b : HotkeyBinding)
    (w : World σ) (he : b.enabled = true)
    (ha : (os.registerHotKey w.os w.m_nextHotkeyId (bindingModifiers b) b.keyCode).1 = true)
    (hw : env.wildcardHotkeys = false) :
    registerHotkey os env b w =
      (some w.m_nextHotkeyId,
        { w with
          m_nextHotkeyId := w.m_nextHotkeyId + 1
          os := (os.registerHotKey w.os w.m_nextHotkeyId (bindingModifiers b) b.keyCode).2
          calls := w.calls ++
            [OSCall.registerHotKey w.m_nextHotkeyId (bindingModifiers b) b.keyCode true] }) := by
  simp [registerHotkey, osRegisterHotKey, he, ha, hw]

theorem registerHotkey_wildcard {σ : Type} (os : OS σ) (env : Env) (b : HotkeyBinding)
    (w : World σ) (he : b.enabled = true)
    (ha : (os.registerHotKey w.os w.m_nextHotkeyId (bindingModifiers b) b.keyCode).1 = true)
    (hw : env.wildcardHotkeys = true) :
    registerHotkey os env b w =
      (some w.m_nextHotkeyId,
        { w with
          m_nextHotkeyId :=
            w.m_nextHotkeyId + 1 + (additionalMods b (bindingModifiers b)).length
          m_wildcardAliases := recordAliases w.m_nextHotkeyId w.m_wildcardAliases
            (aliasAttempts os b.keyCode
              (os.registerHotKey w.os w.m_nextHotkeyId (bindingModifiers b) b.keyCode).2
              (w.m_nextHotkeyId + 1) (additionalMods b (bindingModifiers b)))
          os := aliasFinalOS os b.keyCode
              (os.registerHotKey w.os w.m_nextHotkeyId (bindingModifiers b) b.keyCode).2
              (w.m_nextHotkeyId + 1) (additionalMods b (bindingModifiers b))
          calls := w.calls ++
            OSCall.registerHotKey w.m_nextHotkeyId (bindingModifiers b) b.keyCode true ::
              (aliasAttempts os b.keyCode
                (os.registerHotKey w.os w.m_nextHotkeyId (bindingModifiers b) b.keyCode).2
                (w.m_nextHotkeyId + 1) (additionalMods b (bindingModifiers b))).map
                (AliasAttempt.toCall b.keyCode) }) := by
  simp [registerHotkey, osRegisterHotKey, he, ha, hw, registerAlias_foldl]

theorem additionalMods_length (b : HotkeyBinding) (modifiers : Nat) :
    (additionalMods b modifiers).length = 2 ^ (3 - requiredCount b) - 1 := by
  obtain ⟨key, c, a, s, e⟩ := b
  cases c <;> cases a <;> cases s <;> simp [additionalMods, requiredCount]

theorem additionalMods_nodup (b : HotkeyBinding) :
    (additionalMods b (bindingModifiers b)).Nodup := by
  obtain ⟨key, c, a, s, e⟩ := b
  cases c <;> cases a <;> cases s <;>
    simp [additionalMods, bindingModifiers, MOD_NOREPEAT, MOD_CONTROL, MOD_ALT, MOD_SHIFT]

theorem additionalMods_exact (b : HotkeyBinding) (m : Nat) :
    m ∈ additionalMods b (bindingModifiers b) ↔
      ∃ sc sa ss : Bool, (sc || sa || ss) = true ∧ (sc = true → b.ctrl = false) ∧
        (sa = true → b.alt = false) ∧ (ss = true → b.shift = false) ∧
        m = bindingModifiers
          { b with ctrl := b.ctrl || sc, alt := b.alt || sa, shift := b.shift || ss } := by
  obtain ⟨key, c, a, s, e⟩ := b
  cases c <;> cases a <;> cases s <;>
    simp [additionalMods, bindingModifiers, MOD_NOREPEAT, MOD_CONTROL, MOD_ALT, MOD_SHIFT,
      Bool.exists_bool] <;> omega

/-! ## C5: number of alias attempts -/

/-- C5: for every enabled binding whose canonical registration the operating system
accepts, with `R` of its flags ctrl, alt, shift set: under wildcard mode `registerHotkey`
makes, after the canonical call, exactly `2 ^ (3 - R) - 1` further `RegisterHotKey` calls,
at the consecutive ids the allocator hands out next (so the allocator ends just past the
last of them), whatever the operating system answers to them; with wildcard mode off the
canonical call is the only one. -/
theorem registerHotkey_wildcard_count {σ : Type} (os : OS σ) (env : Env) (b : HotkeyBinding)
    (w : World σ) (he : b.enabled = true)
    (ha : (os.registerHotKey w.os w.m_nextHotkeyId (bindingModifiers b) b.keyCode).1 = true) :
    (env.wildcardHotkeys = true →
      ∃ attempts : List AliasAttempt,
        (registerHotkey os env b w).2.calls =
          w.calls ++ OSCall.registerHotKey w.m_nextHotkeyId (bindingModifiers b) b.keyCode true ::
            attempts.map (AliasAttempt.toCall b.keyCode) ∧
        attempts.length = 2 ^ (3 - requiredCount b) - 1 ∧
        attempts.map (fun a => a.id) =
          (List.range attempts.length).map (fun (i : Nat) => w.m_nextHotkeyId + 1 + (i : Int)) ∧
        (registerHotkey os env b w).2.m_nextHotkeyId =
          w.m_nextHotkeyId + 1 + attempts.length) ∧
    (env.wildcardHotkeys = false →
      (registerHotkey os env b w).2.calls =
          w.calls ++ [OSCall.registerHotKey w.m_nextHotkeyId (bindingModifiers b) b.keyCode true] ∧
        (registerHotkey os env b w).2.m_nextHotkeyId = w.m_nextHotkeyId + 1) := by
  constructor
  · intro hw
    rw [registerHotkey_wildcard os env b w he ha hw]
    refine ⟨_, rfl, ?_, ?_, ?_⟩
    · rw [aliasAttempts_length, additionalMods_length]
    · rw [aliasAttempts_ids, aliasAttempts_length]
    · rw [aliasAttempts_length]
  · intro hw
    rw [registerHotkey_plain os env b w he ha hw]
    exact ⟨rfl, rfl⟩

/-- Witness for C5: Ctrl+F1 on a freshly constructed manager, every registration accepted;
one flag is set, so there are three alias attempts. -/
theorem registerHotkey_wildcard_count_witness :
    ctrlF1.enabled = true ∧
    (OS.acceptAll.registerHotKey () 1000 (bindingModifiers ctrlF1) ctrlF1.keyCode).1 = true ∧
    ∃ attempts : List AliasAttempt,
      (registerHotkey OS.acceptAll Env.wildcard ctrlF1 (World.constructed ())).2.calls =
        [] ++ OSCall.registerHotKey 1000 (bindingModifiers ctrlF1) ctrlF1.keyCode true ::
          attempts.map (AliasAttempt.toCall ctrlF1.keyCode) ∧
      attempts.length = 2 ^ (3 - requiredCount ctrlF1) - 1 ∧
      attempts.map (fun a => a.id) =
        (List.range attempts.length).map (fun (i : Nat) => (1000 : Int) + 1 + (i : Int)) ∧
      (registerHotkey OS.acceptAll Env.wildcard ctrlF1 (World.constructed ())).2.m_nextHotkeyId =
        1000 + 1 + attempts.length :=
  ⟨rfl, rfl,
    (registerHotkey_wildcard_count OS.acceptAll Env.wildcard ctrlF1 (World.constructed ())
      rfl rfl).1 rfl⟩

/-! ## C6: which aliases are attempted and recorded -/

/-- C6: for every enabled binding whose canonical registration the operating system accepts
under wildcard mode, the alias attempts of `registerHotkey` carry the binding's key code and
pairwise different modifier masks, the masks attempted are exactly the masks of the
binding's required modifiers united with a non-empty set of modifiers the binding does not
require, the attempts use the consecutive ids after the canonical id, and afterwards the
alias table maps the id of every accepted attempt to the canonical id and is unchanged at
every other id (nothing is recorded for a rejected attempt). -/
theorem registerHotkey_alias_set {σ : Type} (os : OS σ) (env : Env) (b : HotkeyBinding)
    (w : World σ) (he : b.enabled = true) (hw : env.wildcardHotkeys = true)
    (ha : (os.registerHotKey w.os w.m_nextHotkeyId (bindingModifiers b) b.keyCode).1 = true) :
    ∃ attempts : List AliasAttempt,
      (registerHotkey os env b w).1 = some w.m_nextHotkeyId ∧
      (registerHotkey os env b w).2.calls =
        w.calls ++ OSCall.registerHotKey w.m_nextHotkeyId (bindingModifiers b) b.keyCode true ::
          attempts.map (AliasAttempt.toCall b.keyCode) ∧
      (attempts.map (fun a => a.fsModifiers)).Nodup ∧
      (∀ m : Nat, m ∈ attempts.map (fun a => a.fsModifiers) ↔
        ∃ sc sa ss : Bool, (sc || sa || ss) = true ∧ (sc = true → b.ctrl = false) ∧
          (sa = true → b.alt = false) ∧ (ss = true → b.shift = false) ∧
          m = bindingModifiers
            { b with ctrl := b.ctrl || sc, alt := b.alt || sa, shift := b.shift || ss }) ∧
      attempts.map (fun a => a.id) =
        (List.range attempts.length).map (fun (i : Nat) => w.m_nextHotkeyId + 1 + (i : Int)) ∧
      ∀ k : Int, hFind (registerHotkey os env b w).2.m_wildcardAliases k =
        if ∃ a ∈ attempts, a.id = k ∧ a.accepted = true then some w.m_nextHotkeyId
        else hFind w.m_wildcardAliases k := by
  rw [registerHotkey_wildcard os env b w he ha hw]
  refine ⟨_, rfl, rfl, ?_, ?_, ?_, ?_⟩
  · rw [aliasAttempts_mods]; exact additionalMods_nodup b
  · intro m; rw [aliasAttempts_mods]; exact additionalMods_exact b m
  · rw [aliasAttempts_ids, aliasAttempts_length]
  · intro k; exact hFind_recordAliases _ _ _ k

/-- Witness for C6: Ctrl+F1 on a freshly constructed manager, every registration accepted. -/
theorem registerHotkey_alias_set_witness :
    ∃ attempts : List AliasAttempt,
      (registerHotkey OS.acceptAll Env.wildcard ctrlF1 (World.constructed ())).1 = some 1000 ∧
      (registerHotkey OS.acceptAll Env.wildcard ctrlF1 (World.constructed ())).2.calls =
        [] ++ OSCall.registerHotKey 1000 (bindingModifiers ctrlF1) ctrlF1.keyCode true ::
          attempts.map (AliasAttempt.toCall ctrlF1.keyCode) ∧
      (attempts.map (fun a => a.fsModifiers)).Nodup ∧
      (∀ m : Nat, m ∈ attempts.map (fun a => a.fsModifiers) ↔
        ∃ sc sa ss : Bool, (sc || sa || ss) = true ∧ (sc = true → ctrlF1.ctrl = false) ∧
          (sa = true → ctrlF1.alt = false) ∧ (ss = true → ctrlF1.shift = false) ∧
          m = bindingModifiers
            { ctrlF1 with
              ctrl := ctrlF1.ctrl || sc, alt := ctrlF1.alt || sa, shift := ctrlF1.shift || ss }) ∧
      attempts.map (fun a => a.id) =
        (List.range attempts.length).map (fun (i : Nat) => (1000 : Int) + 1 + (i : Int)) ∧
      ∀ k : Int,
        hFind (registerHotkey OS.acceptAll Env.wildcard ctrlF1
          (World.constructed ())).2.m_wildcardAliases k =
        if ∃ a ∈ attempts, a.id = k ∧ a.accepted = true then some 1000
        else hFind ([] : List (Int × Int)) k :=
  registerHotkey_alias_set OS.acceptAll Env.wildcard ctrlF1 (World.constructed ()) rfl rfl rfl

/-! ## Invariants of the id tables -/

theorem Later.refl {σ : Type} (w : World σ) : Later w w :=
  { settings := rfl
    next_le := le_refl _
    calls := List.prefix_refl _
    old := fun _ _ => rfl
    beyond := fun _ _ => rfl
    aliases := fun _ _ h => Or.inl h
    slots := fun _ => Or.inl rfl }

theorem Later.trans {σ : Type} {w1 w2 w3 : World σ} (h12 : Later w1 w2) (h23 : Later w2 w3) :
    Later w1 w3 :=
  { settings := h23.settings.trans h12.settings
    next_le := le_trans h12.next_le h23.next_le
    calls := List.IsPrefix.trans h12.calls h23.calls
    old := fun k hk =>
      (h23.old k (lt_of_lt_of_le hk h12.next_le)).trans (h12.old k hk)
    beyond := fun k hk =>
      (h23.beyond k hk).trans (h12.beyond k (le_trans h23.next_le hk))
    aliases := by
      intro k v hkv
      rcases h23.aliases k v hkv with hold | ⟨h1, h2, h3, h4⟩
      · rcases h12.aliases k v hold with hold1 | ⟨g1, g2, g3, g4⟩
        · exact Or.inl hold1
        · refine Or.inr ⟨g1, g2, lt_of_lt_of_le g3 h23.next_le, ?_⟩
          have := h23.old v (lt_trans g2 g3)
          simp only [World.tablesAt, Prod.mk.injEq] at this
          rw [this.1]; exact g4
      · exact Or.inr ⟨le_trans h12.next_le h1, h2, h3, h4⟩
    slots := by
      intro slot
      rcases h23.slots slot with h | ⟨h1, h2⟩
      · rcases h12.slots slot with g | ⟨g1, g2⟩
        · exact Or.inl (h.trans g)
        · exact Or.inr ⟨h ▸ g1, h ▸ lt_of_lt_of_le g2 h23.next_le⟩
      · exact Or.inr ⟨le_trans h12.next_le h1, h2⟩ }

/-- The bound on the tracked ids survives every sequence of registrations. -/
theorem Bounded.of_later {σ : Type} {w1 w2 : World σ} (hb : Bounded w1) (hl : Later w1 w2) :
    Bounded w2 :=
  { tables := fun k hk =>
      (hl.beyond k hk).trans (hb.tables k (le_trans hl.next_le hk))
    aliases := by
      intro k v hkv
      rcases hl.aliases k v hkv with hold | ⟨_, h2, _, h4⟩
      · have hvk := (hb.aliases k v hold).1
        have hklt : k < w1.m_nextHotkeyId := by
          by_contra hge
          have := hb.tables k (not_lt.1 hge)
          simp only [World.tablesAt, Prod.mk.injEq] at this
          rw [this.1] at hold
          exact Option.noConfusion hold
        have := hl.old v (lt_trans hvk hklt)
        simp only [World.tablesAt, Prod.mk.injEq] at this
        exact ⟨hvk, this.1.trans (hb.aliases k v hold).2⟩
      · exact ⟨h2, h4⟩
    slots := by
      intro slot
      rcases hl.slots slot with h | ⟨_, h2⟩
      · rcases hb.slots slot with g | g
        · exact Or.inl (h.trans g)
        · exact Or.inr (h ▸ lt_of_lt_of_le g hl.next_le)
      · exact Or.inr h2 }

/-- A fold of steps that each lead to a later world leads to a later world. -/
theorem Later.foldl {σ α : Type} (f : World σ → α → World σ)
    (hf : ∀ (w : World σ) (x : α), Bounded w → Later w (f w x)) (l : List α) :
    ∀ w : World σ, Bounded w → Later w (l.foldl f w) := by
  induction l with
  | nil => intro w _; exact Later.refl w
  | cons x rest ih =>
    intro w hb
    exact Later.trans (hf w x hb) (ih (f w x) (Bounded.of_later hb (hf w x hb)))

theorem registerHotkey_cases {σ : Type} (os : OS σ) (env : Env) (b : HotkeyBinding)
    (w : World σ) :
    registerHotkey os env b w = (none, w) ∨
    (∃ ok : Bool, ∃ s : σ,
      registerHotkey os env b w =
        (if ok then some w.m_nextHotkeyId else none,
          { w with
            m_nextHotkeyId := w.m_nextHotkeyId + 1
            os := s
            calls := w.calls ++
              [OSCall.registerHotKey w.m_nextHotkeyId (bindingModifiers b) b.keyCode ok] })) ∨
    (∃ (s1 s2 : σ) (mods : List Nat),
      registerHotkey os env b w =
        (some w.m_nextHotkeyId,
          { w with
            m_nextHotkeyId := w.m_nextHotkeyId + 1 + mods.length
            m_wildcardAliases := recordAliases w.m_nextHotkeyId w.m_wildcardAliases
              (aliasAttempts os b.keyCode s1 (w.m_nextHotkeyId + 1) mods)
            os := s2
            calls := w.calls ++
              OSCall.registerHotKey w.m_nextHotkeyId (bindingModifiers b) b.keyCode true ::
                (aliasAttempts os b.keyCode s1 (w.m_nextHotkeyId + 1) mods).map
                  (AliasAttempt.toCall b.keyCode) })) := by
  by_cases he : b.enabled = true
  · cases ha : (os.registerHotKey w.os w.m_nextHotkeyId (bindingModifiers b) b.keyCode).1
    · exact Or.inr (Or.inl ⟨false, _, registerHotkey_rejected os env b w he ha⟩)
    · cases hw : env.wildcardHotkeys
      · exact Or.inr (Or.inl ⟨true, _, registerHotkey_plain os env b w he ha hw⟩)
      · exact Or.inr (Or.inr ⟨_, _, _, registerHotkey_wildcard os env b w he ha hw⟩)
  · exact Or.inl (registerHotkey_disabled os env b w (by simpa using he))

/-- The result of `registerHotkey`: on success the id is the old allocator value and the
allocator has moved past it. -/
theorem registerHotkey_id {σ : Type} (os : OS σ) (env : Env) (b : HotkeyBinding) (w : World σ)
    (id : Int) (h : (registerHotkey os env b w).1 = some id) :
    id = w.m_nextHotkeyId ∧ w.m_nextHotkeyId < (registerHotkey os env b w).2.m_nextHotkeyId := by
  rcases registerHotkey_cases os env b w with h0 | ⟨ok, s, h1⟩ | ⟨s1, s2, mods, h2⟩
  · rw [h0] at h; exact Option.noConfusion h
  · rw [h1] at h ⊢
    cases ok
    · exact Option.noConfusion h
    · simp only [if_true, Option.some.injEq] at h
      exact ⟨h.symm, by simp⟩
  · rw [h2] at h ⊢
    simp only [Option.some.injEq] at h
    refine ⟨h.symm, ?_⟩
    simp only
    omega

/-- A call of `registerHotkey` leads to a later world. -/
theorem registerHotkey_later {σ : Type} (os : OS σ) (env : Env) (b : HotkeyBinding)
    (w : World σ) (hb : Bounded w) : Later w (registerHotkey os env b w).2 := by
  rcases registerHotkey_cases os env b w with h0 | ⟨ok, s, h1⟩ | ⟨s1, s2, mods, h2⟩
  · rw [h0]; exact Later.refl w
  · rw [h1]
    exact
      { settings := rfl
        next_le := by simp
        calls := List.prefix_append _ _
        old := fun _ _ => rfl
        beyond := fun _ _ => rfl
        aliases := fun _ _ h => Or.inl h
        slots := fun slot => Or.inl (by cases slot <;> rfl) }
  · rw [h2]
    have hrange := aliasAttempts_id_range os b.keyCode mods s1 (w.m_nextHotkeyId + 1)
    have hnone : hFind w.m_wildcardAliases w.m_nextHotkeyId = none := by
      have := hb.tables w.m_nextHotkeyId (le_refl _)
      simp only [World.tablesAt, Prod.mk.injEq] at this
      exact this.1
    have hfind := hFind_recordAliases w.m_nextHotkeyId
      (aliasAttempts os b.keyCode s1 (w.m_nextHotkeyId + 1) mods) w.m_wildcardAliases
    have outside : ∀ k : Int, (k < w.m_nextHotkeyId + 1 ∨ w.m_nextHotkeyId + 1 + mods.length ≤ k) →
        hFind (recordAliases w.m_nextHotkeyId w.m_wildcardAliases
          (aliasAttempts os b.keyCode s1 (w.m_nextHotkeyId + 1) mods)) k =
          hFind w.m_wildcardAliases k := by
      intro k hk
      rw [hfind, if_neg]
      rintro ⟨a, ha, hak, -⟩
      have := hrange a ha
      omega
    exact
      { settings := rfl
        next_le := by simp only; omega
        calls := List.prefix_append _ _
        old := by
          intro k hk
          simp only [World.tablesAt, Prod.mk.injEq, and_true]
          exact outside k (Or.inl (by omega))
        beyond := by
          intro k hk
          simp only [World.tablesAt, Prod.mk.injEq, and_true]
          exact outside k (Or.inr hk)
        aliases := by
          intro k v hkv
          simp only at hkv ⊢
          rw [hfind] at hkv
          split_ifs at hkv with hex
          · obtain ⟨a, ha, hak, -⟩ := hex
            have := hrange a ha
            simp only [Option.some.injEq] at hkv
            refine Or.inr ⟨by omega, by omega, by omega, ?_⟩
            rw [← hkv, outside _ (Or.inl (by omega))]
            exact hnone
          · exact Or.inl hkv
        slots := fun slot => Or.inl (by cases slot <;> rfl) }

/-- A registration block leads to a later world. -/
theorem registerWith_later {σ : Type} (os : OS σ) (env : Env) (b : HotkeyBinding)
    (commit : Int → World σ → World σ)
    (hc : ∀ (id : Int) (w1 : World σ), Commit id w1 (commit id w1))
    (w : World σ) (hb : Bounded w) : Later w (registerWith os env b commit w) := by
  have hl := registerHotkey_later os env b w hb
  unfold registerWith
  cases hr : (registerHotkey os env b w).1 with
  | none => exact hl
  | some id =>
    obtain ⟨hid, hlt⟩ := registerHotkey_id os env b w id hr
    have hcm := hc id (registerHotkey os env b w).2
    simp only
    exact
      { settings := hcm.settings.trans hl.settings
        next_le := hcm.next ▸ hl.next_le
        calls := hcm.calls ▸ hl.calls
        old := fun k hk => (hcm.tables k (by omega)).trans (hl.old k hk)
        beyond := fun k hk =>
          (hcm.tables k (by rw [hcm.next] at hk; omega)).trans
            (hl.beyond k (by rw [hcm.next] at hk; exact hk))
        aliases := by
          intro k v hkv
          rw [hcm.aliases] at hkv ⊢
          rw [hcm.next]
          exact hl.aliases k v hkv
        slots := by
          intro slot
          rcases hcm.slots slot with h | h
          · rw [h, hcm.next]; exact hl.slots slot
          · rw [h, hcm.next]; exact Or.inr ⟨by omega, by omega⟩ }

theorem tablesAt_character_insert {σ : Type} (w : World σ) (id : Int) (name : String) (k : Int)
    (hk : k ≠ id) :
    World.tablesAt
      { w with m_hotkeyIdToCharacter := hInsert w.m_hotkeyIdToCharacter id name } k =
      w.tablesAt k := by
  simp only [World.tablesAt, hFind_hInsert, if_neg hk]

theorem tablesAt_profile_insert {σ : Type} (w : World σ) (id : Int) (name : String) (k : Int)
    (hk : k ≠ id) :
    World.tablesAt
      { w with m_hotkeyIdToProfile := hInsert w.m_hotkeyIdToProfile id name } k =
      w.tablesAt k := by
  simp only [World.tablesAt, hFind_hInsert, if_neg hk]

theorem tablesAt_cycle_insert {σ : Type} (w : World σ) (id : Int) (name : String)
    (isForward : Bool) (k : Int) (hk : k ≠ id) :
    World.tablesAt
      { w with
        m_hotkeyIdToCycleGroup := hInsert w.m_hotkeyIdToCycleGroup id name
        m_hotkeyIdIsForward := hInsert w.m_hotkeyIdIsForward id isForward } k =
      w.tablesAt k := by
  simp only [World.tablesAt, hFind_hInsert, if_neg hk]

theorem registerSuspendHotkey_later {σ : Type} (os : OS σ) (env : Env) (w : World σ)
    (hb : Bounded w) : Later w (registerSuspendHotkey os env w) := by
  unfold registerSuspendHotkey
  split_ifs
  · exact registerWith_later os env w.m_suspendHotkey
      (fun id w1 => { w1 with m_suspendHotkeyId := id })
      (fun id w1 =>
        { settings := rfl, next := rfl, calls := rfl, aliases := rfl
          tables := fun _ _ => rfl
          slots := fun slot => by cases slot <;> simp [World.slotId] }) w hb
  · exact Later.refl w

theorem registerCharacterHotkey_later {σ : Type} (os : OS σ) (env : Env) (w : World σ)
    (entry : String × HotkeyBinding) (hb : Bounded w) :
    Later w (registerCharacterHotkey os env w entry) :=
  registerWith_later os env entry.2
    (fun id w1 =>
      { w1 with m_hotkeyIdToCharacter := hInsert w1.m_hotkeyIdToCharacter id entry.1 })
    (fun id w1 =>
      { settings := rfl, next := rfl, calls := rfl, aliases := rfl
        tables := fun k hk => tablesAt_character_insert w1 id entry.1 k hk
        slots := fun slot => by cases slot <;> simp [World.slotId] }) w hb

theorem registerCycleDirection_later {σ : Type} (os : OS σ) (env : Env) (groupName : String)
    (binding : HotkeyBinding) (isForward : Bool) (w : World σ) (hb : Bounded w) :
    Later w (registerCycleDirection os env groupName binding isForward w) := by
  unfold registerCycleDirection
  split_ifs
  · exact registerWith_later os env binding
      (fun id w1 =>
        { w1 with
          m_hotkeyIdToCycleGroup := hInsert w1.m_hotkeyIdToCycleGroup id groupName
          m_hotkeyIdIsForward := hInsert w1.m_hotkeyIdIsForward id isForward })
      (fun id w1 =>
        { settings := rfl, next := rfl, calls := rfl, aliases := rfl
          tables := fun k hk => tablesAt_cycle_insert w1 id groupName isForward k hk
          slots := fun slot => by cases slot <;> simp [World.slotId] }) w hb
  · exact Later.refl w

theorem registerCycleGroup_later {σ : Type} (os : OS σ) (env : Env) (w : World σ)
    (entry : String × CycleGroup) (hb : Bounded w) :
    Later w (registerCycleGroup os env w entry) := by
  unfold registerCycleGroup
  have h1 := registerCycleDirection_later os env entry.1 entry.2.forwardBinding true w hb
  exact Later.trans h1
    (registerCycleDirection_later os env entry.1 entry.2.backwardBinding false _
      (Bounded.of_later hb h1))

theorem registerNotLoggedInForward_later {σ : Type} (os : OS σ) (env : Env) (w : World σ)
    (hb : Bounded w) : Later w (registerNotLoggedInForward os env w) := by
  unfold registerNotLoggedInForward
  split_ifs
  · exact registerWith_later os env w.m_notLoggedInForwardHotkey
      (fun id w1 => { w1 with m_notLoggedInForwardHotkeyId := id })
      (fun id w1 =>
        { settings := rfl, next := rfl, calls := rfl, aliases := rfl
          tables := fun _ _ => rfl
          slots := fun slot => by cases slot <;> simp [World.slotId] }) w hb
  · exact Later.refl w

theorem registerNotLoggedInBackward_later {σ : Type} (os : OS σ) (env : Env) (w : World σ)
    (hb : Bounded w) : Later w (registerNotLoggedInBackward os env w) := by
  unfold registerNotLoggedInBackward
  split_ifs
  · exact registerWith_later os env w.m_notLoggedInBackwardHotkey
      (fun id w1 => { w1 with m_notLoggedInBackwardHotkeyId := id })
      (fun id w1 =>
        { settings := rfl, next := rfl, calls := rfl, aliases := rfl
          tables := fun _ _ => rfl
          slots := fun slot => by cases slot <;> simp [World.slotId] }) w hb
  · exact Later.refl w

theorem registerNonEVEForward_later {σ : Type} (os : OS σ) (env : Env) (w : World σ)
    (hb : Bounded w) : Later w (registerNonEVEForward os env w) := by
  unfold registerNonEVEForward
  split_ifs
  · exact registerWith_later os env w.m_nonEVEForwardHotkey
      (fun id w1 => { w1 with m_nonEVEForwardHotkeyId := id })
      (fun id w1 =>
        { settings := rfl, next := rfl, calls := rfl, aliases := rfl
          tables := fun _ _ => rfl
          slots := fun slot => by cases slot <;> simp [World.slotId] }) w hb
  · exact Later.refl w

theorem registerNonEVEBackward_later {σ : Type} (os : OS σ) (env : Env) (w : World σ)
    (hb : Bounded w) : Later w (registerNonEVEBackward os env w) := by
  unfold registerNonEVEBackward
  split_ifs
  · exact registerWith_later os env w.m_nonEVEBackwardHotkey
      (fun id w1 => { w1 with m_nonEVEBackwardHotkeyId := id })
      (fun id w1 =>
        { settings := rfl, next := rfl, calls := rfl, aliases := rfl
          tables := fun _ _ => rfl
          slots := fun slot => by cases slot <;> simp [World.slotId] }) w hb
  · exact Later.refl w

theorem registerCloseAllClients_later {σ : Type} (os : OS σ) (env : Env) (w : World σ)
    (hb : Bounded w) : Later w (registerCloseAllClients os env w) := by
  unfold registerCloseAllClients
  split_ifs
  · exact registerWith_later os env w.m_closeAllClientsHotkey
      (fun id w1 => { w1 with m_closeAllClientsHotkeyId := id })
      (fun id w1 =>
        { settings := rfl, next := rfl, calls := rfl, aliases := rfl
          tables := fun _ _ => rfl
          slots := fun slot => by cases slot <;> simp [World.slotId] }) w hb
  · exact Later.refl w

theorem registerProfileHotkey_later {σ : Type} (os : OS σ) (env : Env) (w : World σ)
    (entry : String × Int × Int) (hb : Bounded w) :
    Later w (registerProfileHotkey os env w entry) :=
  registerWith_later os env (profileBinding entry.2.1 entry.2.2)
    (fun id w1 =>
      { w1 with m_hotkeyIdToProfile := hInsert w1.m_hotkeyIdToProfile id entry.1 })
    (fun id w1 =>
      { settings := rfl, next := rfl, calls := rfl, aliases := rfl
        tables := fun k hk => tablesAt_profile_insert w1 id entry.1 k hk
        slots := fun slot => by cases slot <;> simp [World.slotId] }) w hb

theorem registerProfileHotkeys_later {σ : Type} (os : OS σ) (env : Env) (w : World σ)
    (hb : Bounded w) : Later w (registerProfileHotkeys os env w) :=
  Later.foldl (registerProfileHotkey os env)
    (fun w1 e hb1 => registerProfileHotkey_later os env w1 e hb1) env.profileHotkeys w hb

/-- The part of a rebuild that comes after the character loop leads to a later world. -/
theorem registerAfterCharacters_later {σ : Type} (os : OS σ) (env : Env) (w : World σ)
    (hb : Bounded w) :
    Later w (registerProfileHotkeys os env (registerCloseAllClients os env
      (registerNonEVEBackward os env (registerNonEVEForward os env
        (registerNotLoggedInBackward os env (registerNotLoggedInForward os env
          (w.m_cycleGroups.foldl (registerCycleGroup os env) w))))))) := by
  have h2 := Later.foldl (registerCycleGroup os env)
    (fun w1 e hb1 => registerCycleGroup_later os env w1 e hb1) w.m_cycleGroups w hb
  have h3 := Later.trans h2 (registerNotLoggedInForward_later os env _ (Bounded.of_later hb h2))
  have h4 := Later.trans h3 (registerNotLoggedInBackward_later os env _ (Bounded.of_later hb h3))
  have h5 := Later.trans h4 (registerNonEVEForward_later os env _ (Bounded.of_later hb h4))
  have h6 := Later.trans h5 (registerNonEVEBackward_later os env _ (Bounded.of_later hb h5))
  have h7 := Later.trans h6 (registerCloseAllClients_later os env _ (Bounded.of_later hb h6))
  exact Later.trans h7 (registerProfileHotkeys_later os env _ (Bounded.of_later hb h7))

theorem registerActiveHotkeys_later {σ : Type} (os : OS σ) (env : Env) (w : World σ)
    (hb : Bounded w) : Later w (registerActiveHotkeys os env w) := by
  have h1 := Later.foldl (registerCharacterHotkey os env)
    (fun w1 e hb1 => registerCharacterHotkey_later os env w1 e hb1) w.m_characterHotkeys w hb
  exact Later.trans h1 (registerAfterCharacters_later os env _ (Bounded.of_later hb h1))

/-! ## Release and rebuild -/

theorem unregisterHotkey_foldl {σ : Type} (os : OS σ) (ids : List Int) :
    ∀ w : World σ,
      ids.foldl (unregisterHotkey os) w =
        { w with
          os := ids.foldl os.unregisterHotKey w.os
          calls := w.calls ++ ids.map OSCall.unregisterHotKey } := by
  induction ids with
  | nil => intro w; simp
  | cons id rest ih => intro w; rw [List.foldl_cons, ih]; simp [unregisterHotkey]

theorem unregisterIfSet_eq {σ : Type} (os : OS σ) (w : World σ) (id : Int) :
    unregisterIfSet os w id =
      { w with
        os := if id ≠ -1 then os.unregisterHotKey w.os id else w.os
        calls := w.calls ++ (if id ≠ -1 then [OSCall.unregisterHotKey id] else []) } := by
  unfold unregisterIfSet unregisterHotkey
  split_ifs <;> simp

/-- After `unregisterHotkeys` the five id tables are empty and the six slots hold -1; the
stored bindings, the suspended flag and the allocator are as before, and the calls made
before are still on record. -/
theorem unregisterHotkeys_eq {σ : Type} (os : OS σ) (w : World σ) :
    ∃ (s : σ) (released : List OSCall),
      unregisterHotkeys os w =
        { w with
          m_hotkeyIdToCharacter := []
          m_hotkeyIdToCycleGroup := []
          m_hotkeyIdIsForward := []
          m_wildcardAliases := []
          m_hotkeyIdToProfile := []
          m_suspendHotkeyId := -1
          m_notLoggedInForwardHotkeyId := -1
          m_notLoggedInBackwardHotkeyId := -1
          m_nonEVEForwardHotkeyId := -1
          m_nonEVEBackwardHotkeyId := -1
          m_closeAllClientsHotkeyId := -1
          os := s
          calls := w.calls ++ released } := by
  refine ⟨(unregisterHotkeys os w).os, (unregisterHotkeys os w).calls.drop w.calls.length, ?_⟩
  simp only [unregisterHotkeys, unregisterProfileHotkeys, unregisterHotkey_foldl,
    unregisterIfSet_eq, List.append_assoc, List.drop_left]

theorem clearRegistrations_eq {σ : Type} (os : OS σ) (w : World σ) :
    ∃ (s : σ) (released : List OSCall),
      clearRegistrations os w =
        { w with
          m_hotkeyIdToCharacter := []
          m_hotkeyIdToCycleGroup := []
          m_hotkeyIdIsForward := []
          m_wildcardAliases := []
          m_hotkeyIdToProfile := []
          m_suspendHotkeyId := -1
          m_notLoggedInForwardHotkeyId := -1
          m_notLoggedInBackwardHotkeyId := -1
          m_nonEVEForwardHotkeyId := -1
          m_nonEVEBackwardHotkeyId := -1
          m_closeAllClientsHotkeyId := -1
          os := s
          calls := w.calls ++ released } := by
  obtain ⟨s, released, h⟩ := unregisterHotkeys_eq os w
  exact ⟨s, released, by unfold clearRegistrations; rw [h]⟩

theorem unregisterHotkeys_bounded {σ : Type} (os : OS σ) (w : World σ) :
    Bounded (unregisterHotkeys os w) := by
  obtain ⟨s, released, h⟩ := unregisterHotkeys_eq os w
  rw [h]
  exact
    { tables := fun _ _ => rfl
      aliases := fun k v hkv => Option.noConfusion hkv
      slots := fun slot => Or.inl (by cases slot <;> rfl) }

theorem clearRegistrations_bounded {σ : Type} (os : OS σ) (w : World σ) :
    Bounded (clearRegistrations os w) := by
  obtain ⟨s, released, h⟩ := clearRegistrations_eq os w
  rw [h]
  exact
    { tables := fun _ _ => rfl
      aliases := fun k v hkv => Option.noConfusion hkv
      slots := fun slot => Or.inl (by cases slot <;> rfl) }

theorem clearRegistrations_next {σ : Type} (os : OS σ) (w : World σ) :
    (clearRegistrations os w).m_nextHotkeyId = w.m_nextHotkeyId := by
  obtain ⟨s, released, h⟩ := clearRegistrations_eq os w
  rw [h]

theorem clearRegistrations_settings {σ : Type} (os : OS σ) (w : World σ) :
    (clearRegistrations os w).settings = w.settings := by
  obtain ⟨s, released, h⟩ := clearRegistrations_eq os w
  rw [h]; rfl

/-- A rebuild starts from the cleared world and only registers from there. -/
theorem registerHotkeys_later {σ : Type} (os : OS σ) (env : Env) (w : World σ) :
    Later (clearRegistrations os w) (registerHotkeys os env w).2 := by
  have hb := clearRegistrations_bounded os w
  have h1 := registerSuspendHotkey_later os env _ hb
  unfold registerHotkeys
  simp only
  split_ifs
  · exact h1
  · exact Later.trans h1 (registerActiveHotkeys_later os env _ (Bounded.of_later hb h1))

theorem registerHotkeys_bounded {σ : Type} (os : OS σ) (env : Env) (w : World σ) :
    Bounded (registerHotkeys os env w).2 :=
  Bounded.of_later (clearRegistrations_bounded os w) (registerHotkeys_later os env w)

theorem registerHotkeys_next_le {σ : Type} (os : OS σ) (env : Env) (w : World σ) :
    w.m_nextHotkeyId ≤ (registerHotkeys os env w).2.m_nextHotkeyId := by
  have := (registerHotkeys_later os env w).next_le
  rwa [clearRegistrations_next] at this

theorem Bounded.of_sameRegistry {σ : Type} {w1 w2 : World σ} (hb : Bounded w1)
    (h : SameRegistry w1 w2) : Bounded w2 := by
  obtain ⟨h1, h2, h3, h4, h5, h6, h7, -, -⟩ := h
  exact
    { tables := by
        intro k hk
        have := hb.tables k (h7 ▸ hk)
        simpa only [World.tablesAt, h1, h2, h3, h4, h5] using this
      aliases := by rw [h4]; exact hb.aliases
      slots := by intro slot; rw [h6 slot, h7]; exact hb.slots slot }

theorem unregisterProfileHotkeys_eq {σ : Type} (os : OS σ) (w : World σ) :
    unregisterProfileHotkeys os w =
      { w with
        m_hotkeyIdToProfile := []
        os := (hKeys w.m_hotkeyIdToProfile).foldl os.unregisterHotKey w.os
        calls := w.calls ++ (hKeys w.m_hotkeyIdToProfile).map OSCall.unregisterHotKey } := by
  simp only [unregisterProfileHotkeys, unregisterHotkey_foldl]

theorem unregisterProfileHotkeys_bounded {σ : Type} (os : OS σ) (w : World σ)
    (hb : Bounded w) : Bounded (unregisterProfileHotkeys os w) := by
  rw [unregisterProfileHotkeys_eq]
  exact
    { tables := by
        intro k hk
        have := hb.tables k hk
        simp only [World.tablesAt, Prod.mk.injEq] at this ⊢
        exact ⟨this.1, this.2.1, this.2.2.1, this.2.2.2.1, rfl⟩
      aliases := hb.aliases
      slots := fun slot => by
        have := hb.slots slot
        cases slot <;> exact this }

theorem setSuspended_cases {σ : Type} (os : OS σ) (env : Env) (suspended : Bool) (w : World σ) :
    (setSuspended os env suspended w).2 = w ∨
      (setSuspended os env suspended w).2 =
        (registerHotkeys os env { w with m_suspended := suspended }).2 := by
  unfold setSuspended
  split_ifs
  · exact Or.inl rfl
  · exact Or.inr rfl

theorem nativeEventFilter_cases {σ : Type} (os : OS σ) (env : Env) (msg : MSG) (w : World σ) :
    (nativeEventFilter os env msg w).2.2 = w ∨
      (nativeEventFilter os env msg w).2.2 = (setSuspended os env (!w.m_suspended) w).2 := by
  unfold nativeEventFilter toggleSuspended
  dsimp only
  split_ifs <;> first | exact Or.inl rfl | exact Or.inr rfl

/-- In every reachable world the allocator is at 1000 or beyond and bounds every tracked
id. -/
theorem Reachable.bounded {σ : Type} {os : OS σ} {w : World σ} (hr : Reachable os w) :
    1000 ≤ w.m_nextHotkeyId ∧ Bounded w := by
  induction hr with
  | constructed s =>
    exact ⟨le_refl _,
      { tables := fun _ _ => rfl
        aliases := fun k v hkv => Option.noConfusion hkv
        slots := fun slot => Or.inl (by cases slot <;> rfl) }⟩
  | edit _ hs ih => exact ⟨hs.2.2.2.2.2.2.1 ▸ ih.1, Bounded.of_sameRegistry ih.2 hs⟩
  | registerHotkeys env _ ih =>
    exact ⟨le_trans ih.1 (registerHotkeys_next_le os env _), registerHotkeys_bounded os env _⟩
  | @unregisterHotkeys w1 _ ih =>
    refine ⟨?_, unregisterHotkeys_bounded os _⟩
    obtain ⟨s, released, h⟩ := unregisterHotkeys_eq os w1
    rw [h]; exact ih.1
  | registerProfileHotkeys env _ ih =>
    have hl := registerProfileHotkeys_later os env _ ih.2
    exact ⟨le_trans ih.1 hl.next_le, Bounded.of_later ih.2 hl⟩
  | @unregisterProfileHotkeys w1 _ ih =>
    refine ⟨?_, unregisterProfileHotkeys_bounded os _ ih.2⟩
    rw [unregisterProfileHotkeys_eq]; exact ih.1
  | @setSuspended env suspended w1 _ ih =>
    rcases setSuspended_cases os env suspended w1 with h | h
    · rw [h]; exact ih
    · rw [h]
      exact ⟨le_trans ih.1 (registerHotkeys_next_le os env { w1 with m_suspended := suspended }),
        registerHotkeys_bounded os env _⟩
  | @nativeEventFilter env msg w1 _ ih =>
    rcases nativeEventFilter_cases os env msg w1 with h | h
    · rw [h]; exact ih
    · rw [h]
      rcases setSuspended_cases os env (!w1.m_suspended) w1 with h2 | h2
      · rw [h2]; exact ih
      · rw [h2]
        exact ⟨le_trans ih.1
            (registerHotkeys_next_le os env { w1 with m_suspended := !w1.m_suspended }),
          registerHotkeys_bounded os env _⟩

/-! ## Dispatch -/

theorem resolveAlias_eq {σ : Type} (w : World σ) (k : Int) :
    resolveAlias w k = (hFind w.m_wildcardAliases k).getD k := by
  unfold resolveAlias
  rw [hContains_eq_isSome, hValue_eq_getD]
  cases hFind w.m_wildcardAliases k <;> rfl

/-- The filter looks at a hotkey message only through the id left after alias resolution. -/
theorem nativeEventFilter_congr {σ : Type} (os : OS σ) (env : Env) (msg1 msg2 : MSG)
    (w : World σ) (h1 : msg1.message = WM_HOTKEY) (h2 : msg2.message = WM_HOTKEY)
    (h : resolveAlias w (castInt msg1.wParam) = resolveAlias w (castInt msg2.wParam)) :
    nativeEventFilter os env msg1 w = nativeEventFilter os env msg2 w := by
  unfold nativeEventFilter
  simp only [h1, h2, h]

/-! ## Dispatch while suspended -/

/-- In every world whose suspended flag is set, a hotkey message whose id, after alias
resolution, differs from the value of `m_suspendHotkeyId` (the value -1 of an unset toggle
included) is reported handled, emits no signal and leaves the world (the flag, every table,
the operating system) as it was, whatever the settings and the foreground process are. -/
theorem suspended_dispatch_swallowed {σ : Type} (os : OS σ) (env : Env) (msg : MSG)
    (w : World σ) (hm : msg.message = WM_HOTKEY) (hs : w.m_suspended = true)
    (hid : resolveAlias w (castInt msg.wParam) ≠ w.m_suspendHotkeyId) :
    nativeEventFilter os env msg w = (true, [], w) := by
  unfold nativeEventFilter
  simp only [hm, if_true, if_neg hid, hs]

/-- Scenario A rebuilt while suspended: the toggle is not registered, the id 1000 is
nobody's, and the message carrying it is swallowed. -/
theorem suspended_dispatch_swallowed_example :
    nativeEventFilter OS.acceptAll Env.wildcard { message := WM_HOTKEY, wParam := 1000 }
        (registerHotkeys OS.acceptAll Env.wildcard { aliceWorld with m_suspended := true }).2 =
      (true, [],
        (registerHotkeys OS.acceptAll Env.wildcard { aliceWorld with m_suspended := true }).2) :=
  suspended_dispatch_swallowed OS.acceptAll Env.wildcard _ _ rfl rfl (by decide)

/-! ## C4: alias equivalence -/

/-- C4: in every reachable world, for every id `a` that the alias table maps to a canonical
id `c`, the filter handles the hotkey message carrying `a` exactly as it handles the one
carrying `c`: same result, same signals, same world afterwards. -/
theorem alias_dispatch_equivalence {σ : Type} (os : OS σ) (env : Env) (w : World σ)
    (msgA msgC : MSG) (hr : Reachable os w) (hA : msgA.message = WM_HOTKEY)
    (hC : msgC.message = WM_HOTKEY)
    (halias : hFind w.m_wildcardAliases (castInt msgA.wParam) = some (castInt msgC.wParam)) :
    nativeEventFilter os env msgA w = nativeEventFilter os env msgC w := by
  apply nativeEventFilter_congr os env msgA msgC w hA hC
  have hc := (hr.bounded.2.aliases _ _ halias).2
  rw [resolveAlias_eq, resolveAlias_eq, halias, hc, Option.getD_some, Option.getD_none]

/-- Witness for C4: scenario A after its rebuild; the alias 1002 stands for the canonical id
1000. -/
theorem alias_dispatch_equivalence_witness :
    hFind (registerHotkeys OS.acceptAll Env.wildcard aliceWorld).2.m_wildcardAliases
        (castInt 1002) = some (castInt 1000) ∧
    nativeEventFilter OS.acceptAll Env.wildcard { message := WM_HOTKEY, wParam := 1002 }
        (registerHotkeys OS.acceptAll Env.wildcard aliceWorld).2 =
      nativeEventFilter OS.acceptAll Env.wildcard { message := WM_HOTKEY, wParam := 1000 }
        (registerHotkeys OS.acceptAll Env.wildcard aliceWorld).2 :=
  ⟨by decide,
    alias_dispatch_equivalence OS.acceptAll Env.wildcard _ _ _
      (Reachable.registerHotkeys Env.wildcard
        (Reachable.edit (Reachable.constructed ())
          ⟨rfl, rfl, rfl, rfl, rfl, fun slot => by cases slot <;> rfl, rfl, rfl, rfl⟩))
      rfl rfl (by decide)⟩

/-! ## What a registration block leaves alone -/

/-- Whatever does not depend on the allocator, the alias table, the operating system and
the record of calls is not changed by `registerHotkey`. -/
theorem registerHotkey_frame {σ α : Type} (os : OS σ) (env : Env) (proj : World σ → α)
    (hbase : ∀ (w : World σ) (n : Int) (a : List (Int × Int)) (s : σ) (c : List OSCall),
      proj { w with m_nextHotkeyId := n, m_wildcardAliases := a, os := s, calls := c } = proj w)
    (b : HotkeyBinding) (w : World σ) : proj (registerHotkey os env b w).2 = proj w := by
  rcases registerHotkey_cases os env b w with h0 | ⟨ok, s, h1⟩ | ⟨s1, s2, mods, h2⟩
  · rw [h0]
  · rw [h1]; exact hbase w _ w.m_wildcardAliases _ _
  · rw [h2]; exact hbase w _ _ _ _

theorem registerWith_frame {σ α : Type} (os : OS σ) (env : Env) (proj : World σ → α)
    (hbase : ∀ (w : World σ) (n : Int) (a : List (Int × Int)) (s : σ) (c : List OSCall),
      proj { w with m_nextHotkeyId := n, m_wildcardAliases := a, os := s, calls := c } = proj w)
    (commit : Int → World σ → World σ)
    (hcommit : ∀ (id : Int) (w1 : World σ), proj (commit id w1) = proj w1)
    (b : HotkeyBinding) (w : World σ) : proj (registerWith os env b commit w) = proj w := by
  unfold registerWith
  cases (registerHotkey os env b w).1 with
  | none => exact registerHotkey_frame os env proj hbase b w
  | some id =>
    simp only
    rw [hcommit]
    exact registerHotkey_frame os env proj hbase b w

theorem foldl_frame {σ α β : Type} (proj : World σ → α) (f : World σ → β → World σ)
    (hf : ∀ (w : World σ) (x : β), proj (f w x) = proj w) (l : List β) :
    ∀ w : World σ, proj (l.foldl f w) = proj w := by
  induction l with
  | nil => intro w; rfl
  | cons x rest ih => intro w; rw [List.foldl_cons, ih, hf]

theorem keep_base {σ : Type} (w : World σ) (n : Int) (a : List (Int × Int)) (s : σ)
    (c : List OSCall) :
    World.keep { w with m_nextHotkeyId := n, m_wildcardAliases := a, os := s, calls := c } =
      w.keep := rfl

theorem registerCycleDirection_keep {σ : Type} (os : OS σ) (env : Env) (name : String)
    (b : HotkeyBinding) (fw : Bool) (w : World σ) :
    (registerCycleDirection os env name b fw w).keep = w.keep := by
  unfold registerCycleDirection
  split_ifs
  · exact registerWith_frame os env World.keep keep_base
      (fun id w1 =>
        { w1 with
          m_hotkeyIdToCycleGroup := hInsert w1.m_hotkeyIdToCycleGroup id name
          m_hotkeyIdIsForward := hInsert w1.m_hotkeyIdIsForward id fw })
      (fun _ _ => rfl) b w
  · rfl

theorem registerCycleGroup_keep {σ : Type} (os : OS σ) (env : Env) (w : World σ)
    (e : String × CycleGroup) : (registerCycleGroup os env w e).keep = w.keep := by
  unfold registerCycleGroup
  exact (registerCycleDirection_keep os env _ _ _ _).trans
    (registerCycleDirection_keep os env _ _ _ _)

theorem registerProfileHotkey_keep {σ : Type} (os : OS σ) (env : Env) (w : World σ)
    (e : String × Int × Int) : (registerProfileHotkey os env w e).keep = w.keep :=
  registerWith_frame os env World.keep keep_base
    (fun id w1 => { w1 with m_hotkeyIdToProfile := hInsert w1.m_hotkeyIdToProfile id e.1 })
    (fun _ _ => rfl) (profileBinding e.2.1 e.2.2) w

theorem registerNotLoggedInForward_keep {σ : Type} (os : OS σ) (env : Env) (w : World σ) :
    (registerNotLoggedInForward os env w).keep = w.keep := by
  unfold registerNotLoggedInForward
  split_ifs
  · exact registerWith_frame os env World.keep keep_base
      (fun id w1 => { w1 with m_notLoggedInForwardHotkeyId := id }) (fun _ _ => rfl) _ w
  · rfl

theorem registerNotLoggedInBackward_keep {σ : Type} (os : OS σ) (env : Env) (w : World σ) :
    (registerNotLoggedInBackward os env w).keep = w.keep := by
  unfold registerNotLoggedInBackward
  split_ifs
  · exact registerWith_frame os env World.keep keep_base
      (fun id w1 => { w1 with m_notLoggedInBackwardHotkeyId := id }) (fun _ _ => rfl) _ w
  · rfl

theorem registerNonEVEForward_keep {σ : Type} (os : OS σ) (env : Env) (w : World σ) :
    (registerNonEVEForward os env w).keep = w.keep := by
  unfold registerNonEVEForward
  split_ifs
  · exact registerWith_frame os env World.keep keep_base
      (fun id w1 => { w1 with m_nonEVEForwardHotkeyId := id }) (fun _ _ => rfl) _ w
  · rfl

theorem registerNonEVEBackward_keep {σ : Type} (os : OS σ) (env : Env) (w : World σ) :
    (registerNonEVEBackward os env w).keep = w.keep := by
  unfold registerNonEVEBackward
  split_ifs
  · exact registerWith_frame os env World.keep keep_base
      (fun id w1 => { w1 with m_nonEVEBackwardHotkeyId := id }) (fun _ _ => rfl) _ w
  · rfl

theorem registerCloseAllClients_keep {σ : Type} (os : OS σ) (env : Env) (w : World σ) :
    (registerCloseAllClients os env w).keep = w.keep := by
  unfold registerCloseAllClients
  split_ifs
  · exact registerWith_frame os env World.keep keep_base
      (fun id w1 => { w1 with m_closeAllClientsHotkeyId := id }) (fun _ _ => rfl) _ w
  · rfl

/-- The suspend slot and the character table are not touched by what a rebuild registers
after the character loop. -/
theorem registerAfterCharacters_keep {σ : Type} (os : OS σ) (env : Env) (w : World σ) :
    (registerProfileHotkeys os env (registerCloseAllClients os env
      (registerNonEVEBackward os env (registerNonEVEForward os env
        (registerNotLoggedInBackward os env (registerNotLoggedInForward os env
          (w.m_cycleGroups.foldl (registerCycleGroup os env) w))))))).keep = w.keep := by
  unfold registerProfileHotkeys
  rw [foldl_frame World.keep (registerProfileHotkey os env) (registerProfileHotkey_keep os env),
    registerCloseAllClients_keep, registerNonEVEBackward_keep, registerNonEVEForward_keep,
    registerNotLoggedInBackward_keep, registerNotLoggedInForward_keep,
    foldl_frame World.keep (registerCycleGroup os env) (registerCycleGroup_keep os env)]

theorem registerCharacterHotkey_suspendId {σ : Type} (os : OS σ) (env : Env) (w : World σ)
    (entry : String × HotkeyBinding) :
    (registerCharacterHotkey os env w entry).m_suspendHotkeyId = w.m_suspendHotkeyId :=
  registerWith_frame os env (fun v : World σ => v.m_suspendHotkeyId) (fun _ _ _ _ _ => rfl)
    (fun id w1 =>
      { w1 with m_hotkeyIdToCharacter := hInsert w1.m_hotkeyIdToCharacter id entry.1 })
    (fun _ _ => rfl) entry.2 w

theorem registerActiveHotkeys_suspendId {σ : Type} (os : OS σ) (env : Env) (w : World σ) :
    (registerActiveHotkeys os env w).m_suspendHotkeyId = w.m_suspendHotkeyId := by
  have h1 := foldl_frame (fun v : World σ => v.m_suspendHotkeyId) (registerCharacterHotkey os env)
    (registerCharacterHotkey_suspendId os env) w.m_characterHotkeys w
  have h2 := congrArg Prod.fst (registerAfterCharacters_keep os env
    (w.m_characterHotkeys.foldl (registerCharacterHotkey os env) w))
  unfold registerActiveHotkeys
  exact h2.trans h1

theorem registerHotkey_accepted {σ : Type} (os : OS σ) (env : Env) (b : HotkeyBinding)
    (w : World σ) (he : b.enabled = true)
    (ha : (os.registerHotKey w.os w.m_nextHotkeyId (bindingModifiers b) b.keyCode).1 = true) :
    (registerHotkey os env b w).1 = some w.m_nextHotkeyId := by
  cases hw : env.wildcardHotkeys
  · rw [registerHotkey_plain os env b w he ha hw]
  · rw [registerHotkey_wildcard os env b w he ha hw]

/-- After registrations that started from a bounded world, the id the allocator stood at
is no alias. -/
theorem Later.first_not_alias {σ : Type} {w1 w2 : World σ} (hb : Bounded w1) (hl : Later w1 w2) :
    hFind w2.m_wildcardAliases w1.m_nextHotkeyId = none := by
  cases h : hFind w2.m_wildcardAliases w1.m_nextHotkeyId with
  | none => rfl
  | some v =>
    rcases hl.aliases _ _ h with hold | ⟨h1, h2, _, _⟩
    · have := hb.tables w1.m_nextHotkeyId (le_refl _)
      simp only [World.tablesAt, Prod.mk.injEq] at this
      rw [this.1] at hold
      exact Option.noConfusion hold
    · omega

theorem registerHotkeys_settings {σ : Type} (os : OS σ) (env : Env) (w : World σ) :
    (registerHotkeys os env w).2.settings = w.settings :=
  (registerHotkeys_later os env w).settings.trans (clearRegistrations_settings os w)

theorem registerHotkeys_suspended {σ : Type} (os : OS σ) (env : Env) (w : World σ) :
    (registerHotkeys os env w).2.m_suspended = w.m_suspended := by
  have := registerHotkeys_settings os env w
  simp only [World.settings, Prod.mk.injEq] at this
  exact this.2.2.2.2.2.2.2.2

theorem registerHotkeys_suspendHotkey {σ : Type} (os : OS σ) (env : Env) (w : World σ) :
    (registerHotkeys os env w).2.m_suspendHotkey = w.m_suspendHotkey := by
  have := registerHotkeys_settings os env w
  simp only [World.settings, Prod.mk.injEq] at this
  exact this.2.2.1

/-- When the suspend binding is enabled and the operating system accepts its combination,
a rebuild leaves the suspend toggle registered at the first id it allocates, and that id is
no alias. -/
theorem registerHotkeys_suspend_live {σ : Type} (os : OS σ) (env : Env) (w : World σ)
    (he : w.m_suspendHotkey.enabled = true)
    (hacc : ∀ (s : σ) (id : Int),
      (os.registerHotKey s id (bindingModifiers w.m_suspendHotkey)
        w.m_suspendHotkey.keyCode).1 = true) :
    (registerHotkeys os env w).2.m_suspendHotkeyId = w.m_nextHotkeyId ∧
      hFind (registerHotkeys os env w).2.m_wildcardAliases w.m_nextHotkeyId = none := by
  have hnone := Later.first_not_alias (clearRegistrations_bounded os w)
    (registerHotkeys_later os env w)
  rw [clearRegistrations_next] at hnone
  refine ⟨?_, hnone⟩
  have hset := clearRegistrations_settings os w
  simp only [World.settings, Prod.mk.injEq] at hset
  have hsb : (clearRegistrations os w).m_suspendHotkey = w.m_suspendHotkey := hset.2.2.1
  have h1 : (registerSuspendHotkey os env (clearRegistrations os w)).m_suspendHotkeyId =
      w.m_nextHotkeyId := by
    unfold registerSuspendHotkey
    rw [hsb, if_pos he]
    simp only
    rw [registerHotkey_accepted os env w.m_suspendHotkey _ he (hacc _ _)]
    simp only
    exact clearRegistrations_next os w
  unfold registerHotkeys
  simp only
  split_ifs
  · exact h1
  · rw [registerActiveHotkeys_suspendId]; exact h1

/-- Handling the message that carries the id of the suspend toggle, when that id is no
alias: the flag flips, a rebuild runs on the flipped world, `suspendedChanged` is emitted
with the new value, and the message is reported handled. -/
theorem nativeEventFilter_suspend {σ : Type} (os : OS σ) (env : Env) (msg : MSG) (w : World σ)
    (hm : msg.message = WM_HOTKEY) (hid : castInt msg.wParam = w.m_suspendHotkeyId)
    (hna : hFind w.m_wildcardAliases w.m_suspendHotkeyId = none) :
    nativeEventFilter os env msg w =
      (true, [Signal.suspendedChanged (!w.m_suspended)],
        (registerHotkeys os env { w with m_suspended := !w.m_suspended }).2) := by
  have hres : resolveAlias w (castInt msg.wParam) = w.m_suspendHotkeyId := by
    rw [resolveAlias_eq, hid, hna]; rfl
  have hne : ¬ w.m_suspended = !w.m_suspended := by cases w.m_suspended <;> decide
  unfold nativeEventFilter toggleSuspended setSuspended
  simp only [hm, if_true, hres, if_neg hne, registerHotkeys_suspended]

theorem nativeEventFilter_suspend_on {σ : Type} (os : OS σ) (env : Env) (msg : MSG)
    (w : World σ) (hm : msg.message = WM_HOTKEY)
    (hid : castInt msg.wParam = w.m_suspendHotkeyId)
    (hna : hFind w.m_wildcardAliases w.m_suspendHotkeyId = none) (hs : w.m_suspended = false) :
    nativeEventFilter os env msg w =
      (true, [Signal.suspendedChanged true],
        (registerHotkeys os env { w with m_suspended := true }).2) := by
  have h := nativeEventFilter_suspend os env msg w hm hid hna
  rw [hs] at h
  exact h

theorem nativeEventFilter_suspend_off {σ : Type} (os : OS σ) (env : Env) (msg : MSG)
    (w : World σ) (hm : msg.message = WM_HOTKEY)
    (hid : castInt msg.wParam = w.m_suspendHotkeyId)
    (hna : hFind w.m_wildcardAliases w.m_suspendHotkeyId = none) (hs : w.m_suspended = true) :
    nativeEventFilter os env msg w =
      (true, [Signal.suspendedChanged false],
        (registerHotkeys os env { w with m_suspended := false }).2) := by
  have h := nativeEventFilter_suspend os env msg w hm hid hna
  rw [hs] at h
  exact h

/-! ## C8: scenario B -/

/-- C8: with the suspend toggle bound to Ctrl+Alt+Shift+F12, a combination the operating
system accepts, and the manager not suspended, a rebuild registers the toggle at the first
id it allocates; the message carrying that id is reported handled, emits
`suspendedChanged(true)` and leaves the world a full rebuild makes of the world with the
flag set; the message carrying the id the toggle has after that rebuild is reported
handled, emits `suspendedChanged(false)` and leaves the world a full rebuild makes of the
world with the flag cleared. -/
theorem scenarioB_suspend_toggle {σ : Type} (os : OS σ) (env : Env) (w : World σ)
    (msg1 msg2 : MSG) (hb : w.m_suspendHotkey = ctrlAltShiftF12) (hs : w.m_suspended = false)
    (hacc : ∀ (s : σ) (id : Int),
      (os.registerHotKey s id (bindingModifiers ctrlAltShiftF12) VK_F12).1 = true)
    (h1 : msg1.message = WM_HOTKEY) (h2 : msg2.message = WM_HOTKEY)
    (hid1 : castInt msg1.wParam = (registerHotkeys os env w).2.m_suspendHotkeyId)
    (hid2 : castInt msg2.wParam =
      (registerHotkeys os env
        { (registerHotkeys os env w).2 with m_suspended := true }).2.m_suspendHotkeyId) :
    ∃ w1 w2 w3 : World σ,
      w1 = (registerHotkeys os env w).2 ∧
      w1.m_suspended = false ∧ w1.m_suspendHotkeyId = w.m_nextHotkeyId ∧
      nativeEventFilter os env msg1 w1 = (true, [Signal.suspendedChanged true], w2) ∧
      w2 = (registerHotkeys os env { w1 with m_suspended := true }).2 ∧
      w2.m_suspended = true ∧
      nativeEventFilter os env msg2 w2 = (true, [Signal.suspendedChanged false], w3) ∧
      w3 = (registerHotkeys os env { w2 with m_suspended := false }).2 ∧
      w3.m_suspended = false := by
  have hsusp1 : (registerHotkeys os env w).2.m_suspended = false :=
    (registerHotkeys_suspended os env w).trans hs
  have hb1 : (registerHotkeys os env w).2.m_suspendHotkey = ctrlAltShiftF12 :=
    (registerHotkeys_suspendHotkey os env w).trans hb
  have live1 := registerHotkeys_suspend_live os env w (by rw [hb]; rfl)
    (by rw [hb]; exact hacc)
  have hna1 : hFind (registerHotkeys os env w).2.m_wildcardAliases
      (registerHotkeys os env w).2.m_suspendHotkeyId = none := by
    rw [live1.1]; exact live1.2
  have e1 := nativeEventFilter_suspend_on os env msg1 _ h1 hid1 hna1 hsusp1
  have hsusp2 : (registerHotkeys os env
      { (registerHotkeys os env w).2 with m_suspended := true }).2.m_suspended = true :=
    registerHotkeys_suspended os env _
  have live2 := registerHotkeys_suspend_live os env
    { (registerHotkeys os env w).2 with m_suspended := true }
    (by show (registerHotkeys os env w).2.m_suspendHotkey.enabled = true; rw [hb1]; rfl)
    (by show ∀ (s : σ) (id : Int), (os.registerHotKey s id
          (bindingModifiers (registerHotkeys os env w).2.m_suspendHotkey)
          (registerHotkeys os env w).2.m_suspendHotkey.keyCode).1 = true
        rw [hb1]; exact hacc)
  have hna2 : hFind (registerHotkeys os env
      { (registerHotkeys os env w).2 with m_suspended := true }).2.m_wildcardAliases
      (registerHotkeys os env
        { (registerHotkeys os env w).2 with m_suspended := true }).2.m_suspendHotkeyId = none := by
    rw [live2.1]; exact live2.2
  have e2 := nativeEventFilter_suspend_off os env msg2 _ h2 hid2 hna2 hsusp2
  refine ⟨(registerHotkeys os env w).2, ?_⟩
  refine ⟨(registerHotkeys os env { (registerHotkeys os env w).2 with m_suspended := true }).2,
    ?_⟩
  refine ⟨(registerHotkeys os env
      { (registerHotkeys os env
          { (registerHotkeys os env w).2 with m_suspended := true }).2 with
        m_suspended := false }).2, ?_⟩
  refine ⟨rfl, ?_⟩
  refine ⟨hsusp1, ?_⟩
  refine ⟨live1.1, ?_⟩
  refine ⟨e1, ?_⟩
  refine ⟨rfl, ?_⟩
  refine ⟨hsusp2, ?_⟩
  refine ⟨e2, ?_⟩
  refine ⟨rfl, ?_⟩
  exact registerHotkeys_suspended os env _

/-- Witness for C8: a constructed manager with the default suspend toggle, every
registration accepted; the toggle is registered as 1000, after the first trigger as
1001. -/
theorem scenarioB_suspend_toggle_witness :
    ∃ w1 w2 w3 : World Unit,
      w1 = (registerHotkeys OS.acceptAll Env.plain suspendWorld).2 ∧
      w1.m_suspended = false ∧ w1.m_suspendHotkeyId = suspendWorld.m_nextHotkeyId ∧
      nativeEventFilter OS.acceptAll Env.plain { message := WM_HOTKEY, wParam := 1000 } w1 =
        (true, [Signal.suspendedChanged true], w2) ∧
      w2 = (registerHotkeys OS.acceptAll Env.plain { w1 with m_suspended := true }).2 ∧
      w2.m_suspended = true ∧
      nativeEventFilter OS.acceptAll Env.plain { message := WM_HOTKEY, wParam := 1001 } w2 =
        (true, [Signal.suspendedChanged false], w3) ∧
      w3 = (registerHotkeys OS.acceptAll Env.plain { w2 with m_suspended := false }).2 ∧
      w3.m_suspended = false :=
  scenarioB_suspend_toggle OS.acceptAll Env.plain suspendWorld _ _ rfl rfl (fun _ _ => rfl)
    rfl rfl (by decide) (by decide)

/-! ## C7: scenario A -/

theorem additionalMods_ctrlF1 :
    additionalMods ctrlF1 (bindingModifiers ctrlF1) =
      [(MOD_NOREPEAT ||| MOD_CONTROL) ||| MOD_ALT, (MOD_NOREPEAT ||| MOD_CONTROL) ||| MOD_SHIFT,
        ((MOD_NOREPEAT ||| MOD_CONTROL) ||| MOD_ALT) ||| MOD_SHIFT] := by
  decide

theorem bindingModifiers_ctrlF1 : bindingModifiers ctrlF1 = MOD_NOREPEAT ||| MOD_CONTROL := by
  decide

/-- The step of the character loop for Alice's Ctrl+F1 under wildcard mode when every
registration is accepted: four consecutive ids are used, the first becomes Alice's id in
the character table, the other three become aliases of it. -/
theorem registerCharacterHotkey_alice {σ : Type} (os : OS σ) (env : Env) (w : World σ)
    (hacc : ∀ (s : σ) (id : Int) (m : Nat) (k : Int), (os.registerHotKey s id m k).1 = true)
    (hw : env.wildcardHotkeys = true) :
    (registerCharacterHotkey os env w ("Alice", ctrlF1)).m_nextHotkeyId =
        w.m_nextHotkeyId + 4 ∧
    (∀ k : Int, hFind (registerCharacterHotkey os env w ("Alice", ctrlF1)).m_hotkeyIdToCharacter k =
        if k = w.m_nextHotkeyId then some "Alice" else hFind w.m_hotkeyIdToCharacter k) ∧
    (∀ k : Int, hFind (registerCharacterHotkey os env w ("Alice", ctrlF1)).m_wildcardAliases k =
        if k = w.m_nextHotkeyId + 1 ∨ k = w.m_nextHotkeyId + 2 ∨ k = w.m_nextHotkeyId + 3 then
          some w.m_nextHotkeyId
        else hFind w.m_wildcardAliases k) ∧
    (registerCharacterHotkey os env w ("Alice", ctrlF1)).calls =
      w.calls ++
        [OSCall.registerHotKey w.m_nextHotkeyId (MOD_NOREPEAT ||| MOD_CONTROL) VK_F1 true,
          OSCall.registerHotKey (w.m_nextHotkeyId + 1)
            ((MOD_NOREPEAT ||| MOD_CONTROL) ||| MOD_ALT) VK_F1 true,
          OSCall.registerHotKey (w.m_nextHotkeyId + 2)
            ((MOD_NOREPEAT ||| MOD_CONTROL) ||| MOD_SHIFT) VK_F1 true,
          OSCall.registerHotKey (w.m_nextHotkeyId + 3)
            (((MOD_NOREPEAT ||| MOD_CONTROL) ||| MOD_ALT) ||| MOD_SHIFT) VK_F1 true] := by
  have hreg := registerHotkey_wildcard os env ctrlF1 w rfl (hacc _ _ _ _) hw
  rw [additionalMods_ctrlF1, bindingModifiers_ctrlF1] at hreg
  have hkey : ctrlF1.keyCode = VK_F1 := rfl
  rw [hkey] at hreg
  simp only [aliasAttempts, hacc, List.length_cons, List.length_nil, List.map_cons, List.map_nil,
    AliasAttempt.toCall] at hreg
  unfold registerCharacterHotkey
  simp only [hreg]
  refine ⟨by simp only [Nat.zero_add, Nat.reduceAdd, Nat.cast_ofNat]; omega, ?_, ?_, ?_⟩
  · intro k; rw [hFind_hInsert]
  · intro k
    rw [hFind_recordAliases]
    refine if_congr ?_ rfl rfl
    simp only [List.mem_cons, List.mem_singleton, List.not_mem_nil, or_false,
      exists_eq_or_imp, exists_eq_left, and_true]
    constructor <;> intro h <;> omega
  · simp [add_assoc]

theorem registerHotkeys_active {σ : Type} (os : OS σ) (env : Env) (w : World σ)
    (hs : w.m_suspended = false) :
    (registerHotkeys os env w).2 =
      registerActiveHotkeys os env (registerSuspendHotkey os env (clearRegistrations os w)) := by
  have h1 := (registerSuspendHotkey_later os env _ (clearRegistrations_bounded os w)).settings
  rw [clearRegistrations_settings] at h1
  simp only [World.settings, Prod.mk.injEq] at h1
  have h2 : (registerSuspendHotkey os env (clearRegistrations os w)).m_suspended = false :=
    h1.2.2.2.2.2.2.2.2.trans hs
  unfold registerHotkeys
  simp only [h2, Bool.false_eq_true, if_false]

theorem registerSuspendHotkey_character {σ : Type} (os : OS σ) (env : Env) (w : World σ) :
    (registerSuspendHotkey os env w).m_hotkeyIdToCharacter = w.m_hotkeyIdToCharacter := by
  unfold registerSuspendHotkey
  split_ifs
  · exact registerWith_frame os env (fun v : World σ => v.m_hotkeyIdToCharacter)
      (fun _ _ _ _ _ => rfl) (fun id w1 => { w1 with m_suspendHotkeyId := id })
      (fun _ _ => rfl) _ w
  · rfl

/-- A name read from the character table after a step of the character loop was there
before or is the name of the entry the step handled. -/
theorem registerCharacterHotkey_table {σ : Type} (os : OS σ) (env : Env) (w : World σ)
    (e : String × HotkeyBinding) (k : Int) (n : String)
    (h : hFind (registerCharacterHotkey os env w e).m_hotkeyIdToCharacter k = some n) :
    hFind w.m_hotkeyIdToCharacter k = some n ∨ n = e.1 := by
  have hframe := registerHotkey_frame os env (fun v : World σ => v.m_hotkeyIdToCharacter)
    (fun _ _ _ _ _ => rfl) e.2 w
  simp only at hframe
  unfold registerCharacterHotkey at h
  simp only at h
  cases hr : (registerHotkey os env e.2 w).1 with
  | none =>
    rw [hr] at h
    simp only at h
    rw [hframe] at h
    exact Or.inl h
  | some id =>
    rw [hr] at h
    simp only at h
    rw [hFind_hInsert, hframe] at h
    split_ifs at h
    · exact Or.inr (Option.some.inj h).symm
    · exact Or.inl h

theorem character_loop_names {σ : Type} (os : OS σ) (env : Env) (name : String)
    (l : List (String × HotkeyBinding)) (hl : ∀ e ∈ l, e.1 ≠ name) :
    ∀ (w : World σ) (k : Int),
      hFind (l.foldl (registerCharacterHotkey os env) w).m_hotkeyIdToCharacter k = some name →
      hFind w.m_hotkeyIdToCharacter k = some name := by
  induction l with
  | nil => intro w k h; exact h
  | cons e rest ih =>
    intro w k h
    rw [List.foldl_cons] at h
    have h1 := ih (fun x hx => hl x (List.mem_cons_of_mem _ hx)) _ k h
    rcases registerCharacterHotkey_table os env w e k name h1 with h2 | h2
    · exact h2
    · exact absurd h2.symm (hl e (List.mem_cons_self _ _))

theorem route_character {σ : Type} (w : World σ) (id : Int) (name : String)
    (h : hFind w.m_hotkeyIdToCharacter id = some name) :
    route w id = (true, [Signal.characterHotkeyPressed name]) := by
  unfold route
  rw [hContains_eq_isSome, hValue_eq_getD, h]
  rfl

/-- C7: in a reachable, not suspended manager where the character Alice holds Ctrl+F1
(whatever else is stored), with wildcard mode on, focus gating off and an operating system
that accepts every registration, a rebuild gives Alice exactly one id `c` in the character
table; the registrations made at `c`, `c+1`, `c+2`, `c+3` are Ctrl+F1, Ctrl+Alt+F1,
Ctrl+Shift+F1 and Ctrl+Alt+Shift+F1; the alias table maps exactly `c+1`, `c+2`, `c+3` to
`c`; and the message carrying any of these four ids is reported handled, emits
`characterHotkeyPressed("Alice")` and nothing else, and leaves the world as it was. -/
theorem scenarioA_alice {σ : Type} (os : OS σ) (env : Env) (w : World σ)
    (pre post : List (String × HotkeyBinding)) (hr : Reachable os w)
    (hacc : ∀ (s : σ) (id : Int) (m : Nat) (k : Int), (os.registerHotKey s id m k).1 = true)
    (hw : env.wildcardHotkeys = true) (hf : env.hotkeysOnlyWhenEVEFocused = false)
    (hs : w.m_suspended = false)
    (hc : w.m_characterHotkeys = pre ++ ("Alice", ctrlF1) :: post)
    (hpre : ∀ e ∈ pre, e.1 ≠ "Alice") (hpost : ∀ e ∈ post, e.1 ≠ "Alice") :
    ∃ c : Int,
      (∀ k : Int,
        hFind (registerHotkeys os env w).2.m_hotkeyIdToCharacter k = some "Alice" ↔ k = c) ∧
      (∀ a : Int, hFind (registerHotkeys os env w).2.m_wildcardAliases a = some c ↔
        (a = c + 1 ∨ a = c + 2 ∨ a = c + 3)) ∧
      (∃ before after : List OSCall,
        (registerHotkeys os env w).2.calls =
          before ++
            [OSCall.registerHotKey c (MOD_NOREPEAT ||| MOD_CONTROL) VK_F1 true,
              OSCall.registerHotKey (c + 1) ((MOD_NOREPEAT ||| MOD_CONTROL) ||| MOD_ALT)
                VK_F1 true,
              OSCall.registerHotKey (c + 2) ((MOD_NOREPEAT ||| MOD_CONTROL) ||| MOD_SHIFT)
                VK_F1 true,
              OSCall.registerHotKey (c + 3)
                (((MOD_NOREPEAT ||| MOD_CONTROL) ||| MOD_ALT) ||| MOD_SHIFT) VK_F1 true] ++
            after) ∧
      ∀ msg : MSG, msg.message = WM_HOTKEY →
        (castInt msg.wParam = c ∨ castInt msg.wParam = c + 1 ∨ castInt msg.wParam = c + 2 ∨
          castInt msg.wParam = c + 3) →
        nativeEventFilter os env msg (registerHotkeys os env w).2 =
          (true, [Signal.characterHotkeyPressed "Alice"], (registerHotkeys os env w).2) := by
  -- the worlds the rebuild passes through
  have hb0 := clearRegistrations_bounded os w
  have hl1 := registerSuspendHotkey_later os env _ hb0
  have hb1 := Bounded.of_later hb0 hl1
  have hset1 := hl1.settings
  rw [clearRegistrations_settings] at hset1
  simp only [World.settings, Prod.mk.injEq] at hset1
  have hchars : (registerSuspendHotkey os env (clearRegistrations os w)).m_characterHotkeys =
      pre ++ ("Alice", ctrlF1) :: post := hset1.1.trans hc
  have hempty : (registerSuspendHotkey os env (clearRegistrations os w)).m_hotkeyIdToCharacter =
      [] := by
    rw [registerSuspendHotkey_character]
    obtain ⟨s, released, h0⟩ := clearRegistrations_eq os w
    rw [h0]
  have hlA := Later.foldl (registerCharacterHotkey os env)
    (fun w1 e hb => registerCharacterHotkey_later os env w1 e hb) pre _ hb1
  have hbA := Bounded.of_later hb1 hlA
  have hlB := registerCharacterHotkey_later os env _ ("Alice", ctrlF1) hbA
  have hbB := Bounded.of_later hbA hlB
  have hlC := Later.foldl (registerCharacterHotkey os env)
    (fun w1 e hb => registerCharacterHotkey_later os env w1 e hb) post _ hbB
  have hbC := Bounded.of_later hbB hlC
  have hlW := registerAfterCharacters_later os env _ hbC
  have hkeep := registerAfterCharacters_keep os env
    (post.foldl (registerCharacterHotkey os env)
      (registerCharacterHotkey os env
        (pre.foldl (registerCharacterHotkey os env)
          (registerSuspendHotkey os env (clearRegistrations os w))) ("Alice", ctrlF1)))
  have hW : (registerHotkeys os env w).2 = _ := registerHotkeys_active os env w hs
  unfold registerActiveHotkeys at hW
  simp only [hchars, List.foldl_append, List.foldl_cons] at hW
  rw [hW]
  clear hW
  obtain ⟨hnext, hchar, halias, hcalls⟩ := registerCharacterHotkey_alice os env
    (pre.foldl (registerCharacterHotkey os env)
      (registerSuspendHotkey os env (clearRegistrations os w))) hacc hw
  generalize hwA : pre.foldl (registerCharacterHotkey os env)
    (registerSuspendHotkey os env (clearRegistrations os w)) = wA at *
  generalize hwB : registerCharacterHotkey os env wA ("Alice", ctrlF1) = wB at *
  generalize hwC : post.foldl (registerCharacterHotkey os env) wB = wC at *
  generalize hwW : registerProfileHotkeys os env (registerCloseAllClients os env
    (registerNonEVEBackward os env (registerNonEVEForward os env
      (registerNotLoggedInBackward os env (registerNotLoggedInForward os env
        (wC.m_cycleGroups.foldl (registerCycleGroup os env) wC)))))) = W at *
  have hlBW : Later wB W := Later.trans hlC hlW
  -- the allocator value when Alice's turn comes
  have hc1000 : 1000 ≤ wA.m_nextHotkeyId := by
    have h1 := hr.bounded.1
    have h2 := hl1.next_le
    rw [clearRegistrations_next] at h2
    have h3 := hlA.next_le
    omega
  have tabA := hbA.tables wA.m_nextHotkeyId (le_refl _)
  simp only [World.tablesAt, Prod.mk.injEq] at tabA
  simp only [World.keep, Prod.mk.injEq] at hkeep
  -- lookups below the allocator value after Alice's turn are final
  have hold : ∀ k : Int, k < wA.m_nextHotkeyId + 4 →
      hFind W.m_wildcardAliases k = hFind wB.m_wildcardAliases k := by
    intro k hk
    have := hlBW.old k (by rw [hnext]; exact hk)
    simp only [World.tablesAt, Prod.mk.injEq] at this
    exact this.1
  have hcharW : ∀ k : Int, hFind W.m_hotkeyIdToCharacter k = some "Alice" ↔
      k = wA.m_nextHotkeyId := by
    intro k
    rw [hkeep.2]
    constructor
    · intro h
      have h1 := character_loop_names os env "Alice" post hpost wB k (by rw [hwC]; exact h)
      rw [hchar] at h1
      by_contra hne
      rw [if_neg hne] at h1
      have h2 := character_loop_names os env "Alice" pre hpre _ k (by rw [hwA]; exact h1)
      rw [hempty] at h2
      exact Option.noConfusion h2
    · intro hk
      have := hlC.old k (by rw [hnext, hk]; omega)
      simp only [World.tablesAt, Prod.mk.injEq] at this
      rw [this.2.1, hchar, if_pos hk]
  have hnotalias : hFind W.m_wildcardAliases wA.m_nextHotkeyId = none := by
    rw [hold _ (by omega), halias, if_neg (by omega)]
    exact tabA.1
  have haliasW : ∀ a : Int, hFind W.m_wildcardAliases a = some wA.m_nextHotkeyId ↔
      (a = wA.m_nextHotkeyId + 1 ∨ a = wA.m_nextHotkeyId + 2 ∨ a = wA.m_nextHotkeyId + 3) := by
    intro a
    constructor
    · intro h
      rcases hlBW.aliases a _ h with hB | ⟨h1, _, _, _⟩
      · rw [halias] at hB
        by_contra hne
        rw [if_neg hne] at hB
        have hlt := (hbA.aliases a _ hB).1
        have := hbA.tables a (le_of_lt hlt)
        simp only [World.tablesAt, Prod.mk.injEq] at this
        rw [this.1] at hB
        exact Option.noConfusion hB
      · rw [hnext] at h1; omega
    · intro ha
      rw [hold a (by omega), halias, if_pos ha]
  have hsuspend : W.m_suspendHotkeyId ≠ wA.m_nextHotkeyId := by
    have e1 : W.m_suspendHotkeyId = wC.m_suspendHotkeyId := hkeep.1
    have e2 : wC.m_suspendHotkeyId = wB.m_suspendHotkeyId := by
      rw [← hwC]
      exact foldl_frame (fun v : World σ => v.m_suspendHotkeyId) (registerCharacterHotkey os env)
        (registerCharacterHotkey_suspendId os env) post wB
    have e3 : wB.m_suspendHotkeyId = wA.m_suspendHotkeyId := by
      rw [← hwB]; exact registerCharacterHotkey_suspendId os env wA _
    have e4 : wA.m_suspendHotkeyId =
        (registerSuspendHotkey os env (clearRegistrations os w)).m_suspendHotkeyId := by
      rw [← hwA]
      exact foldl_frame (fun v : World σ => v.m_suspendHotkeyId) (registerCharacterHotkey os env)
        (registerCharacterHotkey_suspendId os env) pre _
    have h5 := hb1.slots IdSlot.suspend
    simp only [World.slotId] at h5
    have h6 := hlA.next_le
    rw [e1, e2, e3, e4]
    omega
  have hsuspended : W.m_suspended = false := by
    have h1 := (Later.trans hlA (Later.trans hlB hlBW)).settings
    simp only [World.settings, Prod.mk.injEq] at h1
    exact (h1.2.2.2.2.2.2.2.2.trans hset1.2.2.2.2.2.2.2.2).trans hs
  refine ⟨wA.m_nextHotkeyId, hcharW, haliasW, ?_, ?_⟩
  · obtain ⟨after, hafter⟩ := hlBW.calls
    exact ⟨wA.calls, after, by rw [← hafter, hcalls]⟩
  · intro msg hm hid
    have hres : resolveAlias W (castInt msg.wParam) = wA.m_nextHotkeyId := by
      rw [resolveAlias_eq]
      rcases hid with h | h
      · rw [h, hnotalias]; rfl
      · rw [(haliasW _).2 h]; rfl
    unfold nativeEventFilter
    simp only [hm, if_true, hres, if_neg (Ne.symm hsuspend), hsuspended, hf, Bool.false_and,
      Bool.false_eq_true, if_false,
      route_character W wA.m_nextHotkeyId "Alice" ((hcharW _).2 rfl)]

/-- Witness for C7: the constructed manager with only Alice's Ctrl+F1 stored. -/
theorem scenarioA_alice_witness :
    ∃ c : Int,
      (∀ k : Int,
        hFind (registerHotkeys OS.acceptAll Env.wildcard aliceWorld).2.m_hotkeyIdToCharacter k =
          some "Alice" ↔ k = c) ∧
      (∀ a : Int,
        hFind (registerHotkeys OS.acceptAll Env.wildcard aliceWorld).2.m_wildcardAliases a =
          some c ↔ (a = c + 1 ∨ a = c + 2 ∨ a = c + 3)) ∧
      (∃ before after : List OSCall,
        (registerHotkeys OS.acceptAll Env.wildcard aliceWorld).2.calls =
          before ++
            [OSCall.registerHotKey c (MOD_NOREPEAT ||| MOD_CONTROL) VK_F1 true,
              OSCall.registerHotKey (c + 1) ((MOD_NOREPEAT ||| MOD_CONTROL) ||| MOD_ALT)
                VK_F1 true,
              OSCall.registerHotKey (c + 2) ((MOD_NOREPEAT ||| MOD_CONTROL) ||| MOD_SHIFT)
                VK_F1 true,
              OSCall.registerHotKey (c + 3)
                (((MOD_NOREPEAT ||| MOD_CONTROL) ||| MOD_ALT) ||| MOD_SHIFT) VK_F1 true] ++
            after) ∧
      ∀ msg : MSG, msg.message = WM_HOTKEY →
        (castInt msg.wParam = c ∨ castInt msg.wParam = c + 1 ∨ castInt msg.wParam = c + 2 ∨
          castInt msg.wParam = c + 3) →
        nativeEventFilter OS.acceptAll Env.wildcard msg
            (registerHotkeys OS.acceptAll Env.wildcard aliceWorld).2 =
          (true, [Signal.characterHotkeyPressed "Alice"],
            (registerHotkeys OS.acceptAll Env.wildcard aliceWorld).2) :=
  scenarioA_alice OS.acceptAll Env.wildcard aliceWorld [] []
    (Reachable.edit (Reachable.constructed ())
      ⟨rfl, rfl, rfl, rfl, rfl, fun slot => by cases slot <;> rfl, rfl, rfl, rfl⟩)
    (fun _ _ _ _ => rfl) rfl rfl rfl rfl (by simp) (by simp)

/-! ## C20: the ordering of bindings -/

theorem HotkeyBinding.opLt_iff (a b : HotkeyBinding) :
    a.opLt b = true ↔
      (a.keyCode < b.keyCode ∨ (a.keyCode = b.keyCode ∧
        ((a.ctrl = false ∧ b.ctrl = true) ∨ (a.ctrl = b.ctrl ∧
          ((a.alt = false ∧ b.alt = true) ∨ (a.alt = b.alt ∧
            ((a.shift = false ∧ b.shift = true) ∨ (a.shift = b.shift ∧
              (a.enabled = false ∧ b.enabled = true))))))))) := by
  obtain ⟨ka, ca, aa, sa, ea⟩ := a
  obtain ⟨kb, cb, ab, sb, eb⟩ := b
  simp only [HotkeyBinding.opLt]
  by_cases hk : ka = kb
  · subst hk
    cases ca <;> cases cb <;> cases aa <;> cases ab <;> cases sa <;> cases sb <;>
      cases ea <;> cases eb <;> simp
  · have : ¬ (ka < kb ∧ ka = kb) := fun h => hk h.2
    simp only [ne_eq, hk, not_false_eq_true, if_true, decide_eq_true_eq, false_and, or_false]

theorem lex_flag_trans (x y z : Bool) (P Q R : Prop)
    (h1 : (x = false ∧ y = true) ∨ (x = y ∧ P)) (h2 : (y = false ∧ z = true) ∨ (y = z ∧ Q))
    (h : P → Q → R) : (x = false ∧ z = true) ∨ (x = z ∧ R) := by
  rcases h1 with ⟨hx, hy⟩ | ⟨hxy, hp⟩
  · rcases h2 with ⟨hy2, _⟩ | ⟨hyz, _⟩
    · rw [hy] at hy2; exact Bool.noConfusion hy2
    · exact Or.inl ⟨hx, hyz ▸ hy⟩
  · rcases h2 with ⟨hy2, hz⟩ | ⟨hyz, hq⟩
    · exact Or.inl ⟨hxy ▸ hy2, hz⟩
    · exact Or.inr ⟨hxy.trans hyz, h hp hq⟩

/-- C20: `operator<` is the lexicographic order on (keyCode, ctrl, alt, shift, enabled) with
false below true; it is irreflexive and transitive, and of `a < b`, `a == b`, `b < a`
exactly one holds for every pair of bindings, `operator==` comparing all five fields. -/
theorem opLt_strict_total_order :
    (∀ a b : HotkeyBinding, a.opLt b = true ↔
      (a.keyCode < b.keyCode ∨ (a.keyCode = b.keyCode ∧
        ((a.ctrl = false ∧ b.ctrl = true) ∨ (a.ctrl = b.ctrl ∧
          ((a.alt = false ∧ b.alt = true) ∨ (a.alt = b.alt ∧
            ((a.shift = false ∧ b.shift = true) ∨ (a.shift = b.shift ∧
              (a.enabled = false ∧ b.enabled = true)))))))))) ∧
    (∀ a : HotkeyBinding, a.opLt a = false) ∧
    (∀ a b c : HotkeyBinding, a.opLt b = true → b.opLt c = true → a.opLt c = true) ∧
    (∀ a b : HotkeyBinding,
      (a.opLt b = true ∧ a.opEq b = false ∧ b.opLt a = false) ∨
      (a.opLt b = false ∧ a.opEq b = true ∧ b.opLt a = false) ∨
      (a.opLt b = false ∧ a.opEq b = false ∧ b.opLt a = true)) ∧
    (∀ a b : HotkeyBinding, a.opEq b = true ↔
      (a.keyCode = b.keyCode ∧ a.ctrl = b.ctrl ∧ a.alt = b.alt ∧ a.shift = b.shift ∧
        a.enabled = b.enabled)) := by
  refine ⟨HotkeyBinding.opLt_iff, ?_, ?_, ?_, ?_⟩
  · intro a
    cases h : a.opLt a with
    | false => rfl
    | true =>
      rw [HotkeyBinding.opLt_iff] at h
      obtain ⟨k, c, al, s, e⟩ := a
      cases c <;> cases al <;> cases s <;> cases e <;> simp at h
  · intro a b c hab hbc
    rw [HotkeyBinding.opLt_iff] at hab hbc ⊢
    obtain ⟨ka, ca, aa, sa, ea⟩ := a
    obtain ⟨kb, cb, ab, sb, eb⟩ := b
    obtain ⟨kc, cc, ac, sc, ec⟩ := c
    simp only at hab hbc ⊢
    rcases hab with h1 | ⟨h1, hab⟩
    · rcases hbc with h2 | ⟨h2, -⟩
      · exact Or.inl (lt_trans h1 h2)
      · exact Or.inl (h2 ▸ h1)
    · rcases hbc with h2 | ⟨h2, hbc⟩
      · exact Or.inl (h1 ▸ h2)
      · refine Or.inr ⟨h1.trans h2, ?_⟩
        refine lex_flag_trans _ _ _ _ _ _ hab hbc (fun hab1 hbc1 => ?_)
        refine lex_flag_trans _ _ _ _ _ _ hab1 hbc1 (fun hab2 hbc2 => ?_)
        refine lex_flag_trans _ _ _ _ _ _ hab2 hbc2 (fun hab3 hbc3 => ?_)
        rw [hab3.2] at hbc3
        exact Bool.noConfusion hbc3.1
  · intro a b
    have hab := HotkeyBinding.opLt_iff a b
    have hba := HotkeyBinding.opLt_iff b a
    have heq := HotkeyBinding.opEq_iff a b
    obtain ⟨ka, ca, aa, sa, ea⟩ := a
    obtain ⟨kb, cb, ab, sb, eb⟩ := b
    simp only [HotkeyBinding.mk.injEq] at hab hba heq
    rcases lt_trichotomy ka kb with h | h | h
    · refine Or.inl ⟨hab.2 (Or.inl h), ?_, ?_⟩
      · rw [← Bool.not_eq_true]; intro he; exact absurd (heq.1 he).1 (ne_of_lt h)
      · rw [← Bool.not_eq_true]; intro hl
        rcases hba.1 hl with h2 | ⟨h2, -⟩
        · exact absurd h2 (not_lt.2 (le_of_lt h))
        · exact absurd h2.symm (ne_of_lt h)
    · subst h
      cases ca <;> cases cb <;> cases aa <;> cases ab <;> cases sa <;> cases sb <;>
        cases ea <;> cases eb <;> simp at hab hba heq <;> simp [hab, hba, heq]
    · refine Or.inr (Or.inr ⟨?_, ?_, hba.2 (Or.inl h)⟩)
      · rw [← Bool.not_eq_true]; intro hl
        rcases hab.1 hl with h2 | ⟨h2, -⟩
        · exact absurd h2 (not_lt.2 (le_of_lt h))
        · exact absurd h2 (ne_of_gt h)
      · rw [← Bool.not_eq_true]; intro he; exact absurd (heq.1 he).1 (ne_of_gt h)
  · intro a b
    rw [HotkeyBinding.opEq_iff]
    obtain ⟨ka, ca, aa, sa, ea⟩ := a
    obtain ⟨kb, cb, ab, sb, eb⟩ := b
    simp only [HotkeyBinding.mk.injEq]

/-! ## C11: first hit wins -/

theorem searchCategories_flatten {σ : Type} (env : Env) (w : World σ) (excludeKey : String) :
    (searchCategories env w excludeKey).flatten = searchedOwners env w excludeKey := by
  simp [searchCategories, searchedOwners, storedOwners]

theorem firstMatch_first (candidate : HotkeyBinding) (pre post : List (String × HotkeyBinding))
    (p : String × HotkeyBinding)
    (hp : p.2.enabled = true ∧ sameCombination p.2 candidate)
    (hpre : ∀ q ∈ pre, ¬ (q.2.enabled = true ∧ sameCombination q.2 candidate)) :
    firstMatch candidate (pre ++ p :: post) = some p.1 := by
  rw [firstMatch_append, (firstMatch_none candidate pre).2 hpre]
  simp only [firstMatch, if_pos hp]

theorem firstMatch_in_category (candidate : HotkeyBinding)
    (pre cat post : List (String × HotkeyBinding))
    (hcat : ∃ p ∈ cat, p.2.enabled = true ∧ sameCombination p.2 candidate)
    (hpre : ∀ q ∈ pre, ¬ (q.2.enabled = true ∧ sameCombination q.2 candidate)) :
    ∃ p ∈ cat, (p.2.enabled = true ∧ sameCombination p.2 candidate) ∧
      firstMatch candidate (pre ++ (cat ++ post)) = some p.1 := by
  rw [firstMatch_append, (firstMatch_none candidate pre).2 hpre]
  simp only
  rw [firstMatch_append]
  cases hc : firstMatch candidate cat with
  | none =>
    obtain ⟨p, hp, hm⟩ := hcat
    exact absurd hm ((firstMatch_none candidate cat).1 hc p hp)
  | some label =>
    obtain ⟨p, hp, hl, hm⟩ := firstMatch_some candidate cat label hc
    exact ⟨p, hp, hm, by rw [hl]⟩

/-- C11: for every enabled candidate, every store and every `excludeKey`, the label returned
by `findHotkeyConflict` is that of the first owner, in the search order, whose binding is
enabled and has the candidate's key code, ctrl, alt and shift; hence it belongs to the
earliest category with such an owner, the categories being, in order, the suspend toggle,
the characters, the cycle groups (forward before backward within a group), not-logged-in
forward then backward, non-target forward then backward, and the profiles (all of them when
`excludeKey` is empty, otherwise those with another name).  In particular a candidate equal
to the suspend binding always yields "Suspend/Resume Hotkey", and a candidate that does not
equal the suspend binding but equals a character binding yields the label of such a
character, whatever the later categories hold. -/
theorem findHotkeyConflict_first_hit {σ : Type} (env : Env) (w : World σ)
    (candidate : HotkeyBinding) (excludeKey : String) (he : candidate.enabled = true) :
    (∀ (pre post : List (String × HotkeyBinding)) (p : String × HotkeyBinding),
      searchedOwners env w excludeKey = pre ++ p :: post →
      (p.2.enabled = true ∧ sameCombination p.2 candidate) →
      (∀ q ∈ pre, ¬ (q.2.enabled = true ∧ sameCombination q.2 candidate)) →
      findHotkeyConflict env w candidate excludeKey = p.1) ∧
    (∀ (before after : List (List (String × HotkeyBinding)))
        (cat : List (String × HotkeyBinding)),
      searchCategories env w excludeKey = before ++ cat :: after →
      (∃ p ∈ cat, p.2.enabled = true ∧ sameCombination p.2 candidate) →
      (∀ c ∈ before, ∀ q ∈ c, ¬ (q.2.enabled = true ∧ sameCombination q.2 candidate)) →
      ∃ p ∈ cat, (p.2.enabled = true ∧ sameCombination p.2 candidate) ∧
        findHotkeyConflict env w candidate excludeKey = p.1) ∧
    ((w.m_suspendHotkey.enabled = true ∧ sameCombination w.m_suspendHotkey candidate) →
      findHotkeyConflict env w candidate excludeKey = "Suspend/Resume Hotkey") ∧
    (¬ (w.m_suspendHotkey.enabled = true ∧ sameCombination w.m_suspendHotkey candidate) →
      (∃ e ∈ w.m_characterHotkeys, e.2.enabled = true ∧ sameCombination e.2 candidate) →
      ∃ e ∈ w.m_characterHotkeys, (e.2.enabled = true ∧ sameCombination e.2 candidate) ∧
        findHotkeyConflict env w candidate excludeKey = "Character: " ++ e.1) := by
  have hcat : ∀ (before after : List (List (String × HotkeyBinding)))
      (cat : List (String × HotkeyBinding)),
      searchCategories env w excludeKey = before ++ cat :: after →
      (∃ p ∈ cat, p.2.enabled = true ∧ sameCombination p.2 candidate) →
      (∀ c ∈ before, ∀ q ∈ c, ¬ (q.2.enabled = true ∧ sameCombination q.2 candidate)) →
      ∃ p ∈ cat, (p.2.enabled = true ∧ sameCombination p.2 candidate) ∧
        findHotkeyConflict env w candidate excludeKey = p.1 := by
    intro before after cat hsplit hex hbefore
    have hflat : searchedOwners env w excludeKey =
        before.flatten ++ (cat ++ after.flatten) := by
      rw [← searchCategories_flatten, hsplit]; simp
    obtain ⟨p, hp, hm, hf⟩ := firstMatch_in_category candidate before.flatten cat
      after.flatten hex (by
        intro q hq
        obtain ⟨c, hc, hqc⟩ := List.mem_flatten.1 hq
        exact hbefore c hc q hqc)
    refine ⟨p, hp, hm, ?_⟩
    rw [findHotkeyConflict_eq_firstMatch env w candidate excludeKey he, hflat, hf]
    rfl
  refine ⟨?_, hcat, ?_, ?_⟩
  · intro pre post p hsplit hp hpre
    rw [findHotkeyConflict_eq_firstMatch env w candidate excludeKey he, hsplit,
      firstMatch_first candidate pre post p hp hpre]
    rfl
  · intro hs
    obtain ⟨p, hp, -, hf⟩ := hcat [] _ _ rfl
      ⟨("Suspend/Resume Hotkey", w.m_suspendHotkey), List.mem_singleton.2 rfl, hs⟩
      (fun c hc => absurd hc (List.not_mem_nil c))
    rw [List.mem_singleton.1 hp] at hf
    exact hf
  · intro hs ⟨e, hemem, hem⟩
    obtain ⟨p, hp, hm, hf⟩ := hcat [[("Suspend/Resume Hotkey", w.m_suspendHotkey)]] _ _ rfl
      ⟨("Character: " ++ e.1, e.2), List.mem_map.2 ⟨e, hemem, rfl⟩, hem⟩
      (by
        intro c hc q hq
        rw [List.mem_singleton.1 hc] at hq
        rw [List.mem_singleton.1 hq]
        exact hs)
    obtain ⟨e2, he2, rfl⟩ := List.mem_map.1 hp
    exact ⟨e2, he2, hm, hf⟩

/-- Witness for C11: the suspend toggle and the character Alice both hold F2; the label is
that of the suspend toggle. -/
theorem findHotkeyConflict_first_hit_witness :
    plainF2.enabled = true ∧
    (suspendAndAliceF2World.m_suspendHotkey.enabled = true ∧
      sameCombination suspendAndAliceF2World.m_suspendHotkey plainF2) ∧
    (∃ e ∈ suspendAndAliceF2World.m_characterHotkeys,
      e.2.enabled = true ∧ sameCombination e.2 plainF2) ∧
    findHotkeyConflict Env.plain suspendAndAliceF2World plainF2 "" = "Suspend/Resume Hotkey" :=
  ⟨rfl, by decide, ⟨("Alice", plainF2), List.mem_singleton.2 rfl, by decide⟩,
    (findHotkeyConflict_first_hit Env.plain suspendAndAliceF2World plainF2 "" rfl).2.2.1
      (by decide)⟩

/-! ## Focus gating -/

theorem isForegroundWindowEVEClient_false_iff (env : Env) :
    isForegroundWindowEVEClient env = false ↔ foregroundNotAllowed env := by
  unfold isForegroundWindowEVEClient foregroundNotAllowed
  cases env.foregroundProcess with
  | none => simp
  | some processName =>
    simp only
    by_cases hemp : processName.isEmpty = true
    · simp [hemp]
    · simp only [hemp, Bool.false_eq_true, if_false, false_or, List.any_eq_false]
      constructor
      · intro h a ha
        have := h a ha
        simpa using this
      · intro h a ha
        simp [h a ha]

/-- When the manager is not suspended, focus gating is on and the process of the
foreground window matches no allow-listed name (no readable name, an empty name, or a name
that differs from every allowed one ignoring case), a hotkey message whose id after alias
resolution differs from the value of `m_suspendHotkeyId` (the value -1 of an unset toggle
included) is reported not handled, emits nothing and changes nothing; the message whose
resolved id is that value still toggles: handled, `suspendedChanged(true)`, and the rebuilt
world with the flag set. -/
theorem focus_gating {σ : Type} (os : OS σ) (env : Env) (msg : MSG) (w : World σ)
    (hm : msg.message = WM_HOTKEY) (hs : w.m_suspended = false)
    (hg : env.hotkeysOnlyWhenEVEFocused = true) (hfg : foregroundNotAllowed env) :
    (resolveAlias w (castInt msg.wParam) ≠ w.m_suspendHotkeyId →
      nativeEventFilter os env msg w = (false, [], w)) ∧
    (resolveAlias w (castInt msg.wParam) = w.m_suspendHotkeyId →
      nativeEventFilter os env msg w =
        (true, [Signal.suspendedChanged true],
          (registerHotkeys os env { w with m_suspended := true }).2)) := by
  have hfalse := (isForegroundWindowEVEClient_false_iff env).2 hfg
  constructor
  · intro hid
    unfold nativeEventFilter
    simp only [hm, if_true, if_neg hid, hs, hg, hfalse, Bool.not_false, Bool.and_self,
      Bool.false_eq_true, if_false]
  · intro hid
    have hne : ¬ w.m_suspended = !w.m_suspended := by cases w.m_suspended <;> decide
    unfold nativeEventFilter toggleSuspended setSuspended
    simp only [hm, if_true, hid, if_neg hne, registerHotkeys_suspended]
    rw [hs]
    rfl

/-- Scenario A rebuilt, focus gating on, the foreground window belonging to a program that
is not on the allow list: Alice's id 1000 is let through unhandled. -/
theorem focus_gating_example :
    foregroundNotAllowed Env.gated ∧
    nativeEventFilter OS.acceptAll Env.gated { message := WM_HOTKEY, wParam := 1000 }
        (registerHotkeys OS.acceptAll Env.gated aliceWorld).2 =
      (false, [], (registerHotkeys OS.acceptAll Env.gated aliceWorld).2) :=
  ⟨by decide,
    (focus_gating OS.acceptAll Env.gated { message := WM_HOTKEY, wParam := 1000 }
      (registerHotkeys OS.acceptAll Env.gated aliceWorld).2 rfl rfl rfl (by decide)).1
      (by decide)⟩

/-! ## C12: an id nobody owns -/

/-- When the manager is not suspended and focus gating lets the message through, a hotkey
message whose id is no key of the alias, character, cycle-group and profile tables and
differs from the value of every one of the six id slots (the value -1 of an unset slot
included) is reported not handled, emits nothing and changes nothing. -/
theorem unowned_id_not_handled {σ : Type} (os : OS σ) (env : Env) (msg : MSG) (w : World σ)
    (hm : msg.message = WM_HOTKEY) (hs : w.m_suspended = false)
    (hfocus : (env.hotkeysOnlyWhenEVEFocused && !isForegroundWindowEVEClient env) = false)
    (halias : hFind w.m_wildcardAliases (castInt msg.wParam) = none)
    (hchar : hFind w.m_hotkeyIdToCharacter (castInt msg.wParam) = none)
    (hcycle : hFind w.m_hotkeyIdToCycleGroup (castInt msg.wParam) = none)
    (hprofile : hFind w.m_hotkeyIdToProfile (castInt msg.wParam) = none)
    (hslots : ∀ slot : IdSlot, w.slotId slot ≠ castInt msg.wParam) :
    nativeEventFilter os env msg w = (false, [], w) := by
  have hres : resolveAlias w (castInt msg.wParam) = castInt msg.wParam := by
    rw [resolveAlias_eq, halias]; rfl
  have h0 := hslots IdSlot.suspend
  have h1 := hslots IdSlot.notLoggedInForward
  have h2 := hslots IdSlot.notLoggedInBackward
  have h3 := hslots IdSlot.nonEVEForward
  have h4 := hslots IdSlot.nonEVEBackward
  have h5 := hslots IdSlot.closeAllClients
  simp only [World.slotId] at h0 h1 h2 h3 h4 h5
  unfold nativeEventFilter route
  simp only [hm, if_true, hres, if_neg (Ne.symm h0), hs, hfocus, Bool.false_eq_true, if_false,
    hContains_eq_isSome, hchar, hcycle, hprofile, Option.isSome_none, if_neg (Ne.symm h1),
    if_neg (Ne.symm h2), if_neg (Ne.symm h3), if_neg (Ne.symm h4), if_neg (Ne.symm h5)]

/-- C12 fails at the id -1, the value that marks an unset slot.  In the manager rebuilt from
the default store (suspend toggle Ctrl+Alt+Shift+F12 registered as 1000, nothing else
stored), not suspended, the id -1 is no key of any table and is not the id of the suspend
toggle, and the not-logged-in forward slot holds -1 because nothing is registered there; the
hotkey message carrying -1 is nevertheless reported handled and emits
`notLoggedInCycleForwardPressed`. -/
theorem unowned_id_minus_one_handled :
    castInt 4294967295 = -1 ∧
    (registerHotkeys OS.acceptAll Env.plain suspendWorld).2.m_suspended = false ∧
    (registerHotkeys OS.acceptAll Env.plain suspendWorld).2.m_suspendHotkeyId = 1000 ∧
    (registerHotkeys OS.acceptAll Env.plain suspendWorld).2.m_notLoggedInForwardHotkeyId = -1 ∧
    hFind (registerHotkeys OS.acceptAll Env.plain suspendWorld).2.m_wildcardAliases (-1) = none ∧
    hFind (registerHotkeys OS.acceptAll Env.plain suspendWorld).2.m_hotkeyIdToCharacter (-1) =
      none ∧
    hFind (registerHotkeys OS.acceptAll Env.plain suspendWorld).2.m_hotkeyIdToCycleGroup (-1) =
      none ∧
    hFind (registerHotkeys OS.acceptAll Env.plain suspendWorld).2.m_hotkeyIdToProfile (-1) =
      none ∧
    nativeEventFilter OS.acceptAll Env.plain { message := WM_HOTKEY, wParam := 4294967295 }
        (registerHotkeys OS.acceptAll Env.plain suspendWorld).2 =
      (true, [Signal.notLoggedInCycleForwardPressed],
        (registerHotkeys OS.acceptAll Env.plain suspendWorld).2) := by
  refine ⟨by decide, by decide, by decide, by decide, by decide, by decide, by decide,
    by decide, rfl⟩

/-! ## C18: a malformed suspend record -/

theorem fromString_malformed (s : String) (h : (split ',' s.data).length ≠ 5) :
    HotkeyBinding.fromString s = HotkeyBinding.empty := by
  unfold HotkeyBinding.fromString
  split
  · rename_i heq
    rw [heq] at h
    exact absurd rfl h
  · rfl

theorem registerHotkeys_suspend_disabled {σ : Type} (os : OS σ) (env : Env) (w : World σ)
    (hd : w.m_suspendHotkey.enabled = false) :
    (registerHotkeys os env w).2.m_suspendHotkeyId = -1 := by
  have hset := clearRegistrations_settings os w
  simp only [World.settings, Prod.mk.injEq] at hset
  have hsb : (clearRegistrations os w).m_suspendHotkey = w.m_suspendHotkey := hset.2.2.1
  have h1 : (registerSuspendHotkey os env (clearRegistrations os w)).m_suspendHotkeyId = -1 := by
    unfold registerSuspendHotkey
    rw [hsb, hd]
    simp only [Bool.false_eq_true, if_false]
    obtain ⟨s, released, h0⟩ := clearRegistrations_eq os w
    rw [h0]
  unfold registerHotkeys
  simp only
  split_ifs
  · exact h1
  · rw [registerActiveHotkeys_suspendId]; exact h1

theorem loadFromConfig_suspendHotkey {σ : Type} (os : OS σ) (env : Env) (settings : Settings)
    (w : World σ) :
    (loadFromConfig os env settings w).m_suspendHotkey = loadSuspendHotkey settings := by
  unfold loadFromConfig
  rw [registerHotkeys_suspendHotkey]
  rfl

/-- C18, as amended: when the text stored for the suspend binding is not empty and does not
split into exactly five comma-separated fields, `loadFromConfig` sets the suspend binding to
the default-constructed binding (key code 0, no modifier, disabled), so the rebuild it runs
leaves the suspend toggle unregistered (`m_suspendHotkeyId` is -1); an absent or empty
record gives Ctrl+Alt+Shift+F12, enabled. -/
theorem loadFromConfig_malformed_suspend {σ : Type} (os : OS σ) (env : Env)
    (settings : Settings) (w : World σ)
    (hne : (variantText settings.suspendHotkey).isEmpty = false)
    (hmal : (split ',' (variantText settings.suspendHotkey).data).length ≠ 5) :
    (loadFromConfig os env settings w).m_suspendHotkey = HotkeyBinding.empty ∧
    (loadFromConfig os env settings w).m_suspendHotkey.enabled = false ∧
    (loadFromConfig os env settings w).m_suspendHotkeyId = -1 ∧
    (∀ absent : Settings, (variantText absent.suspendHotkey).isEmpty = true →
      (loadFromConfig os env absent w).m_suspendHotkey = ctrlAltShiftF12) := by
  have h1 : loadSuspendHotkey settings = HotkeyBinding.empty := by
    unfold loadSuspendHotkey
    simp only [hne, Bool.not_false, if_true]
    exact fromString_malformed _ hmal
  have h2 : (loadFromConfig os env settings w).m_suspendHotkey = HotkeyBinding.empty := by
    rw [loadFromConfig_suspendHotkey, h1]
  refine ⟨h2, by rw [h2]; rfl, ?_, ?_⟩
  · unfold loadFromConfig
    apply registerHotkeys_suspend_disabled
    show (loadSuspendHotkey settings).enabled = false
    rw [h1]; rfl
  · intro absent habsent
    rw [loadFromConfig_suspendHotkey]
    unfold loadSuspendHotkey
    simp only [habsent, Bool.not_true, Bool.false_eq_true, if_false]
    rfl

/-- Witness for C18: the stored text "1,123,1" has three fields. -/
theorem loadFromConfig_malformed_suspend_witness :
    (variantText Settings.shortSuspend.suspendHotkey).isEmpty = false ∧
    (split ',' (variantText Settings.shortSuspend.suspendHotkey).data).length ≠ 5 ∧
    (loadFromConfig OS.acceptAll Env.plain Settings.shortSuspend
      (World.constructed ())).m_suspendHotkey = HotkeyBinding.empty ∧
    (loadFromConfig OS.acceptAll Env.plain Settings.shortSuspend
      (World.constructed ())).m_suspendHotkeyId = -1 :=
  ⟨by decide, by decide,
    (loadFromConfig_malformed_suspend OS.acceptAll Env.plain Settings.shortSuspend
      (World.constructed ()) (by decide) (by decide)).1,
    (loadFromConfig_malformed_suspend OS.acceptAll Env.plain Settings.shortSuspend
      (World.constructed ()) (by decide) (by decide)).2.2.1⟩

/-- C18 as stated fails for the stored text "1,123,1": the text is not empty and has three
fields, and after `loadFromConfig` the suspend binding is the disabled default-constructed
binding, not Ctrl+Alt+Shift+F12, which is what an absent record gives. -/
theorem loadFromConfig_malformed_suspend_counterexample :
    (variantText Settings.shortSuspend.suspendHotkey).isEmpty = false ∧
    (split ',' (variantText Settings.shortSuspend.suspendHotkey).data).length = 3 ∧
    (loadFromConfig OS.acceptAll Env.plain Settings.shortSuspend
      (World.constructed ())).m_suspendHotkey =
        { keyCode := 0, ctrl := false, alt := false, shift := false, enabled := false } ∧
    (loadFromConfig OS.acceptAll Env.plain Settings.shortSuspend
      (World.constructed ())).m_suspendHotkey ≠ ctrlAltShiftF12 ∧
    (loadFromConfig OS.acceptAll Env.plain Settings.absent
      (World.constructed ())).m_suspendHotkey = ctrlAltShiftF12 := by
  refine ⟨by decide, by decide, by decide, by decide, by decide⟩

/-! ## C19: one bad record does not lose the rest -/

theorem hFind_foldl_other {α κ ν : Type} [DecidableEq κ] (step : List (κ × ν) → α → List (κ × ν))
    (key : α → κ) (k : κ)
    (hstep : ∀ (m : List (κ × ν)) (e : α), key e ≠ k → hFind (step m e) k = hFind m k)
    (l : List α) (hl : ∀ e ∈ l, key e ≠ k) :
    ∀ m : List (κ × ν), hFind (l.foldl step m) k = hFind m k := by
  induction l with
  | nil => intro m; rfl
  | cons e rest ih =>
    intro m
    rw [List.foldl_cons, ih (fun x hx => hl x (List.mem_cons_of_mem _ hx)),
      hstep m e (hl e (List.mem_cons_self _ _))]

/-- Reading, after a loop of inserts over records with pairwise different keys, the key of
one of the records: the value that record inserted, or nothing when that record was
skipped. -/
theorem hFind_foldl_record {α κ ν : Type} [DecidableEq κ]
    (step : List (κ × ν) → α → List (κ × ν)) (key : α → κ) (val : α → Option ν)
    (hother : ∀ (m : List (κ × ν)) (e : α) (k : κ), key e ≠ k →
      hFind (step m e) k = hFind m k)
    (hsame : ∀ (m : List (κ × ν)) (e : α), hFind m (key e) = none →
      hFind (step m e) (key e) = val e)
    (l : List α) (hnodup : (l.map key).Nodup) (e : α) (he : e ∈ l) :
    hFind (l.foldl step []) (key e) = val e := by
  obtain ⟨pre, post, rfl⟩ := List.append_of_mem he
  rw [List.map_append, List.map_cons, List.nodup_append] at hnodup
  obtain ⟨_, hpost, hdisj⟩ := hnodup
  rw [List.nodup_cons] at hpost
  have hpre : ∀ x ∈ pre, key x ≠ key e := by
    intro x hx heq
    exact hdisj (List.mem_map.2 ⟨x, hx, rfl⟩) (heq ▸ List.mem_cons_self _ _)
  have hpost2 : ∀ x ∈ post, key x ≠ key e := by
    intro x hx heq
    exact hpost.1 (heq ▸ List.mem_map.2 ⟨x, hx, rfl⟩)
  rw [List.foldl_append, List.foldl_cons,
    hFind_foldl_other step key (key e) (fun m x hx => hother m x (key e) hx) post hpost2]
  apply hsame
  rw [hFind_foldl_other step key (key e) (fun m x hx => hother m x (key e) hx) pre hpre]
  rfl

theorem hFind_foldl_absent {α κ ν : Type} [DecidableEq κ]
    (step : List (κ × ν) → α → List (κ × ν)) (key : α → κ)
    (hother : ∀ (m : List (κ × ν)) (e : α) (k : κ), key e ≠ k →
      hFind (step m e) k = hFind m k)
    (l : List α) (k : κ) (hk : k ∉ l.map key) : hFind (l.foldl step []) k = none := by
  rw [hFind_foldl_other step key k (fun m x hx => hother m x k hx) l]
  · rfl
  · intro e he heq
    exact hk (heq ▸ List.mem_map.2 ⟨e, he, rfl⟩)

theorem loadCharacterHotkey_other (m : List (String × HotkeyBinding)) (e : String × QVariant)
    (k : String) (hk : e.1 ≠ k) : hFind (loadCharacterHotkey m e) k = hFind m k := by
  unfold loadCharacterHotkey
  simp only
  split_ifs
  · rw [hFind_hInsert, if_neg (Ne.symm hk)]
  · rfl

theorem loadCharacterHotkey_same (m : List (String × HotkeyBinding)) (e : String × QVariant)
    (hm : hFind m e.1 = none) :
    hFind (loadCharacterHotkey m e) e.1 =
      if (HotkeyBinding.fromString e.2.toString).enabled = true then
        some (HotkeyBinding.fromString e.2.toString)
      else none := by
  unfold loadCharacterHotkey
  simp only
  split_ifs
  · rw [hFind_hInsert, if_pos rfl]
  · exact hm

theorem loadCycleGroup_other (m : List (String × CycleGroup)) (e : String × QVariant)
    (k : String) (hk : e.1 ≠ k) : hFind (loadCycleGroup m e) k = hFind m k := by
  unfold loadCycleGroup
  simp only
  split_ifs
  · rw [hFind_hInsert, if_neg (Ne.symm hk)]
  · rfl

theorem loadCycleGroup_same (m : List (String × CycleGroup)) (e : String × QVariant)
    (hm : hFind m e.1 = none) :
    hFind (loadCycleGroup m e) e.1 =
      if (splitString '|' (variantText e.2)).length ≥ 3 then
        some (cycleGroupOfParts e.1 (splitString '|' (variantText e.2)))
      else none := by
  unfold loadCycleGroup
  simp only
  split_ifs
  · rw [hFind_hInsert, if_pos rfl]
  · exact hm

theorem loadFromConfig_store {σ : Type} (os : OS σ) (env : Env) (settings : Settings)
    (w : World σ) :
    (loadFromConfig os env settings w).m_characterHotkeys =
        settings.characterHotkeys.foldl loadCharacterHotkey [] ∧
      (loadFromConfig os env settings w).m_cycleGroups =
        settings.cycleGroups.foldl loadCycleGroup [] := by
  have h := registerHotkeys_settings os env (loadStore settings w)
  simp only [World.settings, Prod.mk.injEq] at h
  exact ⟨h.1, h.2.1⟩

/-- C19: `loadFromConfig` reading records with pairwise different keys.  A character record
whose text does not split into exactly five comma-separated fields leaves its character
without entry; a character record of five fields whose parsed binding is enabled gives its
character exactly the parsed binding; a cycle-group record of fewer than three parts
separated by a vertical bar leaves its group without entry; a cycle-group record of at
least three parts gives its group exactly the group built from its parts; and no entry
exists under a name that is not the key of a record.  What another record holds plays no
part. -/
theorem loadFromConfig_skips_bad_records {σ : Type} (os : OS σ) (env : Env)
    (settings : Settings) (w : World σ)
    (hck : (settings.characterHotkeys.map Prod.fst).Nodup)
    (hgk : (settings.cycleGroups.map Prod.fst).Nodup) :
    (∀ r ∈ settings.characterHotkeys,
      ((split ',' r.2.toString.data).length ≠ 5 →
        hFind (loadFromConfig os env settings w).m_characterHotkeys r.1 = none) ∧
      ((split ',' r.2.toString.data).length = 5 →
        (HotkeyBinding.fromString r.2.toString).enabled = true →
        hFind (loadFromConfig os env settings w).m_characterHotkeys r.1 =
          some (HotkeyBinding.fromString r.2.toString))) ∧
    (∀ r ∈ settings.cycleGroups,
      ((splitString '|' (variantText r.2)).length < 3 →
        hFind (loadFromConfig os env settings w).m_cycleGroups r.1 = none) ∧
      ((splitString '|' (variantText r.2)).length ≥ 3 →
        hFind (loadFromConfig os env settings w).m_cycleGroups r.1 =
          some (cycleGroupOfParts r.1 (splitString '|' (variantText r.2))))) ∧
    (∀ name : String, name ∉ settings.characterHotkeys.map Prod.fst →
      hFind (loadFromConfig os env settings w).m_characterHotkeys name = none) ∧
    (∀ name : String, name ∉ settings.cycleGroups.map Prod.fst →
      hFind (loadFromConfig os env settings w).m_cycleGroups name = none) := by
  obtain ⟨hc, hg⟩ := loadFromConfig_store os env settings w
  rw [hc, hg]
  refine ⟨?_, ?_, ?_, ?_⟩
  · intro r hr
    have key := hFind_foldl_record loadCharacterHotkey Prod.fst
      (fun e => if (HotkeyBinding.fromString e.2.toString).enabled = true then
        some (HotkeyBinding.fromString e.2.toString) else none)
      loadCharacterHotkey_other loadCharacterHotkey_same settings.characterHotkeys hck r hr
    dsimp only at key
    constructor
    · intro hbad
      rw [key, fromString_malformed _ hbad]
      rfl
    · intro _ hen
      rw [key, if_pos hen]
  · intro r hr
    have key := hFind_foldl_record loadCycleGroup Prod.fst
      (fun e => if (splitString '|' (variantText e.2)).length ≥ 3 then
        some (cycleGroupOfParts e.1 (splitString '|' (variantText e.2))) else none)
      loadCycleGroup_other loadCycleGroup_same settings.cycleGroups hgk r hr
    dsimp only at key
    constructor
    · intro hbad
      rw [key, if_neg (by omega)]
    · intro hgood
      rw [key, if_pos hgood]
  · intro name hname
    exact hFind_foldl_absent loadCharacterHotkey Prod.fst loadCharacterHotkey_other _ name hname
  · intro name hname
    exact hFind_foldl_absent loadCycleGroup Prod.fst loadCycleGroup_other _ name hname

/-- Witness for C19: Alice's record has two fields, Bob's is a good enabled F2; the group
record "bad" has two parts, the group record "good" has three. -/
theorem loadFromConfig_skips_bad_records_witness :
    hFind (loadFromConfig OS.acceptAll Env.plain Settings.mixed
      (World.constructed ())).m_characterHotkeys "Alice" = none ∧
    hFind (loadFromConfig OS.acceptAll Env.plain Settings.mixed
      (World.constructed ())).m_characterHotkeys "Bob" =
        some (HotkeyBinding.fromString "1,113,0,0,0") ∧
    hFind (loadFromConfig OS.acceptAll Env.plain Settings.mixed
      (World.constructed ())).m_cycleGroups "bad" = none ∧
    hFind (loadFromConfig OS.acceptAll Env.plain Settings.mixed
      (World.constructed ())).m_cycleGroups "good" =
        some (cycleGroupOfParts "good"
          (splitString '|' "Alice,Bob|1,114,0,0,0|1,115,0,0,0")) :=
  ⟨((loadFromConfig_skips_bad_records OS.acceptAll Env.plain Settings.mixed
      (World.constructed ()) (by decide) (by decide)).1
      ("Alice", QVariant.string "1,112") (by decide)).1 (by decide),
    ((loadFromConfig_skips_bad_records OS.acceptAll Env.plain Settings.mixed
      (World.constructed ()) (by decide) (by decide)).1
      ("Bob", QVariant.string "1,113,0,0,0") (by decide)).2 (by decide) (by decide),
    ((loadFromConfig_skips_bad_records OS.acceptAll Env.plain Settings.mixed
      (World.constructed ()) (by decide) (by decide)).2.1
      ("bad", QVariant.string "Alice,Bob|1,114,0,0,0") (by decide)).1 (by decide),
    ((loadFromConfig_skips_bad_records OS.acceptAll Env.plain Settings.mixed
      (World.constructed ()) (by decide) (by decide)).2.1
      ("good", QVariant.string "Alice,Bob|1,114,0,0,0|1,115,0,0,0") (by decide)).2
      (by decide)⟩

/-! ## The record of calls -/

theorem registeredIds_append (a b : List OSCall) :
    registeredIds (a ++ b) = registeredIds a ++ registeredIds b := by
  induction a with
  | nil => rfl
  | cons c rest ih => cases c <;> simp [registeredIds, ih]

theorem registeredIds_unregister (ids : List Int) :
    registeredIds (ids.map OSCall.unregisterHotKey) = [] := by
  induction ids with
  | nil => rfl
  | cons i rest ih => simpa [registeredIds] using ih

theorem registeredIds_attempts (keyCode : Int) (attempts : List AliasAttempt) :
    registeredIds (attempts.map (AliasAttempt.toCall keyCode)) =
      attempts.map (fun a => a.id) := by
  induction attempts with
  | nil => rfl
  | cons a rest ih => simp [registeredIds, AliasAttempt.toCall, ih]

theorem isLive_append (a b : List OSCall) (id : Int) :
    isLive (a ++ b) id = b.foldl (liveStep id) (isLive a id) := by
  unfold isLive
  rw [List.foldl_append]

theorem liveFold_unregister (id : Int) (ids : List Int) :
    ∀ init : Bool, (ids.map OSCall.unregisterHotKey).foldl (liveStep id) init =
      if id ∈ ids then false else init := by
  induction ids with
  | nil => intro init; simp
  | cons i rest ih =>
    intro init
    rw [List.map_cons, List.foldl_cons, ih]
    by_cases h1 : id ∈ rest
    · simp [h1]
    · by_cases h2 : i = id
      · simp [liveStep, h2]
      · have : ¬ id = i := fun h => h2 h.symm
        simp [liveStep, h1, h2, this]

theorem liveFold_attempts (id keyCode : Int) (attempts : List AliasAttempt) :
    ∀ init : Bool, (attempts.map (AliasAttempt.toCall keyCode)).foldl (liveStep id) init =
      if ∃ a ∈ attempts, a.id = id ∧ a.accepted = true then true else init := by
  induction attempts with
  | nil => intro init; simp
  | cons a rest ih =>
    intro init
    rw [List.map_cons, List.foldl_cons, ih]
    by_cases h1 : ∃ x ∈ rest, x.id = id ∧ x.accepted = true
    · have : ∃ x ∈ a :: rest, x.id = id ∧ x.accepted = true := by
        obtain ⟨x, hx, hxk⟩ := h1
        exact ⟨x, List.mem_cons_of_mem _ hx, hxk⟩
      rw [if_pos h1, if_pos this]
    · rw [if_neg h1]
      by_cases h2 : a.id = id ∧ a.accepted = true
      · have : ∃ x ∈ a :: rest, x.id = id ∧ x.accepted = true :=
          ⟨a, List.mem_cons_self _ _, h2⟩
        rw [if_pos this]
        show (if a.id = id ∧ a.accepted = true then true else init) = true
        rw [if_pos h2]
      · have : ¬ ∃ x ∈ a :: rest, x.id = id ∧ x.accepted = true := by
          rintro ⟨x, hx, hxk⟩
          rcases List.mem_cons.1 hx with rfl | hx
          · exact h2 hxk
          · exact h1 ⟨x, hx, hxk⟩
        rw [if_neg this]
        show (if a.id = id ∧ a.accepted = true then true else init) = init
        rw [if_neg h2]

theorem liveFold_registered (id : Int) (calls : List OSCall) :
    ∀ init : Bool, calls.foldl (liveStep id) init = true →
      init = true ∨ id ∈ registeredIds calls := by
  induction calls with
  | nil => intro init h; exact Or.inl h
  | cons c rest ih =>
    intro init h
    rw [List.foldl_cons] at h
    rcases ih _ h with h1 | h1
    · cases c with
      | registerHotKey i m v ok =>
        by_cases hc : i = id ∧ ok = true
        · exact Or.inr (by rw [registeredIds, hc.1]; exact List.mem_cons_self _ _)
        · left
          have : liveStep id init (OSCall.registerHotKey i m v ok) = init := if_neg hc
          rw [← this]; exact h1
      | unregisterHotKey i =>
        by_cases hc : i = id
        · have : liveStep id init (OSCall.unregisterHotKey i) = false := if_pos hc
          rw [this] at h1; exact Bool.noConfusion h1
        · left
          have : liveStep id init (OSCall.unregisterHotKey i) = init := if_neg hc
          rw [← this]; exact h1
    · right
      cases c with
      | registerHotKey i m v ok => exact List.mem_cons_of_mem _ h1
      | unregisterHotKey i => exact h1

/-- An id the operating system holds was passed to `RegisterHotKey`. -/
theorem isLive_registered (calls : List OSCall) (id : Int) (h : isLive calls id = true) :
    id ∈ registeredIds calls := by
  rcases liveFold_registered id calls false h with h1 | h1
  · exact Bool.noConfusion h1
  · exact h1

/-! ## Counting where an id is tracked -/

theorem keyCount_nil {ν : Type} (k : Int) : keyCount ([] : List (Int × ν)) k = 0 := rfl

theorem keyCount_le_one {ν : Type} (table : List (Int × ν)) (k : Int) : keyCount table k ≤ 1 := by
  unfold keyCount
  split_ifs <;> omega

theorem keyCount_hInsert {ν : Type} (table : List (Int × ν)) (id : Int) (v : ν) (k : Int) :
    keyCount (hInsert table id v) k = if k = id then 1 else keyCount table k := by
  unfold keyCount
  rw [hFind_hInsert]
  by_cases hk : k = id
  · rw [if_pos hk, if_pos hk]; rfl
  · rw [if_neg hk, if_neg hk]

theorem keyCount_eq_one_iff {ν : Type} (table : List (Int × ν)) (k : Int) :
    keyCount table k = 1 ↔ (hFind table k).isSome = true := by
  unfold keyCount
  split_ifs with h
  · exact ⟨fun _ => h, fun _ => rfl⟩
  · exact ⟨fun h1 => h1.elim, fun h1 => absurd h1 h⟩

theorem hFind_isSome_iff_mem_keys {ν : Type} (table : List (Int × ν)) (k : Int) :
    (hFind table k).isSome = true ↔ k ∈ hKeys table := by
  induction table with
  | nil => simp [hFind_nil, hKeys]
  | cons p rest ih =>
    rw [hFind_cons]
    by_cases hp : p.1 = k
    · rw [if_pos hp]
      simp [hKeys, hp.symm]
    · rw [if_neg hp, ih]
      have : ¬ k = p.1 := fun h => hp h.symm
      simp [hKeys, this]

theorem slotCount_congr {σ : Type} (w1 w2 : World σ)
    (h : ∀ slot : IdSlot, w2.slotId slot = w1.slotId slot) (k : Int) :
    w2.slotCount k = w1.slotCount k := by
  simp only [World.slotCount, World.slotHolds, h]

theorem slotHolds_setSlot {σ : Type} (w : World σ) (slot other : IdSlot) (id k : Int)
    (hfree : w.slotId slot = -1) (hid : id ≠ -1) :
    (w.setSlot slot id).slotHolds other k =
      w.slotHolds other k + (if other = slot ∧ k = id then 1 else 0) := by
  unfold World.slotHolds
  have h3 : ¬ ((-1 : Int) = k ∧ k ≠ -1) := fun h => h.2 h.1.symm
  by_cases ho : other = slot
  · subst ho
    have h1 : (w.setSlot other id).slotId other = id := by cases other <;> rfl
    rw [h1, hfree, if_neg h3]
    by_cases hk : k = id
    · subst hk
      rw [if_pos ⟨rfl, hid⟩, if_pos ⟨rfl, rfl⟩]
    · rw [if_neg (fun h => hk h.1.symm), if_neg (fun h => hk h.2)]
  · have h1 : (w.setSlot slot id).slotId other = w.slotId other := by
      cases slot <;> cases other <;> first | rfl | exact absurd rfl ho
    rw [h1, if_neg (show ¬ (other = slot ∧ k = id) from fun h => ho h.1), add_zero]

theorem slotCount_setSlot {σ : Type} (w : World σ) (slot : IdSlot) (id k : Int)
    (hfree : w.slotId slot = -1) (hid : id ≠ -1) :
    (w.setSlot slot id).slotCount k = w.slotCount k + (if k = id then 1 else 0) := by
  unfold World.slotCount
  rw [slotHolds_setSlot w slot IdSlot.suspend id k hfree hid,
    slotHolds_setSlot w slot IdSlot.notLoggedInForward id k hfree hid,
    slotHolds_setSlot w slot IdSlot.notLoggedInBackward id k hfree hid,
    slotHolds_setSlot w slot IdSlot.nonEVEForward id k hfree hid,
    slotHolds_setSlot w slot IdSlot.nonEVEBackward id k hfree hid,
    slotHolds_setSlot w slot IdSlot.closeAllClients id k hfree hid]
  by_cases hk : k = id
  · cases slot <;> simp [hk] <;> omega
  · simp [hk]

theorem slotCount_pos {σ : Type} (w : World σ) (k : Int) (h : 0 < w.slotCount k) :
    k ≠ -1 ∧ ∃ slot : IdSlot, w.slotId slot = k := by
  unfold World.slotCount World.slotHolds at h
  by_contra hcon
  have hno : ∀ slot : IdSlot, ¬ (w.slotId slot = k ∧ k ≠ -1) :=
    fun slot hs => hcon ⟨hs.2, slot, hs.1⟩
  simp only [if_neg (hno _)] at h
  omega

/-! ## Registration keeps the registry tidy -/

/-- An id at or beyond the allocator is neither held by the operating system nor tracked. -/
theorem Tidy.fresh {σ : Type} {w : World σ} (hT : Tidy w) (k : Int)
    (hk : w.m_nextHotkeyId ≤ k) : isLive w.calls k = false ∧ w.trackCount k = 0 := by
  have hlive : isLive w.calls k = false := by
    cases h : isLive w.calls k with
    | false => rfl
    | true =>
      have := (hT.range k (isLive_registered _ _ h)).2
      omega
  have := hT.count k
  rw [hlive] at this
  exact ⟨hlive, by simpa using this⟩

theorem Tidy.count_eq {σ : Type} {w : World σ} (hT : Tidy w) (k : Int) :
    w.trackCount k = if isLive w.calls k = true then 1 else 0 := by
  have := hT.count k
  simpa using this

theorem pending_count (ok : Bool) (n k : Int) :
    (if (if ok = true then some n else none) = some k then 1 else 0 : Nat) =
      if ok = true ∧ n = k then 1 else 0 := by
  cases ok <;> simp

theorem aliasAttempts_ids_increasing {σ : Type} (os : OS σ) (keyCode : Int) (mods : List Nat)
    (s : σ) (id : Int) :
    ((aliasAttempts os keyCode s id mods).map (fun a => a.id)).Pairwise (fun a b => a < b) := by
  rw [aliasAttempts_ids, List.pairwise_map]
  exact List.Pairwise.imp (fun h => by omega) (List.pairwise_lt_range mods.length)

/-- The world after the calls of one `registerHotkey`: one attempt at the id the allocator
stood at, then alias attempts at the ids that follow, the accepted ones recorded in the
alias table.  From a tidy registry the result is tidy with the canonical id pending when it
was accepted. -/
theorem tidy_after_register {σ : Type} (w : World σ) (hT : Tidy w) (ok : Bool)
    (attempts : List AliasAttempt) (fsModifiers : Nat) (vk keyCode : Int) (s : σ)
    (hrange : ∀ a ∈ attempts, w.m_nextHotkeyId + 1 ≤ a.id ∧
      a.id < w.m_nextHotkeyId + 1 + attempts.length)
    (hsorted : (attempts.map (fun a => a.id)).Pairwise (fun a b => a < b)) :
    TidyPending (if ok = true then some w.m_nextHotkeyId else none)
      { w with
        m_nextHotkeyId := w.m_nextHotkeyId + 1 + attempts.length
        m_wildcardAliases := recordAliases w.m_nextHotkeyId w.m_wildcardAliases attempts
        os := s
        calls := w.calls ++
          OSCall.registerHotKey w.m_nextHotkeyId fsModifiers vk ok ::
            attempts.map (AliasAttempt.toCall keyCode) } := by
  have hids : registeredIds (w.calls ++
      OSCall.registerHotKey w.m_nextHotkeyId fsModifiers vk ok ::
        attempts.map (AliasAttempt.toCall keyCode)) =
      registeredIds w.calls ++ w.m_nextHotkeyId :: attempts.map (fun a => a.id) := by
    rw [registeredIds_append, registeredIds, registeredIds_attempts]
  refine { base := ?_, increasing := ?_, range := ?_, count := ?_ }
  · have := hT.base
    simp only
    omega
  · simp only
    rw [hids, List.pairwise_append]
    refine ⟨hT.increasing, ?_, ?_⟩
    · rw [List.pairwise_cons]
      refine ⟨?_, hsorted⟩
      intro b hb
      obtain ⟨a, ha, rfl⟩ := List.mem_map.1 hb
      have := hrange a ha
      omega
    · intro a ha b hb
      have h1 := (hT.range a ha).2
      rcases List.mem_cons.1 hb with rfl | hb
      · exact h1
      · obtain ⟨x, hx, rfl⟩ := List.mem_map.1 hb
        have := hrange x hx
        omega
  · intro id hid
    simp only at hid ⊢
    rw [hids] at hid
    rcases List.mem_append.1 hid with h | h
    · have := hT.range id h
      omega
    · rcases List.mem_cons.1 h with rfl | h
      · have := hT.base
        omega
      · obtain ⟨x, hx, rfl⟩ := List.mem_map.1 h
        have := hrange x hx
        have := hT.base
        omega
  · intro k
    have hold := hT.count_eq k
    have hlive : isLive (w.calls ++
        OSCall.registerHotKey w.m_nextHotkeyId fsModifiers vk ok ::
          attempts.map (AliasAttempt.toCall keyCode)) k =
        if ∃ a ∈ attempts, a.id = k ∧ a.accepted = true then true
        else if w.m_nextHotkeyId = k ∧ ok = true then true else isLive w.calls k := by
      rw [isLive_append, List.foldl_cons, liveFold_attempts]
      rfl
    have halias : keyCount (recordAliases w.m_nextHotkeyId w.m_wildcardAliases attempts) k =
        if ∃ a ∈ attempts, a.id = k ∧ a.accepted = true then 1
        else keyCount w.m_wildcardAliases k := by
      unfold keyCount
      rw [hFind_recordAliases]
      split_ifs <;> first | rfl | simp_all
    show keyCount w.m_hotkeyIdToCharacter k + keyCount w.m_hotkeyIdToCycleGroup k +
        keyCount w.m_hotkeyIdToProfile k +
        keyCount (recordAliases w.m_nextHotkeyId w.m_wildcardAliases attempts) k +
        w.slotCount k +
        (if (if ok = true then some w.m_nextHotkeyId else none) = some k then 1 else 0) =
      if isLive (w.calls ++
        OSCall.registerHotKey w.m_nextHotkeyId fsModifiers vk ok ::
          attempts.map (AliasAttempt.toCall keyCode)) k = true then 1 else 0
    rw [hlive, halias, pending_count]
    unfold World.trackCount at hold
    by_cases hE : ∃ a ∈ attempts, a.id = k ∧ a.accepted = true
    · have hge : w.m_nextHotkeyId + 1 ≤ k := by
        obtain ⟨a, ha, hak, -⟩ := hE
        have hr := hrange a ha
        omega
      have hfresh := hT.fresh k (by omega)
      unfold World.trackCount at hfresh
      rw [if_pos hE, if_pos hE, if_neg (fun h => by omega)]
      simp only [if_true]
      omega
    · simp only [if_neg hE]
      by_cases hk : w.m_nextHotkeyId = k
      · have hfresh := hT.fresh k (by omega)
        unfold World.trackCount at hfresh
        cases ok
        · simp only [Bool.false_eq_true, and_false, false_and, if_false, hfresh.1]
          omega
        · simp only [hk, and_self, if_true]
          omega
      · have h1 : ¬ (ok = true ∧ w.m_nextHotkeyId = k) := fun h => hk h.2
        have h2 : ¬ (w.m_nextHotkeyId = k ∧ ok = true) := fun h => hk h.1
        simp only [if_neg h1, if_neg h2]
        omega

/-- After `registerHotkey` on a tidy registry the registry is tidy with the returned id
pending. -/
theorem registerHotkey_tidy {σ : Type} (os : OS σ) (env : Env) (b : HotkeyBinding)
    (w : World σ) (hT : Tidy w) :
    TidyPending (registerHotkey os env b w).1 (registerHotkey os env b w).2 := by
  rcases registerHotkey_cases os env b w with h0 | ⟨ok, s, h1⟩ | ⟨s1, s2, mods, h2⟩
  · rw [h0]; exact hT
  · rw [h1]
    have := tidy_after_register w hT ok [] (bindingModifiers b) b.keyCode b.keyCode s
      (fun a ha => absurd ha (List.not_mem_nil a)) List.Pairwise.nil
    simpa only [List.length_nil, Nat.cast_zero, add_zero, List.map_nil, recordAliases,
      List.foldl_nil] using this
  · rw [h2]
    have hlen := aliasAttempts_length os b.keyCode mods s1 (w.m_nextHotkeyId + 1)
    have := tidy_after_register w hT true
      (aliasAttempts os b.keyCode s1 (w.m_nextHotkeyId + 1) mods) (bindingModifiers b)
      b.keyCode b.keyCode s2
      (by
        intro a ha
        have := aliasAttempts_id_range os b.keyCode mods s1 (w.m_nextHotkeyId + 1) a ha
        rw [hlen]
        exact this)
      (aliasAttempts_ids_increasing os b.keyCode mods s1 (w.m_nextHotkeyId + 1))
    simpa only [hlen, if_true] using this

theorem commitTo_calls {σ : Type} (t : Target) (id : Int) (w : World σ) :
    (commitTo t id w).calls = w.calls ∧
      (commitTo t id w).m_nextHotkeyId = w.m_nextHotkeyId := by
  cases t with
  | character n => exact ⟨rfl, rfl⟩
  | cycleGroup n f => exact ⟨rfl, rfl⟩
  | profile n => exact ⟨rfl, rfl⟩
  | slot s => cases s <;> exact ⟨rfl, rfl⟩

theorem commitTo_slotId {σ : Type} (t : Target) (id : Int) (w : World σ) (slot : IdSlot)
    (hne : t ≠ Target.slot slot) : (commitTo t id w).slotId slot = w.slotId slot := by
  cases t with
  | character n => cases slot <;> rfl
  | cycleGroup n f => cases slot <;> rfl
  | profile n => cases slot <;> rfl
  | slot s =>
    have hs : s ≠ slot := fun h => hne (by rw [h])
    cases s <;> cases slot <;> first | rfl | exact absurd rfl hs

/-- Storing a pending id adds one place where it is tracked and changes nothing for any
other id, provided the id was tracked nowhere, is not -1, and a slot it goes to held -1. -/
theorem trackCount_commitTo {σ : Type} (t : Target) (id : Int) (w : World σ) (k : Int)
    (hzero : w.trackCount id = 0) (hid : id ≠ -1)
    (hfree : ∀ slot : IdSlot, t = Target.slot slot → w.slotId slot = -1) :
    (commitTo t id w).trackCount k = w.trackCount k + (if k = id then 1 else 0) := by
  unfold World.trackCount at hzero ⊢
  cases t with
  | character n =>
    have hs := slotCount_congr w (commitTo (Target.character n) id w)
      (fun slot => by cases slot <;> rfl) k
    have e1 : (commitTo (Target.character n) id w).m_hotkeyIdToCharacter =
      hInsert w.m_hotkeyIdToCharacter id n := rfl
    have e2 : (commitTo (Target.character n) id w).m_hotkeyIdToCycleGroup =
      w.m_hotkeyIdToCycleGroup := rfl
    have e3 : (commitTo (Target.character n) id w).m_hotkeyIdToProfile =
      w.m_hotkeyIdToProfile := rfl
    have e4 : (commitTo (Target.character n) id w).m_wildcardAliases =
      w.m_wildcardAliases := rfl
    rw [e1, e2, e3, e4, hs, keyCount_hInsert]
    by_cases hk : k = id
    · rw [hk]
      simp only [if_true]
      omega
    · simp only [if_neg hk]
      omega
  | cycleGroup n f =>
    have hs := slotCount_congr w (commitTo (Target.cycleGroup n f) id w)
      (fun slot => by cases slot <;> rfl) k
    have e1 : (commitTo (Target.cycleGroup n f) id w).m_hotkeyIdToCharacter =
      w.m_hotkeyIdToCharacter := rfl
    have e2 : (commitTo (Target.cycleGroup n f) id w).m_hotkeyIdToCycleGroup =
      hInsert w.m_hotkeyIdToCycleGroup id n := rfl
    have e3 : (commitTo (Target.cycleGroup n f) id w).m_hotkeyIdToProfile =
      w.m_hotkeyIdToProfile := rfl
    have e4 : (commitTo (Target.cycleGroup n f) id w).m_wildcardAliases =
      w.m_wildcardAliases := rfl
    rw [e1, e2, e3, e4, hs, keyCount_hInsert]
    by_cases hk : k = id
    · rw [hk]
      simp only [if_true]
      omega
    · simp only [if_neg hk]
      omega
  | profile n =>
    have hs := slotCount_congr w (commitTo (Target.profile n) id w)
      (fun slot => by cases slot <;> rfl) k
    have e1 : (commitTo (Target.profile n) id w).m_hotkeyIdToCharacter =
      w.m_hotkeyIdToCharacter := rfl
    have e2 : (commitTo (Target.profile n) id w).m_hotkeyIdToCycleGroup =
      w.m_hotkeyIdToCycleGroup := rfl
    have e3 : (commitTo (Target.profile n) id w).m_hotkeyIdToProfile =
      hInsert w.m_hotkeyIdToProfile id n := rfl
    have e4 : (commitTo (Target.profile n) id w).m_wildcardAliases =
      w.m_wildcardAliases := rfl
    rw [e1, e2, e3, e4, hs, keyCount_hInsert]
    by_cases hk : k = id
    · rw [hk]
      simp only [if_true]
      omega
    · simp only [if_neg hk]
      omega
  | slot s =>
    have hs := slotCount_setSlot w s id k (hfree s rfl) hid
    have h1 : (commitTo (Target.slot s) id w).slotCount k =
        w.slotCount k + (if k = id then 1 else 0) := hs
    have h2 : (commitTo (Target.slot s) id w).m_hotkeyIdToCharacter = w.m_hotkeyIdToCharacter ∧
        (commitTo (Target.slot s) id w).m_hotkeyIdToCycleGroup = w.m_hotkeyIdToCycleGroup ∧
        (commitTo (Target.slot s) id w).m_hotkeyIdToProfile = w.m_hotkeyIdToProfile ∧
        (commitTo (Target.slot s) id w).m_wildcardAliases = w.m_wildcardAliases := by
      cases s <;> exact ⟨rfl, rfl, rfl, rfl⟩
    rw [h1, h2.1, h2.2.1, h2.2.2.1, h2.2.2.2]
    omega

/-- Storing the pending id of a tidy registry gives a tidy registry. -/
theorem commitTo_tidy {σ : Type} (t : Target) (id : Int) (w : World σ)
    (hP : TidyPending (some id) w)
    (hfree : ∀ slot : IdSlot, t = Target.slot slot → w.slotId slot = -1) :
    Tidy (commitTo t id w) := by
  have hid := hP.count id
  simp only [if_true] at hid
  have hlive : isLive w.calls id = true := by
    cases h : isLive w.calls id with
    | true => rfl
    | false => rw [h] at hid; simp at hid
  rw [hlive] at hid
  simp only [if_true] at hid
  have hzero : w.trackCount id = 0 := by omega
  have hge := (hP.range id (isLive_registered _ _ hlive)).1
  have hne : id ≠ -1 := by omega
  obtain ⟨hcalls, hnext⟩ := commitTo_calls t id w
  refine { base := ?_, increasing := ?_, range := ?_, count := ?_ }
  · rw [hnext]; exact hP.base
  · rw [hcalls]; exact hP.increasing
  · rw [hcalls, hnext]; exact hP.range
  · intro k
    have hk := hP.count k
    rw [hcalls, trackCount_commitTo t id w k hzero hne hfree]
    by_cases hkid : k = id
    · subst hkid
      simpa using hk
    · have h1 : ¬ (some id = some k) := fun h => hkid (Option.some.inj h).symm
      rw [if_neg h1] at hk
      rw [if_neg hkid]
      simpa using hk

/-- A registration block on a tidy registry gives a tidy registry, provided a slot it
writes held -1. -/
theorem registerWith_tidy {σ : Type} (os : OS σ) (env : Env) (b : HotkeyBinding) (t : Target)
    (w : World σ) (hT : Tidy w)
    (hfree : ∀ slot : IdSlot, t = Target.slot slot → w.slotId slot = -1) :
    Tidy (registerWith os env b (commitTo t) w) := by
  have hP := registerHotkey_tidy os env b w hT
  unfold registerWith
  cases hr : (registerHotkey os env b w).1 with
  | none =>
    rw [hr] at hP
    exact hP
  | some id =>
    rw [hr] at hP
    simp only
    refine commitTo_tidy t id _ hP ?_
    intro slot hs
    rw [registerHotkey_frame os env (fun w => w.slotId slot)
      (fun w n a s c => by cases slot <;> rfl) b w]
    exact hfree slot hs

/-- A registration block leaves every slot alone that is not its target. -/
theorem registerWith_slotId {σ : Type} (os : OS σ) (env : Env) (b : HotkeyBinding)
    (t : Target) (w : World σ) (slot : IdSlot) (hne : t ≠ Target.slot slot) :
    (registerWith os env b (commitTo t) w).slotId slot = w.slotId slot :=
  registerWith_frame os env (fun w => w.slotId slot)
    (fun w n a s c => by cases slot <;> rfl) (commitTo t)
    (fun id w1 => commitTo_slotId t id w1 slot hne) b w

/-- A registration block of a disabled binding does nothing. -/
theorem registerWith_disabled {σ : Type} (os : OS σ) (env : Env) (b : HotkeyBinding)
    (commit : Int → World σ → World σ) (w : World σ) (hd : b.enabled = false) :
    registerWith os env b commit w = w := by
  unfold registerWith
  rw [registerHotkey_disabled os env b w hd]

/-! ## Every block of the source is a registration block -/

theorem registerSlot_eq {σ : Type} (os : OS σ) (env : Env) (slot : IdSlot) (w : World σ) :
    (if (w.slotBinding slot).enabled = true then
      match (registerHotkey os env (w.slotBinding slot) w).1 with
      | some hotkeyId => (registerHotkey os env (w.slotBinding slot) w).2.setSlot slot hotkeyId
      | none => (registerHotkey os env (w.slotBinding slot) w).2
    else w) = registerWith os env (w.slotBinding slot) (commitTo (Target.slot slot)) w := by
  split_ifs with he
  · rfl
  · rw [registerWith_disabled os env _ _ w (by simpa using he)]

theorem registerSuspendHotkey_eq {σ : Type} (os : OS σ) (env : Env) (w : World σ) :
    registerSuspendHotkey os env w =
      registerWith os env w.m_suspendHotkey (commitTo (Target.slot IdSlot.suspend)) w :=
  registerSlot_eq os env IdSlot.suspend w

theorem registerNotLoggedInForward_eq {σ : Type} (os : OS σ) (env : Env) (w : World σ) :
    registerNotLoggedInForward os env w =
      registerWith os env w.m_notLoggedInForwardHotkey
        (commitTo (Target.slot IdSlot.notLoggedInForward)) w :=
  registerSlot_eq os env IdSlot.notLoggedInForward w

theorem registerNotLoggedInBackward_eq {σ : Type} (os : OS σ) (env : Env) (w : World σ) :
    registerNotLoggedInBackward os env w =
      registerWith os env w.m_notLoggedInBackwardHotkey
        (commitTo (Target.slot IdSlot.notLoggedInBackward)) w :=
  registerSlot_eq os env IdSlot.notLoggedInBackward w

theorem registerNonEVEForward_eq {σ : Type} (os : OS σ) (env : Env) (w : World σ) :
    registerNonEVEForward os env w =
      registerWith os env w.m_nonEVEForwardHotkey
        (commitTo (Target.slot IdSlot.nonEVEForward)) w :=
  registerSlot_eq os env IdSlot.nonEVEForward w

theorem registerNonEVEBackward_eq {σ : Type} (os : OS σ) (env : Env) (w : World σ) :
    registerNonEVEBackward os env w =
      registerWith os env w.m_nonEVEBackwardHotkey
        (commitTo (Target.slot IdSlot.nonEVEBackward)) w :=
  registerSlot_eq os env IdSlot.nonEVEBackward w

theorem registerCloseAllClients_eq {σ : Type} (os : OS σ) (env : Env) (w : World σ) :
    registerCloseAllClients os env w =
      registerWith os env w.m_closeAllClientsHotkey
        (commitTo (Target.slot IdSlot.closeAllClients)) w :=
  registerSlot_eq os env IdSlot.closeAllClients w

theorem registerCharacterHotkey_eq {σ : Type} (os : OS σ) (env : Env) (w : World σ)
    (entry : String × HotkeyBinding) :
    registerCharacterHotkey os env w entry =
      registerWith os env entry.2 (commitTo (Target.character entry.1)) w := rfl

theorem registerProfileHotkey_eq {σ : Type} (os : OS σ) (env : Env) (w : World σ)
    (entry : String × Int × Int) :
    registerProfileHotkey os env w entry =
      registerWith os env (profileBinding entry.2.1 entry.2.2)
        (commitTo (Target.profile entry.1)) w := rfl

theorem registerCycleDirection_eq {σ : Type} (os : OS σ) (env : Env) (groupName : String)
    (binding : HotkeyBinding) (isForward : Bool) (w : World σ) :
    registerCycleDirection os env groupName binding isForward w =
      registerWith os env binding (commitTo (Target.cycleGroup groupName isForward)) w := by
  unfold registerCycleDirection
  split_ifs with he
  · rfl
  · rw [registerWith_disabled os env _ _ w (by simpa using he)]

/-! ## A rebuild keeps the registry tidy -/

theorem foldl_invariant {σ β : Type} (P : World σ → Prop) (f : World σ → β → World σ)
    (hf : ∀ (w : World σ) (x : β), P w → P (f w x)) (l : List β) :
    ∀ w : World σ, P w → P (l.foldl f w) := by
  induction l with
  | nil => intro w h; exact h
  | cons x rest ih => intro w h; exact ih (f w x) (hf w x h)

/-- A block that stores its id in a table keeps the registry tidy and the free slots
free. -/
theorem registerWith_table {σ : Type} (os : OS σ) (env : Env) (b : HotkeyBinding) (t : Target)
    (slots : List IdSlot) (ht : ∀ slot : IdSlot, t ≠ Target.slot slot) (w : World σ)
    (h : Tidy w ∧ Free slots w) :
    Tidy (registerWith os env b (commitTo t) w) ∧
      Free slots (registerWith os env b (commitTo t) w) :=
  ⟨registerWith_tidy os env b t w h.1 (fun slot hs => absurd hs (ht slot)),
    fun slot hm => by rw [registerWith_slotId os env b t w slot (ht slot)]; exact h.2 slot hm⟩

/-- A block that stores its id in a free slot keeps the registry tidy and the other free
slots free. -/
theorem registerWith_slot {σ : Type} (os : OS σ) (env : Env) (b : HotkeyBinding)
    (slot : IdSlot) (slots : List IdSlot) (hs : slot ∉ slots) (w : World σ)
    (h : Tidy w ∧ Free (slot :: slots) w) :
    Tidy (registerWith os env b (commitTo (Target.slot slot)) w) ∧
      Free slots (registerWith os env b (commitTo (Target.slot slot)) w) := by
  refine ⟨registerWith_tidy os env b _ w h.1 ?_, ?_⟩
  · intro s hs2
    cases hs2
    exact h.2 slot (List.mem_cons_self _ _)
  · intro s hm
    have hne : Target.slot slot ≠ Target.slot s := by
      intro heq
      cases heq
      exact hs hm
    rw [registerWith_slotId os env b _ w s hne]
    exact h.2 s (List.mem_cons_of_mem _ hm)

theorem registerCharacterHotkey_tidy {σ : Type} (os : OS σ) (env : Env) (slots : List IdSlot)
    (w : World σ) (entry : String × HotkeyBinding) (h : Tidy w ∧ Free slots w) :
    Tidy (registerCharacterHotkey os env w entry) ∧
      Free slots (registerCharacterHotkey os env w entry) :=
  registerWith_table os env entry.2 (Target.character entry.1) slots
    (fun _ hs => Target.noConfusion hs) w h

theorem registerCycleGroup_tidy {σ : Type} (os : OS σ) (env : Env) (slots : List IdSlot)
    (w : World σ) (entry : String × CycleGroup) (h : Tidy w ∧ Free slots w) :
    Tidy (registerCycleGroup os env w entry) ∧
      Free slots (registerCycleGroup os env w entry) := by
  unfold registerCycleGroup
  rw [registerCycleDirection_eq, registerCycleDirection_eq]
  exact registerWith_table os env _ _ slots (fun _ hs => Target.noConfusion hs) _
    (registerWith_table os env _ _ slots (fun _ hs => Target.noConfusion hs) w h)

theorem registerProfileHotkey_tidy {σ : Type} (os : OS σ) (env : Env) (slots : List IdSlot)
    (w : World σ) (entry : String × Int × Int) (h : Tidy w ∧ Free slots w) :
    Tidy (registerProfileHotkey os env w entry) ∧
      Free slots (registerProfileHotkey os env w entry) :=
  registerWith_table os env _ (Target.profile entry.1) slots
    (fun _ hs => Target.noConfusion hs) w h

/-- Registering the profile hotkeys keeps the registry tidy. -/
theorem registerProfileHotkeys_tidy {σ : Type} (os : OS σ) (env : Env) (w : World σ)
    (hT : Tidy w) : Tidy (registerProfileHotkeys os env w) :=
  (foldl_invariant (fun v => Tidy v ∧ Free [] v) (registerProfileHotkey os env)
    (fun v x hv => registerProfileHotkey_tidy os env [] v x hv) env.profileHotkeys w
    ⟨hT, fun _ hm => absurd hm (List.not_mem_nil _)⟩).1

/-- One of the six slot blocks keeps the registry tidy and the other free slots free. -/
theorem registerSlot_tidy {σ : Type} (os : OS σ) (env : Env) (step : World σ → World σ)
    (slot : IdSlot)
    (hstep : ∀ w : World σ,
      step w = registerWith os env (w.slotBinding slot) (commitTo (Target.slot slot)) w)
    (slots : List IdSlot) (hs : slot ∉ slots) (w : World σ)
    (h : Tidy w ∧ Free (slot :: slots) w) : Tidy (step w) ∧ Free slots (step w) := by
  rw [hstep]
  exact registerWith_slot os env _ slot slots hs w h

/-- The registrations made only while not suspended keep the registry tidy, provided the
five slots they write hold -1. -/
theorem registerActiveHotkeys_tidy {σ : Type} (os : OS σ) (env : Env) (w : World σ)
    (hT : Tidy w)
    (hfree : Free [IdSlot.notLoggedInForward, IdSlot.notLoggedInBackward,
      IdSlot.nonEVEForward, IdSlot.nonEVEBackward, IdSlot.closeAllClients] w) :
    Tidy (registerActiveHotkeys os env w) := by
  have h1 : Tidy _ ∧ Free _ _ :=
    foldl_invariant (fun v => Tidy v ∧ Free _ v) (registerCharacterHotkey os env)
      (fun v x hv => registerCharacterHotkey_tidy os env _ v x hv) w.m_characterHotkeys w
      ⟨hT, hfree⟩
  have h2 : Tidy _ ∧ Free _ _ :=
    foldl_invariant (fun v => Tidy v ∧ Free _ v) (registerCycleGroup os env)
      (fun v x hv => registerCycleGroup_tidy os env _ v x hv)
      (w.m_characterHotkeys.foldl (registerCharacterHotkey os env) w).m_cycleGroups _ h1
  have h3 := registerSlot_tidy os env _ IdSlot.notLoggedInForward
    (registerNotLoggedInForward_eq os env) _ (by decide) _ h2
  have h4 := registerSlot_tidy os env _ IdSlot.notLoggedInBackward
    (registerNotLoggedInBackward_eq os env) _ (by decide) _ h3
  have h5 := registerSlot_tidy os env _ IdSlot.nonEVEForward
    (registerNonEVEForward_eq os env) _ (by decide) _ h4
  have h6 := registerSlot_tidy os env _ IdSlot.nonEVEBackward
    (registerNonEVEBackward_eq os env) _ (by decide) _ h5
  have h7 := registerSlot_tidy os env _ IdSlot.closeAllClients
    (registerCloseAllClients_eq os env) _ (by decide) _ h6
  exact registerProfileHotkeys_tidy os env _ h7.1

/-! ## Release keeps the registry tidy -/

theorem map_unregister_ite (c : Prop) [Decidable c] (id : Int) :
    (if c then [OSCall.unregisterHotKey id] else []) =
      (if c then [id] else []).map OSCall.unregisterHotKey := by
  split_ifs <;> rfl

/-- The calls `unregisterHotkeys` makes: one release per id of `releasedIds`, in order. -/
theorem unregisterHotkeys_calls {σ : Type} (os : OS σ) (w : World σ) :
    (unregisterHotkeys os w).calls = w.calls ++ w.releasedIds.map OSCall.unregisterHotKey := by
  simp only [unregisterHotkeys, unregisterProfileHotkeys, unregisterHotkey_foldl,
    unregisterIfSet_eq, World.releasedIds, List.map_append, List.append_assoc,
    map_unregister_ite]

theorem tracked_mem_releasedIds {σ : Type} (w : World σ) (k : Int) (h : 0 < w.trackCount k) :
    k ∈ w.releasedIds := by
  unfold World.trackCount at h
  unfold World.releasedIds
  simp only [List.mem_append]
  by_cases h1 : keyCount w.m_hotkeyIdToCharacter k = 1
  · exact Or.inl ((hFind_isSome_iff_mem_keys _ _).1 ((keyCount_eq_one_iff _ _).1 h1))
  by_cases h2 : keyCount w.m_hotkeyIdToCycleGroup k = 1
  · exact Or.inr (Or.inl ((hFind_isSome_iff_mem_keys _ _).1 ((keyCount_eq_one_iff _ _).1 h2)))
  by_cases h3 : keyCount w.m_hotkeyIdToProfile k = 1
  · exact Or.inr (Or.inr (Or.inl
      ((hFind_isSome_iff_mem_keys _ _).1 ((keyCount_eq_one_iff _ _).1 h3))))
  by_cases h4 : keyCount w.m_wildcardAliases k = 1
  · exact Or.inr (Or.inr (Or.inr (Or.inl
      ((hFind_isSome_iff_mem_keys _ _).1 ((keyCount_eq_one_iff _ _).1 h4)))))
  have b1 := keyCount_le_one w.m_hotkeyIdToCharacter k
  have b2 := keyCount_le_one w.m_hotkeyIdToCycleGroup k
  have b3 := keyCount_le_one w.m_hotkeyIdToProfile k
  have b4 := keyCount_le_one w.m_wildcardAliases k
  have hs : 0 < w.slotCount k := by omega
  obtain ⟨hk, slot, hslot⟩ := slotCount_pos w k hs
  refine Or.inr (Or.inr (Or.inr (Or.inr ?_)))
  cases slot
  · left
    have : w.m_suspendHotkeyId = k := hslot
    rw [this, if_pos hk]; exact List.mem_singleton_self k
  · right; left
    have : w.m_notLoggedInForwardHotkeyId = k := hslot
    rw [this, if_pos hk]; exact List.mem_singleton_self k
  · right; right; left
    have : w.m_notLoggedInBackwardHotkeyId = k := hslot
    rw [this, if_pos hk]; exact List.mem_singleton_self k
  · right; right; right; left
    have : w.m_nonEVEForwardHotkeyId = k := hslot
    rw [this, if_pos hk]; exact List.mem_singleton_self k
  · right; right; right; right; left
    have : w.m_nonEVEBackwardHotkeyId = k := hslot
    rw [this, if_pos hk]; exact List.mem_singleton_self k
  · right; right; right; right; right
    have : w.m_closeAllClientsHotkeyId = k := hslot
    rw [this, if_pos hk]; exact List.mem_singleton_self k

theorem slotHolds_unset {σ : Type} (w : World σ) (slot : IdSlot) (k : Int)
    (h : w.slotId slot = -1) : w.slotHolds slot k = 0 := by
  unfold World.slotHolds
  rw [h, if_neg (fun hc => hc.2 hc.1.symm)]

/-- With the four key tables empty and every slot at -1 nothing is tracked. -/
theorem trackCount_cleared {σ : Type} (w : World σ) (k : Int)
    (h1 : w.m_hotkeyIdToCharacter = []) (h2 : w.m_hotkeyIdToCycleGroup = [])
    (h3 : w.m_hotkeyIdToProfile = []) (h4 : w.m_wildcardAliases = [])
    (h5 : ∀ slot : IdSlot, w.slotId slot = -1) : w.trackCount k = 0 := by
  unfold World.trackCount World.slotCount
  rw [h1, h2, h3, h4, slotHolds_unset w _ k (h5 _), slotHolds_unset w _ k (h5 _),
    slotHolds_unset w _ k (h5 _), slotHolds_unset w _ k (h5 _), slotHolds_unset w _ k (h5 _),
    slotHolds_unset w _ k (h5 _)]
  rfl

/-- After `unregisterHotkeys` on a tidy registry the operating system holds no id of the
manager, and the registry is tidy. -/
theorem unregisterHotkeys_tidy {σ : Type} (os : OS σ) (w : World σ) (hT : Tidy w) :
    Tidy (unregisterHotkeys os w) ∧ ∀ k : Int, isLive (unregisterHotkeys os w).calls k = false := by
  have hcalls := unregisterHotkeys_calls os w
  obtain ⟨s, released, h⟩ := unregisterHotkeys_eq os w
  have hlive : ∀ k : Int, isLive (unregisterHotkeys os w).calls k = false := by
    intro k
    rw [hcalls, isLive_append, liveFold_unregister]
    split_ifs with hm
    · rfl
    · cases hl : isLive w.calls k with
      | false => rfl
      | true =>
        have := hT.count_eq k
        rw [hl] at this
        exact absurd (tracked_mem_releasedIds w k (by simp [this])) hm
  refine ⟨{ base := ?_, increasing := ?_, range := ?_, count := ?_ }, hlive⟩
  · rw [h]; exact hT.base
  · rw [hcalls, registeredIds_append, registeredIds_unregister, List.append_nil]
    exact hT.increasing
  · rw [hcalls, registeredIds_append, registeredIds_unregister, List.append_nil, h]
    exact hT.range
  · intro k
    rw [hlive k]
    have : (unregisterHotkeys os w).trackCount k = 0 := by
      rw [h]
      exact trackCount_cleared _ k rfl rfl rfl rfl (fun slot => by cases slot <;> rfl)
    rw [this]
    simp

/-- After `unregisterProfileHotkeys` on a tidy registry the registry is tidy. -/
theorem unregisterProfileHotkeys_tidy {σ : Type} (os : OS σ) (w : World σ) (hT : Tidy w) :
    Tidy (unregisterProfileHotkeys os w) := by
  rw [unregisterProfileHotkeys_eq]
  refine { base := hT.base, increasing := ?_, range := ?_, count := ?_ }
  · simp only
    rw [registeredIds_append, registeredIds_unregister, List.append_nil]
    exact hT.increasing
  · simp only
    rw [registeredIds_append, registeredIds_unregister, List.append_nil]
    exact hT.range
  · intro k
    have hold := hT.count_eq k
    unfold World.trackCount at hold
    have hs := slotCount_congr w
      { w with
        m_hotkeyIdToProfile := []
        os := (hKeys w.m_hotkeyIdToProfile).foldl os.unregisterHotKey w.os
        calls := w.calls ++ (hKeys w.m_hotkeyIdToProfile).map OSCall.unregisterHotKey }
      (fun slot => by cases slot <;> rfl) k
    show keyCount w.m_hotkeyIdToCharacter k + keyCount w.m_hotkeyIdToCycleGroup k +
        keyCount ([] : List (Int × String)) k + keyCount w.m_wildcardAliases k +
        World.slotCount _ k + (if (none : Option Int) = some k then 1 else 0) =
      if isLive (w.calls ++ (hKeys w.m_hotkeyIdToProfile).map OSCall.unregisterHotKey) k = true
        then 1 else 0
    rw [hs, isLive_append, liveFold_unregister, keyCount_nil]
    have b1 := keyCount_le_one w.m_hotkeyIdToCharacter k
    by_cases hm : k ∈ hKeys w.m_hotkeyIdToProfile
    · have h1 := (keyCount_eq_one_iff _ _).2 ((hFind_isSome_iff_mem_keys _ _).2 hm)
      rw [if_pos hm]
      split_ifs at hold <;> simp <;> omega
    · have h0 : keyCount w.m_hotkeyIdToProfile k = 0 := by
        have := keyCount_le_one w.m_hotkeyIdToProfile k
        have hne : keyCount w.m_hotkeyIdToProfile k ≠ 1 := fun h1 =>
          hm ((hFind_isSome_iff_mem_keys _ _).1 ((keyCount_eq_one_iff _ _).1 h1))
        omega
      rw [if_neg hm]
      rw [h0] at hold
      simpa using hold

theorem Tidy.sameRegistry {σ : Type} {w1 w2 : World σ} (hT : Tidy w1)
    (h : SameRegistry w1 w2) : Tidy w2 := by
  obtain ⟨h1, h2, -, h4, h5, h6, h7, -, h9⟩ := h
  refine { base := h7 ▸ hT.base, increasing := h9 ▸ hT.increasing, range := ?_, count := ?_ }
  · rw [h9, h7]; exact hT.range
  · intro k
    have := hT.count k
    unfold World.trackCount at this ⊢
    rw [h1, h2, h4, h5, h9, slotCount_congr w1 w2 h6 k]
    exact this

/-- The release at the start of a rebuild leaves a tidy registry with every slot at -1. -/
theorem clearRegistrations_tidy {σ : Type} (os : OS σ) (w : World σ) (hT : Tidy w) :
    Tidy (clearRegistrations os w) ∧
      Free [IdSlot.suspend, IdSlot.notLoggedInForward, IdSlot.notLoggedInBackward,
        IdSlot.nonEVEForward, IdSlot.nonEVEBackward, IdSlot.closeAllClients]
        (clearRegistrations os w) ∧
      ∀ k : Int, isLive (clearRegistrations os w).calls k = false := by
  have hu := unregisterHotkeys_tidy os w hT
  have hsame : SameRegistry (unregisterHotkeys os w) (clearRegistrations os w) := by
    obtain ⟨s, released, h⟩ := unregisterHotkeys_eq os w
    unfold clearRegistrations
    rw [h]
    exact ⟨rfl, rfl, rfl, rfl, rfl, fun slot => by cases slot <;> rfl, rfl, rfl, rfl⟩
  refine ⟨hu.1.sameRegistry hsame, ?_, ?_⟩
  · obtain ⟨s, released, h⟩ := clearRegistrations_eq os w
    rw [h]
    intro slot _
    cases slot <;> rfl
  · intro k
    rw [hsame.2.2.2.2.2.2.2.2]
    exact hu.2 k

theorem Tidy.setFlag {σ : Type} {w : World σ} (hT : Tidy w) (suspended : Bool) :
    Tidy { w with m_suspended := suspended } :=
  { base := hT.base, increasing := hT.increasing, range := hT.range, count := hT.count }

/-- A rebuild keeps the registry tidy. -/
theorem registerHotkeys_tidy {σ : Type} (os : OS σ) (env : Env) (w : World σ) (hT : Tidy w) :
    Tidy (registerHotkeys os env w).2 := by
  obtain ⟨hc, hfree, -⟩ := clearRegistrations_tidy os w hT
  have h1 := registerSlot_tidy os env _ IdSlot.suspend (registerSuspendHotkey_eq os env)
    [IdSlot.notLoggedInForward, IdSlot.notLoggedInBackward,
      IdSlot.nonEVEForward, IdSlot.nonEVEBackward, IdSlot.closeAllClients] (by decide) _
    ⟨hc, hfree⟩
  unfold registerHotkeys
  simp only
  split_ifs
  · exact h1.1
  · exact registerActiveHotkeys_tidy os env _ h1.1 h1.2

/-- In every reachable world the registry is tidy. -/
theorem Reachable.tidy {σ : Type} {os : OS σ} {w : World σ} (hr : Reachable os w) :
    Tidy w := by
  induction hr with
  | constructed s =>
    exact
      { base := le_refl _
        increasing := List.Pairwise.nil
        range := fun id hid => absurd hid (List.not_mem_nil id)
        count := fun k => by
          rw [trackCount_cleared _ k rfl rfl rfl rfl (fun slot => by cases slot <;> rfl)]
          rfl }
  | edit _ hs ih => exact ih.sameRegistry hs
  | registerHotkeys env _ ih => exact registerHotkeys_tidy os env _ ih
  | unregisterHotkeys _ ih => exact (unregisterHotkeys_tidy os _ ih).1
  | registerProfileHotkeys env _ ih => exact registerProfileHotkeys_tidy os env _ ih
  | unregisterProfileHotkeys _ ih => exact unregisterProfileHotkeys_tidy os _ ih
  | @setSuspended env suspended w1 _ ih =>
    rcases setSuspended_cases os env suspended w1 with h | h
    · rw [h]; exact ih
    · rw [h]
      exact registerHotkeys_tidy os env _ (ih.setFlag suspended)
  | @nativeEventFilter env msg w1 _ ih =>
    rcases nativeEventFilter_cases os env msg w1 with h | h
    · rw [h]; exact ih
    · rw [h]
      rcases setSuspended_cases os env (!w1.m_suspended) w1 with h2 | h2
      · rw [h2]; exact ih
      · rw [h2]
        exact registerHotkeys_tidy os env _ (ih.setFlag (!w1.m_suspended))

/-! ## C16 and C14: unique ids, no leaked registration -/

theorem slotHolds_le_one {σ : Type} (w : World σ) (slot : IdSlot) (k : Int) :
    w.slotHolds slot k ≤ 1 := by
  unfold World.slotHolds
  split_ifs <;> omega

theorem slotHolds_le_slotCount {σ : Type} (w : World σ) (slot : IdSlot) (k : Int) :
    w.slotHolds slot k ≤ w.slotCount k := by
  unfold World.slotCount
  cases slot <;> omega

theorem slotHolds_pair {σ : Type} (w : World σ) (s1 s2 : IdSlot) (k : Int) (h : s1 ≠ s2) :
    w.slotHolds s1 k + w.slotHolds s2 k ≤ w.slotCount k := by
  unfold World.slotCount
  cases s1 <;> cases s2 <;> first | exact absurd rfl h | omega

theorem slotHolds_eq_one {σ : Type} (w : World σ) (slot : IdSlot) (k : Int)
    (h : w.slotId slot = k) (hk : k ≠ -1) : w.slotHolds slot k = 1 := by
  unfold World.slotHolds
  rw [if_pos ⟨h, hk⟩]

/-- The manager tracks an id exactly when the count of its places is positive. -/
theorem tracks_iff {σ : Type} (w : World σ) (k : Int) : w.tracks k ↔ 0 < w.trackCount k := by
  unfold World.tracks World.trackCount
  have b1 := keyCount_le_one w.m_hotkeyIdToCharacter k
  have b2 := keyCount_le_one w.m_hotkeyIdToCycleGroup k
  have b3 := keyCount_le_one w.m_hotkeyIdToProfile k
  have b4 := keyCount_le_one w.m_wildcardAliases k
  constructor
  · rintro (h | h | h | h | ⟨hk, slot, hs⟩)
    · have := (keyCount_eq_one_iff _ _).2 h; omega
    · have := (keyCount_eq_one_iff _ _).2 h; omega
    · have := (keyCount_eq_one_iff _ _).2 h; omega
    · have := (keyCount_eq_one_iff _ _).2 h; omega
    · have h1 := slotHolds_eq_one w slot k hs hk
      have h2 := slotHolds_le_slotCount w slot k
      omega
  · intro h
    by_cases h1 : keyCount w.m_hotkeyIdToCharacter k = 1
    · exact Or.inl ((keyCount_eq_one_iff _ _).1 h1)
    by_cases h2 : keyCount w.m_hotkeyIdToCycleGroup k = 1
    · exact Or.inr (Or.inl ((keyCount_eq_one_iff _ _).1 h2))
    by_cases h3 : keyCount w.m_hotkeyIdToProfile k = 1
    · exact Or.inr (Or.inr (Or.inl ((keyCount_eq_one_iff _ _).1 h3)))
    by_cases h4 : keyCount w.m_wildcardAliases k = 1
    · exact Or.inr (Or.inr (Or.inr (Or.inl ((keyCount_eq_one_iff _ _).1 h4))))
    exact Or.inr (Or.inr (Or.inr (Or.inr (slotCount_pos w k (by omega)))))

/-- In a tidy registry the operating system holds exactly the tracked ids. -/
theorem Tidy.live_iff_tracks {σ : Type} {w : World σ} (hT : Tidy w) (k : Int) :
    isLive w.calls k = true ↔ w.tracks k := by
  rw [tracks_iff]
  have := hT.count_eq k
  constructor
  · intro h
    rw [if_pos h] at this
    omega
  · intro h
    by_contra hl
    rw [if_neg hl] at this
    omega

theorem Tidy.trackCount_le_one {σ : Type} {w : World σ} (hT : Tidy w) (k : Int) :
    w.trackCount k ≤ 1 := by
  have := hT.count_eq k
  split_ifs at this <;> omega

/-- The scenario A world after its rebuild is reachable. -/
theorem aliceWorld_rebuilt_reachable :
    Reachable OS.acceptAll (registerHotkeys OS.acceptAll Env.wildcard aliceWorld).2 :=
  Reachable.registerHotkeys Env.wildcard
    (Reachable.edit (Reachable.constructed ())
      ⟨rfl, rfl, rfl, rfl, rfl, fun slot => by cases slot <;> rfl, rfl, rfl, rfl⟩)

/-- Loading the stored settings leads from a reachable world to a reachable world: it edits
the stored bindings and rebuilds. -/
theorem Reachable.loadFromConfig {σ : Type} {os : OS σ} {w : World σ} (env : Env)
    (settings : Settings) (hr : Reachable os w) :
    Reachable os (loadFromConfig os env settings w) :=
  Reachable.registerHotkeys env
    (Reachable.edit hr
      ⟨rfl, rfl, rfl, rfl, rfl, fun slot => by cases slot <;> rfl, rfl, rfl, rfl⟩)

/-- C16: in every reachable world the ids passed to `RegisterHotKey` so far, in the order
of the calls, are strictly increasing (each is greater than every earlier one, so none is
used twice), each is at least 1000 and below `m_nextHotkeyId`; every tracked id lies
between 1000 and `m_nextHotkeyId`; no id is a key of two of the character, cycle-group,
profile and alias tables; an id held in a slot (other than -1) is a key of none of the four
tables; and two different slots hold the same id only when both hold -1.  The allocator is
an unbounded integer in the model: the wrap-around of the C++ `int` is not covered. -/
theorem id_uniqueness {σ : Type} {os : OS σ} {w : World σ} (hr : Reachable os w) :
    (registeredIds w.calls).Pairwise (fun a b => a < b) ∧
    (∀ id ∈ registeredIds w.calls, 1000 ≤ id ∧ id < w.m_nextHotkeyId) ∧
    (∀ k : Int, w.tracks k → 1000 ≤ k ∧ k < w.m_nextHotkeyId) ∧
    (∀ k : Int,
      ¬ ((hFind w.m_hotkeyIdToCharacter k).isSome = true ∧
          (hFind w.m_hotkeyIdToCycleGroup k).isSome = true) ∧
      ¬ ((hFind w.m_hotkeyIdToCharacter k).isSome = true ∧
          (hFind w.m_hotkeyIdToProfile k).isSome = true) ∧
      ¬ ((hFind w.m_hotkeyIdToCharacter k).isSome = true ∧
          (hFind w.m_wildcardAliases k).isSome = true) ∧
      ¬ ((hFind w.m_hotkeyIdToCycleGroup k).isSome = true ∧
          (hFind w.m_hotkeyIdToProfile k).isSome = true) ∧
      ¬ ((hFind w.m_hotkeyIdToCycleGroup k).isSome = true ∧
          (hFind w.m_wildcardAliases k).isSome = true) ∧
      ¬ ((hFind w.m_hotkeyIdToProfile k).isSome = true ∧
          (hFind w.m_wildcardAliases k).isSome = true)) ∧
    (∀ slot : IdSlot, w.slotId slot ≠ -1 →
      hFind w.m_hotkeyIdToCharacter (w.slotId slot) = none ∧
      hFind w.m_hotkeyIdToCycleGroup (w.slotId slot) = none ∧
      hFind w.m_hotkeyIdToProfile (w.slotId slot) = none ∧
      hFind w.m_wildcardAliases (w.slotId slot) = none) ∧
    (∀ s1 s2 : IdSlot, s1 ≠ s2 → w.slotId s1 = w.slotId s2 → w.slotId s1 = -1) := by
  have hT := hr.tidy
  refine ⟨hT.increasing, hT.range, ?_, ?_, ?_, ?_⟩
  · intro k hk
    exact hT.range k (isLive_registered _ _ ((hT.live_iff_tracks k).2 hk))
  · intro k
    have hle := hT.trackCount_le_one k
    unfold World.trackCount at hle
    have e1 := keyCount_eq_one_iff w.m_hotkeyIdToCharacter k
    have e2 := keyCount_eq_one_iff w.m_hotkeyIdToCycleGroup k
    have e3 := keyCount_eq_one_iff w.m_hotkeyIdToProfile k
    have e4 := keyCount_eq_one_iff w.m_wildcardAliases k
    refine ⟨?_, ?_, ?_, ?_, ?_, ?_⟩ <;>
    · rintro ⟨ha, hb⟩
      have := e1.2
      have := e2.2
      have := e3.2
      have := e4.2
      simp_all
      omega
  · intro slot hs
    have hle := hT.trackCount_le_one (w.slotId slot)
    unfold World.trackCount at hle
    have h1 := slotHolds_eq_one w slot _ rfl hs
    have h2 := slotHolds_le_slotCount w slot (w.slotId slot)
    have none_of : ∀ {ν : Type} (table : List (Int × ν)),
        keyCount table (w.slotId slot) = 0 → hFind table (w.slotId slot) = none := by
      intro ν table h0
      cases hf : hFind table (w.slotId slot) with
      | none => rfl
      | some v =>
        have := (keyCount_eq_one_iff table (w.slotId slot)).2 (by rw [hf]; rfl)
        omega
    exact ⟨none_of _ (by omega), none_of _ (by omega), none_of _ (by omega),
      none_of _ (by omega)⟩
  · intro s1 s2 hne heq
    by_contra hk
    have hle := hT.trackCount_le_one (w.slotId s1)
    unfold World.trackCount at hle
    have h1 := slotHolds_eq_one w s1 _ rfl hk
    have h2 := slotHolds_eq_one w s2 _ heq.symm hk
    have h3 := slotHolds_pair w s1 s2 (w.slotId s1) hne
    omega

/-- Witness for C16: scenario A rebuilt in wildcard mode; the ids passed to the operating
system are 1000 to 1003. -/
theorem id_uniqueness_witness :
    Reachable OS.acceptAll (registerHotkeys OS.acceptAll Env.wildcard aliceWorld).2 ∧
    registeredIds (registerHotkeys OS.acceptAll Env.wildcard aliceWorld).2.calls =
      [1000, 1001, 1002, 1003] ∧
    (registeredIds (registerHotkeys OS.acceptAll Env.wildcard aliceWorld).2.calls).Pairwise
      (fun a b => a < b) :=
  ⟨aliceWorld_rebuilt_reachable, by decide, (id_uniqueness aliceWorld_rebuilt_reachable).1⟩

/-- C14: in every reachable world the ids the operating system holds (registered with
success and not released since) are exactly the ids the manager tracks: the keys of the
character, cycle-group, profile and alias tables and the ids other than -1 held in the six
slots.  After `unregisterHotkeys` the operating system holds no id, the five tables are
empty and the six slots hold -1. -/
theorem no_leaked_registration {σ : Type} {os : OS σ} {w : World σ} (hr : Reachable os w) :
    (∀ k : Int, isLive w.calls k = true ↔ w.tracks k) ∧
    (∀ k : Int, isLive (unregisterHotkeys os w).calls k = false) ∧
    (unregisterHotkeys os w).m_hotkeyIdToCharacter = [] ∧
    (unregisterHotkeys os w).m_hotkeyIdToCycleGroup = [] ∧
    (unregisterHotkeys os w).m_hotkeyIdIsForward = [] ∧
    (unregisterHotkeys os w).m_wildcardAliases = [] ∧
    (unregisterHotkeys os w).m_hotkeyIdToProfile = [] ∧
    (∀ slot : IdSlot, (unregisterHotkeys os w).slotId slot = -1) := by
  have hT := hr.tidy
  refine ⟨hT.live_iff_tracks, (unregisterHotkeys_tidy os w hT).2, ?_⟩
  obtain ⟨s, released, h⟩ := unregisterHotkeys_eq os w
  rw [h]
  exact ⟨rfl, rfl, rfl, rfl, rfl, fun slot => by cases slot <;> rfl⟩

/-- Witness for C14: scenario A rebuilt in wildcard mode; the operating system holds the
id 1002, an alias, and holds nothing after the release. -/
theorem no_leaked_registration_witness :
    Reachable OS.acceptAll (registerHotkeys OS.acceptAll Env.wildcard aliceWorld).2 ∧
    isLive (registerHotkeys OS.acceptAll Env.wildcard aliceWorld).2.calls 1002 = true ∧
    World.tracks (registerHotkeys OS.acceptAll Env.wildcard aliceWorld).2 1002 ∧
    isLive (unregisterHotkeys OS.acceptAll
      (registerHotkeys OS.acceptAll Env.wildcard aliceWorld).2).calls 1002 = false :=
  ⟨aliceWorld_rebuilt_reachable, by decide,
    ((no_leaked_registration aliceWorld_rebuilt_reachable).1 1002).1 (by decide),
    (no_leaked_registration aliceWorld_rebuilt_reachable).2.1 1002⟩

/-! ## C15: disabled bindings are never registered -/

theorem registerHotkey_some_enabled {σ : Type} (os : OS σ) (env : Env) (b : HotkeyBinding)
    (w : World σ) (id : Int) (h : (registerHotkey os env b w).1 = some id) :
    b.enabled = true := by
  cases he : b.enabled with
  | true => rfl
  | false =>
    rw [registerHotkey_disabled os env b w he] at h
    exact Option.noConfusion h

/-- An alias entry present after `registerHotkey` was there before or maps to the id the
call returned. -/
theorem registerHotkey_alias_values {σ : Type} (os : OS σ) (env : Env) (b : HotkeyBinding)
    (w : World σ) (a c : Int)
    (h : hFind (registerHotkey os env b w).2.m_wildcardAliases a = some c) :
    hFind w.m_wildcardAliases a = some c ∨ (registerHotkey os env b w).1 = some c := by
  rcases registerHotkey_cases os env b w with h0 | ⟨ok, s, h1⟩ | ⟨s1, s2, mods, h2⟩
  · rw [h0] at h; exact Or.inl h
  · rw [h1] at h; exact Or.inl h
  · rw [h2] at h ⊢
    simp only at h
    rw [hFind_recordAliases] at h
    split_ifs at h with hex
    · exact Or.inr h
    · exact Or.inl h

/-- The canonical tables and the slots, which `registerHotkey` itself never writes. -/
theorem registerHotkey_registry {σ : Type} (os : OS σ) (env : Env) (b : HotkeyBinding)
    (w : World σ) :
    (registerHotkey os env b w).2.m_hotkeyIdToCharacter = w.m_hotkeyIdToCharacter ∧
    (registerHotkey os env b w).2.m_hotkeyIdToCycleGroup = w.m_hotkeyIdToCycleGroup ∧
    (registerHotkey os env b w).2.m_hotkeyIdIsForward = w.m_hotkeyIdIsForward ∧
    (registerHotkey os env b w).2.m_hotkeyIdToProfile = w.m_hotkeyIdToProfile ∧
    (∀ slot : IdSlot, (registerHotkey os env b w).2.slotId slot = w.slotId slot) := by
  rcases registerHotkey_cases os env b w with h0 | ⟨ok, s, h1⟩ | ⟨s1, s2, mods, h2⟩
  · rw [h0]; exact ⟨rfl, rfl, rfl, rfl, fun _ => rfl⟩
  · rw [h1]; exact ⟨rfl, rfl, rfl, rfl, fun slot => by cases slot <;> rfl⟩
  · rw [h2]; exact ⟨rfl, rfl, rfl, rfl, fun slot => by cases slot <;> rfl⟩

theorem canonical_congr {σ : Type} (w1 w2 : World σ)
    (h1 : w2.m_hotkeyIdToCharacter = w1.m_hotkeyIdToCharacter)
    (h2 : w2.m_hotkeyIdToCycleGroup = w1.m_hotkeyIdToCycleGroup)
    (h3 : w2.m_hotkeyIdToProfile = w1.m_hotkeyIdToProfile)
    (h4 : ∀ slot : IdSlot, w2.slotId slot = w1.slotId slot) (c : Int) :
    w2.canonical c ↔ w1.canonical c := by
  unfold World.canonical
  simp only [h1, h2, h3, h4]

/-- What storing an id changes: the target table gets the entry, the target slot the id,
everything else stays. -/
theorem commitTo_analysis {σ : Type} (t : Target) (id : Int) (w : World σ) :
    (∀ (k : Int) (name : String), hFind (commitTo t id w).m_hotkeyIdToCharacter k = some name →
      hFind w.m_hotkeyIdToCharacter k = some name ∨ (k = id ∧ t = Target.character name)) ∧
    (∀ (k : Int) (name : String), hFind (commitTo t id w).m_hotkeyIdToCycleGroup k = some name →
      (hFind w.m_hotkeyIdToCycleGroup k = some name ∧
        hFind (commitTo t id w).m_hotkeyIdIsForward k = hFind w.m_hotkeyIdIsForward k) ∨
      (k = id ∧ ∃ f : Bool, t = Target.cycleGroup name f ∧
        hFind (commitTo t id w).m_hotkeyIdIsForward k = some f)) ∧
    (∀ (k : Int) (name : String), hFind (commitTo t id w).m_hotkeyIdToProfile k = some name →
      hFind w.m_hotkeyIdToProfile k = some name ∨ (k = id ∧ t = Target.profile name)) ∧
    (∀ slot : IdSlot, (commitTo t id w).slotId slot = w.slotId slot ∨ t = Target.slot slot) ∧
    (commitTo t id w).m_wildcardAliases = w.m_wildcardAliases := by
  cases t with
  | character n =>
    refine ⟨?_, fun k name h => Or.inl ⟨h, rfl⟩, fun k name h => Or.inl h,
      fun slot => Or.inl (by cases slot <;> rfl), rfl⟩
    intro k name h
    have h' : hFind (hInsert w.m_hotkeyIdToCharacter id n) k = some name := h
    rw [hFind_hInsert] at h'
    split_ifs at h' with hk
    · simp only [Option.some.injEq] at h'
      exact Or.inr ⟨hk, by rw [h']⟩
    · exact Or.inl h'
  | cycleGroup n f =>
    refine ⟨fun k name h => Or.inl h, ?_, fun k name h => Or.inl h,
      fun slot => Or.inl (by cases slot <;> rfl), rfl⟩
    intro k name h
    have h' : hFind (hInsert w.m_hotkeyIdToCycleGroup id n) k = some name := h
    have hf : hFind (commitTo (Target.cycleGroup n f) id w).m_hotkeyIdIsForward k =
        hFind (hInsert w.m_hotkeyIdIsForward id f) k := rfl
    rw [hFind_hInsert] at h'
    rw [hf, hFind_hInsert]
    split_ifs at h' ⊢ with hk
    · simp only [Option.some.injEq] at h'
      exact Or.inr ⟨hk, f, by rw [h'], rfl⟩
    · exact Or.inl ⟨h', rfl⟩
  | profile n =>
    refine ⟨fun k name h => Or.inl h, fun k name h => Or.inl ⟨h, rfl⟩, ?_,
      fun slot => Or.inl (by cases slot <;> rfl), rfl⟩
    intro k name h
    have h' : hFind (hInsert w.m_hotkeyIdToProfile id n) k = some name := h
    rw [hFind_hInsert] at h'
    split_ifs at h' with hk
    · simp only [Option.some.injEq] at h'
      exact Or.inr ⟨hk, by rw [h']⟩
    · exact Or.inl h'
  | slot s =>
    have h2 : (commitTo (Target.slot s) id w).m_hotkeyIdToCharacter = w.m_hotkeyIdToCharacter ∧
        (commitTo (Target.slot s) id w).m_hotkeyIdToCycleGroup = w.m_hotkeyIdToCycleGroup ∧
        (commitTo (Target.slot s) id w).m_hotkeyIdIsForward = w.m_hotkeyIdIsForward ∧
        (commitTo (Target.slot s) id w).m_hotkeyIdToProfile = w.m_hotkeyIdToProfile ∧
        (commitTo (Target.slot s) id w).m_wildcardAliases = w.m_wildcardAliases := by
      cases s <;> exact ⟨rfl, rfl, rfl, rfl, rfl⟩
    rw [h2.1, h2.2.1, h2.2.2.1, h2.2.2.2.1, h2.2.2.2.2]
    refine ⟨fun k name h => Or.inl h, fun k name h => Or.inl ⟨h, rfl⟩, fun k name h => Or.inl h,
      ?_, rfl⟩
    intro slot
    by_cases hs : s = slot
    · exact Or.inr (by rw [hs])
    · exact Or.inl (commitTo_slotId _ id w slot (fun h => hs (Target.slot.inj h)))

/-- A canonical id stays canonical when another id is stored, provided a slot written
held -1. -/
theorem canonical_commitTo {σ : Type} (t : Target) (id : Int) (w : World σ) (c : Int)
    (hfree : ∀ slot : IdSlot, t = Target.slot slot → w.slotId slot = -1)
    (hc : w.canonical c) : (commitTo t id w).canonical c := by
  unfold World.canonical at hc ⊢
  have some_insert : ∀ {ν : Type} (table : List (Int × ν)) (v : ν),
      (hFind table c).isSome = true → (hFind (hInsert table id v) c).isSome = true := by
    intro ν table v h
    rw [hFind_hInsert]
    split_ifs
    · rfl
    · exact h
  rcases hc with h | h | h | ⟨hne, slot, hs⟩
  · left
    cases t with
    | character n => exact some_insert _ n h
    | cycleGroup n f => exact h
    | profile n => exact h
    | slot s => cases s <;> exact h
  · right; left
    cases t with
    | character n => exact h
    | cycleGroup n f => exact some_insert _ n h
    | profile n => exact h
    | slot s => cases s <;> exact h
  · right; right; left
    cases t with
    | character n => exact h
    | cycleGroup n f => exact h
    | profile n => exact some_insert _ n h
    | slot s => cases s <;> exact h
  · right; right; right
    refine ⟨hne, slot, ?_⟩
    rw [commitTo_slotId t id w slot]
    · exact hs
    · intro ht
      have := hfree slot ht
      rw [hs] at this
      exact hne this

/-- The stored id is canonical. -/
theorem canonical_commitTo_self {σ : Type} (t : Target) (id : Int) (w : World σ)
    (hid : id ≠ -1) : (commitTo t id w).canonical id := by
  unfold World.canonical
  cases t with
  | character n =>
    left
    show (hFind (hInsert w.m_hotkeyIdToCharacter id n) id).isSome = true
    rw [hFind_hInsert, if_pos rfl]; rfl
  | cycleGroup n f =>
    right; left
    show (hFind (hInsert w.m_hotkeyIdToCycleGroup id n) id).isSome = true
    rw [hFind_hInsert, if_pos rfl]; rfl
  | profile n =>
    right; right; left
    show (hFind (hInsert w.m_hotkeyIdToProfile id n) id).isSome = true
    rw [hFind_hInsert, if_pos rfl]; rfl
  | slot s =>
    right; right; right
    exact ⟨hid, s, by cases s <;> rfl⟩

/-- A registration block of a stored binding keeps the provenance of the tracked ids. -/
theorem registerWith_provenance {σ : Type} (os : OS σ) (env : Env) (b : HotkeyBinding)
    (t : Target) (w : World σ) (chars : List (String × HotkeyBinding))
    (groups : List (String × CycleGroup)) (profiles : List (String × Int × Int))
    (slotB : IdSlot → HotkeyBinding) (hbase : 1000 ≤ w.m_nextHotkeyId)
    (hfree : ∀ slot : IdSlot, t = Target.slot slot → w.slotId slot = -1)
    (hJ : Justified chars groups profiles slotB t b)
    (hP : Provenance chars groups profiles slotB w) :
    Provenance chars groups profiles slotB (registerWith os env b (commitTo t) w) := by
  obtain ⟨e1, e2, e3, e4, e5⟩ := registerHotkey_registry os env b w
  have hal := registerHotkey_alias_values os env b w
  unfold registerWith
  cases hr : (registerHotkey os env b w).1 with
  | none =>
    simp only
    refine { character := ?_, cycleGroup := ?_, profile := ?_, slot := ?_, aliases := ?_ }
    · rw [e1]; exact hP.character
    · rw [e2, e3]; exact hP.cycleGroup
    · rw [e4]; exact hP.profile
    · intro s; rw [e5]; exact hP.slot s
    · intro a c h
      rcases hal a c h with h1 | h1
      · exact (canonical_congr w _ e1 e2 e4 e5 c).2 (hP.aliases a c h1)
      · rw [hr] at h1; exact Option.noConfusion h1
  | some id =>
    simp only
    have he := registerHotkey_some_enabled os env b w id hr
    have hid := (registerHotkey_id os env b w id hr).1
    have hne : id ≠ -1 := by omega
    obtain ⟨a1, a2, a3, a4, a5⟩ := commitTo_analysis t id (registerHotkey os env b w).2
    have hfree2 : ∀ slot : IdSlot, t = Target.slot slot →
        (registerHotkey os env b w).2.slotId slot = -1 := by
      intro slot ht
      rw [e5]
      exact hfree slot ht
    refine { character := ?_, cycleGroup := ?_, profile := ?_, slot := ?_, aliases := ?_ }
    · intro k name h
      rcases a1 k name h with h1 | ⟨_, ht⟩
      · rw [e1] at h1; exact hP.character k name h1
      · subst ht; exact ⟨b, hJ, he⟩
    · intro k name h
      rcases a2 k name h with ⟨h1, h2⟩ | ⟨_, f, ht, h2⟩
      · rw [e2] at h1
        rw [h2, e3]
        exact hP.cycleGroup k name h1
      · subst ht
        obtain ⟨g, hg, hb⟩ := hJ
        refine ⟨g, hg, ?_⟩
        rw [h2]
        cases f
        · right
          rw [if_neg (by decide)] at hb
          exact ⟨rfl, by rw [hb]; exact he⟩
        · left
          rw [if_pos rfl] at hb
          exact ⟨rfl, by rw [hb]; exact he⟩
    · intro k name h
      rcases a3 k name h with h1 | ⟨_, ht⟩
      · rw [e4] at h1; exact hP.profile k name h1
      · subst ht
        obtain ⟨key, modifiers, hm, _⟩ := hJ
        exact ⟨key, modifiers, hm⟩
    · intro s hs
      rcases a4 s with h1 | ht
      · rw [h1, e5] at hs; exact hP.slot s hs
      · subst ht
        have hb : slotB s = b := hJ
        rw [hb]; exact he
    · intro a c h
      rw [a5] at h
      rcases hal a c h with h1 | h1
      · exact canonical_commitTo t id _ c hfree2
          ((canonical_congr w _ e1 e2 e4 e5 c).2 (hP.aliases a c h1))
      · rw [hr] at h1
        simp only [Option.some.injEq] at h1
        rw [← h1]
        exact canonical_commitTo_self t id _ hne

theorem registerWith_settings {σ : Type} (os : OS σ) (env : Env) (b : HotkeyBinding)
    (t : Target) (w : World σ) :
    (registerWith os env b (commitTo t) w).settings = w.settings :=
  registerWith_frame os env World.settings (fun _ _ _ _ _ => rfl) (commitTo t)
    (fun id w1 => by
      cases t with
      | character n => rfl
      | cycleGroup n f => rfl
      | profile n => rfl
      | slot s => cases s <;> rfl) b w

theorem slotBinding_of_settings {σ : Type} (w1 w2 : World σ) (h : w2.settings = w1.settings)
    (slot : IdSlot) : w2.slotBinding slot = w1.slotBinding slot := by
  simp only [World.settings, Prod.mk.injEq] at h
  obtain ⟨-, -, h3, h4, h5, h6, h7, h8, -⟩ := h
  cases slot
  · exact h3
  · exact h4
  · exact h5
  · exact h6
  · exact h7
  · exact h8

/-- A block that stores its id in a table, for a stored binding, at a point of a rebuild. -/
theorem Rebuilding.table {σ : Type} (os : OS σ) (env : Env) (w0 : World σ)
    (slots : List IdSlot) (t : Target) (b : HotkeyBinding) (w : World σ)
    (ht : ∀ slot : IdSlot, t ≠ Target.slot slot)
    (hJ : Justified w0.m_characterHotkeys w0.m_cycleGroups env.profileHotkeys w0.slotBinding t b)
    (h : Rebuilding env w0 slots w) :
    Rebuilding env w0 slots (registerWith os env b (commitTo t) w) :=
  { tidy := (registerWith_table os env b t slots ht w ⟨h.tidy, h.free⟩).1
    free := (registerWith_table os env b t slots ht w ⟨h.tidy, h.free⟩).2
    settings := (registerWith_settings os env b t w).trans h.settings
    provenance := registerWith_provenance os env b t w _ _ _ _ h.tidy.base
      (fun slot hs => absurd hs (ht slot)) hJ h.provenance }

/-- One of the six slot blocks at a point of a rebuild where its slot is still free. -/
theorem Rebuilding.slotStep {σ : Type} (os : OS σ) (env : Env) (w0 : World σ)
    (step : World σ → World σ) (slot : IdSlot)
    (hstep : ∀ w : World σ,
      step w = registerWith os env (w.slotBinding slot) (commitTo (Target.slot slot)) w)
    (slots : List IdSlot) (hs : slot ∉ slots) (w : World σ)
    (h : Rebuilding env w0 (slot :: slots) w) : Rebuilding env w0 slots (step w) := by
  rw [hstep]
  exact
    { tidy := (registerWith_slot os env _ slot slots hs w ⟨h.tidy, h.free⟩).1
      free := (registerWith_slot os env _ slot slots hs w ⟨h.tidy, h.free⟩).2
      settings := (registerWith_settings os env _ _ w).trans h.settings
      provenance := registerWith_provenance os env _ _ w _ _ _ _ h.tidy.base
        (fun s hs2 => by
          cases hs2
          exact h.free slot (List.mem_cons_self _ _))
        (slotBinding_of_settings w w0 h.settings.symm slot) h.provenance }

theorem foldl_invariant_mem {σ β : Type} (P : World σ → Prop) (f : World σ → β → World σ)
    (l : List β) (hf : ∀ (w : World σ) (x : β), x ∈ l → P w → P (f w x)) :
    ∀ w : World σ, P w → P (l.foldl f w) := by
  induction l with
  | nil => intro w h; exact h
  | cons x rest ih =>
    intro w h
    exact ih (fun v y hy hv => hf v y (List.mem_cons_of_mem _ hy) hv) (f w x)
      (hf w x (List.mem_cons_self _ _) h)

theorem Rebuilding.characters {σ : Type} (os : OS σ) (env : Env) (w0 : World σ)
    (slots : List IdSlot) (w : World σ) (h : Rebuilding env w0 slots w) :
    Rebuilding env w0 slots (w.m_characterHotkeys.foldl (registerCharacterHotkey os env) w) := by
  have hstore : w.m_characterHotkeys = w0.m_characterHotkeys := by
    have := h.settings
    simp only [World.settings, Prod.mk.injEq] at this
    exact this.1
  rw [hstore]
  exact foldl_invariant_mem (Rebuilding env w0 slots) (registerCharacterHotkey os env)
    w0.m_characterHotkeys
    (fun v x hx hv => Rebuilding.table os env w0 slots (Target.character x.1) x.2 v
      (fun _ hs => Target.noConfusion hs) hx hv) w h

theorem Rebuilding.cycleGroups {σ : Type} (os : OS σ) (env : Env) (w0 : World σ)
    (slots : List IdSlot) (w : World σ) (h : Rebuilding env w0 slots w) :
    Rebuilding env w0 slots (w.m_cycleGroups.foldl (registerCycleGroup os env) w) := by
  have hstore : w.m_cycleGroups = w0.m_cycleGroups := by
    have := h.settings
    simp only [World.settings, Prod.mk.injEq] at this
    exact this.2.1
  rw [hstore]
  refine foldl_invariant_mem (Rebuilding env w0 slots) (registerCycleGroup os env)
    w0.m_cycleGroups ?_ w h
  intro v x hx hv
  unfold registerCycleGroup
  rw [registerCycleDirection_eq, registerCycleDirection_eq]
  exact Rebuilding.table os env w0 slots (Target.cycleGroup x.1 false) x.2.backwardBinding _
    (fun _ hs => Target.noConfusion hs) ⟨x.2, hx, if_neg (by decide)⟩
    (Rebuilding.table os env w0 slots (Target.cycleGroup x.1 true) x.2.forwardBinding v
      (fun _ hs => Target.noConfusion hs) ⟨x.2, hx, if_pos rfl⟩ hv)

theorem Rebuilding.profiles {σ : Type} (os : OS σ) (env : Env) (w0 : World σ)
    (slots : List IdSlot) (w : World σ) (h : Rebuilding env w0 slots w) :
    Rebuilding env w0 slots (registerProfileHotkeys os env w) :=
  foldl_invariant_mem (Rebuilding env w0 slots) (registerProfileHotkey os env)
    env.profileHotkeys
    (fun v x hx hv => Rebuilding.table os env w0 slots (Target.profile x.1)
      (profileBinding x.2.1 x.2.2) v (fun _ hs => Target.noConfusion hs)
      ⟨x.2.1, x.2.2, hx, rfl⟩ hv) w h

theorem Rebuilding.active {σ : Type} (os : OS σ) (env : Env) (w0 w : World σ)
    (h : Rebuilding env w0 [IdSlot.notLoggedInForward, IdSlot.notLoggedInBackward,
      IdSlot.nonEVEForward, IdSlot.nonEVEBackward, IdSlot.closeAllClients] w) :
    Rebuilding env w0 [] (registerActiveHotkeys os env w) := by
  have h1 := Rebuilding.characters os env w0 _ w h
  have h2 := Rebuilding.cycleGroups os env w0 _ _ h1
  have h3 := Rebuilding.slotStep os env w0 _ IdSlot.notLoggedInForward
    (registerNotLoggedInForward_eq os env) _ (by decide) _ h2
  have h4 := Rebuilding.slotStep os env w0 _ IdSlot.notLoggedInBackward
    (registerNotLoggedInBackward_eq os env) _ (by decide) _ h3
  have h5 := Rebuilding.slotStep os env w0 _ IdSlot.nonEVEForward
    (registerNonEVEForward_eq os env) _ (by decide) _ h4
  have h6 := Rebuilding.slotStep os env w0 _ IdSlot.nonEVEBackward
    (registerNonEVEBackward_eq os env) _ (by decide) _ h5
  have h7 := Rebuilding.slotStep os env w0 _ IdSlot.closeAllClients
    (registerCloseAllClients_eq os env) _ (by decide) _ h6
  exact Rebuilding.profiles os env w0 _ _ h7

/-- The world after a rebuild of a tidy registry: tidy, and every tracked id belongs to an
enabled stored binding. -/
theorem registerHotkeys_rebuilding {σ : Type} (os : OS σ) (env : Env) (w0 : World σ)
    (hT : Tidy w0) : Rebuilding env w0 [] (registerHotkeys os env w0).2 := by
  obtain ⟨hc, hfree, -⟩ := clearRegistrations_tidy os w0 hT
  have h0 : Rebuilding env w0 [IdSlot.suspend, IdSlot.notLoggedInForward,
      IdSlot.notLoggedInBackward, IdSlot.nonEVEForward, IdSlot.nonEVEBackward,
      IdSlot.closeAllClients] (clearRegistrations os w0) := by
    refine
      { tidy := hc
        free := hfree
        settings := clearRegistrations_settings os w0
        provenance := ?_ }
    obtain ⟨s, released, h⟩ := clearRegistrations_eq os w0
    rw [h]
    exact
      { character := fun _ _ hk => Option.noConfusion hk
        cycleGroup := fun _ _ hk => Option.noConfusion hk
        profile := fun _ _ hk => Option.noConfusion hk
        slot := fun slot hs => absurd (by cases slot <;> rfl) hs
        aliases := fun _ _ hk => Option.noConfusion hk }
  have h1 := Rebuilding.slotStep os env w0 _ IdSlot.suspend (registerSuspendHotkey_eq os env)
    _ (by decide) _ h0
  unfold registerHotkeys
  simp only
  split_ifs
  · exact
      { tidy := h1.tidy
        free := fun _ hm => absurd hm (List.not_mem_nil _)
        settings := h1.settings
        provenance := h1.provenance }
  · exact Rebuilding.active os env w0 _ h1

/-- C15: `registerHotkey` on a binding with `enabled = false` returns false and changes
nothing: the result carries no id, and the world afterwards is the world before (no call to
the operating system, the allocator, the alias table and everything else untouched).  And
after a rebuild from a reachable world every tracked id belongs to an enabled stored
binding: a key of the character table to an enabled entry of that character, a key of the
cycle-group table to the enabled forward or backward binding of that group, according to
the direction table, the id other than -1 of a slot to the enabled binding of that slot, a
key of the profile table to a profile entry (which is always enabled), and an alias to a
canonical id. -/
theorem disabled_never_registered {σ : Type} (os : OS σ) (env : Env) (b : HotkeyBinding)
    (w w0 : World σ) (hd : b.enabled = false) (hr : Reachable os w0) :
    registerHotkey os env b w = (none, w) ∧
    (∀ (id : Int) (name : String),
      hFind (registerHotkeys os env w0).2.m_hotkeyIdToCharacter id = some name →
      ∃ stored : HotkeyBinding,
        (name, stored) ∈ (registerHotkeys os env w0).2.m_characterHotkeys ∧
          stored.enabled = true) ∧
    (∀ (id : Int) (name : String),
      hFind (registerHotkeys os env w0).2.m_hotkeyIdToCycleGroup id = some name →
      ∃ g : CycleGroup, (name, g) ∈ (registerHotkeys os env w0).2.m_cycleGroups ∧
        ((hFind (registerHotkeys os env w0).2.m_hotkeyIdIsForward id = some true ∧
            g.forwardBinding.enabled = true) ∨
          (hFind (registerHotkeys os env w0).2.m_hotkeyIdIsForward id = some false ∧
            g.backwardBinding.enabled = true))) ∧
    (∀ slot : IdSlot, (registerHotkeys os env w0).2.slotId slot ≠ -1 →
      ((registerHotkeys os env w0).2.slotBinding slot).enabled = true) ∧
    (∀ (id : Int) (name : String),
      hFind (registerHotkeys os env w0).2.m_hotkeyIdToProfile id = some name →
      ∃ key modifiers : Int, (name, key, modifiers) ∈ env.profileHotkeys ∧
        (profileBinding key modifiers).enabled = true) ∧
    (∀ a c : Int, hFind (registerHotkeys os env w0).2.m_wildcardAliases a = some c →
      World.canonical (registerHotkeys os env w0).2 c) := by
  have hR := registerHotkeys_rebuilding os env w0 hr.tidy
  have hset := hR.settings
  have hslot := slotBinding_of_settings w0 _ hset
  simp only [World.settings, Prod.mk.injEq] at hset
  refine ⟨registerHotkey_disabled os env b w hd, ?_, ?_, ?_, ?_, hR.provenance.aliases⟩
  · rw [hset.1]; exact hR.provenance.character
  · rw [hset.2.1]; exact hR.provenance.cycleGroup
  · intro slot hs
    rw [hslot]
    exact hR.provenance.slot slot hs
  · intro id name h
    obtain ⟨key, modifiers, hm⟩ := hR.provenance.profile id name h
    exact ⟨key, modifiers, hm, rfl⟩

theorem constructed_edit_reachable (w : World Unit)
    (h : SameRegistry (World.constructed ()) w) : Reachable OS.acceptAll w :=
  Reachable.edit (Reachable.constructed ()) h

/-- Witness for C15: the default-constructed binding is not registered, and in the rebuilt
manager of Alice (Ctrl+F1) and Bob (a disabled F2) the character table has Alice's id
only. -/
theorem disabled_never_registered_witness :
    HotkeyBinding.empty.enabled = false ∧
    registerHotkey OS.acceptAll Env.wildcard HotkeyBinding.empty aliceBobWorld =
      (none, aliceBobWorld) ∧
    (registerHotkeys OS.acceptAll Env.wildcard aliceBobWorld).2.m_hotkeyIdToCharacter =
      [(1000, "Alice")] ∧
    (∀ (id : Int) (name : String),
      hFind (registerHotkeys OS.acceptAll Env.wildcard aliceBobWorld).2.m_hotkeyIdToCharacter
        id = some name →
      ∃ stored : HotkeyBinding,
        (name, stored) ∈
          (registerHotkeys OS.acceptAll Env.wildcard aliceBobWorld).2.m_characterHotkeys ∧
          stored.enabled = true) :=
  ⟨rfl,
    (disabled_never_registered OS.acceptAll Env.wildcard HotkeyBinding.empty aliceBobWorld
      aliceBobWorld rfl
      (constructed_edit_reachable aliceBobWorld
        ⟨rfl, rfl, rfl, rfl, rfl, fun slot => by cases slot <;> rfl, rfl, rfl, rfl⟩)).1,
    by decide,
    (disabled_never_registered OS.acceptAll Env.wildcard HotkeyBinding.empty aliceBobWorld
      aliceBobWorld rfl
      (constructed_edit_reachable aliceBobWorld
        ⟨rfl, rfl, rfl, rfl, rfl, fun slot => by cases slot <;> rfl, rfl, rfl, rfl⟩)).2.1⟩

/-! ## C17: a suspended rebuild -/

theorem clearRegistrations_calls {σ : Type} (os : OS σ) (w : World σ) :
    (clearRegistrations os w).calls = w.calls ++ w.releasedIds.map OSCall.unregisterHotKey :=
  unregisterHotkeys_calls os w

/-- While suspended a rebuild is the release followed by the one block of the suspend
toggle. -/
theorem registerHotkeys_of_suspended {σ : Type} (os : OS σ) (env : Env) (w : World σ)
    (hs : w.m_suspended = true) :
    (registerHotkeys os env w).2 =
      registerWith os env w.m_suspendHotkey (commitTo (Target.slot IdSlot.suspend))
        (clearRegistrations os w) := by
  have hset := clearRegistrations_settings os w
  have hset2 := (registerWith_settings os env (clearRegistrations os w).m_suspendHotkey
    (Target.slot IdSlot.suspend) (clearRegistrations os w)).trans hset
  rw [← registerSuspendHotkey_eq] at hset2
  simp only [World.settings, Prod.mk.injEq] at hset hset2
  have h1 : (registerSuspendHotkey os env (clearRegistrations os w)).m_suspended = true :=
    hset2.2.2.2.2.2.2.2.2.trans hs
  unfold registerHotkeys
  simp only [h1, if_true]
  rw [registerSuspendHotkey_eq, hset.2.2.1]

/-- The calls of one `registerHotkey`: nothing, or attempts that all carry the key code of
the binding and its modifier mask or one of its wildcard masks. -/
theorem registerHotkey_calls {σ : Type} (os : OS σ) (env : Env) (b : HotkeyBinding)
    (w : World σ) :
    ∃ added : List OSCall, (registerHotkey os env b w).2.calls = w.calls ++ added ∧
      ∀ c ∈ added, ∃ (id : Int) (fsModifiers : Nat) (accepted : Bool),
        c = OSCall.registerHotKey id fsModifiers b.keyCode accepted ∧
        (fsModifiers = bindingModifiers b ∨
          fsModifiers ∈ additionalMods b (bindingModifiers b)) := by
  by_cases he : b.enabled = true
  · cases ha : (os.registerHotKey w.os w.m_nextHotkeyId (bindingModifiers b) b.keyCode).1
    · rw [registerHotkey_rejected os env b w he ha]
      refine ⟨_, rfl, ?_⟩
      intro c hc
      rw [List.mem_singleton] at hc
      exact ⟨_, _, _, hc, Or.inl rfl⟩
    · cases hw : env.wildcardHotkeys
      · rw [registerHotkey_plain os env b w he ha hw]
        refine ⟨_, rfl, ?_⟩
        intro c hc
        rw [List.mem_singleton] at hc
        exact ⟨_, _, _, hc, Or.inl rfl⟩
      · rw [registerHotkey_wildcard os env b w he ha hw]
        refine ⟨_, rfl, ?_⟩
        intro c hc
        rcases List.mem_cons.1 hc with hc | hc
        · exact ⟨_, _, _, hc, Or.inl rfl⟩
        · obtain ⟨a, ha2, rfl⟩ := List.mem_map.1 hc
          refine ⟨a.id, a.fsModifiers, a.accepted, rfl, Or.inr ?_⟩
          have hm : a.fsModifiers ∈ (aliasAttempts os b.keyCode
              (os.registerHotKey w.os w.m_nextHotkeyId (bindingModifiers b) b.keyCode).2
              (w.m_nextHotkeyId + 1) (additionalMods b (bindingModifiers b))).map
              (fun a => a.fsModifiers) := List.mem_map.2 ⟨a, ha2, rfl⟩
          rw [aliasAttempts_mods] at hm
          exact hm
  · rw [registerHotkey_disabled os env b w (by simpa using he)]
    exact ⟨[], (List.append_nil _).symm, fun c hc => absurd hc (List.not_mem_nil c)⟩

theorem registerWith_calls {σ : Type} (os : OS σ) (env : Env) (b : HotkeyBinding) (t : Target)
    (w : World σ) :
    (registerWith os env b (commitTo t) w).calls = (registerHotkey os env b w).2.calls := by
  unfold registerWith
  cases (registerHotkey os env b w).1 with
  | none => rfl
  | some id => exact (commitTo_calls t id _).1

/-- C17: a rebuild of a reachable world whose suspended flag is set.  Afterwards the
character, cycle-group, direction and profile tables are empty and the not-logged-in,
non-target and close-all slots hold -1; every alias entry maps to the suspend id; every id
the operating system holds is the suspend id or one of its aliases; the calls made are the
releases of the ids tracked before, followed only by registration attempts that carry the
key code of the suspend binding with its modifier mask or one of its wildcard masks; and
when the suspend binding is enabled and the operating system accepts its registration, the
suspend id is the id the allocator stood at and the operating system holds it. -/
theorem suspended_rebuild_only_toggle {σ : Type} (os : OS σ) (env : Env) (w : World σ)
    (hr : Reachable os w) (hs : w.m_suspended = true) :
    (registerHotkeys os env w).2.m_hotkeyIdToCharacter = [] ∧
    (registerHotkeys os env w).2.m_hotkeyIdToCycleGroup = [] ∧
    (registerHotkeys os env w).2.m_hotkeyIdIsForward = [] ∧
    (registerHotkeys os env w).2.m_hotkeyIdToProfile = [] ∧
    (registerHotkeys os env w).2.m_notLoggedInForwardHotkeyId = -1 ∧
    (registerHotkeys os env w).2.m_notLoggedInBackwardHotkeyId = -1 ∧
    (registerHotkeys os env w).2.m_nonEVEForwardHotkeyId = -1 ∧
    (registerHotkeys os env w).2.m_nonEVEBackwardHotkeyId = -1 ∧
    (registerHotkeys os env w).2.m_closeAllClientsHotkeyId = -1 ∧
    (∀ a c : Int, hFind (registerHotkeys os env w).2.m_wildcardAliases a = some c →
      c = (registerHotkeys os env w).2.m_suspendHotkeyId) ∧
    (∀ k : Int, isLive (registerHotkeys os env w).2.calls k = true →
      k = (registerHotkeys os env w).2.m_suspendHotkeyId ∨
      hFind (registerHotkeys os env w).2.m_wildcardAliases k =
        some (registerHotkeys os env w).2.m_suspendHotkeyId) ∧
    (∃ added : List OSCall,
      (registerHotkeys os env w).2.calls =
        (w.calls ++ w.releasedIds.map OSCall.unregisterHotKey) ++ added ∧
      ∀ c ∈ added, ∃ (id : Int) (fsModifiers : Nat) (accepted : Bool),
        c = OSCall.registerHotKey id fsModifiers w.m_suspendHotkey.keyCode accepted ∧
        (fsModifiers = bindingModifiers w.m_suspendHotkey ∨
          fsModifiers ∈ additionalMods w.m_suspendHotkey
            (bindingModifiers w.m_suspendHotkey))) ∧
    (w.m_suspendHotkey.enabled = true →
      (os.registerHotKey (clearRegistrations os w).os w.m_nextHotkeyId
        (bindingModifiers w.m_suspendHotkey) w.m_suspendHotkey.keyCode).1 = true →
      (registerHotkeys os env w).2.m_suspendHotkeyId = w.m_nextHotkeyId ∧
      isLive (registerHotkeys os env w).2.calls w.m_nextHotkeyId = true) := by
  have hT := registerHotkeys_tidy os env w hr.tidy
  have hW := registerHotkeys_of_suspended os env w hs
  rw [hW] at hT ⊢
  obtain ⟨s0, released, hC⟩ := clearRegistrations_eq os w
  have hframe := registerWith_frame os env
    (fun v : World σ => (v.m_hotkeyIdToCharacter, v.m_hotkeyIdToCycleGroup,
      v.m_hotkeyIdIsForward, v.m_hotkeyIdToProfile, v.m_notLoggedInForwardHotkeyId,
      v.m_notLoggedInBackwardHotkeyId, v.m_nonEVEForwardHotkeyId, v.m_nonEVEBackwardHotkeyId,
      v.m_closeAllClientsHotkeyId))
    (fun _ _ _ _ _ => rfl) (commitTo (Target.slot IdSlot.suspend)) (fun _ _ => rfl)
    w.m_suspendHotkey (clearRegistrations os w)
  have hclear : (fun v : World σ => (v.m_hotkeyIdToCharacter, v.m_hotkeyIdToCycleGroup,
      v.m_hotkeyIdIsForward, v.m_hotkeyIdToProfile, v.m_notLoggedInForwardHotkeyId,
      v.m_notLoggedInBackwardHotkeyId, v.m_nonEVEForwardHotkeyId, v.m_nonEVEBackwardHotkeyId,
      v.m_closeAllClientsHotkeyId)) (clearRegistrations os w) =
      ([], [], [], [], -1, -1, -1, -1, -1) := by
    rw [hC]
  have hframe2 := hframe.trans hclear
  simp only [Prod.mk.injEq] at hframe2
  obtain ⟨f1, f2, f3, f4, f5, f6, f7, f8, f9⟩ := hframe2
  have hCalias : (clearRegistrations os w).m_wildcardAliases = [] := by rw [hC]
  have halias : ∀ a c : Int,
      hFind (registerWith os env w.m_suspendHotkey (commitTo (Target.slot IdSlot.suspend))
        (clearRegistrations os w)).m_wildcardAliases a = some c →
      c = (registerWith os env w.m_suspendHotkey (commitTo (Target.slot IdSlot.suspend))
        (clearRegistrations os w)).m_suspendHotkeyId := by
    intro a c h
    have hval := registerHotkey_alias_values os env w.m_suspendHotkey
      (clearRegistrations os w) a c
    unfold registerWith at h ⊢
    cases hr1 : (registerHotkey os env w.m_suspendHotkey (clearRegistrations os w)).1 with
    | none =>
      rw [hr1] at h hval
      simp only at h
      rcases hval h with h2 | h2
      · rw [hCalias] at h2; exact Option.noConfusion h2
      · exact Option.noConfusion h2
    | some id =>
      rw [hr1] at h hval
      simp only at h ⊢
      rcases hval h with h2 | h2
      · rw [hCalias] at h2; exact Option.noConfusion h2
      · simp only [Option.some.injEq] at h2
        rw [← h2]
        rfl
  refine ⟨f1, f2, f3, f4, f5, f6, f7, f8, f9, halias, ?_, ?_, ?_⟩
  · intro k hk
    have htr := (hT.live_iff_tracks k).1 hk
    unfold World.tracks at htr
    rw [f1, f2, f4] at htr
    rcases htr with h | h | h | h | ⟨hne, slot, hslot⟩
    · exact Bool.noConfusion h
    · exact Bool.noConfusion h
    · exact Bool.noConfusion h
    · right
      cases hf : hFind (registerWith os env w.m_suspendHotkey
          (commitTo (Target.slot IdSlot.suspend)) (clearRegistrations os w)).m_wildcardAliases k
        with
      | none => rw [hf] at h; exact Bool.noConfusion h
      | some c => rw [halias k c hf]
    · left
      cases slot
      · exact hslot.symm
      · exact absurd (hslot.symm.trans f5) hne
      · exact absurd (hslot.symm.trans f6) hne
      · exact absurd (hslot.symm.trans f7) hne
      · exact absurd (hslot.symm.trans f8) hne
      · exact absurd (hslot.symm.trans f9) hne
  · obtain ⟨added, hadd, hall⟩ := registerHotkey_calls os env w.m_suspendHotkey
      (clearRegistrations os w)
    refine ⟨added, ?_, hall⟩
    rw [registerWith_calls, hadd, clearRegistrations_calls]
  · intro he hacc
    have hnext := clearRegistrations_next os w
    have hsome := registerHotkey_accepted os env w.m_suspendHotkey (clearRegistrations os w) he
      (by rw [hnext]; exact hacc)
    rw [hnext] at hsome
    have hid : (registerWith os env w.m_suspendHotkey (commitTo (Target.slot IdSlot.suspend))
        (clearRegistrations os w)).m_suspendHotkeyId = w.m_nextHotkeyId := by
      unfold registerWith
      rw [hsome]
      rfl
    refine ⟨hid, (hT.live_iff_tracks _).2 ?_⟩
    have hbase := hr.tidy.base
    exact Or.inr (Or.inr (Or.inr (Or.inr ⟨by omega, IdSlot.suspend, hid⟩)))

theorem suspendedAliceWorld_reachable : Reachable OS.acceptAll suspendedAliceWorld :=
  Reachable.setSuspended Env.plain true
    (constructed_edit_reachable toggleAliceWorld
      ⟨rfl, rfl, rfl, rfl, rfl, fun slot => by cases slot <;> rfl, rfl, rfl, rfl⟩)

/-- Witness for C17: the manager with the default toggle and Alice's Ctrl+F1 stored, after
`setSuspended(true)`; a further rebuild registers the toggle as 1001 and nothing for
Alice. -/
theorem suspended_rebuild_only_toggle_witness :
    suspendedAliceWorld.m_suspended = true ∧
    (registerHotkeys OS.acceptAll Env.plain suspendedAliceWorld).2.m_hotkeyIdToCharacter = [] ∧
    (registerHotkeys OS.acceptAll Env.plain suspendedAliceWorld).2.m_suspendHotkeyId = 1001 ∧
    isLive (registerHotkeys OS.acceptAll Env.plain suspendedAliceWorld).2.calls 1001 = true :=
  ⟨rfl,
    (suspended_rebuild_only_toggle OS.acceptAll Env.plain suspendedAliceWorld
      suspendedAliceWorld_reachable rfl).1,
    ((suspended_rebuild_only_toggle OS.acceptAll Env.plain suspendedAliceWorld
      suspendedAliceWorld_reachable rfl).2.2.2.2.2.2.2.2.2.2.2.2 rfl rfl).1,
    ((suspended_rebuild_only_toggle OS.acceptAll Env.plain suspendedAliceWorld
      suspendedAliceWorld_reachable rfl).2.2.2.2.2.2.2.2.2.2.2.2 rfl rfl).2⟩


/-! ## C29: the character-name cache -/

namespace OverlayInfo

theorem uncached_eq_nameOfTitle (windowTitle : String) :
    (if startsWith windowTitle titlePrefix then mid windowTitle titlePrefix.length else "") =
      nameOfTitle windowTitle := by
  obtain ⟨cs⟩ := windowTitle
  unfold startsWith mid nameOfTitle titlePrefix
  show (if ['E', 'V', 'E', ' ', '-', ' '].isPrefixOf cs = true then String.mk (cs.drop 6)
    else "") = _
  rcases cs with _ | ⟨c0, _ | ⟨c1, _ | ⟨c2, _ | ⟨c3, _ | ⟨c4, _ | ⟨c5, rest⟩⟩⟩⟩⟩⟩ <;>
    simp [List.isPrefixOf]
  split_ifs with h
  · obtain ⟨rfl, rfl, rfl, rfl, rfl, rfl⟩ := h
    rfl
  · split
    · rename_i heq
      simp only [List.cons.injEq] at heq
      exact absurd ⟨heq.1.symm, heq.2.1.symm, heq.2.2.1.symm, heq.2.2.2.1.symm,
        heq.2.2.2.2.1.symm, heq.2.2.2.2.2.1.symm⟩ h
    · rfl

/-- What the cache holds is right and not too much: every entry maps a title to its
character name, and there are at most 101 entries. -/
theorem extractCharacterName_sound (cache : List (String × String)) (windowTitle : String)
    (hgood : ∀ (t v : String), hFind cache t = some v → v = nameOfTitle t)
    (hsize : cache.length ≤ 101) :
    (extractCharacterName cache windowTitle).1 = nameOfTitle windowTitle ∧
    (∀ (t v : String), hFind (extractCharacterName cache windowTitle).2 t = some v →
      v = nameOfTitle t) ∧
    (extractCharacterName cache windowTitle).2.length ≤ 101 := by
  unfold extractCharacterName
  cases hf : hFind cache windowTitle with
  | some cached => exact ⟨hgood _ _ hf, hgood, hsize⟩
  | none =>
    simp only
    rw [uncached_eq_nameOfTitle]
    refine ⟨rfl, ?_, ?_⟩
    · intro t v h
      rw [hFind_hInsert] at h
      split_ifs at h with ht hbig
      · rw [ht]; exact (Option.some.inj h).symm
      · exact Option.noConfusion h
      · exact hgood t v h
    · split_ifs with hbig
      · simp [hInsert, hContains]
      · have hnot : hContains cache windowTitle = false := by
          rw [hContains_eq_isSome, hf]; rfl
        unfold hInsert
        rw [hnot]
        simp only [Bool.false_eq_true, if_false, List.length_append, List.length_singleton]
        omega

theorem run_sound (calls : List CacheCall) :
    ∀ cache : List (String × String),
      (∀ (t v : String), hFind cache t = some v → v = nameOfTitle t) → cache.length ≤ 101 →
      (run cache calls).1 = expected calls ∧
      (∀ (t v : String), hFind (run cache calls).2 t = some v → v = nameOfTitle t) ∧
      (run cache calls).2.length ≤ 101 := by
  induction calls with
  | nil => intro cache hgood hsize; exact ⟨rfl, hgood, hsize⟩
  | cons call rest ih =>
    intro cache hgood hsize
    cases call with
    | extract windowTitle =>
      obtain ⟨h1, h2, h3⟩ := extractCharacterName_sound cache windowTitle hgood hsize
      obtain ⟨i1, i2, i3⟩ := ih (extractCharacterName cache windowTitle).2 h2 h3
      refine ⟨?_, i2, i3⟩
      show (extractCharacterName cache windowTitle).1 ::
        (run (extractCharacterName cache windowTitle).2 rest).1 = _
      rw [h1, i1]
      rfl
    | clear =>
      exact ih [] (fun t v h => Option.noConfusion h) (by simp)

/-- C29: for every sequence of `extractCharacterName` and `clearCache` calls on the
initially empty cache, the values returned are those of the uncached rule (the title without
its leading "EVE - ", or the empty string when it does not start so); a further lookup of
any title in the cache the calls leave returns the value of that rule too; and the cache
the calls leave holds at most 101 entries. -/
theorem cache_transparent_bounded (calls : List CacheCall) (windowTitle : String) :
    (run [] calls).1 = expected calls ∧
    (extractCharacterName (run [] calls).2 windowTitle).1 = nameOfTitle windowTitle ∧
    (run [] calls).2.length ≤ 101 ∧
    (extractCharacterName (run [] calls).2 windowTitle).2.length ≤ 101 := by
  obtain ⟨h1, h2, h3⟩ := run_sound calls [] (fun t v h => Option.noConfusion h) (by simp)
  obtain ⟨e1, -, e3⟩ := extractCharacterName_sound (run [] calls).2 windowTitle h2 h3
  exact ⟨h1, e1, h3, e3⟩

end OverlayInfo

/-! ## C25: the record of a cycle group -/

theorem fromString_toString (b : HotkeyBinding)
    (h : INT_MIN ≤ b.keyCode ∧ b.keyCode ≤ INT_MAX) :
    HotkeyBinding.fromString b.toString = b := by
  unfold HotkeyBinding.fromString HotkeyBinding.toString
  simp only []
  rw [split_join_five _ _ _ _ _ (intToDecimal_no_comma _) (intToDecimal_no_comma _)
    (intToDecimal_no_comma _) (intToDecimal_no_comma _) (intToDecimal_no_comma _)]
  simp only [toInt_flag, toInt_intToDecimal b.keyCode h]

theorem digitChar_ne_bar (d : Nat) (h : d < 10) : '|' ≠ digitChar d := by
  interval_cases d <;> decide

theorem intToDecimal_no_bar (k : Int) : '|' ∉ intToDecimal k := by
  intro hc
  rcases intToDecimal_chars k '|' hc with h | ⟨d, hd, h⟩
  · exact absurd h (by decide)
  · exact digitChar_ne_bar d hd h

theorem mem_intercalate {α : Type} (sep : α) (parts : List (List α)) (c : α)
    (h : c ∈ [sep].intercalate parts) : c = sep ∨ ∃ p ∈ parts, c ∈ p := by
  induction parts with
  | nil => simp [List.intercalate] at h
  | cons p rest ih =>
    cases rest with
    | nil =>
      simp only [List.intercalate, List.intersperse, List.flatten, List.append_nil] at h
      exact Or.inr ⟨p, List.mem_cons_self _ _, h⟩
    | cons q more =>
      simp only [List.intercalate, List.intersperse, List.flatten, List.mem_append,
        List.mem_singleton] at h ih
      rcases h with h | h | h
      · exact Or.inr ⟨p, List.mem_cons_self _ _, h⟩
      · exact Or.inl h
      · rcases ih h with h1 | ⟨x, hx, hcx⟩
        · exact Or.inl h1
        · exact Or.inr ⟨x, List.mem_cons_of_mem _ hx, hcx⟩

theorem toString_no_bar (b : HotkeyBinding) : '|' ∉ b.toString.data := by
  intro h
  unfold HotkeyBinding.toString join at h
  rcases mem_intercalate _ _ _ h with h1 | ⟨p, hp, hc⟩
  · exact absurd h1 (by decide)
  · simp only [List.mem_cons, List.mem_singleton, List.not_mem_nil, or_false] at hp
    rcases hp with rfl | rfl | rfl | rfl | rfl <;> exact intToDecimal_no_bar _ hc

theorem variantText_string (s : String) : variantText (QVariant.string s) = s := by
  simp [variantText, QVariant.canConvertStringList, QVariant.toStringList, joinStrings, join,
    List.intercalate, List.intersperse]

theorem joinStrings_no_bar (names : List String) (h : ∀ n ∈ names, '|' ∉ n.data) :
    '|' ∉ (joinStrings ',' names).data := by
  intro hc
  unfold joinStrings join at hc
  rcases mem_intercalate _ _ _ hc with h1 | ⟨p, hp, hcp⟩
  · exact absurd h1 (by decide)
  · obtain ⟨n, hn, rfl⟩ := List.mem_map.1 hp
    exact h n hn hcp

/-- The record of a cycle group splits at the vertical bars into its five parts. -/
theorem splitString_saveCycleGroup (g : CycleGroup)
    (h : ∀ n ∈ g.characterNames, '|' ∉ n.data) :
    splitString '|' (saveCycleGroup g) =
      [joinStrings ',' g.characterNames, g.forwardBinding.toString,
        g.backwardBinding.toString, numberText (if g.includeNotLoggedIn then 1 else 0),
        numberText (if g.noLoop then 1 else 0)] := by
  have hdata : (saveCycleGroup g).data =
      ['|'].intercalate [(joinStrings ',' g.characterNames).data,
        g.forwardBinding.toString.data, g.backwardBinding.toString.data,
        (numberText (if g.includeNotLoggedIn then 1 else 0)).data,
        (numberText (if g.noLoop then 1 else 0)).data] := by
    simp [saveCycleGroup, String.data_append, List.intercalate, List.intersperse]
  unfold splitString split
  rw [hdata, List.splitOn_intercalate]
  · rfl
  · intro l hl
    simp only [List.mem_cons, List.mem_singleton, List.not_mem_nil, or_false] at hl
    rcases hl with rfl | rfl | rfl | rfl | rfl
    · exact joinStrings_no_bar _ h
    · exact toString_no_bar _
    · exact toString_no_bar _
    · exact intToDecimal_no_bar _
    · exact intToDecimal_no_bar _
  · simp

/-- Member names without a comma, none of them empty, come back from their comma-joined
text, empty parts skipped. -/
theorem split_names (names : List String)
    (h : ∀ n ∈ names, n ≠ "" ∧ ',' ∉ n.data) :
    (splitString ',' (joinStrings ',' names)).filter (fun name => !name.isEmpty) = names := by
  have hfilter : names.filter (fun name => !name.isEmpty) = names := by
    rw [List.filter_eq_self]
    intro n hn
    have hne := (h n hn).1
    have : n.isEmpty = false := by
      cases hb : n.isEmpty with
      | false => rfl
      | true =>
        exact absurd ((String.isEmpty_iff n).1 hb) hne
    simp [this]
  cases names with
  | nil => decide
  | cons n rest =>
    unfold splitString joinStrings split join
    rw [List.splitOn_intercalate]
    · rw [List.map_map]
      have : (String.mk ∘ String.data) = (id : String → String) := by
        funext s; rfl
      rw [this, List.map_id]
      exact hfilter
    · intro l hl
      obtain ⟨x, hx, rfl⟩ := List.mem_map.1 hl
      exact (h x hx).2
    · simp

/-- C25: for every cycle group whose member names are non-empty and hold neither a comma
nor a vertical bar (and whose two key codes are values of the C++ type `int`), the record
`saveToConfig` writes splits into five parts, `loadFromConfig` accepts it, and the group it
builds from it under the record's key has the same members in the same order, the same
forward and backward bindings and the same two flags; and a record of exactly three parts
is accepted with both flags false. -/
theorem cycleGroup_record_roundtrip (g : CycleGroup) (key : String)
    (hnames : ∀ n ∈ g.characterNames, n ≠ "" ∧ ',' ∉ n.data ∧ '|' ∉ n.data)
    (hf : INT_MIN ≤ g.forwardBinding.keyCode ∧ g.forwardBinding.keyCode ≤ INT_MAX)
    (hb : INT_MIN ≤ g.backwardBinding.keyCode ∧ g.backwardBinding.keyCode ≤ INT_MAX) :
    (splitString '|' (saveCycleGroup g)).length = 5 ∧
    cycleGroupOfParts key (splitString '|' (variantText (QVariant.string (saveCycleGroup g)))) =
      { g with groupName := key } ∧
    hFind (loadCycleGroup [] (key, QVariant.string (saveCycleGroup g))) key =
      some { g with groupName := key } ∧
    (∀ record : String, (splitString '|' record).length = 3 →
      hFind (loadCycleGroup [] (key, QVariant.string record)) key =
          some (cycleGroupOfParts key (splitString '|' record)) ∧
        (cycleGroupOfParts key (splitString '|' record)).includeNotLoggedIn = false ∧
        (cycleGroupOfParts key (splitString '|' record)).noLoop = false) := by
  have hsplit := splitString_saveCycleGroup g (fun n hn => (hnames n hn).2.2)
  have hparse : cycleGroupOfParts key (splitString '|' (saveCycleGroup g)) =
      { g with groupName := key } := by
    rw [hsplit]
    unfold cycleGroupOfParts
    simp only [List.getD_cons_zero, List.getD_cons_succ, List.length_cons, List.length_nil]
    rw [split_names _ (fun n hn => ⟨(hnames n hn).1, (hnames n hn).2.1⟩),
      fromString_toString _ hf, fromString_toString _ hb]
    simp only [numberText, toInt_flag]
    rfl
  refine ⟨by rw [hsplit]; rfl, by rw [variantText_string]; exact hparse, ?_, ?_⟩
  · unfold loadCycleGroup
    simp only [variantText_string]
    rw [if_pos (by rw [hsplit]; simp), hFind_hInsert, if_pos rfl, hparse]
  · intro record hlen
    refine ⟨?_, ?_, ?_⟩
    · unfold loadCycleGroup
      simp only [variantText_string]
      rw [if_pos (by omega), hFind_hInsert, if_pos rfl]
    · unfold cycleGroupOfParts
      simp only [hlen]
      rfl
    · unfold cycleGroupOfParts
      simp only [hlen]
      rfl

/-- Witness for C25: the group "fleet" of Alice and Bob with F3 forward, no backward
binding and both flags set, stored under the key "fleet". -/
theorem cycleGroup_record_roundtrip_witness :
    saveCycleGroup sampleGroup = "Alice,Bob|1,114,0,0,0|0,0,0,0,0|1|1" ∧
    cycleGroupOfParts "fleet"
        (splitString '|' (variantText (QVariant.string (saveCycleGroup sampleGroup)))) =
      sampleGroup :=
  ⟨by decide,
    (cycleGroup_record_roundtrip sampleGroup "fleet" (by decide) (by decide) (by decide)).2.1⟩

/-! ## C28: save, then load -/

theorem hFind_some_mem {κ ν : Type} [DecidableEq κ] (m : List (κ × ν)) (k : κ) (v : ν)
    (h : hFind m k = some v) : (k, v) ∈ m := by
  induction m with
  | nil => exact Option.noConfusion h
  | cons p rest ih =>
    rw [hFind_cons] at h
    split_ifs at h with hp
    · have hv : p.2 = v := Option.some.inj h
      have : p = (k, v) := Prod.ext hp hv
      rw [this]
      exact List.mem_cons_self _ _
    · exact List.mem_cons_of_mem _ (ih h)

theorem hFind_of_mem_nodup {κ ν : Type} [DecidableEq κ] (m : List (κ × ν)) (k : κ) (v : ν)
    (hn : (m.map Prod.fst).Nodup) (h : (k, v) ∈ m) : hFind m k = some v := by
  induction m with
  | nil => exact absurd h (List.not_mem_nil _)
  | cons p rest ih =>
    rw [hFind_cons]
    rw [List.map_cons, List.nodup_cons] at hn
    rcases List.mem_cons.1 h with hp | hp
    · rw [← hp, if_pos rfl]
    · have hne : ¬ p.1 = k := by
        intro hk
        exact hn.1 (hk ▸ List.mem_map.2 ⟨(k, v), hp, rfl⟩)
      rw [if_neg hne]
      exact ih hn.2 hp

theorem hFind_ne_none_of_mem_keys {κ ν : Type} [DecidableEq κ] (m : List (κ × ν)) (k : κ)
    (h : k ∈ m.map Prod.fst) : hFind m k ≠ none := by
  induction m with
  | nil => exact absurd h (List.not_mem_nil _)
  | cons p rest ih =>
    rw [hFind_cons]
    by_cases hp : p.1 = k
    · rw [if_pos hp]; exact fun hc => Option.noConfusion hc
    · rw [if_neg hp]
      rw [List.map_cons] at h
      rcases List.mem_cons.1 h with hk | hk
      · exact absurd hk.symm hp
      · exact ih hk

/-- The character table `loadFromConfig` builds from records that are, in any order, the
records `saveToConfig` wrote: a character is there exactly when its saved binding is
enabled, and then with that binding. -/
theorem load_saved_characters {σ : Type} (w : World σ) (records : List (String × QVariant))
    (hperm : records.Perm (saveToConfig w).characterHotkeys)
    (hnodup : (w.m_characterHotkeys.map Prod.fst).Nodup)
    (hrange : ∀ e ∈ w.m_characterHotkeys, INT_MIN ≤ e.2.keyCode ∧ e.2.keyCode ≤ INT_MAX)
    (name : String) :
    hFind (records.foldl loadCharacterHotkey []) name =
      match hFind w.m_characterHotkeys name with
      | some b => if b.enabled = true then some b else none
      | none => none := by
  have hkeys : ((saveToConfig w).characterHotkeys.map Prod.fst) =
      w.m_characterHotkeys.map Prod.fst := by
    simp [saveToConfig, List.map_map, Function.comp]
  have hrn : (records.map Prod.fst).Nodup := by
    have := (hperm.map Prod.fst).nodup_iff
    rw [this, hkeys]
    exact hnodup
  cases hf : hFind w.m_characterHotkeys name with
  | none =>
    simp only
    apply hFind_foldl_absent loadCharacterHotkey Prod.fst loadCharacterHotkey_other
    intro hmem
    have h2 : name ∈ w.m_characterHotkeys.map Prod.fst := by
      rw [← hkeys]
      exact (hperm.map Prod.fst).mem_iff.1 hmem
    exact hFind_ne_none_of_mem_keys _ _ h2 hf
  | some b =>
    simp only
    have hmem := hFind_some_mem _ _ _ hf
    have hrec : (name, QVariant.string b.toString) ∈ records := by
      apply hperm.mem_iff.2
      simp only [saveToConfig, List.mem_map]
      exact ⟨(name, b), hmem, rfl⟩
    have key := hFind_foldl_record loadCharacterHotkey Prod.fst
      (fun e => if (HotkeyBinding.fromString e.2.toString).enabled = true then
        some (HotkeyBinding.fromString e.2.toString) else none)
      loadCharacterHotkey_other loadCharacterHotkey_same records hrn _ hrec
    dsimp only at key
    rw [key]
    simp only [QVariant.toString]
    rw [fromString_toString b (hrange _ hmem)]

theorem getCharacterHotkey_eq {σ : Type} (w : World σ) (name : String) :
    getCharacterHotkey w name = (hFind w.m_characterHotkeys name).getD HotkeyBinding.empty := by
  unfold getCharacterHotkey
  rw [hValue_eq_getD]

/-- C28: `saveToConfig` on a store (character names pairwise different, key codes values of
the C++ type `int`), then `loadFromConfig` on settings whose character records are, in
any order, the records written.  Afterwards the character table has a character exactly
when its previous binding was enabled, and then with that binding; a character stored with
a disabled binding has its record written by the save and is absent after the load, so
that `getCharacterHotkey` returns the default-constructed binding with key code 0; a
character stored with an enabled binding gets its binding back. -/
theorem save_load_drops_disabled {σ : Type} (os : OS σ) (env : Env) (w w1 : World σ)
    (settings : Settings)
    (hperm : settings.characterHotkeys.Perm (saveToConfig w).characterHotkeys)
    (hnodup : (w.m_characterHotkeys.map Prod.fst).Nodup)
    (hrange : ∀ e ∈ w.m_characterHotkeys, INT_MIN ≤ e.2.keyCode ∧ e.2.keyCode ≤ INT_MAX) :
    (∀ name : String,
      hFind (loadFromConfig os env settings w1).m_characterHotkeys name =
        match hFind w.m_characterHotkeys name with
        | some b => if b.enabled = true then some b else none
        | none => none) ∧
    (∀ (name : String) (b : HotkeyBinding), hFind w.m_characterHotkeys name = some b →
      b.enabled = false →
      (name, QVariant.string b.toString) ∈ (saveToConfig w).characterHotkeys ∧
      hFind (loadFromConfig os env settings w1).m_characterHotkeys name = none ∧
      getCharacterHotkey (loadFromConfig os env settings w1) name = HotkeyBinding.empty ∧
      (getCharacterHotkey (loadFromConfig os env settings w1) name).keyCode = 0) ∧
    (∀ (name : String) (b : HotkeyBinding), hFind w.m_characterHotkeys name = some b →
      b.enabled = true →
      getCharacterHotkey (loadFromConfig os env settings w1) name = b) := by
  have hload : ∀ name : String,
      hFind (loadFromConfig os env settings w1).m_characterHotkeys name =
        match hFind w.m_characterHotkeys name with
        | some b => if b.enabled = true then some b else none
        | none => none := by
    intro name
    rw [(loadFromConfig_store os env settings w1).1]
    exact load_saved_characters w settings.characterHotkeys hperm hnodup hrange name
  refine ⟨hload, ?_, ?_⟩
  · intro name b hb hd
    have h1 : hFind (loadFromConfig os env settings w1).m_characterHotkeys name = none := by
      rw [hload, hb]
      simp only [hd, Bool.false_eq_true, if_false]
    refine ⟨?_, h1, ?_, ?_⟩
    · simp only [saveToConfig, List.mem_map]
      exact ⟨(name, b), hFind_some_mem _ _ _ hb, rfl⟩
    · rw [getCharacterHotkey_eq, h1]; rfl
    · rw [getCharacterHotkey_eq, h1]; rfl
  · intro name b hb he
    rw [getCharacterHotkey_eq, hload, hb]
    simp only [he, if_true, Option.getD_some]

/-- Witness for C28: Alice with Ctrl+F1 and Bob with a disabled F2, saved and loaded into a
newly constructed manager; Bob is gone, Alice is back. -/
theorem save_load_drops_disabled_witness :
    hFind (loadFromConfig OS.acceptAll Env.plain (saveToConfig aliceBobWorld)
      (World.constructed ())).m_characterHotkeys "Bob" = none ∧
    getCharacterHotkey (loadFromConfig OS.acceptAll Env.plain (saveToConfig aliceBobWorld)
      (World.constructed ())) "Bob" = HotkeyBinding.empty ∧
    getCharacterHotkey (loadFromConfig OS.acceptAll Env.plain (saveToConfig aliceBobWorld)
      (World.constructed ())) "Alice" = ctrlF1 :=
  ⟨((save_load_drops_disabled OS.acceptAll Env.plain aliceBobWorld (World.constructed ())
      (saveToConfig aliceBobWorld) (List.Perm.refl _) (by decide) (by decide)).2.1
      "Bob" { plainF2 with enabled := false } (by decide) rfl).2.1,
    ((save_load_drops_disabled OS.acceptAll Env.plain aliceBobWorld (World.constructed ())
      (saveToConfig aliceBobWorld) (List.Perm.refl _) (by decide) (by decide)).2.1
      "Bob" { plainF2 with enabled := false } (by decide) rfl).2.2.1,
    (save_load_drops_disabled OS.acceptAll Env.plain aliceBobWorld (World.constructed ())
      (saveToConfig aliceBobWorld) (List.Perm.refl _) (by decide) (by decide)).2.2
      "Alice" ctrlF1 (by decide) rfl⟩

/-! ## C21: scenario D, a capture session -/

namespace HotkeyCapture

/-- C21, on the capture session as the specification describes it: in an active session
in which neither Alt nor Shift is held, a Ctrl key-down emits nothing, marks Ctrl in the snapshot
and records nothing; the F3 key-down that follows emits `hotkeyChanged` exactly once,
records key F3 with ctrl set and alt and shift clear, and displays "Ctrl+F3"; an Escape
key-down in the session, before or after the Ctrl key-down, emits nothing and displays the
saved text again.  The saved text of a session is the text displayed when the session
started. -/
theorem scenarioD_capture (keyName : Int → String) (s : HotkeyCapture)
    (hname : keyName VK_F3 = "F3") (hs : s.m_capturing = true)
    (ha : s.altDown = false) (hsh : s.shiftDown = false) :
    keyDown keyName VK_CONTROL s = ([], { s with ctrlDown := true }) ∧
    (keyDown keyName VK_F3 (keyDown keyName VK_CONTROL s).2).1 =
      [CaptureSignal.hotkeyChanged] ∧
    (keyDown keyName VK_F3 (keyDown keyName VK_CONTROL s).2).2.m_keyCode = VK_F3 ∧
    (keyDown keyName VK_F3 (keyDown keyName VK_CONTROL s).2).2.m_ctrl = true ∧
    (keyDown keyName VK_F3 (keyDown keyName VK_CONTROL s).2).2.m_alt = false ∧
    (keyDown keyName VK_F3 (keyDown keyName VK_CONTROL s).2).2.m_shift = false ∧
    (keyDown keyName VK_F3 (keyDown keyName VK_CONTROL s).2).2.text = "Ctrl+F3" ∧
    (keyDown keyName VK_ESCAPE s).1 = [] ∧
    (keyDown keyName VK_ESCAPE s).2.text = s.m_savedText ∧
    (keyDown keyName VK_ESCAPE (keyDown keyName VK_CONTROL s).2).1 = [] ∧
    (keyDown keyName VK_ESCAPE (keyDown keyName VK_CONTROL s).2).2.text = s.m_savedText ∧
    (∀ before : HotkeyCapture, (focusIn before).m_capturing = true ∧
      (focusIn before).m_savedText = before.text) := by
  have h1 : keyDown keyName VK_CONTROL s = ([], { s with ctrlDown := true }) := by
    unfold keyDown
    simp [hs]
  have h2 : keyDown keyName VK_F3 { s with ctrlDown := true } =
      ([CaptureSignal.hotkeyChanged],
        { s with
          ctrlDown := true
          m_keyCode := VK_F3
          m_ctrl := true
          m_alt := false
          m_shift := false
          text := "Ctrl+F3"
          m_capturing := false }) := by
    unfold keyDown
    have e1 : ¬ (VK_F3 = VK_CONTROL ∨ VK_F3 = VK_LCONTROL ∨ VK_F3 = VK_RCONTROL) := by decide
    have e2 : ¬ (VK_F3 = VK_MENU ∨ VK_F3 = VK_LMENU ∨ VK_F3 = VK_RMENU) := by decide
    have e3 : ¬ (VK_F3 = VK_SHIFT ∨ VK_F3 = VK_LSHIFT ∨ VK_F3 = VK_RSHIFT) := by decide
    have e4 : ¬ (VK_F3 = VK_ESCAPE) := by decide
    simp only [hs, Bool.not_true, Bool.false_eq_true, if_false, if_neg e1, if_neg e2,
      if_neg e3, if_neg e4, ha, hsh, label, hname]
    rfl
  have h3 : ∀ t : HotkeyCapture, t.m_capturing = true →
      keyDown keyName VK_ESCAPE t = ([], { t with text := t.m_savedText, m_capturing := false }) := by
    intro t ht
    unfold keyDown
    have e1 : ¬ (VK_ESCAPE = VK_CONTROL ∨ VK_ESCAPE = VK_LCONTROL ∨ VK_ESCAPE = VK_RCONTROL) := by
      decide
    have e2 : ¬ (VK_ESCAPE = VK_MENU ∨ VK_ESCAPE = VK_LMENU ∨ VK_ESCAPE = VK_RMENU) := by decide
    have e3 : ¬ (VK_ESCAPE = VK_SHIFT ∨ VK_ESCAPE = VK_LSHIFT ∨ VK_ESCAPE = VK_RSHIFT) := by
      decide
    simp only [ht, Bool.not_true, Bool.false_eq_true, if_false, if_neg e1, if_neg e2,
      if_neg e3, if_true]
  refine ⟨h1, ?_⟩
  rw [h1]
  dsimp only
  rw [h2, h3 s hs, h3 { s with ctrlDown := true } hs]
  exact ⟨rfl, rfl, rfl, rfl, rfl, rfl, rfl, rfl, rfl, rfl, fun _ => ⟨rfl, rfl⟩⟩

/-- Witness for C21: a widget showing "F1" gets the focus, then Ctrl, then F3. -/
theorem scenarioD_capture_witness :
    (keyDown sampleKeyName VK_CONTROL (focusIn showingF1)).1 = [] ∧
    (keyDown sampleKeyName VK_F3 (keyDown sampleKeyName VK_CONTROL (focusIn showingF1)).2).1 =
      [CaptureSignal.hotkeyChanged] ∧
    (keyDown sampleKeyName VK_F3
      (keyDown sampleKeyName VK_CONTROL (focusIn showingF1)).2).2.text = "Ctrl+F3" ∧
    (keyDown sampleKeyName VK_ESCAPE
      (keyDown sampleKeyName VK_CONTROL (focusIn showingF1)).2).2.text = "F1" :=
  ⟨congrArg Prod.fst
      (scenarioD_capture sampleKeyName (focusIn showingF1) rfl rfl rfl rfl).1,
    (scenarioD_capture sampleKeyName (focusIn showingF1) rfl rfl rfl rfl).2.1,
    (scenarioD_capture sampleKeyName (focusIn showingF1) rfl rfl rfl rfl).2.2.2.2.2.2.1,
    (scenarioD_capture sampleKeyName (focusIn showingF1) rfl rfl
      rfl rfl).2.2.2.2.2.2.2.2.2.2.1⟩

end HotkeyCapture

/-! ## A rebuild as a list of registration blocks -/

theorem runJobs_nil {σ : Type} (os : OS σ) (env : Env) (w : World σ) :
    runJobs os env [] w = w := rfl

theorem runJobs_cons {σ : Type} (os : OS σ) (env : Env) (job : Target × HotkeyBinding)
    (jobs : List (Target × HotkeyBinding)) (w : World σ) :
    runJobs os env (job :: jobs) w = runJobs os env jobs (runJob os env w job) := rfl

theorem runJobs_append {σ : Type} (os : OS σ) (env : Env)
    (a b : List (Target × HotkeyBinding)) (w : World σ) :
    runJobs os env (a ++ b) w = runJobs os env b (runJobs os env a w) := by
  unfold runJobs
  rw [List.foldl_append]

theorem runJob_settings {σ : Type} (os : OS σ) (env : Env) (w : World σ)
    (job : Target × HotkeyBinding) : (runJob os env w job).settings = w.settings :=
  registerWith_settings os env job.2 job.1 w

theorem runJobs_settings {σ : Type} (os : OS σ) (env : Env)
    (jobs : List (Target × HotkeyBinding)) (w : World σ) :
    (runJobs os env jobs w).settings = w.settings :=
  foldl_frame World.settings (runJob os env) (runJob_settings os env) jobs w

theorem activeJobs_congr {σ : Type} (env : Env) (w1 w2 : World σ)
    (h : w2.settings = w1.settings) : activeJobs env w2 = activeJobs env w1 := by
  have hs := slotBinding_of_settings w1 w2 h
  simp only [World.settings, Prod.mk.injEq] at h
  unfold activeJobs slotJob
  rw [h.1, h.2.1, hs, hs, hs, hs, hs]

theorem characterLoop_eq_runJobs {σ : Type} (os : OS σ) (env : Env)
    (chars : List (String × HotkeyBinding)) (w : World σ) :
    chars.foldl (registerCharacterHotkey os env) w =
      runJobs os env (characterJobs chars) w := by
  unfold runJobs characterJobs
  rw [List.foldl_map]
  rfl

theorem cycleGroupLoop_eq_runJobs {σ : Type} (os : OS σ) (env : Env)
    (groups : List (String × CycleGroup)) :
    ∀ w : World σ, groups.foldl (registerCycleGroup os env) w =
      runJobs os env (cycleGroupJobs groups) w := by
  induction groups with
  | nil => intro w; rfl
  | cons e rest ih =>
    intro w
    rw [List.foldl_cons, ih]
    unfold registerCycleGroup
    rw [registerCycleDirection_eq, registerCycleDirection_eq]
    rfl

theorem profileLoop_eq_runJobs {σ : Type} (os : OS σ) (env : Env) (w : World σ) :
    registerProfileHotkeys os env w = runJobs os env (profileJobs env) w := by
  unfold registerProfileHotkeys runJobs profileJobs
  rw [List.foldl_map]
  rfl

theorem slotStep_eq_runJob {σ : Type} (os : OS σ) (env : Env) (step : World σ → World σ)
    (slot : IdSlot)
    (hstep : ∀ v : World σ,
      step v = registerWith os env (v.slotBinding slot) (commitTo (Target.slot slot)) v)
    (w v : World σ) (h : v.settings = w.settings) :
    step v = runJob os env v (slotJob w slot) := by
  rw [hstep]
  unfold runJob slotJob
  rw [slotBinding_of_settings w v h]

/-- The registrations made only while not suspended are the blocks of `activeJobs`, run in
order. -/
theorem registerActiveHotkeys_eq_runJobs {σ : Type} (os : OS σ) (env : Env) (w : World σ) :
    registerActiveHotkeys os env w = runJobs os env (activeJobs env w) w := by
  have s1 : (runJobs os env (characterJobs w.m_characterHotkeys) w).settings = w.settings :=
    runJobs_settings os env _ w
  have g1 : (runJobs os env (characterJobs w.m_characterHotkeys) w).m_cycleGroups =
      w.m_cycleGroups := by
    have := s1
    simp only [World.settings, Prod.mk.injEq] at this
    exact this.2.1
  have s2 := (runJobs_settings os env (cycleGroupJobs w.m_cycleGroups)
    (runJobs os env (characterJobs w.m_characterHotkeys) w)).trans s1
  have s3 := (runJob_settings os env _ (slotJob w IdSlot.notLoggedInForward)).trans s2
  have s4 := (runJob_settings os env _ (slotJob w IdSlot.notLoggedInBackward)).trans s3
  have s5 := (runJob_settings os env _ (slotJob w IdSlot.nonEVEForward)).trans s4
  have s6 := (runJob_settings os env _ (slotJob w IdSlot.nonEVEBackward)).trans s5
  show registerProfileHotkeys os env (registerCloseAllClients os env
    (registerNonEVEBackward os env (registerNonEVEForward os env
      (registerNotLoggedInBackward os env (registerNotLoggedInForward os env
        ((w.m_characterHotkeys.foldl (registerCharacterHotkey os env) w).m_cycleGroups.foldl
          (registerCycleGroup os env)
          (w.m_characterHotkeys.foldl (registerCharacterHotkey os env) w))))))) = _
  rw [characterLoop_eq_runJobs, g1, cycleGroupLoop_eq_runJobs,
    slotStep_eq_runJob os env _ IdSlot.notLoggedInForward
      (registerNotLoggedInForward_eq os env) w _ s2,
    slotStep_eq_runJob os env _ IdSlot.notLoggedInBackward
      (registerNotLoggedInBackward_eq os env) w _ s3,
    slotStep_eq_runJob os env _ IdSlot.nonEVEForward
      (registerNonEVEForward_eq os env) w _ s4,
    slotStep_eq_runJob os env _ IdSlot.nonEVEBackward
      (registerNonEVEBackward_eq os env) w _ s5,
    slotStep_eq_runJob os env _ IdSlot.closeAllClients
      (registerCloseAllClients_eq os env) w _ s6,
    profileLoop_eq_runJobs]
  unfold activeJobs
  rw [runJobs_append, runJobs_append, runJobs_append]
  rfl

/-- A rebuild is the release followed by the blocks of `rebuildJobs`, run in order. -/
theorem registerHotkeys_eq_runJobs {σ : Type} (os : OS σ) (env : Env) (w : World σ) :
    (registerHotkeys os env w).2 =
      runJobs os env (rebuildJobs env w) (clearRegistrations os w) := by
  have hset := clearRegistrations_settings os w
  have h1 := slotStep_eq_runJob os env _ IdSlot.suspend (registerSuspendHotkey_eq os env) w
    (clearRegistrations os w) hset
  have hs1 := (runJob_settings os env (clearRegistrations os w)
    (slotJob w IdSlot.suspend)).trans hset
  have hsusp : (runJob os env (clearRegistrations os w) (slotJob w IdSlot.suspend)).m_suspended =
      w.m_suspended := by
    have := hs1
    simp only [World.settings, Prod.mk.injEq] at this
    exact this.2.2.2.2.2.2.2.2
  unfold registerHotkeys rebuildJobs
  simp only
  rw [h1, hsusp, runJobs_cons]
  cases hsw : w.m_suspended with
  | true => simp only [if_true]; rfl
  | false =>
    simp only [Bool.false_eq_true, if_false]
    rw [registerActiveHotkeys_eq_runJobs, activeJobs_congr env w _ hs1]

/-! ## What a registration block changes -/

theorem commitTo_commit {σ : Type} (t : Target) (id : Int) (w : World σ) :
    Commit id w (commitTo t id w) := by
  cases t with
  | character n =>
    exact
      { settings := rfl, next := rfl, calls := rfl, aliases := rfl
        tables := fun k hk => tablesAt_character_insert w id n k hk
        slots := fun slot => Or.inl (by cases slot <;> rfl) }
  | cycleGroup n f =>
    exact
      { settings := rfl, next := rfl, calls := rfl, aliases := rfl
        tables := fun k hk => tablesAt_cycle_insert w id n f k hk
        slots := fun slot => Or.inl (by cases slot <;> rfl) }
  | profile n =>
    exact
      { settings := rfl, next := rfl, calls := rfl, aliases := rfl
        tables := fun k hk => tablesAt_profile_insert w id n k hk
        slots := fun slot => Or.inl (by cases slot <;> rfl) }
  | slot s =>
    cases s <;>
    exact
      { settings := rfl, next := rfl, calls := rfl, aliases := rfl
        tables := fun _ _ => rfl
        slots := fun slot => by cases slot <;> simp [World.slotId, commitTo, World.setSlot] }

theorem runJob_later {σ : Type} (os : OS σ) (env : Env) (w : World σ)
    (job : Target × HotkeyBinding) (hb : Bounded w) : Later w (runJob os env w job) :=
  registerWith_later os env job.2 (commitTo job.1) (fun id w1 => commitTo_commit job.1 id w1)
    w hb

theorem runJobs_later {σ : Type} (os : OS σ) (env : Env)
    (jobs : List (Target × HotkeyBinding)) (w : World σ) (hb : Bounded w) :
    Later w (runJobs os env jobs w) :=
  Later.foldl (runJob os env) (fun v j hv => runJob_later os env v j hv) jobs w hb

/-- An id tracked under a target lies below the allocator. -/
theorem owns_lt_next {σ : Type} (w : World σ) (hb : Bounded w) (k : Int) (t : Target)
    (h : w.owns k t) : k < w.m_nextHotkeyId := by
  by_contra hge
  have htab := hb.tables k (not_lt.1 hge)
  simp only [World.tablesAt, Prod.mk.injEq] at htab
  cases t with
  | character n =>
    have h1 : hFind w.m_hotkeyIdToCharacter k = some n := h
    rw [htab.2.1] at h1
    exact Option.noConfusion h1
  | cycleGroup n f =>
    have h1 : hFind w.m_hotkeyIdToCycleGroup k = some n := h.1
    rw [htab.2.2.1] at h1
    exact Option.noConfusion h1
  | profile n =>
    have h1 : hFind w.m_hotkeyIdToProfile k = some n := h
    rw [htab.2.2.2.2] at h1
    exact Option.noConfusion h1
  | slot s =>
    have h1 : w.slotId s = k ∧ k ≠ -1 := h
    rcases hb.slots s with h2 | h2
    · exact h1.2 (h1.1.symm.trans h2)
    · rw [h1.1] at h2
      exact hge h2

/-- An id below the old allocator value that is tracked under a target after registrations
was tracked under it before. -/
theorem owns_old {σ : Type} {w1 w2 : World σ} (hl : Later w1 w2) (k : Int) (t : Target)
    (hk : k < w1.m_nextHotkeyId) (h : w2.owns k t) : w1.owns k t := by
  have htab := hl.old k hk
  simp only [World.tablesAt, Prod.mk.injEq] at htab
  cases t with
  | character n =>
    have h1 : hFind w2.m_hotkeyIdToCharacter k = some n := h
    rw [htab.2.1] at h1
    exact h1
  | cycleGroup n f =>
    have h1 : hFind w2.m_hotkeyIdToCycleGroup k = some n ∧
        hFind w2.m_hotkeyIdIsForward k = some f := h
    rw [htab.2.2.1, htab.2.2.2.1] at h1
    exact h1
  | profile n =>
    have h1 : hFind w2.m_hotkeyIdToProfile k = some n := h
    rw [htab.2.2.2.2] at h1
    exact h1
  | slot s =>
    have h1 : w2.slotId s = k ∧ k ≠ -1 := h
    rcases hl.slots s with h2 | h2
    · exact ⟨h2.symm.trans h1.1, h1.2⟩
    · rw [h1.1] at h2
      omega

/-- Storing a new id at another target changes nothing for this target. -/
theorem owns_commitTo_other {σ : Type} (t other : Target) (id : Int) (w : World σ) (k : Int)
    (hne : other ≠ t)
    (hfresh : hFind w.m_hotkeyIdToCharacter id = none ∧
      hFind w.m_hotkeyIdToCycleGroup id = none ∧ hFind w.m_hotkeyIdToProfile id = none) :
    (commitTo other id w).owns k t ↔ w.owns k t := by
  obtain ⟨f1, f2, f4⟩ := hfresh
  cases t with
  | character n =>
    cases other with
    | character n2 =>
      show hFind (hInsert w.m_hotkeyIdToCharacter id n2) k = some n ↔ _
      rw [hFind_hInsert]
      by_cases hk : k = id
      · rw [if_pos hk, hk]
        show some n2 = some n ↔ hFind w.m_hotkeyIdToCharacter id = some n
        rw [f1]
        constructor
        · intro h
          exact absurd (congrArg Target.character (Option.some.inj h)) hne
        · intro h; exact Option.noConfusion h
      · rw [if_neg hk]; rfl
    | cycleGroup n2 f => exact Iff.rfl
    | profile n2 => exact Iff.rfl
    | slot s => cases s <;> exact Iff.rfl
  | cycleGroup n f =>
    cases other with
    | character n2 => exact Iff.rfl
    | cycleGroup n2 f2b =>
      show (hFind (hInsert w.m_hotkeyIdToCycleGroup id n2) k = some n ∧
        hFind (hInsert w.m_hotkeyIdIsForward id f2b) k = some f) ↔ _
      rw [hFind_hInsert, hFind_hInsert]
      by_cases hk : k = id
      · rw [if_pos hk, if_pos hk, hk]
        show (some n2 = some n ∧ some f2b = some f) ↔
          (hFind w.m_hotkeyIdToCycleGroup id = some n ∧ hFind w.m_hotkeyIdIsForward id = some f)
        rw [f2]
        constructor
        · rintro ⟨h1, h2⟩
          exact absurd (by rw [Option.some.inj h1, Option.some.inj h2]) hne
        · rintro ⟨h1, -⟩; exact Option.noConfusion h1
      · rw [if_neg hk, if_neg hk]; rfl
    | profile n2 => exact Iff.rfl
    | slot s => cases s <;> exact Iff.rfl
  | profile n =>
    cases other with
    | character n2 => exact Iff.rfl
    | cycleGroup n2 f => exact Iff.rfl
    | profile n2 =>
      show hFind (hInsert w.m_hotkeyIdToProfile id n2) k = some n ↔ _
      rw [hFind_hInsert]
      by_cases hk : k = id
      · rw [if_pos hk, hk]
        show some n2 = some n ↔ hFind w.m_hotkeyIdToProfile id = some n
        rw [f4]
        constructor
        · intro h
          exact absurd (congrArg Target.profile (Option.some.inj h)) hne
        · intro h; exact Option.noConfusion h
      · rw [if_neg hk]; rfl
    | slot s => cases s <;> exact Iff.rfl
  | slot s =>
    show ((commitTo other id w).slotId s = k ∧ k ≠ -1) ↔ (w.slotId s = k ∧ k ≠ -1)
    rw [commitTo_slotId other id w s hne]

/-- Storing a new id at a target that tracked nothing makes it the one id tracked there. -/
theorem owns_commitTo_self {σ : Type} (t : Target) (id : Int) (w : World σ) (k : Int)
    (hid : id ≠ -1) (hnone : ∀ k : Int, ¬ w.owns k t) :
    (commitTo t id w).owns k t ↔ k = id := by
  cases t with
  | character n =>
    show hFind (hInsert w.m_hotkeyIdToCharacter id n) k = some n ↔ _
    rw [hFind_hInsert]
    by_cases hk : k = id
    · rw [if_pos hk]; exact ⟨fun _ => hk, fun _ => rfl⟩
    · rw [if_neg hk]; exact ⟨fun h => absurd h (hnone k), fun h => absurd h hk⟩
  | cycleGroup n f =>
    show (hFind (hInsert w.m_hotkeyIdToCycleGroup id n) k = some n ∧
      hFind (hInsert w.m_hotkeyIdIsForward id f) k = some f) ↔ _
    rw [hFind_hInsert, hFind_hInsert]
    by_cases hk : k = id
    · rw [if_pos hk, if_pos hk]; exact ⟨fun _ => hk, fun _ => ⟨rfl, rfl⟩⟩
    · rw [if_neg hk, if_neg hk]; exact ⟨fun h => absurd h (hnone k), fun h => absurd h hk⟩
  | profile n =>
    show hFind (hInsert w.m_hotkeyIdToProfile id n) k = some n ↔ _
    rw [hFind_hInsert]
    by_cases hk : k = id
    · rw [if_pos hk]; exact ⟨fun _ => hk, fun _ => rfl⟩
    · rw [if_neg hk]; exact ⟨fun h => absurd h (hnone k), fun h => absurd h hk⟩
  | slot s =>
    show ((w.setSlot s id).slotId s = k ∧ k ≠ -1) ↔ k = id
    have e : (w.setSlot s id).slotId s = id := by cases s <;> rfl
    rw [e]
    constructor
    · rintro ⟨h, -⟩; exact h.symm
    · intro h; rw [h]; exact ⟨rfl, hid⟩

theorem owns_registerHotkey {σ : Type} (os : OS σ) (env : Env) (b : HotkeyBinding)
    (w : World σ) (k : Int) (t : Target) :
    (registerHotkey os env b w).2.owns k t ↔ w.owns k t := by
  obtain ⟨h1, h2, h3, h4, h5⟩ := registerHotkey_registry os env b w
  cases t with
  | character n =>
    show hFind (registerHotkey os env b w).2.m_hotkeyIdToCharacter k = some n ↔ _
    rw [h1]; rfl
  | cycleGroup n f =>
    show (hFind (registerHotkey os env b w).2.m_hotkeyIdToCycleGroup k = some n ∧
      hFind (registerHotkey os env b w).2.m_hotkeyIdIsForward k = some f) ↔ _
    rw [h2, h3]; rfl
  | profile n =>
    show hFind (registerHotkey os env b w).2.m_hotkeyIdToProfile k = some n ↔ _
    rw [h4]; rfl
  | slot s =>
    show ((registerHotkey os env b w).2.slotId s = k ∧ k ≠ -1) ↔ _
    rw [h5]; rfl

theorem registerHotkey_fresh {σ : Type} (os : OS σ) (env : Env) (b : HotkeyBinding)
    (w : World σ) (hb : Bounded w) :
    hFind (registerHotkey os env b w).2.m_hotkeyIdToCharacter w.m_nextHotkeyId = none ∧
    hFind (registerHotkey os env b w).2.m_hotkeyIdToCycleGroup w.m_nextHotkeyId = none ∧
    hFind (registerHotkey os env b w).2.m_hotkeyIdToProfile w.m_nextHotkeyId = none := by
  obtain ⟨h1, h2, h3, h4, h5⟩ := registerHotkey_registry os env b w
  have htab := hb.tables w.m_nextHotkeyId (le_refl _)
  simp only [World.tablesAt, Prod.mk.injEq] at htab
  rw [h1, h2, h4]
  exact ⟨htab.2.1, htab.2.2.1, htab.2.2.2.2⟩

/-- A registration block for another target changes nothing for this target. -/
theorem runJob_owns_other {σ : Type} (os : OS σ) (env : Env) (w : World σ)
    (job : Target × HotkeyBinding) (k : Int) (t : Target) (hb : Bounded w) (hne : job.1 ≠ t) :
    (runJob os env w job).owns k t ↔ w.owns k t := by
  unfold runJob registerWith
  cases hr : (registerHotkey os env job.2 w).1 with
  | none => exact owns_registerHotkey os env job.2 w k t
  | some id =>
    simp only
    have hid := (registerHotkey_id os env job.2 w id hr).1
    rw [owns_commitTo_other t job.1 id _ k hne (by rw [hid]; exact registerHotkey_fresh os env job.2 w hb)]
    exact owns_registerHotkey os env job.2 w k t

/-- A registration block for a target that tracked nothing tracks exactly the id that
`registerHotkey` returned. -/
theorem runJob_owns_self {σ : Type} (os : OS σ) (env : Env) (w : World σ)
    (t : Target) (b : HotkeyBinding) (k : Int) (hn : -1 < w.m_nextHotkeyId)
    (hnone : ∀ k : Int, ¬ w.owns k t) :
    (runJob os env w (t, b)).owns k t ↔ (registerHotkey os env b w).1 = some k := by
  unfold runJob registerWith
  cases hr : (registerHotkey os env b w).1 with
  | none =>
    simp only [hr]
    rw [owns_registerHotkey]
    exact ⟨fun h => absurd h (hnone k), fun h => Option.noConfusion h⟩
  | some id =>
    simp only [hr]
    have hid := (registerHotkey_id os env b w id hr).1
    rw [owns_commitTo_self t id _ k (by omega)
      (fun k2 h => hnone k2 ((owns_registerHotkey os env b w k2 t).1 h))]
    exact ⟨fun h => by rw [h], fun h => (Option.some.inj h).symm⟩

theorem runJobs_bounded {σ : Type} (os : OS σ) (env : Env)
    (jobs : List (Target × HotkeyBinding)) (w : World σ) (hb : Bounded w) :
    Bounded (runJobs os env jobs w) :=
  Bounded.of_later hb (runJobs_later os env jobs w hb)

/-- Registration blocks for other targets change nothing for this target. -/
theorem runJobs_owns_other {σ : Type} (os : OS σ) (env : Env) (k : Int) (t : Target)
    (jobs : List (Target × HotkeyBinding)) :
    ∀ (w : World σ), Bounded w → t ∉ jobs.map Prod.fst →
      ((runJobs os env jobs w).owns k t ↔ w.owns k t) := by
  induction jobs with
  | nil => intro w _ _; exact Iff.rfl
  | cons j rest ih =>
    intro w hb hnot
    rw [runJobs_cons]
    simp only [List.map_cons, List.mem_cons, not_or] at hnot
    rw [ih (runJob os env w j) (Bounded.of_later hb (runJob_later os env w j hb)) hnot.2]
    exact runJob_owns_other os env w j k t hb (fun h => hnot.1 h.symm)

/-- The id tracked under a target that occurs once among the registration blocks is the id
that `registerHotkey` returned at that block. -/
theorem runJobs_owns_at {σ : Type} (os : OS σ) (env : Env) (k : Int) (t : Target)
    (b : HotkeyBinding) (pre post : List (Target × HotkeyBinding)) (w : World σ)
    (hb : Bounded w) (hn : -1 < w.m_nextHotkeyId) (hnone : ∀ k : Int, ¬ w.owns k t)
    (hpre : t ∉ pre.map Prod.fst) (hpost : t ∉ post.map Prod.fst) :
    (runJobs os env (pre ++ (t, b) :: post) w).owns k t ↔
      (registerHotkey os env b (runJobs os env pre w)).1 = some k := by
  rw [runJobs_append, runJobs_cons]
  have hb1 := runJobs_bounded os env pre w hb
  have hl1 := runJobs_later os env pre w hb
  rw [runJobs_owns_other os env k t post _
    (Bounded.of_later hb1 (runJob_later os env _ (t, b) hb1)) hpost]
  refine runJob_owns_self os env _ t b k (lt_of_lt_of_le hn hl1.next_le) ?_
  intro k2 h
  exact hnone k2 ((runJobs_owns_other os env k2 t pre w hb hpre).1 h)

/-- Ids follow the order of the registration blocks: an id tracked under a target of the
first part of the blocks is smaller than an id tracked under a target of the second part. -/
theorem runJobs_order {σ : Type} (os : OS σ) (env : Env) (k1 k2 : Int) (t1 t2 : Target)
    (first second : List (Target × HotkeyBinding)) (w : World σ)
    (hb : Bounded w) (hnone : ∀ k : Int, ¬ w.owns k t2)
    (h1 : t1 ∉ second.map Prod.fst) (h2 : t2 ∉ first.map Prod.fst)
    (ho1 : (runJobs os env (first ++ second) w).owns k1 t1)
    (ho2 : (runJobs os env (first ++ second) w).owns k2 t2) : k1 < k2 := by
  rw [runJobs_append] at ho1 ho2
  have hb1 := runJobs_bounded os env first w hb
  have hl := runJobs_later os env second _ hb1
  have hlt := owns_lt_next _ hb1 k1 t1 ((runJobs_owns_other os env k1 t1 second _ hb1 h1).1 ho1)
  by_contra hge
  have hk2 : k2 < (runJobs os env first w).m_nextHotkeyId := by omega
  have := owns_old hl k2 t2 hk2 ho2
  exact hnone k2 ((runJobs_owns_other os env k2 t2 first w hb h2).1 this)

theorem clearRegistrations_owns {σ : Type} (os : OS σ) (w : World σ) (k : Int) (t : Target) :
    ¬ (clearRegistrations os w).owns k t := by
  obtain ⟨s, released, h⟩ := clearRegistrations_eq os w
  rw [h]
  cases t with
  | character n => exact fun h1 => Option.noConfusion h1
  | cycleGroup n f => exact fun h1 => Option.noConfusion h1.1
  | profile n => exact fun h1 => Option.noConfusion h1
  | slot s =>
    intro h1
    have h2 : _ = k ∧ k ≠ -1 := h1
    cases s <;> exact h2.2 h2.1.symm

/-! ## The order of the blocks of a rebuild -/

theorem sorted_split {α : Type} (f : α → Nat) (r : Nat) (l : List α)
    (h : l.Pairwise (fun a b => f a ≤ f b)) :
    l = l.filter (fun a => decide (f a ≤ r)) ++ l.filter (fun a => decide (r < f a)) := by
  induction l with
  | nil => rfl
  | cons x rest ih =>
    rw [List.pairwise_cons] at h
    by_cases hx : f x ≤ r
    · rw [List.filter_cons_of_pos (by simpa using hx),
        List.filter_cons_of_neg (by simpa using hx), List.cons_append, ← ih h.2]
    · have h1 : rest.filter (fun a => decide (f a ≤ r)) = [] := by
        rw [List.filter_eq_nil_iff]
        intro a ha
        have := h.1 a ha
        simp only [decide_eq_true_eq]
        omega
      have h2 : rest.filter (fun a => decide (r < f a)) = rest := by
        rw [List.filter_eq_self]
        intro a ha
        have := h.1 a ha
        simp only [decide_eq_true_eq]
        omega
      rw [List.filter_cons_of_neg (by simpa using hx),
        List.filter_cons_of_pos (by simp only [decide_eq_true_eq]; omega), h1, h2,
        List.nil_append]

theorem targets_characterJobs (chars : List (String × HotkeyBinding)) :
    (characterJobs chars).map Prod.fst = chars.map (fun e => Target.character e.1) := by
  unfold characterJobs
  rw [List.map_map]
  rfl

theorem targets_profileJobs (env : Env) :
    (profileJobs env).map Prod.fst = env.profileHotkeys.map (fun e => Target.profile e.1) := by
  unfold profileJobs
  rw [List.map_map]
  rfl

theorem cycleGroupJobs_cons (e : String × CycleGroup) (rest : List (String × CycleGroup)) :
    cycleGroupJobs (e :: rest) =
      (Target.cycleGroup e.1 true, e.2.forwardBinding) ::
        (Target.cycleGroup e.1 false, e.2.backwardBinding) :: cycleGroupJobs rest := by
  unfold cycleGroupJobs
  rw [List.flatMap_cons]
  rfl

theorem cycleGroupJobs_append (l1 l2 : List (String × CycleGroup)) :
    cycleGroupJobs (l1 ++ l2) = cycleGroupJobs l1 ++ cycleGroupJobs l2 := by
  unfold cycleGroupJobs
  exact List.flatMap_append _ _ _

theorem mem_targets_cycleGroupJobs (groups : List (String × CycleGroup)) (t : Target) :
    t ∈ (cycleGroupJobs groups).map Prod.fst ↔
      ∃ g ∈ groups.map Prod.fst, ∃ f : Bool, t = Target.cycleGroup g f := by
  induction groups with
  | nil => simp [cycleGroupJobs]
  | cons e rest ih =>
    rw [cycleGroupJobs_cons]
    simp only [List.map_cons, List.mem_cons, ih]
    constructor
    · rintro (h | h | ⟨g, hg, f, h⟩)
      · exact ⟨e.1, Or.inl rfl, true, h⟩
      · exact ⟨e.1, Or.inl rfl, false, h⟩
      · exact ⟨g, Or.inr hg, f, h⟩
    · rintro ⟨g, hg | hg, f, h⟩
      · rw [hg] at h
        cases f
        · exact Or.inr (Or.inl h)
        · exact Or.inl h
      · exact Or.inr (Or.inr ⟨g, hg, f, h⟩)

theorem rank_characterJobs (chars : List (String × HotkeyBinding)) (j : Target × HotkeyBinding)
    (h : j ∈ characterJobs chars) : j.1.rank = 1 := by
  unfold characterJobs at h
  rw [List.mem_map] at h
  obtain ⟨e, -, he⟩ := h
  rw [← he]
  rfl

theorem rank_cycleGroupJobs (groups : List (String × CycleGroup)) (j : Target × HotkeyBinding)
    (h : j ∈ cycleGroupJobs groups) : j.1.rank = 2 := by
  have h1 : j.1 ∈ (cycleGroupJobs groups).map Prod.fst := List.mem_map_of_mem _ h
  rw [mem_targets_cycleGroupJobs] at h1
  obtain ⟨g, -, f, hj⟩ := h1
  rw [hj]
  rfl

theorem rank_profileJobs (env : Env) (j : Target × HotkeyBinding)
    (h : j ∈ profileJobs env) : j.1.rank = 8 := by
  unfold profileJobs at h
  rw [List.mem_map] at h
  obtain ⟨e, -, he⟩ := h
  rw [← he]
  rfl

theorem pairwise_of_const {α : Type} (f : α → Nat) (c : Nat) (l : List α)
    (h : ∀ a ∈ l, f a = c) : l.Pairwise (fun a b => f a ≤ f b) := by
  induction l with
  | nil => exact List.Pairwise.nil
  | cons x rest ih =>
    rw [List.pairwise_cons]
    refine ⟨fun a ha => ?_, ih (fun a ha => h a (List.mem_cons_of_mem _ ha))⟩
    rw [h x (List.mem_cons_self _ _), h a (List.mem_cons_of_mem _ ha)]

/-- The blocks of a rebuild come in the order of the categories. -/
theorem rebuildJobs_sorted {σ : Type} (env : Env) (w : World σ) :
    (rebuildJobs env w).Pairwise (fun a b => a.1.rank ≤ b.1.rank) := by
  unfold rebuildJobs
  rw [List.pairwise_cons]
  refine ⟨fun a _ => Nat.zero_le _, ?_⟩
  split_ifs
  · exact List.Pairwise.nil
  · unfold activeJobs
    rw [List.pairwise_append]
    refine ⟨pairwise_of_const _ 1 _ (rank_characterJobs _), ?_, ?_⟩
    · rw [List.pairwise_append]
      refine ⟨pairwise_of_const _ 2 _ (rank_cycleGroupJobs _), ?_, ?_⟩
      · rw [List.pairwise_append]
        refine ⟨?_, pairwise_of_const _ 8 _ (rank_profileJobs env), ?_⟩
        · simp [slotJob, Target.rank]
        · intro a ha b hb
          rw [rank_profileJobs env b hb]
          simp only [List.mem_cons, List.mem_singleton, List.not_mem_nil, or_false] at ha
          rcases ha with h | h | h | h | h <;> rw [h] <;> simp [slotJob, Target.rank]
      · intro a ha b hb
        rw [rank_cycleGroupJobs _ a ha]
        rw [List.mem_append] at hb
        rcases hb with hb | hb
        · simp only [List.mem_cons, List.mem_singleton, List.not_mem_nil, or_false] at hb
          rcases hb with h | h | h | h | h <;> rw [h] <;> simp [slotJob, Target.rank]
        · rw [rank_profileJobs env b hb]
          omega
    · intro a ha b hb
      rw [rank_characterJobs _ a ha]
      rw [List.mem_append] at hb
      rcases hb with hb | hb
      · rw [rank_cycleGroupJobs _ b hb]
        omega
      · rw [List.mem_append] at hb
        rcases hb with hb | hb
        · simp only [List.mem_cons, List.mem_singleton, List.not_mem_nil, or_false] at hb
          rcases hb with h | h | h | h | h <;> rw [h] <;> simp [slotJob, Target.rank]
        · rw [rank_profileJobs env b hb]
          omega

/-- When the blocks come in the order of the categories and nothing was tracked before,
ids of different categories are ordered by category. -/
theorem runJobs_rank_order {σ : Type} (os : OS σ) (env : Env)
    (jobs : List (Target × HotkeyBinding)) (w : World σ)
    (hsorted : jobs.Pairwise (fun a b => a.1.rank ≤ b.1.rank))
    (hb : Bounded w) (hnone : ∀ (k : Int) (t : Target), ¬ w.owns k t)
    (k1 k2 : Int) (t1 t2 : Target)
    (ho1 : (runJobs os env jobs w).owns k1 t1) (ho2 : (runJobs os env jobs w).owns k2 t2)
    (hr : t1.rank < t2.rank) : k1 < k2 := by
  have hsplit := sorted_split (fun j : Target × HotkeyBinding => j.1.rank) t1.rank jobs hsorted
  rw [hsplit] at ho1 ho2
  refine runJobs_order os env k1 k2 t1 t2 _ _ w hb (fun k => hnone k t2) ?_ ?_ ho1 ho2
  · intro hmem
    rw [List.mem_map] at hmem
    obtain ⟨j, hj, hjt⟩ := hmem
    have := (List.mem_filter.1 hj).2
    simp only [decide_eq_true_eq] at this
    rw [hjt] at this
    omega
  · intro hmem
    rw [List.mem_map] at hmem
    obtain ⟨j, hj, hjt⟩ := hmem
    have := (List.mem_filter.1 hj).2
    simp only [decide_eq_true_eq] at this
    rw [hjt] at this
    omega

/-- A target that tracks an id after the blocks have run from a world that tracked nothing is
the target of one of the blocks. -/
theorem runJobs_owner_mem {σ : Type} (os : OS σ) (env : Env)
    (jobs : List (Target × HotkeyBinding)) (w : World σ) (hb : Bounded w) (k : Int) (t : Target)
    (hnone : ¬ w.owns k t) (ho : (runJobs os env jobs w).owns k t) :
    t ∈ jobs.map Prod.fst := by
  by_contra hnot
  exact hnone ((runJobs_owns_other os env k t jobs w hb hnot).1 ho)

/-! ## Registration order -/

/-- Within one cycle group the forward id is smaller than the backward id: the blocks of a
rebuild split after the group's forward block. -/
theorem cycleGroup_forward_first {σ : Type} (os : OS σ) (env : Env) (w : World σ)
    (hg : (w.m_cycleGroups.map Prod.fst).Nodup) (g : String) (kf kb : Int)
    (hof : (registerHotkeys os env w).2.owns kf (Target.cycleGroup g true))
    (hob : (registerHotkeys os env w).2.owns kb (Target.cycleGroup g false)) : kf < kb := by
  rw [registerHotkeys_eq_runJobs] at hof hob
  have hb := clearRegistrations_bounded os w
  have hmem := runJobs_owner_mem os env _ _ hb kf _ (clearRegistrations_owns os w kf _) hof
  unfold rebuildJobs at hmem hof hob
  cases hs : w.m_suspended with
  | true =>
    rw [hs] at hmem
    simp [slotJob] at hmem
  | false =>
    rw [hs] at hmem hof hob
    simp only [Bool.false_eq_true, if_false] at hmem hof hob
    unfold activeJobs at hmem hof hob
    have hin : g ∈ w.m_cycleGroups.map Prod.fst := by
      simp only [List.map_cons, List.map_append, List.mem_cons, List.mem_append,
        targets_characterJobs, targets_profileJobs, mem_targets_cycleGroupJobs] at hmem
      rcases hmem with h | h | h | h | h
      · exact absurd h (by simp [slotJob])
      · simp at h
      · obtain ⟨g2, hg2, f, h2⟩ := h
        have : g = g2 := by injection h2
        rw [this]; exact hg2
      · simp [slotJob] at h
      · simp at h
    rw [List.mem_map] at hin
    obtain ⟨e, he, heg⟩ := hin
    obtain ⟨gpre, gpost, hsplit⟩ := List.append_of_mem he
    rw [hsplit, List.map_append, List.map_cons, heg] at hg
    have hnd := List.nodup_append.1 hg
    have hpre : g ∉ gpre.map Prod.fst := fun h => hnd.2.2 h (List.mem_cons_self _ _)
    have hpost : g ∉ gpost.map Prod.fst := (List.nodup_cons.1 hnd.2.1).1
    have hjobs : slotJob w IdSlot.suspend ::
        (characterJobs w.m_characterHotkeys ++ (cycleGroupJobs w.m_cycleGroups ++
          ([slotJob w IdSlot.notLoggedInForward, slotJob w IdSlot.notLoggedInBackward,
            slotJob w IdSlot.nonEVEForward, slotJob w IdSlot.nonEVEBackward,
            slotJob w IdSlot.closeAllClients] ++ profileJobs env))) =
        (slotJob w IdSlot.suspend :: (characterJobs w.m_characterHotkeys ++
          (cycleGroupJobs gpre ++ [(Target.cycleGroup g true, e.2.forwardBinding)]))) ++
        ((Target.cycleGroup g false, e.2.backwardBinding) :: (cycleGroupJobs gpost ++
          ([slotJob w IdSlot.notLoggedInForward, slotJob w IdSlot.notLoggedInBackward,
            slotJob w IdSlot.nonEVEForward, slotJob w IdSlot.nonEVEBackward,
            slotJob w IdSlot.closeAllClients] ++ profileJobs env))) := by
      rw [hsplit, cycleGroupJobs_append, cycleGroupJobs_cons, heg]
      simp only [List.cons_append, List.append_assoc, List.nil_append]
    rw [hjobs] at hof hob
    refine runJobs_order os env kf kb _ _ _ _ _ hb
      (fun k => clearRegistrations_owns os w k _) ?_ ?_ hof hob
    · simp only [List.map_cons, List.map_append, List.mem_cons, List.mem_append,
        targets_profileJobs, mem_targets_cycleGroupJobs]
      rintro (h | h | h | h)
      · simp at h
      · obtain ⟨g2, hg2, f, h2⟩ := h
        have : g = g2 := by injection h2
        exact hpost (this ▸ hg2)
      · simp [slotJob] at h
      · simp at h
    · simp only [List.map_cons, List.map_append, List.mem_cons, List.mem_append,
        targets_characterJobs, mem_targets_cycleGroupJobs, List.map_nil, List.not_mem_nil,
        or_false]
      rintro (h | h | h | h)
      · simp [slotJob] at h
      · simp at h
      · obtain ⟨g2, hg2, f, h2⟩ := h
        have : g = g2 := by injection h2
        exact hpre (this ▸ hg2)
      · simp at h

/-- C23: after `registerHotkeys`, on a manager that is not suspended as on any other, two
tracked canonical ids of different categories are ordered by category (suspend, characters,
cycle groups, not-logged-in forward, not-logged-in backward, non-target forward, non-target
backward, close-all, profiles), and within one cycle group the forward id is smaller than
the backward id.  The cycle groups are the entries of a hash keyed by the group name, so no
name occurs twice. -/
theorem registration_order {σ : Type} (os : OS σ) (env : Env) (w : World σ)
    (hg : (w.m_cycleGroups.map Prod.fst).Nodup) :
    (∀ (k1 k2 : Int) (t1 t2 : Target),
      (registerHotkeys os env w).2.owns k1 t1 → (registerHotkeys os env w).2.owns k2 t2 →
        t1.rank < t2.rank → k1 < k2) ∧
    (∀ (g : String) (kf kb : Int),
      (registerHotkeys os env w).2.owns kf (Target.cycleGroup g true) →
        (registerHotkeys os env w).2.owns kb (Target.cycleGroup g false) → kf < kb) := by
  refine ⟨?_, fun g kf kb hof hob => cycleGroup_forward_first os env w hg g kf kb hof hob⟩
  intro k1 k2 t1 t2 ho1 ho2 hr
  rw [registerHotkeys_eq_runJobs] at ho1 ho2
  exact runJobs_rank_order os env _ _ (rebuildJobs_sorted env w)
    (clearRegistrations_bounded os w) (fun k t => clearRegistrations_owns os w k t)
    k1 k2 t1 t2 ho1 ho2 hr

theorem registration_order_witness :
    orderWorld.m_suspended = false ∧
    (orderWorld.m_cycleGroups.map Prod.fst).Nodup ∧
    (registerHotkeys OS.acceptAll Env.plain orderWorld).2.owns 1000 (Target.slot IdSlot.suspend) ∧
    (registerHotkeys OS.acceptAll Env.plain orderWorld).2.owns 1001 (Target.character "Alice") ∧
    (registerHotkeys OS.acceptAll Env.plain orderWorld).2.owns 1002
      (Target.cycleGroup "fleet" true) ∧
    (registerHotkeys OS.acceptAll Env.plain orderWorld).2.owns 1003
      (Target.cycleGroup "fleet" false) ∧
    (registerHotkeys OS.acceptAll Env.plain orderWorld).2.owns 1004
      (Target.slot IdSlot.closeAllClients) ∧
    (∀ (k1 k2 : Int) (t1 t2 : Target),
      (registerHotkeys OS.acceptAll Env.plain orderWorld).2.owns k1 t1 →
        (registerHotkeys OS.acceptAll Env.plain orderWorld).2.owns k2 t2 →
          t1.rank < t2.rank → k1 < k2) ∧
    (∀ (g : String) (kf kb : Int),
      (registerHotkeys OS.acceptAll Env.plain orderWorld).2.owns kf (Target.cycleGroup g true) →
        (registerHotkeys OS.acceptAll Env.plain orderWorld).2.owns kb
          (Target.cycleGroup g false) → kf < kb) :=
  ⟨rfl, by simp [orderWorld], ⟨rfl, by decide⟩, rfl, ⟨rfl, rfl⟩, ⟨rfl, rfl⟩, ⟨rfl, by decide⟩,
    registration_order OS.acceptAll Env.plain orderWorld (by simp [orderWorld])⟩

/-! ## The close-all binding and the conflict search -/

theorem mask_injective : ∀ c a s c2 a2 s2 : Bool,
    ((((MOD_NOREPEAT ||| (if c then MOD_CONTROL else 0)) ||| (if a then MOD_ALT else 0)) |||
        (if s then MOD_SHIFT else 0)) =
      (((MOD_NOREPEAT ||| (if c2 then MOD_CONTROL else 0)) ||| (if a2 then MOD_ALT else 0)) |||
        (if s2 then MOD_SHIFT else 0))) ↔ (c = c2 ∧ a = a2 ∧ s = s2) := by
  decide

theorem bindingModifiers_eq_iff (a b : HotkeyBinding) :
    bindingModifiers a = bindingModifiers b ↔
      (a.ctrl = b.ctrl ∧ a.alt = b.alt ∧ a.shift = b.shift) :=
  mask_injective a.ctrl a.alt a.shift b.ctrl b.alt b.shift

theorem taken_append (s : List (Int × Nat × Int)) (r : Int × Nat × Int) (m : Nat) (vk : Int) :
    taken (s ++ [r]) m vk = true ↔ taken s m vk = true ∨ (r.2.1 = m ∧ r.2.2 = vk) := by
  unfold taken
  simp

theorem commitTo_os {σ : Type} (t : Target) (id : Int) (w : World σ) :
    (commitTo t id w).os = w.os := by
  cases t with
  | character n => rfl
  | cycleGroup n f => rfl
  | profile n => rfl
  | slot s => cases s <;> rfl

theorem commitTo_aliases {σ : Type} (t : Target) (id : Int) (w : World σ) :
    (commitTo t id w).m_wildcardAliases = w.m_wildcardAliases := by
  cases t with
  | character n => rfl
  | cycleGroup n f => rfl
  | profile n => rfl
  | slot s => cases s <;> rfl

theorem runJob_os {σ : Type} (os : OS σ) (env : Env) (w : World σ)
    (job : Target × HotkeyBinding) :
    (runJob os env w job).os = (registerHotkey os env job.2 w).2.os := by
  unfold runJob registerWith
  cases (registerHotkey os env job.2 w).1 with
  | none => rfl
  | some id => exact commitTo_os job.1 id _

theorem runJob_aliases {σ : Type} (os : OS σ) (env : Env) (w : World σ)
    (job : Target × HotkeyBinding) :
    (runJob os env w job).m_wildcardAliases =
      (registerHotkey os env job.2 w).2.m_wildcardAliases := by
  unfold runJob registerWith
  cases (registerHotkey os env job.2 w).1 with
  | none => rfl
  | some id => exact commitTo_aliases job.1 id _

/-- Without wildcard mode, `registerHotkey` against the exclusive operating system succeeds
exactly for an enabled binding whose combination is not held, and then the system holds
it. -/
theorem registerHotkey_exclusive (env : Env) (b : HotkeyBinding)
    (w : World (List (Int × Nat × Int))) (hw : env.wildcardHotkeys = false) :
    (registerHotkey OS.exclusive env b w).1 =
      (if b.enabled = true ∧ taken w.os (bindingModifiers b) b.keyCode = false then
        some w.m_nextHotkeyId else none) ∧
    (registerHotkey OS.exclusive env b w).2.os =
      (if b.enabled = true ∧ taken w.os (bindingModifiers b) b.keyCode = false then
        w.os ++ [(w.m_nextHotkeyId, bindingModifiers b, b.keyCode)] else w.os) ∧
    (registerHotkey OS.exclusive env b w).2.m_wildcardAliases = w.m_wildcardAliases := by
  cases he : b.enabled with
  | false =>
    rw [registerHotkey_disabled OS.exclusive env b w he]
    simp
  | true =>
    cases ht : taken w.os (bindingModifiers b) b.keyCode with
    | true =>
      have hrej : (OS.exclusive.registerHotKey w.os w.m_nextHotkeyId (bindingModifiers b)
          b.keyCode).1 = false := by
        simp [OS.exclusive, ht]
      rw [registerHotkey_rejected OS.exclusive env b w he hrej]
      simp [OS.exclusive, ht]
    | false =>
      have hacc : (OS.exclusive.registerHotKey w.os w.m_nextHotkeyId (bindingModifiers b)
          b.keyCode).1 = true := by
        simp [OS.exclusive, ht]
      rw [registerHotkey_plain OS.exclusive env b w he hacc hw]
      simp [OS.exclusive, ht]

theorem taken_runJob (env : Env) (w : World (List (Int × Nat × Int)))
    (job : Target × HotkeyBinding) (hw : env.wildcardHotkeys = false) (m : Nat) (vk : Int) :
    taken (runJob OS.exclusive env w job).os m vk = true ↔
      (taken w.os m vk = true ∨
        (job.2.enabled = true ∧ bindingModifiers job.2 = m ∧ job.2.keyCode = vk)) := by
  rw [runJob_os, (registerHotkey_exclusive env job.2 w hw).2.1]
  split_ifs with h
  · rw [taken_append]
    constructor
    · rintro (h1 | ⟨h1, h2⟩)
      · exact Or.inl h1
      · exact Or.inr ⟨h.1, h1, h2⟩
    · rintro (h1 | ⟨-, h1, h2⟩)
      · exact Or.inl h1
      · exact Or.inr ⟨h1, h2⟩
  · constructor
    · exact fun h1 => Or.inl h1
    · rintro (h1 | ⟨h1, h2, h3⟩)
      · exact h1
      · rw [← h2, ← h3]
        by_contra hn
        exact h ⟨h1, by simpa using hn⟩

theorem taken_runJobs (env : Env) (hw : env.wildcardHotkeys = false) (m : Nat) (vk : Int)
    (jobs : List (Target × HotkeyBinding)) :
    ∀ w : World (List (Int × Nat × Int)),
      (taken (runJobs OS.exclusive env jobs w).os m vk = true ↔
        (taken w.os m vk = true ∨
          ∃ j ∈ jobs, j.2.enabled = true ∧ bindingModifiers j.2 = m ∧ j.2.keyCode = vk)) := by
  induction jobs with
  | nil => intro w; simp [runJobs_nil]
  | cons j rest ih =>
    intro w
    rw [runJobs_cons, ih, taken_runJob env w j hw]
    simp only [List.mem_cons, exists_eq_or_imp]
    tauto

theorem foldl_ite_unregister {σ : Type} (os : OS σ) (c : Prop) [Decidable c] (s : σ) (id : Int) :
    (if c then os.unregisterHotKey s id else s) =
      (if c then [id] else []).foldl os.unregisterHotKey s := by
  split_ifs <;> rfl

/-- The state of the operating system after `unregisterHotkeys`: the ids of `releasedIds`
released one after the other. -/
theorem unregisterHotkeys_os {σ : Type} (os : OS σ) (w : World σ) :
    (unregisterHotkeys os w).os = w.releasedIds.foldl os.unregisterHotKey w.os := by
  simp only [unregisterHotkeys, unregisterProfileHotkeys, unregisterHotkey_foldl,
    unregisterIfSet_eq, World.releasedIds, List.foldl_append, foldl_ite_unregister]

theorem clearRegistrations_os {σ : Type} (os : OS σ) (w : World σ) :
    (clearRegistrations os w).os = w.releasedIds.foldl os.unregisterHotKey w.os :=
  unregisterHotkeys_os os w

theorem exclusive_release (ids : List Int) :
    ∀ s : List (Int × Nat × Int), (∀ r ∈ s, r.1 ∈ ids) →
      ids.foldl OS.exclusive.unregisterHotKey s = [] := by
  induction ids with
  | nil =>
    intro s hs
    cases s with
    | nil => rfl
    | cons r rest => exact absurd (hs r (List.mem_cons_self _ _)) (List.not_mem_nil _)
  | cons id rest ih =>
    intro s hs
    rw [List.foldl_cons]
    apply ih
    intro r hr
    have hr2 : r ∈ s.filter (fun r => r.1 != id) := hr
    rw [List.mem_filter] at hr2
    have := hs r hr2.1
    rw [List.mem_cons] at this
    rcases this with h | h
    · have h2 := hr2.2
      simp only [bne_iff_ne, ne_eq] at h2
      exact absurd h h2
    · exact h

/-- When every registration the operating system holds is under an id the manager tracks,
the system holds nothing once the registry has been cleared. -/
theorem clearRegistrations_exclusive (w : World (List (Int × Nat × Int)))
    (hown : ∀ r ∈ w.os, w.tracks r.1) : (clearRegistrations OS.exclusive w).os = [] := by
  rw [clearRegistrations_os]
  exact exclusive_release _ _
    (fun r hr => tracked_mem_releasedIds w r.1 ((tracks_iff w r.1).1 (hown r hr)))

/-! ## Each target has one block -/

theorem targets_cycleGroupJobs_nodup (groups : List (String × CycleGroup))
    (hg : (groups.map Prod.fst).Nodup) : ((cycleGroupJobs groups).map Prod.fst).Nodup := by
  induction groups with
  | nil => exact List.nodup_nil
  | cons e rest ih =>
    rw [List.map_cons, List.nodup_cons] at hg
    rw [cycleGroupJobs_cons, List.map_cons, List.map_cons, List.nodup_cons, List.nodup_cons]
    refine ⟨?_, ?_, ih hg.2⟩
    · rw [List.mem_cons, mem_targets_cycleGroupJobs]
      rintro (h | ⟨g, hgm, f, h⟩)
      · exact Bool.noConfusion (Target.cycleGroup.inj h).2
      · exact hg.1 ((Target.cycleGroup.inj h).1 ▸ hgm)
    · rw [mem_targets_cycleGroupJobs]
      rintro ⟨g, hgm, f, h⟩
      exact hg.1 ((Target.cycleGroup.inj h).1 ▸ hgm)

theorem targets_characterJobs_nodup (chars : List (String × HotkeyBinding))
    (hc : (chars.map Prod.fst).Nodup) : ((characterJobs chars).map Prod.fst).Nodup := by
  rw [targets_characterJobs]
  have : chars.map (fun e => Target.character e.1) = (chars.map Prod.fst).map Target.character := by
    rw [List.map_map]; rfl
  rw [this]
  exact List.Nodup.map (fun a b h => Target.character.inj h) hc

theorem targets_profileJobs_nodup (env : Env)
    (hp : (env.profileHotkeys.map Prod.fst).Nodup) : ((profileJobs env).map Prod.fst).Nodup := by
  rw [targets_profileJobs]
  have : env.profileHotkeys.map (fun e => Target.profile e.1) =
      (env.profileHotkeys.map Prod.fst).map Target.profile := by
    rw [List.map_map]; rfl
  rw [this]
  exact List.Nodup.map (fun a b h => Target.profile.inj h) hp

/-- With character names, group names and profile names each pairwise different, no target
has two blocks in a rebuild. -/
theorem rebuildJobs_targets_nodup {σ : Type} (env : Env) (w : World σ)
    (hc : (w.m_characterHotkeys.map Prod.fst).Nodup)
    (hg : (w.m_cycleGroups.map Prod.fst).Nodup)
    (hp : (env.profileHotkeys.map Prod.fst).Nodup) :
    ((rebuildJobs env w).map Prod.fst).Nodup := by
  have h1 := targets_characterJobs_nodup _ hc
  have h2 := targets_cycleGroupJobs_nodup _ hg
  have h3 := targets_profileJobs_nodup env hp
  unfold rebuildJobs
  split_ifs
  · simp
  · unfold activeJobs
    rw [List.map_cons, List.map_append, List.map_append, List.map_append, List.nodup_cons,
      List.nodup_append, List.nodup_append, List.nodup_append]
    refine ⟨?_, h1, ⟨h2, ⟨?_, h3, ?_⟩, ?_⟩, ?_⟩
    · simp only [List.mem_append, mem_targets_cycleGroupJobs, targets_characterJobs,
        targets_profileJobs, slotJob]
      simp
    · simp [slotJob]
    · intro t ht1 ht2
      rw [targets_profileJobs] at ht2
      simp only [slotJob, List.map_cons, List.map_nil, List.mem_cons, List.mem_singleton,
        List.not_mem_nil, or_false] at ht1
      rcases ht1 with h | h | h | h | h <;> rw [h] at ht2 <;> simp at ht2
    · intro t ht1 ht2
      rw [mem_targets_cycleGroupJobs] at ht1
      obtain ⟨g, -, f, h⟩ := ht1
      rw [h, List.mem_append, targets_profileJobs] at ht2
      simp [slotJob] at ht2
    · intro t ht1 ht2
      rw [targets_characterJobs] at ht1
      rw [List.mem_map] at ht1
      obtain ⟨e, -, h⟩ := ht1
      rw [← h, List.mem_append, List.mem_append, mem_targets_cycleGroupJobs,
        targets_profileJobs] at ht2
      simp [slotJob] at ht2

theorem not_mem_of_split {α : Type} (pre post : List α) (t : α)
    (h : (pre ++ t :: post).Nodup) : t ∉ pre ∧ t ∉ post := by
  rw [List.nodup_append] at h
  exact ⟨fun hm => h.2.2 hm (List.mem_cons_self _ _), (List.nodup_cons.1 h.2.1).1⟩

theorem owns_tracks {σ : Type} (w : World σ) (k : Int) (t : Target) (h : w.owns k t) :
    w.tracks k := by
  cases t with
  | character n =>
    have h1 : hFind w.m_hotkeyIdToCharacter k = some n := h
    exact Or.inl (by rw [h1]; rfl)
  | cycleGroup n f =>
    have h1 : hFind w.m_hotkeyIdToCycleGroup k = some n := h.1
    exact Or.inr (Or.inl (by rw [h1]; rfl))
  | profile n =>
    have h1 : hFind w.m_hotkeyIdToProfile k = some n := h
    exact Or.inr (Or.inr (Or.inl (by rw [h1]; rfl)))
  | slot s =>
    have h1 : w.slotId s = k ∧ k ≠ -1 := h
    exact Or.inr (Or.inr (Or.inr (Or.inr ⟨h1.2, s, h1.1⟩)))

/-- A rebuild against the exclusive operating system without wildcard mode, started when the
system holds only registrations of the manager: the id tracked under the target of a block
is the id the allocator stood at when the block ran, and there is one exactly when the
block's binding is enabled and no earlier block had an enabled binding with the same key
and modifiers. -/
theorem rebuild_exclusive_owner (env : Env) (w : World (List (Int × Nat × Int)))
    (hr : Reachable OS.exclusive w) (hown : ∀ r ∈ w.os, w.tracks r.1)
    (hw : env.wildcardHotkeys = false)
    (hc : (w.m_characterHotkeys.map Prod.fst).Nodup)
    (hg : (w.m_cycleGroups.map Prod.fst).Nodup)
    (hp : (env.profileHotkeys.map Prod.fst).Nodup)
    (pre post : List (Target × HotkeyBinding)) (t : Target) (b : HotkeyBinding)
    (hsplit : rebuildJobs env w = pre ++ (t, b) :: post) (k : Int) :
    (registerHotkeys OS.exclusive env w).2.owns k t ↔
      ((b.enabled = true ∧ ∀ j ∈ pre, j.2.enabled = true → ¬ sameCombination j.2 b) ∧
        k = (runJobs OS.exclusive env pre (clearRegistrations OS.exclusive w)).m_nextHotkeyId) := by
  have hnd := rebuildJobs_targets_nodup env w hc hg hp
  rw [hsplit, List.map_append, List.map_cons] at hnd
  obtain ⟨hpre, hpost⟩ := not_mem_of_split _ _ _ hnd
  have hbase := (Reachable.bounded hr).1
  have hnext := clearRegistrations_next OS.exclusive w
  rw [registerHotkeys_eq_runJobs, hsplit,
    runJobs_owns_at OS.exclusive env k t b pre post _ (clearRegistrations_bounded _ w)
      (by omega) (fun k2 => clearRegistrations_owns _ w k2 t) hpre hpost,
    (registerHotkey_exclusive env b _ hw).1]
  have htaken := taken_runJobs env hw (bindingModifiers b) b.keyCode pre
    (clearRegistrations OS.exclusive w)
  rw [clearRegistrations_exclusive w hown] at htaken
  have hfree : taken (runJobs OS.exclusive env pre (clearRegistrations OS.exclusive w)).os
      (bindingModifiers b) b.keyCode = false ↔
      ∀ j ∈ pre, j.2.enabled = true → ¬ sameCombination j.2 b := by
    rw [← Bool.not_eq_true, htaken]
    constructor
    · intro h j hj hje hsame
      exact h (Or.inr ⟨j, hj, hje,
        (bindingModifiers_eq_iff j.2 b).2 ⟨hsame.2.1, hsame.2.2.1, hsame.2.2.2⟩, hsame.1⟩)
    · rintro h (h1 | ⟨j, hj, hje, hm, hk⟩)
      · exact Bool.noConfusion h1
      · have := (bindingModifiers_eq_iff j.2 b).1 hm
        exact h j hj hje ⟨hk, this.1, this.2.1, this.2.2⟩
  rw [← hfree]
  split_ifs with h
  · exact ⟨fun h1 => ⟨h, (Option.some.inj h1).symm⟩, fun h1 => by rw [h1.2]⟩
  · exact ⟨fun h1 => h1.elim, fun h1 => absurd h1.1 h⟩

/-! ## At most one registration per combination -/

theorem rebuildJobs_eq_allJobs {σ : Type} (env : Env) (w : World σ)
    (hs : w.m_suspended = false) : rebuildJobs env w = allJobs env w := by
  unfold rebuildJobs allJobs
  rw [hs]
  rfl

theorem registerHotkeys_returns_true {σ : Type} (os : OS σ) (env : Env) (w : World σ) :
    (registerHotkeys os env w).1 = true := by
  unfold registerHotkeys
  simp only
  split_ifs <;> rfl

theorem twinWorld_reachable : Reachable OS.exclusive twinWorld :=
  Reachable.edit (Reachable.constructed [])
    ⟨rfl, rfl, rfl, rfl, rfl, fun slot => by cases slot <;> rfl, rfl, rfl, rfl⟩

theorem preemptWorld_reachable : Reachable OS.exclusive preemptWorld :=
  Reachable.edit (Reachable.constructed [])
    ⟨rfl, rfl, rfl, rfl, rfl, fun slot => by cases slot <;> rfl, rfl, rfl, rfl⟩

/-- C24 as stated fails in two ways.  With wildcard mode on, the suspend toggle on F1 and
Alice and Bob both on Ctrl+F1, the alias Ctrl+F1 of the toggle is registered first and the
operating system rejects both characters: the character table stays empty.  And in a
suspended manager with Alice and Bob both on Ctrl+F1 a rebuild registers the toggle only:
again neither of the two has an id. -/
theorem one_registration_per_combination_counterexample :
    (("Alice", ctrlF1) ∈ preemptWorld.m_characterHotkeys ∧
      ("Bob", ctrlF1) ∈ preemptWorld.m_characterHotkeys ∧ ctrlF1.enabled = true ∧
      preemptWorld.m_suspended = false ∧
      (registerHotkeys OS.exclusive Env.wildcard preemptWorld).2.m_hotkeyIdToCharacter = []) ∧
    (("Alice", ctrlF1) ∈ twinWorld.m_characterHotkeys ∧
      ("Bob", ctrlF1) ∈ twinWorld.m_characterHotkeys ∧
      Env.plain.wildcardHotkeys = false ∧
      (registerHotkeys OS.exclusive Env.plain
        { twinWorld with m_suspended := true }).2.m_hotkeyIdToCharacter = []) := by
  refine ⟨⟨by decide, by decide, rfl, rfl, ?_⟩, by decide, by decide, rfl, ?_⟩
  · rfl
  · rfl

/-- C24, amended: with wildcard mode off, the manager not suspended, and the exclusive
operating system holding only registrations of the manager when the rebuild starts,
`registerHotkeys` returns true, and for every enabled stored binding, taken in registration
order: when no earlier enabled binding has the same key and modifiers, its target tracks
exactly one id and the operating system holds that id; when an earlier enabled binding has
the same key and modifiers, its target tracks no id.  So of several enabled bindings with
one combination exactly the first is registered, and a later binding with a free
combination is still registered. -/
theorem one_registration_per_combination (env : Env) (w : World (List (Int × Nat × Int)))
    (hr : Reachable OS.exclusive w) (hown : ∀ r ∈ w.os, w.tracks r.1)
    (hw : env.wildcardHotkeys = false) (hs : w.m_suspended = false)
    (hc : (w.m_characterHotkeys.map Prod.fst).Nodup)
    (hg : (w.m_cycleGroups.map Prod.fst).Nodup)
    (hp : (env.profileHotkeys.map Prod.fst).Nodup) :
    (registerHotkeys OS.exclusive env w).1 = true ∧
    ∀ (pre post : List (Target × HotkeyBinding)) (t : Target) (b : HotkeyBinding),
      allJobs env w = pre ++ (t, b) :: post → b.enabled = true →
      ((∀ j ∈ pre, j.2.enabled = true → ¬ sameCombination j.2 b) →
        ∃ k : Int, (registerHotkeys OS.exclusive env w).2.owns k t ∧
          (∀ k2 : Int, (registerHotkeys OS.exclusive env w).2.owns k2 t → k2 = k) ∧
          isLive (registerHotkeys OS.exclusive env w).2.calls k = true) ∧
      ((∃ j ∈ pre, j.2.enabled = true ∧ sameCombination j.2 b) →
        ∀ k : Int, ¬ (registerHotkeys OS.exclusive env w).2.owns k t) := by
  refine ⟨registerHotkeys_returns_true _ env w, ?_⟩
  intro pre post t b hsplit he
  rw [← rebuildJobs_eq_allJobs env w hs] at hsplit
  have hT : Tidy (registerHotkeys OS.exclusive env w).2 :=
    registerHotkeys_tidy OS.exclusive env w hr.tidy
  have key := rebuild_exclusive_owner env w hr hown hw hc hg hp pre post t b hsplit
  constructor
  · intro hfree
    have ho := (key _).2 ⟨⟨he, hfree⟩, rfl⟩
    exact ⟨_, ho, fun k2 h2 => ((key k2).1 h2).2,
      (hT.live_iff_tracks _).2 (owns_tracks _ _ t ho)⟩
  · rintro ⟨j, hj, hje, hsame⟩ k ho
    exact ((key k).1 ho).1.2 j hj hje hsame

theorem one_registration_per_combination_witness :
    Reachable OS.exclusive twinWorld ∧ (∀ r ∈ twinWorld.os, twinWorld.tracks r.1) ∧
    Env.plain.wildcardHotkeys = false ∧ twinWorld.m_suspended = false ∧
    (twinWorld.m_characterHotkeys.map Prod.fst).Nodup ∧
    (twinWorld.m_cycleGroups.map Prod.fst).Nodup ∧
    (Env.plain.profileHotkeys.map Prod.fst).Nodup ∧
    (registerHotkeys OS.exclusive Env.plain twinWorld).2.m_hotkeyIdToCharacter =
      [(1001, "Alice"), (1003, "Carol")] ∧
    (registerHotkeys OS.exclusive Env.plain twinWorld).1 = true ∧
    ∀ (pre post : List (Target × HotkeyBinding)) (t : Target) (b : HotkeyBinding),
      allJobs Env.plain twinWorld = pre ++ (t, b) :: post → b.enabled = true →
      ((∀ j ∈ pre, j.2.enabled = true → ¬ sameCombination j.2 b) →
        ∃ k : Int, (registerHotkeys OS.exclusive Env.plain twinWorld).2.owns k t ∧
          (∀ k2 : Int, (registerHotkeys OS.exclusive Env.plain twinWorld).2.owns k2 t →
            k2 = k) ∧
          isLive (registerHotkeys OS.exclusive Env.plain twinWorld).2.calls k = true) ∧
      ((∃ j ∈ pre, j.2.enabled = true ∧ sameCombination j.2 b) →
        ∀ k : Int, ¬ (registerHotkeys OS.exclusive Env.plain twinWorld).2.owns k t) :=
  ⟨twinWorld_reachable, fun r hr => absurd hr (List.not_mem_nil r), rfl, rfl,
    by simp [twinWorld], by simp [twinWorld, World.constructed], by simp [Env.plain], rfl,
    one_registration_per_combination Env.plain twinWorld twinWorld_reachable
      (fun r hr => absurd hr (List.not_mem_nil r)) rfl rfl
      (by simp [twinWorld]) (by simp [twinWorld, World.constructed]) (by simp [Env.plain])⟩

/-! ## Dispatch of an id tracked under a target -/

theorem keyCount_zero_contains {ν : Type} (table : List (Int × ν)) (k : Int)
    (h : keyCount table k = 0) : hContains table k = false := by
  rw [hContains_eq_isSome]
  unfold keyCount at h
  split_ifs at h with h1
  exact Bool.eq_false_iff.2 h1

theorem keyCount_of_find {ν : Type} (table : List (Int × ν)) (k : Int) (v : ν)
    (h : hFind table k = some v) : keyCount table k = 1 :=
  (keyCount_eq_one_iff table k).2 (by rw [h]; rfl)

theorem slotHolds_zero {σ : Type} (w : World σ) (slot : IdSlot) (k : Int) (hk : k ≠ -1)
    (h : w.slotHolds slot k = 0) : w.slotId slot ≠ k := by
  intro heq
  rw [slotHolds_eq_one w slot k heq hk] at h
  exact absurd h (by decide)

theorem Tidy.tracked_base {σ : Type} {w : World σ} (hT : Tidy w) (k : Int) (h : w.tracks k) :
    1000 ≤ k ∧ k < w.m_nextHotkeyId :=
  hT.range k (isLive_registered _ _ ((hT.live_iff_tracks k).2 h))

/-- In a tidy registry an id tracked under a target is tracked nowhere else: it is not -1,
no alias, in no table of another category and in no other slot. -/
theorem Tidy.owner_facts {σ : Type} {w : World σ} (hT : Tidy w) (k : Int) (t : Target)
    (ho : w.owns k t) :
    k ≠ -1 ∧ hFind w.m_wildcardAliases k = none ∧
    ((∀ n : String, t ≠ Target.character n) → hContains w.m_hotkeyIdToCharacter k = false) ∧
    ((∀ (g : String) (f : Bool), t ≠ Target.cycleGroup g f) →
      hContains w.m_hotkeyIdToCycleGroup k = false) ∧
    ((∀ n : String, t ≠ Target.profile n) → hContains w.m_hotkeyIdToProfile k = false) ∧
    (∀ s : IdSlot, t ≠ Target.slot s → w.slotId s ≠ k) := by
  have hk : k ≠ -1 := by
    have := (hT.tracked_base k (owns_tracks w k t ho)).1
    omega
  have hsum := hT.trackCount_le_one k
  unfold World.trackCount World.slotCount at hsum
  have hown : (∃ n, t = Target.character n ∧ keyCount w.m_hotkeyIdToCharacter k = 1) ∨
      (∃ g f, t = Target.cycleGroup g f ∧ keyCount w.m_hotkeyIdToCycleGroup k = 1) ∨
      (∃ n, t = Target.profile n ∧ keyCount w.m_hotkeyIdToProfile k = 1) ∨
      (∃ s, t = Target.slot s ∧ w.slotHolds s k = 1) := by
    cases t with
    | character n => exact Or.inl ⟨n, rfl, keyCount_of_find _ k n ho⟩
    | cycleGroup g f => exact Or.inr (Or.inl ⟨g, f, rfl, keyCount_of_find _ k g ho.1⟩)
    | profile n => exact Or.inr (Or.inr (Or.inl ⟨n, rfl, keyCount_of_find _ k n ho⟩))
    | slot s =>
      have h1 : w.slotId s = k ∧ k ≠ -1 := ho
      exact Or.inr (Or.inr (Or.inr ⟨s, rfl, slotHolds_eq_one w s k h1.1 h1.2⟩))
  have halias : keyCount w.m_wildcardAliases k = 0 := by
    rcases hown with ⟨n, -, h⟩ | ⟨g, f, -, h⟩ | ⟨n, -, h⟩ | ⟨s, -, h⟩
    · omega
    · omega
    · omega
    · have := slotHolds_le_slotCount w s k
      unfold World.slotCount at this
      omega
  refine ⟨hk, ?_, ?_, ?_, ?_, ?_⟩
  · have := keyCount_zero_contains _ k halias
    rw [hContains_eq_isSome] at this
    cases hf : hFind w.m_wildcardAliases k with
    | none => rfl
    | some v => rw [hf] at this; exact Bool.noConfusion this
  · intro hne
    apply keyCount_zero_contains
    rcases hown with ⟨n, ht, h⟩ | ⟨g, f, -, h⟩ | ⟨n, -, h⟩ | ⟨s, -, h⟩
    · exact absurd ht (hne n)
    · omega
    · omega
    · have := slotHolds_le_slotCount w s k
      unfold World.slotCount at this
      omega
  · intro hne
    apply keyCount_zero_contains
    rcases hown with ⟨n, -, h⟩ | ⟨g, f, ht, h⟩ | ⟨n, -, h⟩ | ⟨s, -, h⟩
    · omega
    · exact absurd ht (hne g f)
    · omega
    · have := slotHolds_le_slotCount w s k
      unfold World.slotCount at this
      omega
  · intro hne
    apply keyCount_zero_contains
    rcases hown with ⟨n, -, h⟩ | ⟨g, f, -, h⟩ | ⟨n, ht, h⟩ | ⟨s, -, h⟩
    · omega
    · omega
    · exact absurd ht (hne n)
    · have := slotHolds_le_slotCount w s k
      unfold World.slotCount at this
      omega
  · intro s hne
    apply slotHolds_zero w s k hk
    have hle := slotHolds_le_slotCount w s k
    unfold World.slotCount at hle
    rcases hown with ⟨n, -, h⟩ | ⟨g, f, -, h⟩ | ⟨n, -, h⟩ | ⟨s2, ht, h⟩
    · omega
    · omega
    · omega
    · have hs : s2 ≠ s := fun e => hne (by rw [ht, e])
      have := slotHolds_pair w s2 s k hs
      unfold World.slotCount at this
      omega

/-- Routing of an id tracked under a target other than the suspend toggle: handled, with
the notification of the target. -/
theorem route_owner {σ : Type} (w : World σ) (hT : Tidy w) (k : Int) (t : Target)
    (ho : w.owns k t) (hne : t ≠ Target.slot IdSlot.suspend) :
    route w k = (true, [t.signal]) := by
  obtain ⟨hk, -, hchar, hcycle, hprofile, hslot⟩ := hT.owner_facts k t ho
  cases t with
  | character n => exact route_character w k n ho
  | cycleGroup g f =>
    have h1 := hchar (fun n h => Target.noConfusion h)
    have h2 : hFind w.m_hotkeyIdToCycleGroup k = some g := ho.1
    have h3 : hFind w.m_hotkeyIdIsForward k = some f := ho.2
    unfold route
    simp only [h1, hContains_eq_isSome, hValue_eq_getD, h2, h3]
    cases f <;> rfl
  | profile n =>
    have h1 := hchar (fun n h => Target.noConfusion h)
    have h2 := hcycle (fun g f h => Target.noConfusion h)
    have h3 : hFind w.m_hotkeyIdToProfile k = some n := ho
    have s1 := hslot IdSlot.notLoggedInForward (fun h => Target.noConfusion h)
    have s2 := hslot IdSlot.notLoggedInBackward (fun h => Target.noConfusion h)
    have s3 := hslot IdSlot.nonEVEForward (fun h => Target.noConfusion h)
    have s4 := hslot IdSlot.nonEVEBackward (fun h => Target.noConfusion h)
    have s5 := hslot IdSlot.closeAllClients (fun h => Target.noConfusion h)
    unfold route
    rw [h1, h2, if_neg (fun h : k = w.m_notLoggedInForwardHotkeyId => s1 h.symm),
      if_neg (fun h : k = w.m_notLoggedInBackwardHotkeyId => s2 h.symm),
      if_neg (fun h : k = w.m_nonEVEForwardHotkeyId => s3 h.symm),
      if_neg (fun h : k = w.m_nonEVEBackwardHotkeyId => s4 h.symm),
      if_neg (fun h : k = w.m_closeAllClientsHotkeyId => s5 h.symm)]
    simp only [hContains_eq_isSome, hValue_eq_getD, h3]
    rfl
  | slot s =>
    have h1 := hchar (fun n h => Target.noConfusion h)
    have h2 := hcycle (fun g f h => Target.noConfusion h)
    have h3 : w.slotId s = k := ho.1
    have hs : ∀ s2 : IdSlot, s2 ≠ s → w.slotId s2 ≠ k :=
      fun s2 h2 => hslot s2 (fun h => h2 (Target.slot.inj h).symm)
    unfold route
    rw [h1, h2]
    cases s with
    | suspend => exact absurd rfl hne
    | notLoggedInForward =>
      rw [if_pos (show k = w.m_notLoggedInForwardHotkeyId from h3.symm)]
      rfl
    | notLoggedInBackward =>
      have s1 := hs IdSlot.notLoggedInForward (by decide)
      rw [if_neg (fun h : k = w.m_notLoggedInForwardHotkeyId => s1 h.symm),
        if_pos (show k = w.m_notLoggedInBackwardHotkeyId from h3.symm)]
      rfl
    | nonEVEForward =>
      have s1 := hs IdSlot.notLoggedInForward (by decide)
      have s2 := hs IdSlot.notLoggedInBackward (by decide)
      rw [if_neg (fun h : k = w.m_notLoggedInForwardHotkeyId => s1 h.symm),
        if_neg (fun h : k = w.m_notLoggedInBackwardHotkeyId => s2 h.symm),
        if_pos (show k = w.m_nonEVEForwardHotkeyId from h3.symm)]
      rfl
    | nonEVEBackward =>
      have s1 := hs IdSlot.notLoggedInForward (by decide)
      have s2 := hs IdSlot.notLoggedInBackward (by decide)
      have s3 := hs IdSlot.nonEVEForward (by decide)
      rw [if_neg (fun h : k = w.m_notLoggedInForwardHotkeyId => s1 h.symm),
        if_neg (fun h : k = w.m_notLoggedInBackwardHotkeyId => s2 h.symm),
        if_neg (fun h : k = w.m_nonEVEForwardHotkeyId => s3 h.symm),
        if_pos (show k = w.m_nonEVEBackwardHotkeyId from h3.symm)]
      rfl
    | closeAllClients =>
      have s1 := hs IdSlot.notLoggedInForward (by decide)
      have s2 := hs IdSlot.notLoggedInBackward (by decide)
      have s3 := hs IdSlot.nonEVEForward (by decide)
      have s4 := hs IdSlot.nonEVEBackward (by decide)
      rw [if_neg (fun h : k = w.m_notLoggedInForwardHotkeyId => s1 h.symm),
        if_neg (fun h : k = w.m_notLoggedInBackwardHotkeyId => s2 h.symm),
        if_neg (fun h : k = w.m_nonEVEForwardHotkeyId => s3 h.symm),
        if_neg (fun h : k = w.m_nonEVEBackwardHotkeyId => s4 h.symm),
        if_pos (show k = w.m_closeAllClientsHotkeyId from h3.symm)]
      rfl

/-- Dispatch of the hotkey message that carries an id tracked under a target, in a tidy
registry of a manager that is not suspended, with focus gating off: the message is reported
handled and exactly the notification of the target is emitted; unless the target is the
suspend toggle the manager is left as it was. -/
theorem dispatch_owner {σ : Type} (os : OS σ) (env : Env) (w : World σ) (hT : Tidy w)
    (hs : w.m_suspended = false) (hf : env.hotkeysOnlyWhenEVEFocused = false)
    (k : Int) (t : Target) (ho : w.owns k t) (msg : MSG) (hm : msg.message = WM_HOTKEY)
    (hid : castInt msg.wParam = k) :
    (nativeEventFilter os env msg w).1 = true ∧
    (nativeEventFilter os env msg w).2.1 = [t.signal] ∧
    (t ≠ Target.slot IdSlot.suspend → (nativeEventFilter os env msg w).2.2 = w) := by
  obtain ⟨hk, halias, -, -, -, hslot⟩ := hT.owner_facts k t ho
  by_cases ht : t = Target.slot IdSlot.suspend
  · rw [ht] at ho
    have h1 : w.m_suspendHotkeyId = k := ho.1
    rw [nativeEventFilter_suspend_on os env msg w hm (hid.trans h1.symm)
      (by rw [h1]; exact halias) hs, ht]
    exact ⟨rfl, rfl, fun h => absurd rfl h⟩
  · have hres : resolveAlias w (castInt msg.wParam) = k := by
      rw [resolveAlias_eq, hid, halias]
      rfl
    have hsus : ¬ k = w.m_suspendHotkeyId := fun h => hslot IdSlot.suspend ht h.symm
    have hroute := route_owner w hT k t ho ht
    unfold nativeEventFilter
    simp only [hm, if_true, hres, if_neg hsus, hs, hf, Bool.false_and, Bool.false_eq_true,
      if_false, hroute]
    exact ⟨trivial, trivial, fun _ => trivial⟩

/-! ## Every enabled binding is live and routes to its owner -/

/-- C22: a store whose enabled bindings (suspend, characters, cycle-group forward and
backward, not-logged-in, non-target, close-all, profiles) have pairwise different key and
modifiers, wildcard mode off, the exclusive operating system holding only registrations of
the manager, the manager not suspended, focus gating off.  After `registerHotkeys` the
target of every enabled binding tracks exactly one id, the operating system holds it, and
the hotkey message with that id is reported handled and emits exactly the notification of
the target: `characterHotkeyPressed(name)`, `namedCycleForwardPressed(group)` or
`namedCycleBackwardPressed(group)`, the not-logged-in or non-target forward or backward
signal, `closeAllClientsRequested`, `profileSwitchRequested(name)`, and for the suspend
toggle `suspendedChanged(true)`. -/
theorem every_enabled_binding_routes (env : Env) (w : World (List (Int × Nat × Int)))
    (hr : Reachable OS.exclusive w) (hown : ∀ r ∈ w.os, w.tracks r.1)
    (hw : env.wildcardHotkeys = false) (hs : w.m_suspended = false)
    (hf : env.hotkeysOnlyWhenEVEFocused = false)
    (hc : (w.m_characterHotkeys.map Prod.fst).Nodup)
    (hg : (w.m_cycleGroups.map Prod.fst).Nodup)
    (hp : (env.profileHotkeys.map Prod.fst).Nodup)
    (hdistinct : (allJobs env w).Pairwise
      (fun a b => a.2.enabled = true → b.2.enabled = true → ¬ sameCombination a.2 b.2)) :
    ∀ (t : Target) (b : HotkeyBinding), (t, b) ∈ allJobs env w → b.enabled = true →
      ∃ k : Int, (registerHotkeys OS.exclusive env w).2.owns k t ∧
        (∀ k2 : Int, (registerHotkeys OS.exclusive env w).2.owns k2 t → k2 = k) ∧
        isLive (registerHotkeys OS.exclusive env w).2.calls k = true ∧
        ∀ msg : MSG, msg.message = WM_HOTKEY → castInt msg.wParam = k →
          (nativeEventFilter OS.exclusive env msg (registerHotkeys OS.exclusive env w).2).1 =
            true ∧
          (nativeEventFilter OS.exclusive env msg (registerHotkeys OS.exclusive env w).2).2.1 =
            [t.signal] ∧
          (t ≠ Target.slot IdSlot.suspend →
            (nativeEventFilter OS.exclusive env msg
              (registerHotkeys OS.exclusive env w).2).2.2 =
              (registerHotkeys OS.exclusive env w).2) := by
  intro t b hmem he
  obtain ⟨pre, post, hsplit⟩ := List.append_of_mem hmem
  have hfree : ∀ j ∈ pre, j.2.enabled = true → ¬ sameCombination j.2 b := by
    rw [hsplit, List.pairwise_append] at hdistinct
    intro j hj hje
    exact hdistinct.2.2 j hj (t, b) (List.mem_cons_self _ _) hje he
  rw [← rebuildJobs_eq_allJobs env w hs] at hsplit
  have hT : Tidy (registerHotkeys OS.exclusive env w).2 :=
    registerHotkeys_tidy OS.exclusive env w hr.tidy
  have key := rebuild_exclusive_owner env w hr hown hw hc hg hp pre post t b hsplit
  have ho := (key _).2 ⟨⟨he, hfree⟩, rfl⟩
  refine ⟨_, ho, fun k2 h2 => ((key k2).1 h2).2,
    (hT.live_iff_tracks _).2 (owns_tracks _ _ t ho), ?_⟩
  intro msg hm hid
  exact dispatch_owner OS.exclusive env _ hT
    ((registerHotkeys_suspended OS.exclusive env w).trans hs) hf _ t ho msg hm hid

theorem routedWorld_reachable : Reachable OS.exclusive routedWorld :=
  Reachable.edit (Reachable.constructed [])
    ⟨rfl, rfl, rfl, rfl, rfl, fun slot => by cases slot <;> rfl, rfl, rfl, rfl⟩

theorem every_enabled_binding_routes_witness :
    Reachable OS.exclusive routedWorld ∧ (∀ r ∈ routedWorld.os, routedWorld.tracks r.1) ∧
    Env.plain.wildcardHotkeys = false ∧ routedWorld.m_suspended = false ∧
    Env.plain.hotkeysOnlyWhenEVEFocused = false ∧
    (routedWorld.m_characterHotkeys.map Prod.fst).Nodup ∧
    (routedWorld.m_cycleGroups.map Prod.fst).Nodup ∧
    (Env.plain.profileHotkeys.map Prod.fst).Nodup ∧
    (allJobs Env.plain routedWorld).Pairwise
      (fun a b => a.2.enabled = true → b.2.enabled = true → ¬ sameCombination a.2 b.2) ∧
    (Target.cycleGroup "fleet" false, plainF2) ∈ allJobs Env.plain routedWorld ∧
    (registerHotkeys OS.exclusive Env.plain routedWorld).2.owns 1003
      (Target.cycleGroup "fleet" false) ∧
    nativeEventFilter OS.exclusive Env.plain { message := WM_HOTKEY, wParam := 1003 }
      (registerHotkeys OS.exclusive Env.plain routedWorld).2 =
        (true, [Signal.namedCycleBackwardPressed "fleet"],
          (registerHotkeys OS.exclusive Env.plain routedWorld).2) ∧
    ∀ (t : Target) (b : HotkeyBinding), (t, b) ∈ allJobs Env.plain routedWorld →
      b.enabled = true →
      ∃ k : Int, (registerHotkeys OS.exclusive Env.plain routedWorld).2.owns k t ∧
        (∀ k2 : Int, (registerHotkeys OS.exclusive Env.plain routedWorld).2.owns k2 t →
          k2 = k) ∧
        isLive (registerHotkeys OS.exclusive Env.plain routedWorld).2.calls k = true ∧
        ∀ msg : MSG, msg.message = WM_HOTKEY → castInt msg.wParam = k →
          (nativeEventFilter OS.exclusive Env.plain msg
            (registerHotkeys OS.exclusive Env.plain routedWorld).2).1 = true ∧
          (nativeEventFilter OS.exclusive Env.plain msg
            (registerHotkeys OS.exclusive Env.plain routedWorld).2).2.1 = [t.signal] ∧
          (t ≠ Target.slot IdSlot.suspend →
            (nativeEventFilter OS.exclusive Env.plain msg
              (registerHotkeys OS.exclusive Env.plain routedWorld).2).2.2 =
              (registerHotkeys OS.exclusive Env.plain routedWorld).2) :=
  ⟨routedWorld_reachable, fun r hr => absurd hr (List.not_mem_nil r), rfl, rfl, rfl,
    by simp [routedWorld], by simp [routedWorld], by simp [Env.plain], by decide, by decide,
    ⟨rfl, rfl⟩, rfl,
    every_enabled_binding_routes Env.plain routedWorld routedWorld_reachable
      (fun r hr => absurd hr (List.not_mem_nil r)) rfl rfl rfl
      (by simp [routedWorld]) (by simp [routedWorld]) (by simp [Env.plain]) (by decide)⟩

/-! ## Wildcard aliases against the exclusive operating system -/

theorem taken_of_mem (s : List (Int × Nat × Int)) (id : Int) (m : Nat) (vk : Int)
    (h : (id, m, vk) ∈ s) : taken s m vk = true := by
  unfold taken
  rw [List.any_eq_true]
  exact ⟨(id, m, vk), h, by simp⟩

theorem exclusive_register_mono (s : List (Int × Nat × Int)) (id : Int) (m : Nat) (vk : Int)
    (r : Int × Nat × Int) (h : r ∈ s) : r ∈ (OS.exclusive.registerHotKey s id m vk).2 := by
  show r ∈ (if taken s m vk then (false, s) else (true, s ++ [(id, m, vk)])).2
  split_ifs
  · exact h
  · exact List.mem_append_left _ h

theorem aliasFinalOS_mono (keyCode : Int) (r : Int × Nat × Int) (mods : List Nat) :
    ∀ (s : List (Int × Nat × Int)) (id : Int), r ∈ s →
      r ∈ aliasFinalOS OS.exclusive keyCode s id mods := by
  induction mods with
  | nil => intro s id h; exact h
  | cons m ms ih =>
    intro s id h
    exact ih _ _ (exclusive_register_mono s id m keyCode r h)

/-- The exclusive operating system keeps what it holds through a `registerHotkey`. -/
theorem registerHotkey_os_mono (env : Env) (b : HotkeyBinding)
    (w : World (List (Int × Nat × Int))) (r : Int × Nat × Int) (h : r ∈ w.os) :
    r ∈ (registerHotkey OS.exclusive env b w).2.os := by
  cases he : b.enabled with
  | false => rw [registerHotkey_disabled OS.exclusive env b w he]; exact h
  | true =>
    cases ha : (OS.exclusive.registerHotKey w.os w.m_nextHotkeyId (bindingModifiers b)
        b.keyCode).1 with
    | false =>
      rw [registerHotkey_rejected OS.exclusive env b w he ha]
      exact exclusive_register_mono _ _ _ _ r h
    | true =>
      cases hw : env.wildcardHotkeys with
      | false =>
        rw [registerHotkey_plain OS.exclusive env b w he ha hw]
        exact exclusive_register_mono _ _ _ _ r h
      | true =>
        rw [registerHotkey_wildcard OS.exclusive env b w he ha hw]
        exact aliasFinalOS_mono _ r _ _ _ (exclusive_register_mono _ _ _ _ r h)

theorem runJobs_os_mono (env : Env) (r : Int × Nat × Int)
    (jobs : List (Target × HotkeyBinding)) :
    ∀ w : World (List (Int × Nat × Int)), r ∈ w.os →
      r ∈ (runJobs OS.exclusive env jobs w).os := by
  induction jobs with
  | nil => intro w h; exact h
  | cons j rest ih =>
    intro w h
    rw [runJobs_cons]
    apply ih
    rw [runJob_os]
    exact registerHotkey_os_mono env j.2 w r h

/-- The alias loop against the exclusive operating system: a mask of the loop that is not
held when the loop starts is registered by it, under the id of an accepted attempt. -/
theorem aliasAttempts_exclusive (keyCode : Int) (m : Nat) (mods : List Nat) :
    ∀ (s : List (Int × Nat × Int)) (id : Int), mods.Nodup → m ∈ mods →
      taken s m keyCode = false →
      ∃ a ∈ aliasAttempts OS.exclusive keyCode s id mods,
        a.fsModifiers = m ∧ a.accepted = true ∧
          (a.id, m, keyCode) ∈ aliasFinalOS OS.exclusive keyCode s id mods := by
  induction mods with
  | nil => intro s id _ hm; exact absurd hm (List.not_mem_nil m)
  | cons m0 ms ih =>
    intro s id hnd hm ht
    rw [List.nodup_cons] at hnd
    rw [List.mem_cons] at hm
    rcases hm with hm | hm
    · subst hm
      have hreg : OS.exclusive.registerHotKey s id m keyCode = (true, s ++ [(id, m, keyCode)]) := by
        show (if taken s m keyCode then (false, s) else (true, s ++ [(id, m, keyCode)])) = _
        rw [ht]
        rfl
      refine ⟨AliasAttempt.mk id m (OS.exclusive.registerHotKey s id m keyCode).1,
        List.mem_cons_self _ _, rfl, by rw [hreg], ?_⟩
      show (id, m, keyCode) ∈ aliasFinalOS OS.exclusive keyCode
        (OS.exclusive.registerHotKey s id m keyCode).2 (id + 1) ms
      rw [hreg]
      exact aliasFinalOS_mono _ _ _ _ _ (List.mem_append_right _ (List.mem_singleton_self _))
    · have hne : m0 ≠ m := fun h => hnd.1 (h ▸ hm)
      have ht2 : taken (OS.exclusive.registerHotKey s id m0 keyCode).2 m keyCode = false := by
        show taken (if taken s m0 keyCode then (false, s)
          else (true, s ++ [(id, m0, keyCode)])).2 m keyCode = false
        split_ifs
        · exact ht
        · rw [← Bool.not_eq_true, taken_append]
          rintro (h | ⟨h, -⟩)
          · rw [ht] at h; exact Bool.noConfusion h
          · exact hne h
      obtain ⟨a, ha, h1, h2, h3⟩ := ih _ (id + 1) hnd.2 hm ht2
      exact ⟨a, List.mem_cons_of_mem _ ha, h1, h2, h3⟩

/-- A mask with more modifiers than the binding requires is one of the masks of its alias
loop. -/
theorem mem_additionalMods_of_larger (b c : HotkeyBinding)
    (hsub : (b.ctrl = true → c.ctrl = true) ∧ (b.alt = true → c.alt = true) ∧
      (b.shift = true → c.shift = true))
    (hne : ¬ (b.ctrl = c.ctrl ∧ b.alt = c.alt ∧ b.shift = c.shift)) :
    bindingModifiers c ∈ additionalMods b (bindingModifiers b) := by
  rw [additionalMods_exact]
  refine ⟨c.ctrl && !b.ctrl, c.alt && !b.alt, c.shift && !b.shift, ?_, ?_, ?_, ?_, ?_⟩
  · revert hsub hne
    cases b.ctrl <;> cases b.alt <;> cases b.shift <;> cases c.ctrl <;> cases c.alt <;>
      cases c.shift <;> simp
  · cases b.ctrl <;> simp
  · cases b.alt <;> simp
  · cases b.shift <;> simp
  · rw [bindingModifiers_eq_iff]
    revert hsub
    cases b.ctrl <;> cases b.alt <;> cases b.shift <;> cases c.ctrl <;> cases c.alt <;>
      cases c.shift <;> simp

theorem prefixed_ne_suspend (c : Char) (tl : List Char) (p rest : String)
    (hp : p.data = c :: tl) (hc : c ≠ 'S') : p ++ rest ≠ "Suspend/Resume Hotkey" := by
  intro h
  have h1 := congrArg String.data h
  rw [String.data_append, hp] at h1
  have h2 : ("Suspend/Resume Hotkey" : String).data = 'S' :: "uspend/Resume Hotkey".data := rfl
  rw [h2, List.cons_append] at h1
  exact hc (List.cons.inj h1).1

/-- The label of the suspend toggle is returned only when the suspend binding is enabled and
has the candidate's key and modifiers. -/
theorem findHotkeyConflict_suspend_label {σ : Type} (env : Env) (w : World σ)
    (candidate : HotkeyBinding) (excludeKey : String) (he : candidate.enabled = true)
    (h : findHotkeyConflict env w candidate excludeKey = "Suspend/Resume Hotkey") :
    w.m_suspendHotkey.enabled = true ∧ sameCombination w.m_suspendHotkey candidate := by
  rw [findHotkeyConflict_eq_firstMatch env w candidate excludeKey he] at h
  cases hfm : firstMatch candidate (searchedOwners env w excludeKey) with
  | none =>
    rw [hfm] at h
    exact absurd h (by decide)
  | some label =>
    rw [hfm] at h
    have hl : label = "Suspend/Resume Hotkey" := h
    obtain ⟨p, hp, hpl, hpe, hps⟩ := firstMatch_some candidate _ label hfm
    rw [hl] at hpl
    simp only [searchedOwners, storedOwners, profileOwners, List.mem_append, List.mem_map,
      List.mem_flatMap, cycleGroupOwners, List.mem_cons, List.mem_singleton, List.not_mem_nil,
      or_false, List.mem_filter] at hp
    rcases hp with ((((rfl | ⟨q, -, rfl⟩) | ⟨q, -, (rfl | rfl)⟩) | (rfl | rfl | rfl | rfl)) |
      ⟨q, -, rfl⟩)
    · exact ⟨hpe, hps⟩
    · exact absurd hpl (prefixed_ne_suspend 'C' _ _ _ rfl (by decide))
    · simp only [String.append_assoc] at hpl
      exact absurd hpl (prefixed_ne_suspend 'C' _ _ _ rfl (by decide))
    · simp only [String.append_assoc] at hpl
      exact absurd hpl (prefixed_ne_suspend 'C' _ _ _ rfl (by decide))
    · exact absurd hpl (by decide : "Not Logged In Cycle (Forward)" ≠ "Suspend/Resume Hotkey")
    · exact absurd hpl (by decide : "Not Logged In Cycle (Backward)" ≠ "Suspend/Resume Hotkey")
    · exact absurd hpl (by decide : "Non-EVE Cycle (Forward)" ≠ "Suspend/Resume Hotkey")
    · exact absurd hpl (by decide : "Non-EVE Cycle (Backward)" ≠ "Suspend/Resume Hotkey")
    · exact absurd hpl (prefixed_ne_suspend 'P' _ _ _ rfl (by decide))

theorem runJob_next {σ : Type} (os : OS σ) (env : Env) (w : World σ)
    (job : Target × HotkeyBinding) :
    (runJob os env w job).m_nextHotkeyId = (registerHotkey os env job.2 w).2.m_nextHotkeyId := by
  unfold runJob registerWith
  cases (registerHotkey os env job.2 w).1 with
  | none => rfl
  | some id => exact (commitTo_calls job.1 id _).2

/-- The block of the suspend toggle under wildcard mode, run against the exclusive operating
system when it holds nothing: the toggle gets the id the allocator stood at, and every mask
of its alias loop is registered under an alias of that id. -/
theorem suspend_step (env : Env) (w : World (List (Int × Nat × Int))) (sus : HotkeyBinding)
    (m : Nat) (hos : w.os = []) (hn : -1 < w.m_nextHotkeyId)
    (hnone : ∀ k : Int, ¬ w.owns k (Target.slot IdSlot.suspend))
    (he : sus.enabled = true) (hw : env.wildcardHotkeys = true)
    (hm : m ∈ additionalMods sus (bindingModifiers sus)) (hmne : m ≠ bindingModifiers sus) :
    ∃ a : Int,
      (a, m, sus.keyCode) ∈ (runJob OS.exclusive env w (Target.slot IdSlot.suspend, sus)).os ∧
      hFind (runJob OS.exclusive env w (Target.slot IdSlot.suspend, sus)).m_wildcardAliases a =
        some w.m_nextHotkeyId ∧
      a < (runJob OS.exclusive env w (Target.slot IdSlot.suspend, sus)).m_nextHotkeyId ∧
      (runJob OS.exclusive env w (Target.slot IdSlot.suspend, sus)).owns w.m_nextHotkeyId
        (Target.slot IdSlot.suspend) := by
  have hfst : (OS.exclusive.registerHotKey w.os w.m_nextHotkeyId (bindingModifiers sus)
      sus.keyCode).1 = true := by
    rw [hos]; rfl
  have hsnd : (OS.exclusive.registerHotKey w.os w.m_nextHotkeyId (bindingModifiers sus)
      sus.keyCode).2 = [(w.m_nextHotkeyId, bindingModifiers sus, sus.keyCode)] := by
    rw [hos]; rfl
  have hreg := registerHotkey_wildcard OS.exclusive env sus w he hfst hw
  have hfree : taken [(w.m_nextHotkeyId, bindingModifiers sus, sus.keyCode)] m sus.keyCode =
      false := by
    rw [← Bool.not_eq_true]
    intro h
    have : taken ([] ++ [(w.m_nextHotkeyId, bindingModifiers sus, sus.keyCode)]) m
        sus.keyCode = true := h
    rw [taken_append] at this
    rcases this with h1 | ⟨h1, -⟩
    · exact Bool.noConfusion h1
    · exact hmne h1.symm
  obtain ⟨a, hamem, -, hacc, hin⟩ := aliasAttempts_exclusive sus.keyCode m
    (additionalMods sus (bindingModifiers sus))
    [(w.m_nextHotkeyId, bindingModifiers sus, sus.keyCode)] (w.m_nextHotkeyId + 1)
    (additionalMods_nodup sus) hm hfree
  have hrange := aliasAttempts_id_range OS.exclusive sus.keyCode
    (additionalMods sus (bindingModifiers sus))
    [(w.m_nextHotkeyId, bindingModifiers sus, sus.keyCode)] (w.m_nextHotkeyId + 1) a hamem
  refine ⟨a.id, ?_, ?_, ?_, ?_⟩
  · rw [runJob_os]
    show _ ∈ (registerHotkey OS.exclusive env sus w).2.os
    rw [hreg]
    simp only
    rw [hsnd]
    exact hin
  · rw [runJob_aliases]
    show hFind (registerHotkey OS.exclusive env sus w).2.m_wildcardAliases a.id = _
    rw [hreg]
    simp only
    rw [hsnd, hFind_recordAliases, if_pos ⟨a, hamem, rfl, hacc⟩]
  · rw [runJob_next]
    show _ < (registerHotkey OS.exclusive env sus w).2.m_nextHotkeyId
    rw [hreg]
    simp only
    omega
  · rw [runJob_owns_self OS.exclusive env w _ sus _ hn hnone, hreg]

theorem exclusive_register_distinct (s : List (Int × Nat × Int)) (id : Int) (m : Nat) (vk : Int)
    (h : Distinct s) : Distinct (OS.exclusive.registerHotKey s id m vk).2 := by
  show Distinct (if taken s m vk then (false, s) else (true, s ++ [(id, m, vk)])).2
  split_ifs with ht
  · exact h
  · unfold Distinct
    rw [List.pairwise_append]
    refine ⟨h, List.pairwise_singleton _ _, ?_⟩
    intro r hr x hx hsame
    rw [List.mem_singleton] at hx
    rw [hx] at hsame
    apply ht
    unfold taken
    rw [List.any_eq_true]
    exact ⟨r, hr, by simpa using hsame⟩

theorem aliasFinalOS_distinct (keyCode : Int) (mods : List Nat) :
    ∀ (s : List (Int × Nat × Int)) (id : Int), Distinct s →
      Distinct (aliasFinalOS OS.exclusive keyCode s id mods) := by
  induction mods with
  | nil => intro s id h; exact h
  | cons m ms ih =>
    intro s id h
    exact ih _ _ (exclusive_register_distinct s id m keyCode h)

theorem registerHotkey_os_distinct (env : Env) (b : HotkeyBinding)
    (w : World (List (Int × Nat × Int))) (h : Distinct w.os) :
    Distinct (registerHotkey OS.exclusive env b w).2.os := by
  cases he : b.enabled with
  | false => rw [registerHotkey_disabled OS.exclusive env b w he]; exact h
  | true =>
    cases ha : (OS.exclusive.registerHotKey w.os w.m_nextHotkeyId (bindingModifiers b)
        b.keyCode).1 with
    | false =>
      rw [registerHotkey_rejected OS.exclusive env b w he ha]
      exact exclusive_register_distinct _ _ _ _ h
    | true =>
      cases hw : env.wildcardHotkeys with
      | false =>
        rw [registerHotkey_plain OS.exclusive env b w he ha hw]
        exact exclusive_register_distinct _ _ _ _ h
      | true =>
        rw [registerHotkey_wildcard OS.exclusive env b w he ha hw]
        exact aliasFinalOS_distinct _ _ _ _ (exclusive_register_distinct _ _ _ _ h)

theorem runJobs_os_distinct (env : Env) (jobs : List (Target × HotkeyBinding)) :
    ∀ w : World (List (Int × Nat × Int)), Distinct w.os →
      Distinct (runJobs OS.exclusive env jobs w).os := by
  induction jobs with
  | nil => intro w h; exact h
  | cons j rest ih =>
    intro w h
    rw [runJobs_cons]
    apply ih
    rw [runJob_os]
    exact registerHotkey_os_distinct env j.2 w h

theorem Distinct.same_id {s : List (Int × Nat × Int)} (h : Distinct s) (a1 a2 : Int) (m : Nat)
    (vk : Int) (h1 : (a1, m, vk) ∈ s) (h2 : (a2, m, vk) ∈ s) : a1 = a2 := by
  by_contra hne
  have hsym : Symmetric (fun r1 r2 : Int × Nat × Int => ¬ (r1.2.1 = r2.2.1 ∧ r1.2.2 = r2.2.2)) :=
    fun x y hxy hyx => hxy ⟨hyx.1.symm, hyx.2.symm⟩
  have := List.Pairwise.forall hsym h h1 h2 (fun e => hne (congrArg Prod.fst e))
  exact this ⟨rfl, rfl⟩

/-- Handling a hotkey message whose id resolves to the id of the suspend toggle: the flag
flips, a rebuild runs, `suspendedChanged` is emitted, the message is reported handled. -/
theorem nativeEventFilter_toggle {σ : Type} (os : OS σ) (env : Env) (msg : MSG) (w : World σ)
    (hm : msg.message = WM_HOTKEY)
    (hres : resolveAlias w (castInt msg.wParam) = w.m_suspendHotkeyId) :
    nativeEventFilter os env msg w =
      (true, [Signal.suspendedChanged (!w.m_suspended)],
        (registerHotkeys os env { w with m_suspended := !w.m_suspended }).2) := by
  have hne : ¬ w.m_suspended = !w.m_suspended := by cases w.m_suspended <;> decide
  unfold nativeEventFilter toggleSuspended setSuspended
  simp only [hm, if_true, hres, if_neg hne, registerHotkeys_suspended]

/-- The blocks of a rebuild: the suspend toggle first, then blocks of other targets. -/
theorem rebuildJobs_head {σ : Type} (env : Env) (w : World σ) :
    rebuildJobs env w = (Target.slot IdSlot.suspend, w.m_suspendHotkey) ::
      (if w.m_suspended then [] else activeJobs env w) ∧
    Target.slot IdSlot.suspend ∉
      (if w.m_suspended then [] else activeJobs env w).map Prod.fst := by
  refine ⟨rfl, ?_⟩
  split_ifs
  · simp
  · unfold activeJobs
    simp only [List.map_append, List.mem_append, targets_characterJobs,
      mem_targets_cycleGroupJobs, targets_profileJobs, slotJob]
    simp

/-- Under wildcard mode, against the exclusive operating system holding only registrations
of the manager: when the enabled suspend binding and an enabled character binding share the
key and the character requires strictly more modifiers, a rebuild leaves the character
without an id and registers the character's combination as an alias of the suspend id. -/
theorem alias_blocks_character (env : Env) (w : World (List (Int × Nat × Int)))
    (name : String) (bc : HotkeyBinding)
    (hr : Reachable OS.exclusive w) (hown : ∀ r ∈ w.os, w.tracks r.1)
    (hw : env.wildcardHotkeys = true)
    (hse : w.m_suspendHotkey.enabled = true)
    (hmem : (name, bc) ∈ w.m_characterHotkeys) (hce : bc.enabled = true)
    (hkey : bc.keyCode = w.m_suspendHotkey.keyCode)
    (hsub : (w.m_suspendHotkey.ctrl = true → bc.ctrl = true) ∧
      (w.m_suspendHotkey.alt = true → bc.alt = true) ∧
      (w.m_suspendHotkey.shift = true → bc.shift = true))
    (hne : ¬ (w.m_suspendHotkey.ctrl = bc.ctrl ∧ w.m_suspendHotkey.alt = bc.alt ∧
      w.m_suspendHotkey.shift = bc.shift))
    (hc : (w.m_characterHotkeys.map Prod.fst).Nodup) :
    (∀ k : Int, ¬ (registerHotkeys OS.exclusive env w).2.owns k (Target.character name)) ∧
    ∃ a : Int,
      (a, bindingModifiers bc, bc.keyCode) ∈ (registerHotkeys OS.exclusive env w).2.os ∧
      (∀ a2 : Int, (a2, bindingModifiers bc, bc.keyCode) ∈
        (registerHotkeys OS.exclusive env w).2.os → a2 = a) ∧
      hFind (registerHotkeys OS.exclusive env w).2.m_wildcardAliases a =
        some (registerHotkeys OS.exclusive env w).2.m_suspendHotkeyId ∧
      (registerHotkeys OS.exclusive env w).2.m_suspendHotkeyId ≠ -1 := by
  have hCos := clearRegistrations_exclusive w hown
  have hCb := clearRegistrations_bounded OS.exclusive w
  have hbase := (Reachable.bounded hr).1
  have hnext := clearRegistrations_next OS.exclusive w
  have hCn : -1 < (clearRegistrations OS.exclusive w).m_nextHotkeyId := by omega
  have hm := mem_additionalMods_of_larger w.m_suspendHotkey bc hsub hne
  have hmne : bindingModifiers bc ≠ bindingModifiers w.m_suspendHotkey :=
    fun h => hne ((bindingModifiers_eq_iff _ _).1 h.symm)
  obtain ⟨a, ha_os, ha_alias, ha_lt, ha_own⟩ := suspend_step env
    (clearRegistrations OS.exclusive w) w.m_suspendHotkey (bindingModifiers bc) hCos hCn
    (fun k => clearRegistrations_owns OS.exclusive w k _) hse hw hm hmne
  rw [← hkey] at ha_os
  obtain ⟨hjobs, hrest⟩ := rebuildJobs_head env w
  have hv1b := Bounded.of_later hCb
    (runJob_later OS.exclusive env _ (Target.slot IdSlot.suspend, w.m_suspendHotkey) hCb)
  have hv1n := (runJob_later OS.exclusive env _
    (Target.slot IdSlot.suspend, w.m_suspendHotkey) hCb).next_le
  have hW : (registerHotkeys OS.exclusive env w).2 =
      runJobs OS.exclusive env (if w.m_suspended then [] else activeJobs env w)
        (runJob OS.exclusive env (clearRegistrations OS.exclusive w)
          (Target.slot IdSlot.suspend, w.m_suspendHotkey)) := by
    rw [registerHotkeys_eq_runJobs, hjobs, runJobs_cons]
  have hlater := runJobs_later OS.exclusive env
    (if w.m_suspended then [] else activeJobs env w) _ hv1b
  have hv1none : ∀ k : Int, ¬ (runJob OS.exclusive env (clearRegistrations OS.exclusive w)
      (Target.slot IdSlot.suspend, w.m_suspendHotkey)).owns k (Target.character name) := by
    intro k h
    exact clearRegistrations_owns OS.exclusive w k _
      ((runJob_owns_other OS.exclusive env _ _ k _ hCb (fun e => Target.noConfusion e)).1 h)
  constructor
  · intro k hk
    rw [hW] at hk
    cases hs : w.m_suspended with
    | true =>
      rw [hs] at hk
      exact hv1none k hk
    | false =>
      rw [hs] at hk
      simp only [Bool.false_eq_true, if_false] at hk
      obtain ⟨cpre, cpost, hsplit⟩ := List.append_of_mem hmem
      rw [hsplit, List.map_append, List.map_cons] at hc
      obtain ⟨hnpre, hnpost⟩ := not_mem_of_split _ _ _ hc
      have hact : activeJobs env w = characterJobs cpre ++ (Target.character name, bc) ::
          (characterJobs cpost ++ (cycleGroupJobs w.m_cycleGroups ++
            ([slotJob w IdSlot.notLoggedInForward, slotJob w IdSlot.notLoggedInBackward,
              slotJob w IdSlot.nonEVEForward, slotJob w IdSlot.nonEVEBackward,
              slotJob w IdSlot.closeAllClients] ++ profileJobs env))) := by
        unfold activeJobs
        rw [hsplit]
        unfold characterJobs
        simp only [List.map_append, List.map_cons, List.append_assoc, List.cons_append]
      rw [hact] at hk
      have hreg := (runJobs_owns_at OS.exclusive env k (Target.character name) bc
        (characterJobs cpre) _ _ hv1b (by omega) hv1none
        (by
          rw [targets_characterJobs, List.mem_map]
          rintro ⟨e, he, h⟩
          exact hnpre (List.mem_map.2 ⟨e, he, Target.character.inj h⟩))
        (by
          rw [List.map_append, List.mem_append, targets_characterJobs, List.map_append,
            List.mem_append, mem_targets_cycleGroupJobs, List.map_append, List.mem_append,
            targets_profileJobs]
          rintro (h | h | h | h)
          · obtain ⟨e, he, h2⟩ := List.mem_map.1 h
            exact hnpost (List.mem_map.2 ⟨e, he, Target.character.inj h2⟩)
          · obtain ⟨g, -, f, h2⟩ := h
            exact Target.noConfusion h2
          · simp [slotJob] at h
          · obtain ⟨e, -, h2⟩ := List.mem_map.1 h
            exact Target.noConfusion h2)).1 hk
      have htaken := taken_of_mem _ _ _ _
        (runJobs_os_mono env _ (characterJobs cpre) _ ha_os)
      have hrej : (OS.exclusive.registerHotKey
          (runJobs OS.exclusive env (characterJobs cpre)
            (runJob OS.exclusive env (clearRegistrations OS.exclusive w)
              (Target.slot IdSlot.suspend, w.m_suspendHotkey))).os
          (runJobs OS.exclusive env (characterJobs cpre)
            (runJob OS.exclusive env (clearRegistrations OS.exclusive w)
              (Target.slot IdSlot.suspend, w.m_suspendHotkey))).m_nextHotkeyId
          (bindingModifiers bc) bc.keyCode).1 = false := by
        show (if taken _ (bindingModifiers bc) bc.keyCode then (false, _) else (true, _)).1 = false
        rw [htaken]
        rfl
      rw [registerHotkey_rejected OS.exclusive env bc _ hce hrej] at hreg
      exact Option.noConfusion hreg
  · have hown2 := (runJobs_owns_other OS.exclusive env _ (Target.slot IdSlot.suspend)
      (if w.m_suspended then [] else activeJobs env w) _ hv1b hrest).2 ha_own
    rw [← hW] at hown2
    have hslot : (registerHotkeys OS.exclusive env w).2.m_suspendHotkeyId = _ ∧ _ := hown2
    have hold := hlater.old a ha_lt
    simp only [World.tablesAt, Prod.mk.injEq] at hold
    have hdist : Distinct (registerHotkeys OS.exclusive env w).2.os := by
      rw [registerHotkeys_eq_runJobs]
      apply runJobs_os_distinct
      rw [hCos]
      exact List.Pairwise.nil
    have hin : (a, bindingModifiers bc, bc.keyCode) ∈ (registerHotkeys OS.exclusive env w).2.os := by
      rw [hW]
      exact runJobs_os_mono env _ _ _ ha_os
    refine ⟨a, hin, fun a2 h2 => hdist.same_id a2 a _ _ h2 hin, ?_, ?_⟩
    · rw [hslot.1, hW, hold.1]
      exact ha_alias
    · rw [hslot.1]
      exact hslot.2

/-! ## Wildcard aliases can preempt a later binding -/

/-- C26: wildcard mode on, the exclusive operating system holding only registrations of the
manager; the enabled suspend binding has key K and required modifiers M, and an enabled
character binding has the same key K and a strictly larger modifier set.  After
`registerHotkeys` the character has no entry in the character table; the operating system
holds the character's combination under exactly one id, and that id is an alias of the
suspend id, so that the hotkey message with it toggles suspend; and `findHotkeyConflict` for
the character's binding does not report the suspend toggle. -/
theorem wildcard_alias_preempts (env : Env) (w : World (List (Int × Nat × Int)))
    (name : String) (bc : HotkeyBinding) (excludeKey : String)
    (hr : Reachable OS.exclusive w) (hown : ∀ r ∈ w.os, w.tracks r.1)
    (hw : env.wildcardHotkeys = true)
    (hse : w.m_suspendHotkey.enabled = true)
    (hmem : (name, bc) ∈ w.m_characterHotkeys) (hce : bc.enabled = true)
    (hkey : bc.keyCode = w.m_suspendHotkey.keyCode)
    (hsub : (w.m_suspendHotkey.ctrl = true → bc.ctrl = true) ∧
      (w.m_suspendHotkey.alt = true → bc.alt = true) ∧
      (w.m_suspendHotkey.shift = true → bc.shift = true))
    (hne : ¬ (w.m_suspendHotkey.ctrl = bc.ctrl ∧ w.m_suspendHotkey.alt = bc.alt ∧
      w.m_suspendHotkey.shift = bc.shift))
    (hc : (w.m_characterHotkeys.map Prod.fst).Nodup) :
    (∀ k : Int,
      hFind (registerHotkeys OS.exclusive env w).2.m_hotkeyIdToCharacter k ≠ some name) ∧
    (∃ a : Int,
      (a, bindingModifiers bc, bc.keyCode) ∈ (registerHotkeys OS.exclusive env w).2.os ∧
      (∀ a2 : Int, (a2, bindingModifiers bc, bc.keyCode) ∈
        (registerHotkeys OS.exclusive env w).2.os → a2 = a) ∧
      hFind (registerHotkeys OS.exclusive env w).2.m_wildcardAliases a =
        some (registerHotkeys OS.exclusive env w).2.m_suspendHotkeyId ∧
      (registerHotkeys OS.exclusive env w).2.m_suspendHotkeyId ≠ -1 ∧
      ∀ msg : MSG, msg.message = WM_HOTKEY → castInt msg.wParam = a →
        nativeEventFilter OS.exclusive env msg (registerHotkeys OS.exclusive env w).2 =
          (true, [Signal.suspendedChanged (!(registerHotkeys OS.exclusive env w).2.m_suspended)],
            (registerHotkeys OS.exclusive env
              { (registerHotkeys OS.exclusive env w).2 with
                m_suspended := !(registerHotkeys OS.exclusive env w).2.m_suspended }).2)) ∧
    findHotkeyConflict env (registerHotkeys OS.exclusive env w).2 bc excludeKey ≠
      "Suspend/Resume Hotkey" := by
  obtain ⟨h1, a, ha1, ha2, ha3, ha4⟩ :=
    alias_blocks_character env w name bc hr hown hw hse hmem hce hkey hsub hne hc
  refine ⟨fun k hk => h1 k hk, ⟨a, ha1, ha2, ha3, ha4, ?_⟩, ?_⟩
  · intro msg hm hid
    apply nativeEventFilter_toggle OS.exclusive env msg _ hm
    rw [resolveAlias_eq, hid, ha3]
    rfl
  · intro hlabel
    have := (findHotkeyConflict_suspend_label env _ bc excludeKey hce hlabel).2
    rw [registerHotkeys_suspendHotkey] at this
    exact hne ⟨this.2.1, this.2.2.1, this.2.2.2⟩

theorem wildcard_alias_preempts_witness :
    Reachable OS.exclusive preemptWorld ∧ (∀ r ∈ preemptWorld.os, preemptWorld.tracks r.1) ∧
    Env.wildcard.wildcardHotkeys = true ∧ preemptWorld.m_suspendHotkey.enabled = true ∧
    ("Alice", ctrlF1) ∈ preemptWorld.m_characterHotkeys ∧ ctrlF1.enabled = true ∧
    ctrlF1.keyCode = preemptWorld.m_suspendHotkey.keyCode ∧
    (registerHotkeys OS.exclusive Env.wildcard preemptWorld).2.m_hotkeyIdToCharacter = [] ∧
    (1001, bindingModifiers ctrlF1, ctrlF1.keyCode) ∈
      (registerHotkeys OS.exclusive Env.wildcard preemptWorld).2.os ∧
    hFind (registerHotkeys OS.exclusive Env.wildcard preemptWorld).2.m_wildcardAliases 1001 =
      some 1000 ∧
    (registerHotkeys OS.exclusive Env.wildcard preemptWorld).2.m_suspendHotkeyId = 1000 ∧
    findHotkeyConflict Env.wildcard
      (registerHotkeys OS.exclusive Env.wildcard preemptWorld).2 ctrlF1 "" =
        "Character: Alice" ∧
    ((∀ k : Int,
      hFind (registerHotkeys OS.exclusive Env.wildcard preemptWorld).2.m_hotkeyIdToCharacter k ≠
        some "Alice") ∧
    (∃ a : Int,
      (a, bindingModifiers ctrlF1, ctrlF1.keyCode) ∈
        (registerHotkeys OS.exclusive Env.wildcard preemptWorld).2.os ∧
      (∀ a2 : Int, (a2, bindingModifiers ctrlF1, ctrlF1.keyCode) ∈
        (registerHotkeys OS.exclusive Env.wildcard preemptWorld).2.os → a2 = a) ∧
      hFind (registerHotkeys OS.exclusive Env.wildcard preemptWorld).2.m_wildcardAliases a =
        some (registerHotkeys OS.exclusive Env.wildcard preemptWorld).2.m_suspendHotkeyId ∧
      (registerHotkeys OS.exclusive Env.wildcard preemptWorld).2.m_suspendHotkeyId ≠ -1 ∧
      ∀ msg : MSG, msg.message = WM_HOTKEY → castInt msg.wParam = a →
        nativeEventFilter OS.exclusive Env.wildcard msg
            (registerHotkeys OS.exclusive Env.wildcard preemptWorld).2 =
          (true,
            [Signal.suspendedChanged
              (!(registerHotkeys OS.exclusive Env.wildcard preemptWorld).2.m_suspended)],
            (registerHotkeys OS.exclusive Env.wildcard
              { (registerHotkeys OS.exclusive Env.wildcard preemptWorld).2 with
                m_suspended :=
                  !(registerHotkeys OS.exclusive Env.wildcard preemptWorld).2.m_suspended }).2)) ∧
    findHotkeyConflict Env.wildcard
      (registerHotkeys OS.exclusive Env.wildcard preemptWorld).2 ctrlF1 "" ≠
        "Suspend/Resume Hotkey") :=
  ⟨preemptWorld_reachable, fun r hr => absurd hr (List.not_mem_nil r), rfl, rfl, by decide,
    rfl, rfl, rfl, by decide, rfl, rfl, by decide,
    wildcard_alias_preempts Env.wildcard preemptWorld "Alice" ctrlF1 ""
      preemptWorld_reachable (fun r hr => absurd hr (List.not_mem_nil r)) rfl rfl (by decide)
      rfl rfl (by decide) (by decide) (by simp [preemptWorld])⟩

/-! ## The unset marker -1 taken for the id of the suspend toggle -/

theorem toggleOffWorld_reachable (env : Env) : Reachable OS.acceptAll (toggleOffWorld env) :=
  Reachable.loadFromConfig env Settings.toggleOff (Reachable.constructed ())

theorem suspendedToggleOffWorld_reachable (env : Env) :
    Reachable OS.acceptAll (suspendedToggleOffWorld env) :=
  Reachable.setSuspended env true (toggleOffWorld_reachable env)

/-- C3 fails at the id -1, the value that marks an unset toggle.  The manager is constructed
from a store whose suspend toggle is switched off, so no toggle is registered and
`m_suspendHotkeyId` holds -1, and is then suspended by `setSuspended(true)`.  The id -1 is no
key of any table, and no registration of the toggle exists whose id it could be; yet the
hotkey message carrying -1 is taken for the toggle: the manager resumes, emits
`suspendedChanged(false)` and rebuilds, instead of swallowing the message. -/
theorem suspended_unset_toggle_resumes :
    castInt 4294967295 = -1 ∧
    Reachable OS.acceptAll (suspendedToggleOffWorld Env.plain) ∧
    (suspendedToggleOffWorld Env.plain).m_suspended = true ∧
    (suspendedToggleOffWorld Env.plain).m_suspendHotkey.enabled = false ∧
    (suspendedToggleOffWorld Env.plain).m_suspendHotkeyId = -1 ∧
    (suspendedToggleOffWorld Env.plain).calls = [] ∧
    hFind (suspendedToggleOffWorld Env.plain).m_wildcardAliases (-1) = none ∧
    nativeEventFilter OS.acceptAll Env.plain { message := WM_HOTKEY, wParam := 4294967295 }
        (suspendedToggleOffWorld Env.plain) =
      (true, [Signal.suspendedChanged false],
        (registerHotkeys OS.acceptAll Env.plain
          { suspendedToggleOffWorld Env.plain with m_suspended := false }).2) ∧
    (nativeEventFilter OS.acceptAll Env.plain { message := WM_HOTKEY, wParam := 4294967295 }
        (suspendedToggleOffWorld Env.plain)).2.2.m_suspended = false := by
  refine ⟨by decide, suspendedToggleOffWorld_reachable Env.plain, by decide, by decide,
    by decide, by decide, by decide, rfl, by decide⟩

/-- C13 fails at the id -1, the value that marks an unset toggle.  The manager is
constructed from a store whose suspend toggle is switched off, so no toggle is registered
and `m_suspendHotkeyId` holds -1; it is not suspended, focus gating is on and the foreground
window belongs to a program that is not on the allow list.  The id -1 is not the id of a
suspend toggle, for there is none; yet the hotkey message carrying -1 is reported handled,
emits `suspendedChanged(true)` and suspends the manager, instead of being let through
unhandled without a notification. -/
theorem gated_unset_toggle_suspends :
    castInt 4294967295 = -1 ∧
    Reachable OS.acceptAll (toggleOffWorld Env.gated) ∧
    (toggleOffWorld Env.gated).m_suspended = false ∧
    Env.gated.hotkeysOnlyWhenEVEFocused = true ∧ foregroundNotAllowed Env.gated ∧
    (toggleOffWorld Env.gated).m_suspendHotkey.enabled = false ∧
    (toggleOffWorld Env.gated).m_suspendHotkeyId = -1 ∧
    (toggleOffWorld Env.gated).calls = [] ∧
    hFind (toggleOffWorld Env.gated).m_wildcardAliases (-1) = none ∧
    nativeEventFilter OS.acceptAll Env.gated { message := WM_HOTKEY, wParam := 4294967295 }
        (toggleOffWorld Env.gated) =
      (true, [Signal.suspendedChanged true],
        (registerHotkeys OS.acceptAll Env.gated
          { toggleOffWorld Env.gated with m_suspended := true }).2) ∧
    (nativeEventFilter OS.acceptAll Env.gated { message := WM_HOTKEY, wParam := 4294967295 }
        (toggleOffWorld Env.gated)).2.2.m_suspended = true := by
  refine ⟨by decide, toggleOffWorld_reachable Env.gated, by decide, rfl, by decide, by decide,
    by decide, by decide, by decide, rfl, by decide⟩

end EveApm
